import Mathlib

/-!
# neoGFX layout engine and event queue: a shallow embedding of `layout.inl`,
`grid_layout.cpp`, `spacer.cpp`, `native_window.cpp` and `horizontal_layout.cpp`

The solver `layout::do_layout_items` (src/include/neogfx/layout.inl), the grid layout
(src/src/gui/layout/grid_layout.cpp), the spacer (src/src/gui/layout/spacer.cpp), the
event queue of the native window (src/src/gui/window/native/native_window.cpp) and the
classification loop of the legacy solver (src/src/horizontal_layout.cpp) are embedded as
pure functions over explicit state.  The conventions of the solver follow; those of the
grid, of the native window and of the legacy solver stand at the head of their sections.

Modelling conventions.

* `size::dimension_type` and `point::coordinate_type` are C++ `double`s.  They are
  modelled as exact rationals `ℚ`: rounding of the binary format is idealised away,
  except for the classification loop, which is embedded a second time with the rounding
  of every operation explicit (`rounded_classification`).
  The one place where the source can leave the finite numbers, the unguarded quotient
  `weight / totalExpanderWeight * leftover` of line 142, is modelled with the IEEE
  special values a division by zero produces (`fvalue`).
* `uint32_t` counters that count items of the list (`itemsUsingLeftover`, the results of
  `items_visible` and `items_zero_sized`) are natural numbers: a list of fewer than
  `2 ^ 32` items cannot make them wrap, and the decrement of line 152 is only executed
  on a positive count (the loop is entered with a positive count and line 153 leaves it
  as soon as the count is zero).  The two unsigned subtractions that can wrap, `spaces`
  at line 97 and `bit - previousBit` at line 204, are kept modulo `2 ^ 32` (`u32sub`).
* `itemDispositions` (an `unordered_map` from item address to disposition whose
  `operator[]` default-constructs `Unknown`) is carried as the second component of a
  list of pairs that runs parallel to `items()`.
* `item.layout(position, size)` is an effect on the item; the embedding returns, for
  every item of the list, the arguments of that call (`none` when it is not called).
* `neolib::bresenham_counter` is not part of the repository sources; the solver takes
  the counter as a parameter `bits`, where `bits range steps k` is the value returned by
  the `k`-th call of `operator()` on a counter constructed as `(range, steps)`.
-/

namespace neogfx

/-! ## Geometry primitives -/

/-- A `point` of the toolkit: two coordinates. -/
structure point where
  x : ℚ
  y : ℚ
  deriving DecidableEq

/-- A `size` of the toolkit: two dimensions. -/
structure size where
  cx : ℚ
  cy : ℚ
  deriving DecidableEq

/-- The four `margins` of a layout. -/
structure margins where
  left : ℚ
  top : ℚ
  right : ℚ
  bottom : ℚ
  deriving DecidableEq

/-- Component-wise sum of points (`point::operator+`). -/
def point.add (a b : point) : point := ⟨a.x + b.x, a.y + b.y⟩

/-- Component-wise sum of sizes (`size::operator+=`). -/
def size.add (a b : size) : size := ⟨a.cx + b.cx, a.cy + b.cy⟩

/-- Component-wise difference of sizes (`size::operator-=`). -/
def size.sub (a b : size) : size := ⟨a.cx - b.cx, a.cy - b.cy⟩

/-! ## Size policy, alignment, items -/

/-- The per-axis size policies named by the solver. -/
inductive size_policy_e where
  | Fixed
  | Minimum
  | Expanding
  deriving DecidableEq

/-- A `size_policy`: one policy per axis. -/
structure size_policy where
  horizontal_size_policy : size_policy_e
  vertical_size_policy : size_policy_e
  deriving DecidableEq

/-- Modelled from the spec: the `alignment` flag set, whose declaration is outside the
sources.  A value is a set of the six flags the solver names; `&` and `|` act flag by
flag, and each named constant is the set holding exactly that flag. -/
structure alignment where
  left : Bool
  centre : Bool
  right : Bool
  top : Bool
  vcentre : Bool
  bottom : Bool
  deriving DecidableEq

/-- The empty flag set. -/
def alignment.None : alignment := ⟨false, false, false, false, false, false⟩
/-- Flag `alignment::Left`. -/
def alignment.Left : alignment := ⟨true, false, false, false, false, false⟩
/-- Flag `alignment::Centre`. -/
def alignment.Centre : alignment := ⟨false, true, false, false, false, false⟩
/-- Flag `alignment::Right`. -/
def alignment.Right : alignment := ⟨false, false, true, false, false, false⟩
/-- Flag `alignment::Top`. -/
def alignment.Top : alignment := ⟨false, false, false, true, false, false⟩
/-- Flag `alignment::VCentre`. -/
def alignment.VCentre : alignment := ⟨false, false, false, false, true, false⟩
/-- Flag `alignment::Bottom`. -/
def alignment.Bottom : alignment := ⟨false, false, false, false, false, true⟩

/-- Bitwise and of two flag sets (`operator&`). -/
def alignment.band (a b : alignment) : alignment :=
  ⟨a.left && b.left, a.centre && b.centre, a.right && b.right,
   a.top && b.top, a.vcentre && b.vcentre, a.bottom && b.bottom⟩

/-- Bitwise or of two flag sets (`operator|`). -/
def alignment.bor (a b : alignment) : alignment :=
  ⟨a.left || b.left, a.centre || b.centre, a.right || b.right,
   a.top || b.top, a.vcentre || b.vcentre, a.bottom || b.bottom⟩

/-- The three variants of a layout item. -/
inductive item_kind where
  | widget
  | layout
  | spacer
  deriving DecidableEq

/-- A layout item as the solver queries it: the answers of `visible()`, `size_policy()`,
`weight()`, `minimum_size()`, `maximum_size()` and the variant held by `get()`. -/
structure item where
  kind : item_kind
  visible : Bool
  size_policy : size_policy
  weight : size
  minimum_size : size
  maximum_size : size
  deriving DecidableEq

/-- The `item_type_e` bit set passed to `items_visible`. -/
structure item_type_e where
  ItemTypeWidget : Bool
  ItemTypeLayout : Bool
  ItemTypeSpacer : Bool
  deriving DecidableEq

/-- The state of a box layout that the solver reads and writes.  `minimum_size` is the
answer of the layout's own (virtual) `minimum_size()`; `position` and `extents` are what
`set_position` and `set_extents` record. -/
structure layout where
  items : List item
  margins : margins
  spacing : size
  alignment : alignment
  iAlwaysUseSpacing : Bool
  minimum_size : size
  position : point
  extents : size
  deriving DecidableEq

/-- Modelled from the spec: `layout::set_position` (defined outside the sources) records
the position of the layout. -/
def layout.set_position (l : layout) (aPosition : point) : layout :=
  { l with position := aPosition }

/-- Modelled from the spec: `layout::set_extents` (defined outside the sources) records
the extents of the layout. -/
def layout.set_extents (l : layout) (aExtents : size) : layout :=
  { l with extents := aExtents }

/-- Whether an item variant is selected by an `item_type_e` bit set. -/
def item_type_e.selects (t : item_type_e) : item_kind → Bool
  | item_kind.widget => t.ItemTypeWidget
  | item_kind.layout => t.ItemTypeLayout
  | item_kind.spacer => t.ItemTypeSpacer

/-- Modelled from the spec: `layout::items_visible` (defined outside the sources) counts
the visible items whose variant is selected by the argument. -/
def layout.items_visible (l : layout) (t : item_type_e) : Nat :=
  l.items.countP (fun it => it.visible && t.selects it.kind)

/-! ## Axis policy (lines 49-81) -/

/-- The two axis policies of `layout.inl`. -/
inductive AxisPolicy where
  | column_major
  | row_major
  deriving DecidableEq

namespace AxisPolicy

/-- The `AlignmentMask` constant of a policy. -/
def AlignmentMask : AxisPolicy → alignment
  | column_major => (alignment.Top.bor alignment.VCentre).bor alignment.Bottom
  | row_major => (alignment.Left.bor alignment.Centre).bor alignment.Right

/-- Accessor `x(point)`. -/
def x : AxisPolicy → point → ℚ
  | column_major, aPoint => aPoint.x
  | row_major, aPoint => aPoint.y

/-- Accessor `y(point)`. -/
def y : AxisPolicy → point → ℚ
  | column_major, aPoint => aPoint.y
  | row_major, aPoint => aPoint.x

/-- Assignment through the reference returned by `x(point&)`. -/
def set_x : AxisPolicy → point → ℚ → point
  | column_major, aPoint, v => { aPoint with x := v }
  | row_major, aPoint, v => { aPoint with y := v }

/-- Assignment through the reference returned by `y(point&)`. -/
def set_y : AxisPolicy → point → ℚ → point
  | column_major, aPoint, v => { aPoint with y := v }
  | row_major, aPoint, v => { aPoint with x := v }

/-- Accessor `cx(size)`. -/
def cx : AxisPolicy → size → ℚ
  | column_major, aSize => aSize.cx
  | row_major, aSize => aSize.cy

/-- Accessor `cy(size)`. -/
def cy : AxisPolicy → size → ℚ
  | column_major, aSize => aSize.cy
  | row_major, aSize => aSize.cx

/-- Assignment through the reference returned by `cx(size&)`. -/
def set_cx : AxisPolicy → size → ℚ → size
  | column_major, aSize, v => { aSize with cx := v }
  | row_major, aSize, v => { aSize with cy := v }

/-- Assignment through the reference returned by `cy(size&)`. -/
def set_cy : AxisPolicy → size → ℚ → size
  | column_major, aSize, v => { aSize with cy := v }
  | row_major, aSize, v => { aSize with cx := v }

/-- Accessor `size_policy_x`. -/
def size_policy_x : AxisPolicy → size_policy → size_policy_e
  | column_major, aSizePolicy => aSizePolicy.horizontal_size_policy
  | row_major, aSizePolicy => aSizePolicy.vertical_size_policy

/-- Accessor `size_policy_y`. -/
def size_policy_y : AxisPolicy → size_policy → size_policy_e
  | column_major, aSizePolicy => aSizePolicy.vertical_size_policy
  | row_major, aSizePolicy => aSizePolicy.horizontal_size_policy

end AxisPolicy

/-- The item types `ItemTypeWidget | ItemTypeLayout` (default argument of
`items_visible`). -/
def ItemTypeWidgetOrLayout : item_type_e := ⟨true, true, false⟩

/-- The item types `ItemTypeWidget | ItemTypeLayout | ItemTypeSpacer`. -/
def ItemTypeAll : item_type_e := ⟨true, true, true⟩

/-- The item type `ItemTypeSpacer`. -/
def ItemTypeSpacerOnly : item_type_e := ⟨false, false, true⟩

/-- Function `common_axis_policy::items_zero_sized` (lines 32-46). -/
def items_zero_sized (p : AxisPolicy) (aLayout : layout) (aSize : size) : Nat :=
  if p.cx aSize ≤ p.cx aLayout.minimum_size ∨ aLayout.items_visible ItemTypeSpacerOnly ≠ 0 then
    aLayout.items.countP (fun it =>
      it.visible && (decide (it.kind ≠ item_kind.spacer) &&
        (decide (p.cx it.minimum_size = 0) || decide (p.cy it.minimum_size = 0))))
  else 0

/-! ## The quotient of line 142 -/

/-- The value of a `double` expression that may have divided by zero: an exact rational or
one of the IEEE special values. -/
inductive fvalue where
  | finite (q : ℚ)
  | pos_inf
  | neg_inf
  | nan
  deriving DecidableEq

/-- IEEE division `a / b` of two finite values. -/
def fdiv (a b : ℚ) : fvalue :=
  if b = 0 then
    (if a = 0 then fvalue.nan else if 0 < a then fvalue.pos_inf else fvalue.neg_inf)
  else fvalue.finite (a / b)

/-- IEEE product `v * c` of a possibly special value with a finite one. -/
def fmul : fvalue → ℚ → fvalue
  | fvalue.finite q, c => fvalue.finite (q * c)
  | fvalue.pos_inf, c =>
      if c = 0 then fvalue.nan else if 0 < c then fvalue.pos_inf else fvalue.neg_inf
  | fvalue.neg_inf, c =>
      if c = 0 then fvalue.nan else if 0 < c then fvalue.neg_inf else fvalue.pos_inf
  | fvalue.nan, _ => fvalue.nan

/-- Comparison `a < v` of a finite value with a possibly special one. -/
def flt (a : ℚ) : fvalue → Bool
  | fvalue.finite q => decide (a < q)
  | fvalue.pos_inf => true
  | fvalue.neg_inf => false
  | fvalue.nan => false

/-- Comparison `a > v` of a finite value with a possibly special one. -/
def fgt (a : ℚ) : fvalue → Bool
  | fvalue.finite q => decide (q < a)
  | fvalue.pos_inf => false
  | fvalue.neg_inf => true
  | fvalue.nan => false

/-- Comparison `a <= v` of a finite value with a possibly special one. -/
def fle (a : ℚ) : fvalue → Bool
  | fvalue.finite q => decide (a ≤ q)
  | fvalue.pos_inf => true
  | fvalue.neg_inf => false
  | fvalue.nan => false

/-! ## The solver `layout::do_layout_items` (lines 83-216) -/

/-- Unsigned 32-bit subtraction `a - b`. -/
def u32sub (a b : Nat) : Nat := (a % 4294967296 + 4294967296 - b % 4294967296) % 4294967296

/-- Conversion `static_cast<int32_t>(double)` followed by the conversion to `uint32_t`:
truncation toward zero, then reduction modulo `2 ^ 32` (the value is assumed to be in the
range of `int32_t`, where the cast is defined). -/
def to_u32 (d : ℚ) : Nat :=
  ((if 0 ≤ d then Int.floor d else Int.ceil d) % 4294967296).toNat

/-- The dispositions of the solver (line 103). -/
inductive disposition_e where
  | Unknown
  | Weighted
  | Unweighted
  | TooSmall
  | FixedSize
  deriving DecidableEq

/-- The local variables that the classification carries across items. -/
structure solver_state where
  leftover : ℚ
  itemsUsingLeftover : Nat
  totalExpanderWeight : size
  done : Bool
  deriving DecidableEq

/-- The statement `if (leftover < 0.0) leftover = 0.0;`. -/
def floor_at_zero (leftover : ℚ) : ℚ := if leftover < 0 then 0 else leftover

/-- The expression `cx(item.weight()) / cx(totalExpanderWeight) * leftover` of line 142. -/
def weightedSize (p : AxisPolicy) (it : item) (st : solver_state) : fvalue :=
  fmul (fdiv (p.cx it.weight) (p.cx st.totalExpanderWeight)) st.leftover

/-- The expression `std::floor(cx(item.weight()) / cx(totalExpanderWeight) * leftover)` of
lines 162 and 204.  Line 162 evaluates it under the guard `cx(totalExpanderWeight) > 0.0`;
line 204 evaluates it for an item of disposition `Weighted`, for which the divisor is
non-zero as well (lemma `weighted_divisor_ne_zero`).  It is the floor of the exact share;
the machine floors the rounded product of the rounded quotient, which can be one unit
away from it when the exact share lies within a rounding error of a whole number. -/
def weighted_floor (p : AxisPolicy) (it : item) (totalExpanderWeight : size) (leftover : ℚ) : ℚ :=
  ((Int.floor (p.cx it.weight / p.cx totalExpanderWeight * leftover) : ℤ) : ℚ)

/-- First loop over the items (lines 105-128): `Minimum` and `Fixed` items are debited at
once, every other visible item becomes an expanding candidate.  The sums and differences
are exact here; `rounded_classify_by_policy` is the same loop with each of them
rounded. -/
def classify_by_policy (p : AxisPolicy) :
    List item → solver_state → List (item × disposition_e) × solver_state
  | [], st => ([], st)
  | it :: rest, st =>
    if it.visible = false then
      ((it, disposition_e.Unknown) :: (classify_by_policy p rest st).1,
        (classify_by_policy p rest st).2)
    else if p.size_policy_x it.size_policy = size_policy_e.Minimum then
      ((it, disposition_e.TooSmall) ::
          (classify_by_policy p rest
            { st with leftover := floor_at_zero (st.leftover - p.cx it.minimum_size) }).1,
        (classify_by_policy p rest
            { st with leftover := floor_at_zero (st.leftover - p.cx it.minimum_size) }).2)
    else if p.size_policy_x it.size_policy = size_policy_e.Fixed then
      ((it, disposition_e.FixedSize) ::
          (classify_by_policy p rest
            { st with leftover := floor_at_zero (st.leftover - p.cx it.minimum_size) }).1,
        (classify_by_policy p rest
            { st with leftover := floor_at_zero (st.leftover - p.cx it.minimum_size) }).2)
    else
      ((it, disposition_e.Unknown) ::
          (classify_by_policy p rest
            { st with itemsUsingLeftover := st.itemsUsingLeftover + 1,
                      totalExpanderWeight := st.totalExpanderWeight.add it.weight }).1,
        (classify_by_policy p rest
            { st with itemsUsingLeftover := st.itemsUsingLeftover + 1,
                      totalExpanderWeight := st.totalExpanderWeight.add it.weight }).2)

/-- The test `minSize < weightedSize && maxSize > weightedSize` of line 143. -/
def share_fits (p : AxisPolicy) (it : item) (st : solver_state) : Bool :=
  flt (p.cx it.minimum_size) (weightedSize p it st) &&
    fgt (p.cx it.maximum_size) (weightedSize p it st)

/-- The disposition chosen at line 147 for an item whose share does not fit. -/
def resolved_disposition (p : AxisPolicy) (it : item) (st : solver_state) : disposition_e :=
  if fle (p.cx it.maximum_size) (weightedSize p it st) = true then disposition_e.TooSmall
  else disposition_e.Unweighted

/-- The solver variables after lines 148-152 have debited an item whose share does not
fit (`done` is written later, at line 154).  The differences are exact here;
`rounded_resolve_item` is the same statement sequence with each difference rounded. -/
def resolve_item (p : AxisPolicy) (it : item) (st : solver_state) : solver_state :=
  { leftover := floor_at_zero (st.leftover -
      p.cx (if resolved_disposition p it st = disposition_e.TooSmall
            then it.maximum_size else it.minimum_size)),
    itemsUsingLeftover := st.itemsUsingLeftover - 1,
    totalExpanderWeight := st.totalExpanderWeight.sub it.weight,
    done := st.done }

/-- One execution of the `for` loop inside the `while` loop (lines 133-156).  The `break`
of line 153 leaves the remaining items untouched. -/
def resolve_pass (p : AxisPolicy) :
    List (item × disposition_e) → solver_state → List (item × disposition_e) × solver_state
  | [], st => ([], st)
  | (it, disposition) :: rest, st =>
    if it.visible = false then
      ((it, disposition) :: (resolve_pass p rest st).1, (resolve_pass p rest st).2)
    else if disposition ≠ disposition_e.Unknown ∧ disposition ≠ disposition_e.Weighted then
      ((it, disposition) :: (resolve_pass p rest st).1, (resolve_pass p rest st).2)
    else if share_fits p it st = true then
      ((it, disposition_e.Weighted) :: (resolve_pass p rest st).1, (resolve_pass p rest st).2)
    else if (resolve_item p it st).itemsUsingLeftover = 0 then
      ((it, resolved_disposition p it st) :: rest, resolve_item p it st)
    else
      ((it, resolved_disposition p it st) ::
          (resolve_pass p rest { resolve_item p it st with done := false }).1,
        (resolve_pass p rest { resolve_item p it st with done := false }).2)

/-- The `while (!done && itemsUsingLeftover > 0)` loop (lines 130-157), unrolled at most
`fuel` times. -/
def resolve_loop (p : AxisPolicy) :
    Nat → List (item × disposition_e) → solver_state → List (item × disposition_e) × solver_state
  | 0, ds, st => (ds, st)
  | fuel + 1, ds, st =>
    if st.done = false ∧ 0 < st.itemsUsingLeftover then
      resolve_loop p fuel (resolve_pass p ds { st with done := true }).1
        (resolve_pass p ds { st with done := true }).2
    else (ds, st)

/-- The sum of lines 160-162 (evaluated under the guard of line 159). -/
def weighted_floor_sum (p : AxisPolicy) (totalExpanderWeight : size) (leftover : ℚ) :
    List (item × disposition_e) → ℚ
  | [] => 0
  | (it, disposition) :: rest =>
    (if it.visible = true ∧ disposition = disposition_e.Weighted then
      weighted_floor p it totalExpanderWeight leftover else 0)
    + weighted_floor_sum p totalExpanderWeight leftover rest

/-- The local `weightedAmount` after lines 158-162. -/
def weightedAmount (p : AxisPolicy) (ds : List (item × disposition_e)) (st : solver_state) : ℚ :=
  if 0 < p.cx st.totalExpanderWeight then
    weighted_floor_sum p st.totalExpanderWeight st.leftover ds
  else 0

/-- The local `bitsLeft` after lines 163-165. -/
def bitsLeft (p : AxisPolicy) (ds : List (item × disposition_e)) (st : solver_state) : Nat :=
  if 0 < st.itemsUsingLeftover then to_u32 (st.leftover - weightedAmount p ds st) else 0

/-- The orthogonal alignment offset of lines 177-195, for the masked alignment `a`, the
available orthogonal space and the orthogonal extent of the item. -/
def alignmentAdjust (a : alignment) (availableCy sCy : ℚ) : ℚ :=
  let adjust : ℚ :=
    if a = alignment.Right ∨ a = alignment.Bottom then availableCy - sCy
    else if a = alignment.Centre ∨ a = alignment.VCentre then
      ((Int.ceil ((availableCy - sCy) / 2) : ℤ) : ℚ)
    else 0
  if adjust < 0 then 0 else adjust

/-- The variables that the placement loop carries across items: the cursor `nextPos`,
`previousBit`, and the number of calls made so far on the counter `bits`. -/
structure place_state where
  nextPos : point
  previousBit : Nat
  calls : Nat
  deriving DecidableEq

/-- The primary extent chosen at lines 196-208, followed by the new values of
`previousBit` and of the number of calls made on the counter. -/
def primary_extent (bits : Nat → Nat → Nat → Nat) (p : AxisPolicy) (st : solver_state)
    (nbits : Nat) (it : item) (disposition : disposition_e) (ps : place_state) : ℚ × Nat × Nat :=
  if disposition = disposition_e.FixedSize then
    (p.cx it.minimum_size, ps.previousBit, ps.calls)
  else if disposition = disposition_e.TooSmall then
    (p.cx (if p.size_policy_x it.size_policy = size_policy_e.Minimum
            then it.minimum_size else it.maximum_size), ps.previousBit, ps.calls)
  else if disposition = disposition_e.Weighted ∧ 0 < st.leftover then
    (weighted_floor p it st.totalExpanderWeight st.leftover +
        ((u32sub (if nbits ≠ 0 then bits nbits st.itemsUsingLeftover (ps.calls + 1) % 4294967296
                  else 0) ps.previousBit : ℕ) : ℚ),
      (if nbits ≠ 0 then bits nbits st.itemsUsingLeftover (ps.calls + 1) % 4294967296 else 0),
      (if nbits ≠ 0 then ps.calls + 1 else ps.calls))
  else
    (p.cx it.minimum_size, ps.previousBit, ps.calls)

/-- The size `s` after lines 175-176: the constructor call
`size s{0.0, min(max(cy(minimum), cy(available)), cy(maximum))}` followed by
`std::swap(s.cx, AxisPolicy::cx(s))`. -/
def initial_size (p : AxisPolicy) (availableSize : size) (it : item) : size :=
  let s0 : size :=
    ⟨0, min (max (p.cy it.minimum_size) (p.cy availableSize)) (p.cy it.maximum_size)⟩
  p.set_cx { s0 with cx := p.cx s0 } s0.cx

/-- The size `s` passed to `item.layout` at line 209. -/
def item_size (bits : Nat → Nat → Nat → Nat) (p : AxisPolicy) (availableSize : size)
    (st : solver_state) (nbits : Nat) (it : item) (disposition : disposition_e)
    (ps : place_state) : size :=
  p.set_cx (initial_size p availableSize it) (primary_extent bits p st nbits it disposition ps).1

/-- The point `alignmentAdjust` after lines 177-195. -/
def alignment_offset (p : AxisPolicy) (l : layout) (availableSize : size) (it : item) : point :=
  p.set_y ⟨0, 0⟩
    (alignmentAdjust (l.alignment.band p.AlignmentMask) (p.cy availableSize)
      (p.cy (initial_size p availableSize it)))

/-- The cursor `nextPos` after lines 210-214, for an item laid out with size `s`. -/
def advance (p : AxisPolicy) (l : layout) (it : item) (s : size) (nextPos : point) : point :=
  if it.kind ≠ item_kind.spacer ∧ (p.cx s = 0 ∨ p.cy s = 0) then nextPos
  else if it.kind ≠ item_kind.spacer ∨ l.iAlwaysUseSpacing = true then
    p.set_x (p.set_x nextPos (p.x nextPos + p.cx s))
      (p.x (p.set_x nextPos (p.x nextPos + p.cx s)) + p.cx l.spacing)
  else p.set_x nextPos (p.x nextPos + p.cx s)

/-- The loop variables after one visible item has been laid out (lines 196-214). -/
def next_place_state (bits : Nat → Nat → Nat → Nat) (p : AxisPolicy) (l : layout)
    (availableSize : size) (st : solver_state) (nbits : Nat) (it : item)
    (disposition : disposition_e) (ps : place_state) : place_state :=
  { nextPos := advance p l it (item_size bits p availableSize st nbits it disposition ps) ps.nextPos,
    previousBit := (primary_extent bits p st nbits it disposition ps).2.1,
    calls := (primary_extent bits p st nbits it disposition ps).2.2 }

/-- The last loop over the items (lines 171-215).  The result lists, item by item, the
arguments of the call `item.layout(nextPos + alignmentAdjust, s)`. -/
def place_items (bits : Nat → Nat → Nat → Nat) (p : AxisPolicy) (l : layout)
    (availableSize : size) (st : solver_state) (nbits : Nat) :
    List (item × disposition_e) → place_state → List (Option (point × size))
  | [], _ => []
  | (it, disposition) :: rest, ps =>
    if it.visible = false then
      none :: place_items bits p l availableSize st nbits rest ps
    else
      some (ps.nextPos.add (alignment_offset p l availableSize it),
            item_size bits p availableSize st nbits it disposition ps) ::
        place_items bits p l availableSize st nbits rest
          (next_place_state bits p l availableSize st nbits it disposition ps)

/-- The local `spaces` of line 97. -/
def spaces (p : AxisPolicy) (l : layout) (aSize : size) : Nat :=
  u32sub (if l.iAlwaysUseSpacing = true then l.items_visible ItemTypeAll
          else l.items_visible ItemTypeWidgetOrLayout)
    (items_zero_sized p l aSize)

/-- The local `availableSize` after lines 93-99. -/
def availableSize (p : AxisPolicy) (l : layout) (aSize : size) : size :=
  let a : size :=
    ⟨aSize.cx - (l.margins.left + l.margins.right), aSize.cy - (l.margins.top + l.margins.bottom)⟩
  if 1 < spaces p l aSize then
    p.set_cx a (p.cx a - p.cx l.spacing * (((spaces p l aSize - 1 : ℕ) : ℚ)))
  else a

/-- The dispositions and solver variables after the first loop (line 128). -/
def initial_classification (p : AxisPolicy) (l : layout) (aSize : size) :
    List (item × disposition_e) × solver_state :=
  classify_by_policy p l.items
    { leftover := p.cx (availableSize p l aSize), itemsUsingLeftover := 0,
      totalExpanderWeight := ⟨0, 0⟩, done := false }

/-- The dispositions and solver variables when the `while` loop has ended (line 157).  The
loop is unrolled once more than there are expanding candidates, which is enough for it to
reach its exit condition (lemma `resolve_loop_exit`). -/
def classification (p : AxisPolicy) (l : layout) (aSize : size) :
    List (item × disposition_e) × solver_state :=
  resolve_loop p ((initial_classification p l aSize).2.itemsUsingLeftover + 1)
    (initial_classification p l aSize).1 (initial_classification p l aSize).2

/-- Function `layout::do_layout_items` (lines 83-216): the layout after the call and, for
every item of `items()`, the arguments with which `item.layout` was called, if it was.
The queries made after line 87 read no field written by `set_position` or `set_extents`,
so they are made on `l`. -/
def do_layout_items (bits : Nat → Nat → Nat → Nat) (p : AxisPolicy) (l : layout)
    (aPosition : point) (aSize : size) : layout × List (Option (point × size)) :=
  if l.items_visible ItemTypeAll = 0 then
    ((l.set_position aPosition).set_extents aSize, l.items.map (fun _ => none))
  else
    ((l.set_position aPosition).set_extents aSize,
      place_items bits p l (availableSize p l aSize) (classification p l aSize).2
        (bitsLeft p (classification p l aSize).1 (classification p l aSize).2)
        (classification p l aSize).1
        ⟨⟨aPosition.x + l.margins.left, aPosition.y + l.margins.top⟩, 0, 0⟩)

/-- Modelled from the spec: the `neolib::bresenham_counter` (outside the repository
sources) spreads `range` units evenly over `steps` calls; the `k`-th call returns the
number of units handed out so far. -/
def bresenham_counter (range steps k : Nat) : Nat := k * range / steps

/-! ## Vocabulary of the statements -/

/-- The sum of the two margins that lie across the orthogonal axis of a policy, i.e. the
amount `availableSize` loses on that axis at lines 94-95. -/
def orthogonal_margins : AxisPolicy → margins → ℚ
  | AxisPolicy.column_major, m => m.top + m.bottom
  | AxisPolicy.row_major, m => m.left + m.right

/-- The sum of the two margins that lie along the primary axis of a policy. -/
def primary_margins : AxisPolicy → margins → ℚ
  | AxisPolicy.column_major, m => m.left + m.right
  | AxisPolicy.row_major, m => m.top + m.bottom

/-- A widget with the same size policy, weight, minimum and maximum on both axes. -/
def square_widget (policy : size_policy_e) (weight minimum maximum : ℚ) : item :=
  ⟨item_kind.widget, true, ⟨policy, policy⟩, ⟨weight, weight⟩, ⟨minimum, minimum⟩,
    ⟨maximum, maximum⟩⟩

/-- A layout without margins, spacing or recorded geometry. -/
def plain_layout (items : List item) (a : alignment) : layout :=
  ⟨items, ⟨0, 0, 0, 0⟩, ⟨0, 0⟩, a, false, ⟨0, 0⟩, ⟨0, 0⟩, ⟨0, 0⟩⟩

/-- The layout of the example of the spec: a Fixed widget of minimum 10 followed by two
Expanding widgets of weight 1, no margins, no spacing. -/
def spec_example_layout : layout :=
  plain_layout [square_widget size_policy_e.Fixed 1 10 10,
    square_widget size_policy_e.Expanding 1 0 1000,
    square_widget size_policy_e.Expanding 1 0 1000] alignment.VCentre

/-- A layout holding one Fixed widget whose bounds are 10 and 15 on both axes. -/
def single_fixed_layout : layout :=
  plain_layout [square_widget size_policy_e.Fixed 1 10 15] alignment.VCentre

/-- A layout without items whose recorded position and extents are zero. -/
def empty_layout : layout := plain_layout [] alignment.None

/-- A layout holding one Expanding spacer whose weight has been set to zero. -/
def zero_weight_layout : layout :=
  plain_layout [⟨item_kind.spacer, true, ⟨size_policy_e.Expanding, size_policy_e.Minimum⟩,
    ⟨0, 0⟩, ⟨0, 0⟩, ⟨1000, 1000⟩⟩] alignment.None

/-- Two Expanding widgets of equal weight whose maxima are 10 and 1000. -/
def unequal_maxima_layout : layout :=
  plain_layout [square_widget size_policy_e.Expanding 1 0 10,
    square_widget size_policy_e.Expanding 1 0 1000] alignment.VCentre

/-- Three Expanding widgets of weight 1, minimum 0 and maximum 1000. -/
def three_expanders_layout : layout :=
  plain_layout [square_widget size_policy_e.Expanding 1 0 1000,
    square_widget size_policy_e.Expanding 1 0 1000,
    square_widget size_policy_e.Expanding 1 0 1000] alignment.VCentre

/-- One Fixed widget whose minimum is 100. -/
def wide_fixed_layout : layout :=
  plain_layout [square_widget size_policy_e.Fixed 1 100 100] alignment.VCentre

/-- Two Expanding widgets of primary minimum 0 around an Expanding spacer, with a
spacing of 5 and no margins. -/
def spacer_between_layout : layout :=
  ⟨[⟨item_kind.widget, true, ⟨size_policy_e.Expanding, size_policy_e.Expanding⟩, ⟨1, 1⟩,
      ⟨0, 10⟩, ⟨1000, 1000⟩⟩,
    ⟨item_kind.spacer, true, ⟨size_policy_e.Expanding, size_policy_e.Minimum⟩, ⟨1, 1⟩,
      ⟨0, 0⟩, ⟨1000, 1000⟩⟩,
    ⟨item_kind.widget, true, ⟨size_policy_e.Expanding, size_policy_e.Expanding⟩, ⟨1, 1⟩,
      ⟨0, 10⟩, ⟨1000, 1000⟩⟩],
   ⟨0, 0, 0, 0⟩, ⟨5, 5⟩, alignment.Top, false, ⟨0, 0⟩, ⟨0, 0⟩, ⟨0, 0⟩⟩

/-! ## Vocabulary of the classification invariants -/

/-- An entry uses leftover when its item is visible and its disposition is `Unknown` or
`Weighted`, i.e. when it passes the tests of lines 135-139. -/
def uses_leftover (x : item × disposition_e) : Bool :=
  x.1.visible && (decide (x.2 = disposition_e.Unknown) || decide (x.2 = disposition_e.Weighted))

/-- An entry is weighted when its item is visible and its disposition is `Weighted`
(the test of line 161). -/
def is_weighted (x : item × disposition_e) : Bool :=
  x.1.visible && decide (x.2 = disposition_e.Weighted)

/-- The number of entries that use leftover. -/
def leftover_users (ds : List (item × disposition_e)) : Nat := ds.countP uses_leftover

/-- The sum of the primary weights of the entries that use leftover. -/
def leftover_weight (p : AxisPolicy) : List (item × disposition_e) → ℚ
  | [] => 0
  | x :: rest => (if uses_leftover x = true then p.cx x.1.weight else 0) + leftover_weight p rest

/-- The classification is settled for the solver variables `st` when every entry that
uses leftover is `Weighted` and passes the test of line 143 against `st`. -/
def settled (p : AxisPolicy) (ds : List (item × disposition_e)) (st : solver_state) : Prop :=
  ∀ x ∈ ds, uses_leftover x = true →
    x.2 = disposition_e.Weighted ∧ share_fits p x.1 st = true

/-- The primary extent of a call of `item.layout` (0 when the item was not laid out). -/
def extent_of (p : AxisPolicy) : Option (point × size) → ℚ
  | some r => p.cx r.2
  | none => 0

/-- The primary extents handed to the entries that ended up `Weighted`, in list order. -/
def weighted_extents (p : AxisPolicy) (ds : List (item × disposition_e))
    (placed : List (Option (point × size))) : List ℚ :=
  ((ds.zip placed).filter (fun x => is_weighted x.1)).map (fun x => extent_of p x.2)

/-- Modelled from the spec: what the solver relies on from `neolib::bresenham_counter`
(outside the repository sources).  A counter constructed for `range` units over `steps`
calls, `range ≤ steps`, hands the units out one at a time (the count returned grows by 0
or 1 from call to call, starting from at most 1) and has handed out all of them at the
`steps`-th call. -/
def counter_contract (bits : Nat → Nat → Nat → Nat) : Prop :=
  ∀ range steps, range ≤ steps →
    bits range steps 1 ≤ 1 ∧
    (∀ k, 1 ≤ k → bits range steps k ≤ bits range steps (k + 1) ∧
      bits range steps (k + 1) ≤ bits range steps k + 1) ∧
    (1 ≤ steps → bits range steps steps = range)

/-- The count returned by the latest of `k` calls on the counter of line 166, and 0 before
the first call or when `bitsLeft` is zero (line 203 does not call the counter then). -/
def handed_out (bits : Nat → Nat → Nat → Nat) (nbits steps k : Nat) : Nat :=
  if nbits = 0 ∨ k = 0 then 0 else bits nbits steps k

/-- The primary extent that lines 196-208 give to an item whose disposition is not
`Weighted`, and to a `Weighted` one when the leftover is not positive. -/
def static_extent (p : AxisPolicy) (x : item × disposition_e) : ℚ :=
  if x.2 = disposition_e.FixedSize then p.cx x.1.minimum_size
  else if x.2 = disposition_e.TooSmall then
    p.cx (if p.size_policy_x x.1.size_policy = size_policy_e.Minimum
          then x.1.minimum_size else x.1.maximum_size)
  else p.cx x.1.minimum_size

/-- The spacing that lines 98-99 take from the available primary size. -/
def reserved_spacing (p : AxisPolicy) (l : layout) (aSize : size) : ℚ :=
  if 1 < spaces p l aSize then p.cx l.spacing * (((spaces p l aSize - 1 : ℕ) : ℚ)) else 0

/-! ## Vocabulary of the space accounting -/

/-- The sum of the primary extents that lines 196-208 give to the visible entries that do
not use leftover. -/
def resolved_sum (p : AxisPolicy) : List (item × disposition_e) → ℚ
  | [] => 0
  | x :: rest =>
    (if x.1.visible = true ∧ uses_leftover x = false then static_extent p x else 0)
      + resolved_sum p rest

/-- The sum of the primary minimums of the entries that use leftover. -/
def candidate_minimums (p : AxisPolicy) : List (item × disposition_e) → ℚ
  | [] => 0
  | x :: rest =>
    (if uses_leftover x = true then p.cx x.1.minimum_size else 0) + candidate_minimums p rest

/-- The sum of the primary minimums of the visible items. -/
def visible_minimums (p : AxisPolicy) : List item → ℚ
  | [] => 0
  | it :: rest =>
    (if it.visible = true then p.cx it.minimum_size else 0) + visible_minimums p rest

/-- The sum of the primary extents handed to the items (an item that is not laid out
counts for 0). -/
def total_extent (p : AxisPolicy) (placed : List (Option (point × size))) : ℚ :=
  (placed.map (extent_of p)).sum

/-! ## Grid layout: cell map and cursor (`grid_layout.cpp`)

Conventions of the grid embedding.

* `cell_coordinate` is a `uint32_t`; coordinates are natural numbers (no claim below
  reaches the wrap of `aRow + 1` at `2 ^ 32`).
* A layout item is known to the grid by its address.  `item_ref` names the addresses:
  an item created by the caller, a spacer the grid itself created with
  `std::make_shared` (numbered in the order of creation, so that a new spacer is
  different from every earlier one) and the member `iRowLayout`.
* `iCells` is a `std::map` from cell coordinates to the list iterator of the item; it is
  carried as an association list whose entries give the subject behind the iterator.
  Only lookups, assignment, erasure and order-independent folds are made on it.
* `iRows` holds the row sub-layouts; a row sub-layout is carried as the list of the
  items it contains.
* An exception leaves the function with the state reached so far: every operation
  returns the state together with the exception thrown, if any.
-/

/-- The `cell_coordinates` of the grid: `x` is the column, `y` the row. -/
structure cell_coordinates where
  x : Nat
  y : Nat
  deriving DecidableEq

/-- The `cell_dimensions` of the grid: `cx` columns, `cy` rows. -/
structure cell_dimensions where
  cx : Nat
  cy : Nat
  deriving DecidableEq

/-- The address of a layout item. -/
inductive item_ref where
  | external (n : Nat)
  | made (n : Nat)
  | row_container
  deriving DecidableEq

/-- The exceptions thrown by the grid operations embedded here. -/
inductive grid_error where
  | item_already_added
  | cell_unoccupied
  deriving DecidableEq

/-- The type `cell_list` of `iCells`. -/
abbrev cell_list := List (cell_coordinates × item_ref)

/-- A span: the pair `(first, second)` of its top-left and bottom-right cells. -/
abbrev span := cell_coordinates × cell_coordinates

/-- The state of a `grid_layout`.  `items` is the item list of the base class `layout`,
`spacers_made` counts the spacers the grid has created so far, `margins`, `spacing`
and `enabled` are the answers of the base class accessors, and `base_minimum_size`,
`base_maximum_size` are the answers of `layout::minimum_size(aAvailableSpace)` and
`layout::maximum_size(aAvailableSpace)`. -/
structure grid_layout where
  iCells : cell_list
  iDimensions : cell_dimensions
  iCursor : cell_coordinates
  iRows : List (List item_ref)
  iSpans : List span
  items : List item_ref
  spacers_made : Nat
  margins : margins
  spacing : size
  enabled : Bool
  base_minimum_size : size
  base_maximum_size : size
  deriving DecidableEq

/-- The result of a grid operation: the state it leaves and the exception it threw. -/
structure grid_outcome where
  state : grid_layout
  thrown : Option grid_error
  deriving DecidableEq

/-- The result of a grid query that returns an item. -/
structure grid_lookup where
  state : grid_layout
  value : Option item_ref
  thrown : Option grid_error
  deriving DecidableEq

/-- The operations of a row sub-layout (`horizontal_layout`, base class `layout`) that
the grid calls and whose code is outside the sources.  They are parameters of the
embedding: `find` (index of an item), `remove_at`, `count` and `replace_item_at`. -/
structure row_operations where
  find : List item_ref → item_ref → Option Nat
  remove_at : List item_ref → Nat → List item_ref
  count : List item_ref → Nat
  replace_item_at : List item_ref → Nat → item_ref → List item_ref

/-- Modelled from the spec: a row sub-layout as a dense list of items, column `c` of
the grid being index `c` of the list.  `find` gives the index of the item, `remove_at`
erases an index, `count` is the length and `replace_item_at` overwrites an index, or
appends when the index is the length.  That `find` locates an item of the row is a
choice: `layout::find` is outside the sources, and line 203 passes it the grid's own
`item` wrapper, not the one the row sub-layout made at line 138, so the sources at hand
do not decide whether it is found.  What depends on the answer is stated for both
(`second_removal_hits_neighbour_when_found`, `single_removal_when_not_found`). -/
def list_row_operations : row_operations where
  find := fun row x => if x ∈ row then some (row.indexOf x) else none
  remove_at := fun row i => row.eraseIdx i
  count := fun row => row.length
  replace_item_at := fun row i x => if i < row.length then row.set i x else row ++ [x]

/-- Lookup `iCells.find(k)`: the subject behind the iterator stored at `k`. -/
def cells_find : cell_list → cell_coordinates → Option item_ref
  | [], _ => none
  | e :: rest, k => if e.1 = k then some e.2 else cells_find rest k

/-- Erasure `iCells.erase(k)`. -/
def cells_erase (cells : cell_list) (k : cell_coordinates) : cell_list :=
  cells.filter (fun e => decide (e.1 ≠ k))

/-- Assignment `iCells[k] = v`. -/
def cells_assign (cells : cell_list) (k : cell_coordinates) (v : item_ref) : cell_list :=
  cells_erase cells k ++ [(k, v)]

/-- Sequencing of two operations: an exception of the first one propagates. -/
def grid_outcome.and_then (r : grid_outcome) (f : grid_layout → grid_outcome) :
    grid_outcome :=
  match r.thrown with
  | some _ => r
  | none => f r.state

/-- Accessor `rows()` (lines 76-79). -/
def grid_layout.rows (g : grid_layout) : Nat := g.iDimensions.cy

/-- Accessor `columns()` (lines 81-84). -/
def grid_layout.columns (g : grid_layout) : Nat := g.iDimensions.cx

/-- The grid as the constructor of lines 36-41 leaves it: `iDimensions{aColumns, aRows}`,
every container empty, the cursor at `(0, 0)`. -/
def grid_layout.constructed (aRows aColumns : Nat) : grid_layout where
  iCells := []
  iDimensions := ⟨aColumns, aRows⟩
  iCursor := ⟨0, 0⟩
  iRows := []
  iSpans := []
  items := []
  spacers_made := 0
  margins := ⟨0, 0, 0, 0⟩
  spacing := ⟨0, 0⟩
  enabled := true
  base_minimum_size := ⟨0, 0⟩
  base_maximum_size := ⟨0, 0⟩

/-- Query `is_item_at_position` (lines 96-99). -/
def is_item_at_position (g : grid_layout) (aRow aColumn : Nat) : Bool :=
  (cells_find g.iCells ⟨aColumn, aRow⟩).isSome

/-- Accessor `row_layout(aRow)` (lines 577-588): rows are appended until `aRow` is an
index of `iRows`. -/
def row_layout (g : grid_layout) (aRow : Nat) : grid_layout :=
  { g with iRows := g.iRows ++ List.replicate (aRow + 1 - g.iRows.length) [] }

/-- Modelled from the spec: the test `aItem->has_parent_layout() &&
&aItem->parent_layout() == this` of line 128, on an item that a caller passes.  Such an
item is owned by the layout it was added to, from its insertion into the item list until
its removal from it.  The private member `iRowLayout` is another matter: it is constructed
with the grid as its parent (lines 31-66) and never enters the item list; the guard of
lines 122-127 returns before line 128 is reached for it, so the test is never made on it
and `belongs` says nothing about it. -/
def belongs (g : grid_layout) (aItem : item_ref) : Bool := decide (aItem ∈ g.items)

/-- Modelled from the spec: `layout::remove(iterator)` (line 217) takes the item out of
the item list of the layout. -/
def layout_remove (items : List item_ref) (aItem : item_ref) : List item_ref :=
  items.erase aItem

/-- The dimensions recomputed by the loop of lines 210-215. -/
def recomputed_dimensions (cells : cell_list) : cell_dimensions :=
  cells.foldl (fun d cell => ⟨max d.cx cell.1.x, max d.cy cell.1.y⟩) ⟨0, 0⟩

/-- The row sub-layout of `aRow` after lines 202-208 of `remove_item_at_position`. -/
def row_after_removal (ops : row_operations) (row : List item_ref) (aColumn : Nat)
    (existing : item_ref) : List item_ref :=
  let row1 := match ops.find row existing with
    | some i => ops.remove_at row i
    | none => row
  if aColumn < ops.count row1 then ops.remove_at row1 aColumn else row1

/-- The state after lines 201-217 of `remove_item_at_position`, `existing` being the
occupant of the cell. -/
def removed_state (ops : row_operations) (g : grid_layout) (aRow aColumn : Nat)
    (existing : item_ref) : grid_layout :=
  { row_layout g aRow with
    iRows := (row_layout g aRow).iRows.set aRow
      (row_after_removal ops ((row_layout g aRow).iRows.getD aRow []) aColumn existing)
    iCells := cells_erase g.iCells ⟨aColumn, aRow⟩
    iDimensions := recomputed_dimensions (cells_erase g.iCells ⟨aColumn, aRow⟩)
    iCursor := ⟨0, 0⟩
    items := layout_remove g.items existing }

/-- Operation `remove_item_at_position` (lines 196-218). -/
def remove_item_at_position (ops : row_operations) (g : grid_layout)
    (aRow aColumn : Nat) : grid_outcome :=
  match cells_find g.iCells ⟨aColumn, aRow⟩ with
  | none => ⟨g, some grid_error.cell_unoccupied⟩
  | some existing => ⟨removed_state ops g aRow aColumn existing, none⟩

/-- Query `item_at_position` (lines 230-236). -/
def item_at_position (g : grid_layout) (aRow aColumn : Nat) : grid_lookup :=
  match cells_find g.iCells ⟨aColumn, aRow⟩ with
  | none => ⟨g, none, some grid_error.cell_unoccupied⟩
  | some x => ⟨g, some x, none⟩

/-- The statement `if (occupied) remove_item_at_position(aRow, aColumn);` of lines
130-131 and 165-166. -/
def remove_if_occupied (ops : row_operations) (g : grid_layout) (aRow aColumn : Nat) :
    grid_outcome :=
  if is_item_at_position g aRow aColumn then remove_item_at_position ops g aRow aColumn
  else ⟨g, none⟩

/-- Lines 135-138 of `add_item_at_position`: the item is appended to the item list, the
cell is assigned, the dimensions grow and the row sub-layout receives the item. -/
def insert_item (ops : row_operations) (g : grid_layout) (aRow aColumn : Nat)
    (aItem : item_ref) : grid_layout :=
  { row_layout g aRow with
    items := g.items ++ [aItem]
    iCells := cells_assign g.iCells ⟨aColumn, aRow⟩ aItem
    iDimensions := ⟨max g.iDimensions.cx (aColumn + 1), max g.iDimensions.cy (aRow + 1)⟩
    iRows := (row_layout g aRow).iRows.set aRow
      (ops.replace_item_at ((row_layout g aRow).iRows.getD aRow []) aColumn aItem) }

/-- The body of `add_item_at_position` (lines 120-140), the loop of lines 132-134 being
passed as `fill`.  The branch of lines 122-127 touches the layout owner of the item
only. -/
def add_item_with (ops : row_operations) (fill : grid_layout → grid_outcome)
    (g : grid_layout) (aRow aColumn : Nat) (aItem : item_ref) : grid_outcome :=
  if aItem = item_ref.row_container then ⟨g, none⟩
  else if belongs g aItem then ⟨g, some grid_error.item_already_added⟩
  else ((remove_if_occupied ops g aRow aColumn).and_then fill).and_then
    (fun g2 => ⟨insert_item ops g2 aRow aColumn aItem, none⟩)

/-- The body of `add_spacer_at_position` (lines 163-170), with the loop of the nested
`add_item_at_position` passed as `fill`: the new spacer is `made g.spacers_made`. -/
def add_spacer_with (ops : row_operations) (fill : grid_layout → grid_outcome)
    (g : grid_layout) (aRow aColumn : Nat) : grid_outcome :=
  (remove_if_occupied ops g aRow aColumn).and_then
    (fun g1 => add_item_with ops fill { g1 with spacers_made := g1.spacers_made + 1 }
      aRow aColumn (item_ref.made g1.spacers_made))

/-- The loop of lines 132-134 for `aColumn` columns: every unoccupied cell left of the
target receives a spacer through `add_spacer_at_position`, whose nested
`add_item_at_position` runs the same loop for the columns left of the spacer. -/
def fill_spacers (ops : row_operations) (aRow : Nat) : Nat → grid_layout → grid_outcome
  | 0, g => ⟨g, none⟩
  | col + 1, g =>
    (fill_spacers ops aRow col g).and_then (fun g1 =>
      if is_item_at_position g1 aRow col then ⟨g1, none⟩
      else add_spacer_with ops (fill_spacers ops aRow col) g1 aRow col)

/-- Operation `add_item_at_position` (lines 120-140). -/
def add_item_at_position (ops : row_operations) (g : grid_layout) (aRow aColumn : Nat)
    (aItem : item_ref) : grid_outcome :=
  add_item_with ops (fill_spacers ops aRow aColumn) g aRow aColumn aItem

/-- Operation `add_spacer_at_position` (lines 163-170). -/
def add_spacer_at_position (ops : row_operations) (g : grid_layout) (aRow aColumn : Nat) :
    grid_outcome :=
  add_spacer_with ops (fill_spacers ops aRow aColumn) g aRow aColumn

/-- Operation `increment_cursor` (lines 567-575). -/
def increment_cursor (g : grid_layout) : grid_layout :=
  if g.iCursor.x + 1 ≥ g.columns then { g with iCursor := ⟨0, g.iCursor.y + 1⟩ }
  else { g with iCursor := ⟨g.iCursor.x + 1, g.iCursor.y⟩ }

/-- Operation `add` (lines 101-113): insertion at the cursor, then the cursor advances. -/
def add (ops : row_operations) (g : grid_layout) (aItem : item_ref) : grid_outcome :=
  (add_item_at_position ops g g.iCursor.y g.iCursor.x aItem).and_then
    (fun g1 => ⟨increment_cursor g1, none⟩)

/-- A sequence of calls of `add`, one per item of the list, nothing in between. -/
def add_all (ops : row_operations) : List item_ref → grid_layout → grid_outcome
  | [], g => ⟨g, none⟩
  | aItem :: rest, g => (add ops g aItem).and_then (add_all ops rest)

/-! ### Vocabulary of the grid statements -/

/-- Whether an address was handed out before the grid had made `k` spacers: a spacer
made by the grid is one of the first `k`. -/
def item_ref.created_before (k : Nat) : item_ref → Bool
  | item_ref.made n => decide (n < k)
  | _ => true

/-- The invariant of the grid states reached through the operations: no item occupies
two cells, every occupant is in the item list, the row container is not in the item
list, and the spacers of the item list are among those made so far. -/
def grid_layout.well_formed (g : grid_layout) : Prop :=
  (g.iCells.map Prod.snd).Nodup ∧ (∀ e ∈ g.iCells, e.2 ∈ g.items) ∧
  item_ref.row_container ∉ g.items ∧
  (∀ x ∈ g.items, item_ref.created_before g.spacers_made x = true)

instance (g : grid_layout) : Decidable g.well_formed := by
  unfold grid_layout.well_formed
  infer_instance

/-- The dimensions in the words of the spec: one more than the largest occupied row
and column index, zero for an empty cell map. -/
def dimensions_by_occupancy (cells : cell_list) : cell_dimensions :=
  cells.foldl (fun d cell => ⟨max d.cx (cell.1.x + 1), max d.cy (cell.1.y + 1)⟩) ⟨0, 0⟩

/-- A grid of one row and two columns holding two items, `external 1` in cell (0, 0)
and `external 2` in cell (0, 1). -/
def two_cell_grid : grid_layout :=
  (add_all list_row_operations [item_ref.external 1, item_ref.external 2]
    (grid_layout.constructed 1 2)).state

/-! ## Grid layout: sizes and the layout pass (`grid_layout.cpp`, lines 264-334, 366-565)

The items of the grid are queried through two parameters: `info x` gives the answers of
`visible()`, `minimum_size(...)`, `maximum_size(...)` and the variant of the item at
address `x`, and `extents x` gives the answer of `extents()` once the row container has
been laid out (line 384; the code of that pass is outside the sources).  The sentinel
`size::max_dimension()`, declared outside the sources, is the parameter
`max_dimension`.  A read of a vector outside its bounds gives 0 in the embedding. -/

/-- The test of lines 426-427 and 593: whether a span contains a cell. -/
def span_contains (s : span) (aCell : cell_coordinates) : Bool :=
  decide (aCell.x ≥ s.1.x ∧ aCell.x ≤ s.2.x ∧ aCell.y ≥ s.1.y ∧ aCell.y ≤ s.2.y)

/-- Query `find_span` (lines 590-596): the first span of `iSpans` that contains the
cell. -/
def find_span (g : grid_layout) (aCell : cell_coordinates) : Option span :=
  g.iSpans.find? (fun s => span_contains s aCell)

/-- Modelled from the spec: `layout::items_visible` (defined outside the sources) on the
item list of the grid counts the visible items whose variant is selected. -/
def grid_layout.items_visible (info : item_ref → item) (g : grid_layout)
    (t : item_type_e) : Nat :=
  (g.items.map info).countP (fun it => it.visible && t.selects it.kind)

/-- The test of lines 472 and 486 on cell `(col, row)`: an occupant that is visible and
has a non-zero minimum height. -/
def cell_shows_row (info : item_ref → item) (g : grid_layout) (row col : Nat) : Bool :=
  match cells_find g.iCells ⟨col, row⟩ with
  | some x => (info x).visible && decide ((info x).minimum_size.cy ≠ 0)
  | none => false

/-- The test of lines 499 and 513 on cell `(col, row)`: an occupant that is visible and
has a non-zero minimum width. -/
def cell_shows_column (info : item_ref → item) (g : grid_layout) (row col : Nat) : Bool :=
  match cells_find g.iCells ⟨col, row⟩ with
  | some x => (info x).visible && decide ((info x).minimum_size.cx ≠ 0)
  | none => false

/-- Query `is_row_visible` (lines 481-490). -/
def is_row_visible (info : item_ref → item) (g : grid_layout) (aRow : Nat) : Bool :=
  (List.range g.iDimensions.cx).any (fun col => cell_shows_row info g aRow col)

/-- Query `is_column_visible` (lines 508-517). -/
def is_column_visible (info : item_ref → item) (g : grid_layout) (aColumn : Nat) : Bool :=
  (List.range g.iDimensions.cy).any (fun row => cell_shows_column info g row aColumn)

/-- Query `visible_rows` (lines 465-479): the rows below `iDimensions.cy` in which the
inner loop reaches its `break`. -/
def visible_rows (info : item_ref → item) (g : grid_layout) : Nat :=
  (List.range g.iDimensions.cy).countP
    (fun row => (List.range g.iDimensions.cx).any (fun col => cell_shows_row info g row col))

/-- Query `visible_columns` (lines 492-506). -/
def visible_columns (info : item_ref → item) (g : grid_layout) : Nat :=
  (List.range g.iDimensions.cx).countP
    (fun col => (List.range g.iDimensions.cy).any
      (fun row => cell_shows_column info g row col))

/-- The share of one row in the height `v` of an item: `v` itself outside a span, and
inside a span `(v - spacing * (rows of the span - 1)) / rows of the span` (lines 403,
529).  The number of rows `second.y - first.y + 1` is taken in the natural numbers.  It
is the `uint32_t` value of the code for every span but one that reaches from row 0 to
row `2 ^ 32 - 1` (the span stored by `add_span(0, c, 0, n)`), whose length wraps to 0 in
the code so that line 529 divides by zero; the statements below evaluate no such
span. -/
def row_share (g : grid_layout) (aCell : cell_coordinates) (v : ℚ) : ℚ :=
  match find_span g aCell with
  | none => v
  | some s => (v - g.spacing.cy * ((s.2.y - s.1.y : Nat) : ℚ)) / ((s.2.y - s.1.y + 1 : Nat) : ℚ)

/-- The share of one column in the width `v` of an item (lines 405, 544), with the
number of columns of the span taken in the natural numbers as in `row_share`. -/
def column_share (g : grid_layout) (aCell : cell_coordinates) (v : ℚ) : ℚ :=
  match find_span g aCell with
  | none => v
  | some s => (v - g.spacing.cx * ((s.2.x - s.1.x : Nat) : ℚ)) / ((s.2.x - s.1.x + 1 : Nat) : ℚ)

/-- Query `row_minimum_size` (lines 519-532). -/
def row_minimum_size (info : item_ref → item) (g : grid_layout) (aRow : Nat) : ℚ :=
  g.iCells.foldl (fun result cell =>
    if cell.1.y = aRow then max result (row_share g cell.1 (info cell.2).minimum_size.cy)
    else result) 0

/-- Query `column_minimum_size` (lines 534-547). -/
def column_minimum_size (info : item_ref → item) (g : grid_layout) (aColumn : Nat) : ℚ :=
  g.iCells.foldl (fun result cell =>
    if cell.1.x = aColumn then
      max result (column_share g cell.1 (info cell.2).minimum_size.cx)
    else result) 0

/-- Query `row_maximum_size` (lines 549-556). -/
def row_maximum_size (info : item_ref → item) (g : grid_layout) (aRow : Nat) : ℚ :=
  g.iCells.foldl (fun result cell =>
    if cell.1.y = aRow then max result (info cell.2).maximum_size.cy else result) 0

/-- Query `column_maximum_size` (lines 558-565). -/
def column_maximum_size (info : item_ref → item) (g : grid_layout) (aColumn : Nat) : ℚ :=
  g.iCells.foldl (fun result cell =>
    if cell.1.x = aColumn then max result (info cell.2).maximum_size.cx else result) 0

/-- The statements of lines 288-291 and 325-328: spacing between the visible rows or
columns is added unless the value is the sentinel or nothing is visible. -/
def add_spacing (max_dimension : ℚ) (v spacing : ℚ) (visible : Nat) : ℚ :=
  if v ≠ max_dimension ∧ visible > 0 then v + spacing * ((visible - 1 : Nat) : ℚ) else v

/-- The loop of lines 274-279: the minimum heights of the visible rows, added up. -/
def rows_minimum_size (info : item_ref → item) (g : grid_layout) : ℚ :=
  (List.range g.rows).foldl (fun result row =>
    if is_row_visible info g row then result + row_minimum_size info g row else result) 0

/-- The loop of lines 280-285: the minimum widths of the visible columns, added up. -/
def columns_minimum_size (info : item_ref → item) (g : grid_layout) : ℚ :=
  (List.range g.columns).foldl (fun result column =>
    if is_column_visible info g column then result + column_minimum_size info g column
    else result) 0

/-- Query `grid_layout::minimum_size` (lines 264-295). -/
def minimum_size (info : item_ref → item) (max_dimension : ℚ) (g : grid_layout) : size :=
  if g.items_visible info ItemTypeWidgetOrLayout = 0 then ⟨0, 0⟩
  else
    ⟨max (add_spacing max_dimension
        (columns_minimum_size info g + (g.margins.left + g.margins.right))
        g.spacing.cx (visible_columns info g)) g.base_minimum_size.cx,
     max (add_spacing max_dimension
        (rows_minimum_size info g + (g.margins.top + g.margins.bottom))
        g.spacing.cy (visible_rows info g)) g.base_minimum_size.cy⟩

/-- The body of the loops of lines 305-320: a maximum that is the sentinel makes the
sum the sentinel, and a sum that is the sentinel stays so. -/
def add_maximum (max_dimension : ℚ) (result v : ℚ) : ℚ :=
  if v = max_dimension then v
  else if result ≠ max_dimension then result + v else result

/-- The loop of lines 305-312: `row` runs below `visible_rows()`. -/
def rows_maximum_size (info : item_ref → item) (max_dimension : ℚ) (g : grid_layout) : ℚ :=
  (List.range (visible_rows info g)).foldl
    (fun result row => add_maximum max_dimension result (row_maximum_size info g row)) 0

/-- The loop of lines 313-320: `column` runs below `visible_columns()`. -/
def columns_maximum_size (info : item_ref → item) (max_dimension : ℚ)
    (g : grid_layout) : ℚ :=
  (List.range (visible_columns info g)).foldl
    (fun result column =>
      add_maximum max_dimension result (column_maximum_size info g column)) 0

/-- The statements of lines 321-324: margins are added to a value that is not the
sentinel. -/
def add_margins (max_dimension : ℚ) (v m : ℚ) : ℚ :=
  if v ≠ max_dimension then v + m else v

/-- The statements of lines 329-332: a value that is not the sentinel is capped by the
maximum size of the base class. -/
def cap_maximum (max_dimension : ℚ) (v cap : ℚ) : ℚ :=
  if v ≠ max_dimension then min v cap else v

/-- Query `grid_layout::maximum_size` (lines 297-334). -/
def maximum_size (info : item_ref → item) (max_dimension : ℚ) (g : grid_layout) : size :=
  if g.items_visible info ItemTypeAll = 0 then ⟨0, 0⟩
  else
    ⟨cap_maximum max_dimension
        (add_spacing max_dimension
          (add_margins max_dimension (columns_maximum_size info max_dimension g)
            (g.margins.left + g.margins.right))
          g.spacing.cx (visible_columns info g)) g.base_maximum_size.cx,
     cap_maximum max_dimension
        (add_spacing max_dimension
          (add_margins max_dimension (rows_maximum_size info max_dimension g)
            (g.margins.top + g.margins.bottom))
          g.spacing.cy (visible_rows info g)) g.base_maximum_size.cy⟩

/-! ### The layout pass (lines 366-463) -/

/-- The vector `maxRowHeight` after the loop of lines 387-409. -/
def maxRowHeight (extents : item_ref → size) (g : grid_layout) : List ℚ :=
  (List.range g.iDimensions.cy).map (fun row =>
    (List.range g.iDimensions.cx).foldl (fun result col =>
      match cells_find g.iCells ⟨col, row⟩ with
      | some x => max result (row_share g ⟨col, row⟩ (extents x).cy)
      | none => result) 0)

/-- The vector `maxColWidth` after the loop of lines 387-409. -/
def maxColWidth (extents : item_ref → size) (g : grid_layout) : List ℚ :=
  (List.range g.iDimensions.cx).map (fun col =>
    (List.range g.iDimensions.cy).foldl (fun result row =>
      match cells_find g.iCells ⟨col, row⟩ with
      | some x => max result (column_share g ⟨col, row⟩ (extents x).cx)
      | none => result) 0)

/-- The variables of the walk of lines 429-450 that outlive one turn: `fromPos`,
`foundSpan` and the arguments of the call of `layout_as`, once made. -/
structure span_walk where
  fromPos : point
  foundSpan : Bool
  call : Option (point × size)
  deriving DecidableEq

/-- Lines 437-444: the turn of the walk at cell `(col2, row2)`, `w` and `h` being
`maxColWidth[col2]` and `maxRowHeight[row2]`. -/
def span_cell (s : span) (row2 col2 : Nat) (colPos2 : point) (w h : ℚ)
    (st : span_walk) : span_walk :=
  if row2 = s.2.y ∧ col2 = s.2.x then
    ⟨if row2 = s.1.y ∧ col2 = s.1.x then colPos2 else st.fromPos, true,
      some (if row2 = s.1.y ∧ col2 = s.1.x then colPos2 else st.fromPos,
        ⟨colPos2.x + w - (if row2 = s.1.y ∧ col2 = s.1.x then colPos2 else st.fromPos).x,
         colPos2.y + h - (if row2 = s.1.y ∧ col2 = s.1.x then colPos2 else st.fromPos).y⟩)⟩
  else
    ⟨if row2 = s.1.y ∧ col2 = s.1.x then colPos2 else st.fromPos, st.foundSpan, st.call⟩

/-- The loop of lines 435-447 over `col2`, with `n` turns left. -/
def span_columns (w : List ℚ) (h : ℚ) (sx : ℚ) (s : span) (row2 : Nat) :
    Nat → Nat → point → span_walk → span_walk
  | 0, _, _, st => st
  | n + 1, col2, colPos2, st =>
    if st.foundSpan then st
    else span_columns w h sx s row2 n (col2 + 1) ⟨colPos2.x + w.getD col2 0 + sx, colPos2.y⟩
      (span_cell s row2 col2 colPos2 (w.getD col2 0) h st)

/-- The loop of lines 432-450 over `row2`, with `n` turns left. -/
def span_rows (w h : List ℚ) (spacing : size) (s : span) :
    Nat → Nat → point → span_walk → span_walk
  | 0, _, _, st => st
  | n + 1, row2, rowPos2, st =>
    if st.foundSpan then st
    else span_rows w h spacing s n (row2 + 1)
      ⟨rowPos2.x, rowPos2.y + h.getD row2 0 + spacing.cy⟩
      (span_columns w (h.getD row2 0) spacing.cx s row2 (s.2.x + 1) 0 rowPos2 st)

/-- The loop of lines 424-452 over the spans, for the cell `(col, row)`. -/
def span_search (w h : List ℚ) (spacing : size) (availablePos : point) (row col : Nat)
    (spans : List span) : span_walk :=
  spans.foldl (fun st s =>
    if span_contains s ⟨col, row⟩ then
      span_rows w h spacing s (s.2.y + 1) 0 availablePos ⟨⟨0, 0⟩, st.foundSpan, st.call⟩
    else st) ⟨⟨0, 0⟩, false, none⟩

/-- The calls of `layout_as` made for the occupant of cell `(col, row)` (lines 423-454):
the call of the span walk, if any, and the call of line 454 when no span was found. -/
def cell_calls (w h : List ℚ) (spacing : size) (availablePos colPos : point)
    (row col : Nat) (spans : List span) : List (point × size) :=
  (match (span_search w h spacing availablePos row col spans).call with
    | some c => [c]
    | none => []) ++
  (if (span_search w h spacing availablePos row col spans).foundSpan then []
    else [(colPos, ⟨w.getD col 0, h.getD row 0⟩)])

/-- A call `layout_as(position, extents)` on the occupant `subject` of `cell`. -/
structure grid_call where
  cell : cell_coordinates
  subject : item_ref
  position : point
  extents : size
  deriving DecidableEq

/-- The loop of lines 416-458 over `col`, with `n` turns left. -/
def layout_columns (g : grid_layout) (w h : List ℚ) (availablePos : point) (row : Nat) :
    Nat → Nat → point → List grid_call
  | 0, _, _ => []
  | n + 1, col, colPos =>
    if w.getD col 0 = 0 then layout_columns g w h availablePos row n (col + 1) colPos
    else
      (match cells_find g.iCells ⟨col, row⟩ with
        | some x => (cell_calls w h g.spacing availablePos colPos row col g.iSpans).map
            (fun c => ⟨⟨col, row⟩, x, c.1, c.2⟩)
        | none => []) ++
      layout_columns g w h availablePos row n (col + 1)
        ⟨colPos.x + w.getD col 0 + g.spacing.cx, colPos.y⟩

/-- The loop of lines 411-461 over `row`, with `n` turns left. -/
def layout_rows (g : grid_layout) (w h : List ℚ) (availablePos : point) :
    Nat → Nat → point → List grid_call
  | 0, _, _ => []
  | n + 1, row, rowPos =>
    if h.getD row 0 = 0 then layout_rows g w h availablePos n (row + 1) rowPos
    else
      layout_columns g w h availablePos row g.iDimensions.cx 0 rowPos ++
      layout_rows g w h availablePos n (row + 1)
        ⟨rowPos.x, rowPos.y + h.getD row 0 + g.spacing.cy⟩

/-- The layout pass `grid_layout::layout_items` (lines 366-463): the calls of
`layout_as` it makes on the occupants of the cells, in order.  The position and extents
it records, the spacers it appends to short rows and the pass of the row container act
on state that the calls do not read; the extents that the row container pass leaves on
the items are the parameter `extents`. -/
def layout_items (extents : item_ref → size) (g : grid_layout) (aPosition : point)
    (_aSize : size) : List grid_call :=
  if g.enabled then
    layout_rows g (maxColWidth extents g) (maxRowHeight extents g)
      ⟨aPosition.x + g.margins.left, aPosition.y + g.margins.top⟩ g.iDimensions.cy 0
      ⟨aPosition.x + g.margins.left, aPosition.y + g.margins.top⟩
  else []

/-! ### Vocabulary of the size and layout statements -/

/-- The sum of the entries `a..b` of a vector plus `b - a` times the spacing: the extent
of a span over the rows or columns `a..b`. -/
def span_extent (v : List ℚ) (spacing : ℚ) (a b : Nat) : ℚ :=
  ((List.range (b + 1 - a)).map (fun i => v.getD (a + i) 0)).sum +
    spacing * ((b - a : Nat) : ℚ)

/-- The offset of entry `n` when every earlier entry advances by its value plus the
spacing. -/
def plain_offset (v : List ℚ) (spacing : ℚ) : Nat → ℚ
  | 0 => 0
  | n + 1 => plain_offset v spacing n + (v.getD n 0 + spacing)

/-- Every occupied cell lies within the dimensions of the grid. -/
def grid_layout.cells_within_dimensions (g : grid_layout) : Prop :=
  ∀ e ∈ g.iCells, e.1.x < g.columns ∧ e.1.y < g.rows

instance (g : grid_layout) : Decidable g.cells_within_dimensions := by
  unfold grid_layout.cells_within_dimensions
  infer_instance

/-- The cell list holds one entry per cell at most, as a `std::map` does. -/
def grid_layout.cells_are_a_map (g : grid_layout) : Prop :=
  (g.iCells.map Prod.fst).Nodup

instance (g : grid_layout) : Decidable g.cells_are_a_map := by
  unfold grid_layout.cells_are_a_map
  infer_instance

/-- In the words of the spec: a row is visible when it contains a visible occupant
with a non-zero minimum height. -/
def row_is_visible (info : item_ref → item) (g : grid_layout) (row : Nat) : Bool :=
  g.iCells.any (fun e => decide (e.1.y = row) && (info e.2).visible &&
    decide ((info e.2).minimum_size.cy ≠ 0))

/-- In the words of the spec: a column is visible when it contains a visible occupant
with a non-zero minimum width. -/
def column_is_visible (info : item_ref → item) (g : grid_layout) (column : Nat) : Bool :=
  g.iCells.any (fun e => decide (e.1.x = column) && (info e.2).visible &&
    decide ((info e.2).minimum_size.cx ≠ 0))

/-- The largest value of `f` among the occupants of the cells selected by `p`, zero
when there is none. -/
def largest_among (info : item_ref → item) (g : grid_layout)
    (p : cell_coordinates → Bool) (f : item → ℚ) : ℚ :=
  ((g.iCells.filter (fun e => p e.1)).map (fun e => f (info e.2))).foldr max 0

/-- The visible rows of the grid, in the words of the spec. -/
def rows_that_are_visible (info : item_ref → item) (g : grid_layout) : List Nat :=
  (List.range g.rows).filter (row_is_visible info g)

/-- The visible columns of the grid, in the words of the spec. -/
def columns_that_are_visible (info : item_ref → item) (g : grid_layout) : List Nat :=
  (List.range g.columns).filter (column_is_visible info g)

/-! ### Example grids of the size and layout statements -/

/-- A visible widget with the given minimum and maximum size. -/
def grid_widget (minimum maximum : size) : item :=
  ⟨item_kind.widget, true, ⟨size_policy_e.Expanding, size_policy_e.Expanding⟩, ⟨1, 1⟩,
    minimum, maximum⟩

/-- A grid of two rows and two columns with spacing 2 and a span over rows 0-1 of
column 0: `external 1` in cell (0, 0), `external 2` in cell (0, 1), `external 3` in
cell (1, 1), and the spacer that `add_item_at_position` puts into cell (1, 0). -/
def span_example_grid : grid_layout :=
  { (add_item_at_position list_row_operations
      (add_item_at_position list_row_operations
        (add_item_at_position list_row_operations (grid_layout.constructed 0 0)
          0 0 (item_ref.external 1)).state
        0 1 (item_ref.external 2)).state
      1 1 (item_ref.external 3)).state with
    iSpans := [(⟨0, 0⟩, ⟨0, 1⟩)]
    spacing := ⟨2, 2⟩ }

/-- The extents of the items of `span_example_grid` after the row container pass: they
give the rows the heights 10 and 20. -/
def span_example_extents : item_ref → size
  | item_ref.external 1 => ⟨5, 22⟩
  | item_ref.external 2 => ⟨7, 10⟩
  | item_ref.external 3 => ⟨7, 20⟩
  | _ => ⟨0, 0⟩

/-- A grid of one column holding three visible widgets in rows 0, 1 and 2: margins
and spacing are zero and the base class allows a maximum size of (1000, 1000). -/
def three_row_grid : grid_layout :=
  { (add_all list_row_operations
      [item_ref.external 1, item_ref.external 2, item_ref.external 3]
      (grid_layout.constructed 0 1)).state with
    base_maximum_size := ⟨1000, 1000⟩ }

/-- The items of `three_row_grid`: the widget of row 1 has a minimum height of zero,
so that rows 0 and 2 are the visible rows; the maximum heights are 100, 7 and 50. -/
def three_row_items : item_ref → item
  | item_ref.external 1 => grid_widget ⟨10, 10⟩ ⟨100, 100⟩
  | item_ref.external 2 => grid_widget ⟨10, 0⟩ ⟨7, 7⟩
  | item_ref.external 3 => grid_widget ⟨10, 10⟩ ⟨50, 50⟩
  | _ => grid_widget ⟨0, 0⟩ ⟨0, 0⟩

/-- The grid `three_row_grid` with margins (1, 2, 3, 4) and spacing (2, 3). -/
def spaced_three_row_grid : grid_layout :=
  { three_row_grid with margins := ⟨1, 2, 3, 4⟩, spacing := ⟨2, 3⟩ }

/-- Items for `spaced_three_row_grid` that make every row visible: the minimum heights
are 10, 20 and 30 and the minimum widths 10, 12 and 8. -/
def three_visible_rows_items : item_ref → item
  | item_ref.external 1 => grid_widget ⟨10, 10⟩ ⟨100, 100⟩
  | item_ref.external 2 => grid_widget ⟨12, 20⟩ ⟨100, 100⟩
  | item_ref.external 3 => grid_widget ⟨8, 30⟩ ⟨100, 100⟩
  | _ => grid_widget ⟨0, 0⟩ ⟨0, 0⟩

/-- The maximum height in the words of the spec: the largest maximum heights of the
visible rows added up, plus the vertical margins and the spacing between the visible
rows, capped by the maximum height of the base class. -/
def maximum_height_by_visible_rows (info : item_ref → item) (g : grid_layout) : ℚ :=
  min g.base_maximum_size.cy
    (((rows_that_are_visible info g).map (fun row =>
        largest_among info g (fun k => decide (k.y = row))
          (fun it => it.maximum_size.cy))).sum +
      (g.margins.top + g.margins.bottom) +
      g.spacing.cy * (((rows_that_are_visible info g).length - 1 : Nat) : ℚ))

/-! ## Spacer (`spacer.cpp`) -/

/-- Modelled from the spec: the flag set `expansion_policy_e`, whose declaration is
outside the sources.  A value is a set of the two flags the spacer names, and `&` acts
flag by flag. -/
structure expansion_policy_e where
  horizontally : Bool
  vertically : Bool
  deriving DecidableEq

/-- Flag `ExpandHorizontally`. -/
def ExpandHorizontally : expansion_policy_e := ⟨true, false⟩
/-- Flag `ExpandVertically`. -/
def ExpandVertically : expansion_policy_e := ⟨false, true⟩

/-- Bitwise and of two flag sets (`operator&`). -/
def expansion_policy_e.band (a b : expansion_policy_e) : expansion_policy_e :=
  ⟨a.horizontally && b.horizontally, a.vertically && b.vertically⟩

/-- Bitwise or of two flag sets (`operator|`). -/
def expansion_policy_e.bor (a b : expansion_policy_e) : expansion_policy_e :=
  ⟨a.horizontally || b.horizontally, a.vertically || b.vertically⟩

/-- The conversion of a flag set to `bool` in `if (a & b)`: some flag is set. -/
def expansion_policy_e.nonzero (a : expansion_policy_e) : Bool :=
  a.horizontally || a.vertically

/-- The parent layout as the spacer queries it: whether `owner()` is not null. -/
structure spacer_parent where
  has_owner : Bool
  deriving DecidableEq

/-- The state of a `spacer`: the parent pointer, the expansion policy and the four
optional overrides. -/
structure spacer where
  iParent : Option spacer_parent
  iExpansionPolicy : expansion_policy_e
  iSizePolicy : Option size_policy
  iWeight : Option size
  iMinimumSize : Option size
  iMaximumSize : Option size
  deriving DecidableEq

/-- Constructor `spacer(aExpansionPolicy)` (lines 28-33). -/
def spacer.create (aExpansionPolicy : expansion_policy_e) : spacer :=
  ⟨none, aExpansionPolicy, none, none, none, none⟩

/-- Constructor `horizontal_spacer()` (lines 233-236). -/
def horizontal_spacer : spacer := spacer.create ExpandHorizontally

/-- Constructor `vertical_spacer()` (lines 243-246). -/
def vertical_spacer : spacer := spacer.create ExpandVertically

/-- Query `has_size_policy` (lines 100-103). -/
def spacer.has_size_policy (s : spacer) : Bool := s.iSizePolicy.isSome

/-- Modelled from the spec: the constructor of `size_policy` from one policy, declared
outside the sources, gives both axes that policy. -/
def size_policy.uniform (p : size_policy_e) : size_policy := ⟨p, p⟩

/-- Setter `set_horizontal_size_policy` of `size_policy`. -/
def size_policy.set_horizontal_size_policy (p : size_policy) (v : size_policy_e) :
    size_policy := { p with horizontal_size_policy := v }

/-- Setter `set_vertical_size_policy` of `size_policy`. -/
def size_policy.set_vertical_size_policy (p : size_policy) (v : size_policy_e) :
    size_policy := { p with vertical_size_policy := v }

/-- Lines 109-111: the horizontal policy becomes Expanding when the flag is set. -/
def expand_horizontally (s : spacer) (result : size_policy) : size_policy :=
  if (s.iExpansionPolicy.band ExpandHorizontally).nonzero then
    result.set_horizontal_size_policy size_policy_e.Expanding
  else result

/-- Lines 112-113: the vertical policy becomes Expanding when the flag is set. -/
def expand_vertically (s : spacer) (result : size_policy) : size_policy :=
  if (s.iExpansionPolicy.band ExpandVertically).nonzero then
    result.set_vertical_size_policy size_policy_e.Expanding
  else result

/-- Query `spacer::size_policy` (lines 105-115). -/
def spacer.size_policy (s : spacer) : size_policy :=
  match s.iSizePolicy with
  | some p => p
  | none => expand_vertically s (expand_horizontally s (size_policy.uniform size_policy_e.Minimum))

/-! ## Spacer: the optional overrides and their setters (`spacer.cpp`, lines 117-194)

The class `units_converter` is outside the sources; its two conversions are parameters of
the embedding.  A setter returns the new state of the spacer together with whether it
called `layout_items(true)` on the ultimate ancestor of the owner of its parent. -/

/-- The two conversions of `units_converter` that the spacer calls. -/
structure units_converter where
  to_device_units : size → size
  from_device_units : size → size

/-- Modelled from the spec: the converting constructor of `size` from one dimension,
declared outside the sources, gives both axes that dimension. -/
def size.square (d : ℚ) : size := ⟨d, d⟩

/-- The result of a setter: the state it leaves and whether it requested a layout of
the root of the owning hierarchy. -/
structure spacer_update where
  state : spacer
  layout_requested : Bool
  deriving DecidableEq

/-- Query `has_parent` (lines 43-46). -/
def spacer.has_parent (s : spacer) : Bool := s.iParent.isSome

/-- The test `iParent != 0 && iParent->owner() != 0` of the setters. -/
def spacer.parent_has_owner (s : spacer) : Bool :=
  match s.iParent with
  | some aParent => aParent.has_owner
  | none => false

/-- Setter `set_expansion_policy` (lines 70-78). -/
def spacer.set_expansion_policy (s : spacer) (aExpansionPolicy : expansion_policy_e) :
    spacer_update :=
  if s.iExpansionPolicy ≠ aExpansionPolicy then
    ⟨{ s with iExpansionPolicy := aExpansionPolicy }, s.parent_has_owner⟩
  else ⟨s, false⟩

/-- Setter `set_size_policy` (lines 117-125). -/
def spacer.set_size_policy (s : spacer) (aSizePolicy : Option neogfx.size_policy)
    (aUpdateLayout : Bool) : spacer_update :=
  if s.iSizePolicy ≠ aSizePolicy then
    ⟨{ s with iSizePolicy := aSizePolicy }, s.parent_has_owner && aUpdateLayout⟩
  else ⟨s, false⟩

/-- Query `has_weight` (lines 127-130). -/
def spacer.has_weight (s : spacer) : Bool := s.iWeight.isSome

/-- Query `weight` (lines 132-138). -/
def spacer.weight (s : spacer) : size :=
  match s.iWeight with
  | some w => w
  | none => size.square 1

/-- Setter `set_weight` (lines 140-148). -/
def spacer.set_weight (s : spacer) (aWeight : Option size) (aUpdateLayout : Bool) :
    spacer_update :=
  if s.iWeight ≠ aWeight then
    ⟨{ s with iWeight := aWeight }, s.parent_has_owner && aUpdateLayout⟩
  else ⟨s, false⟩

/-- Query `has_minimum_size` (lines 150-153). -/
def spacer.has_minimum_size (s : spacer) : Bool := s.iMinimumSize.isSome

/-- Query `minimum_size` (lines 155-160). -/
def spacer.minimum_size (u : units_converter) (s : spacer) : size :=
  match s.iMinimumSize with
  | some m => u.from_device_units m
  | none => ⟨0, 0⟩

/-- Setter `set_minimum_size` (lines 162-171). -/
def spacer.set_minimum_size (u : units_converter) (s : spacer) (aMinimumSize : Option size)
    (aUpdateLayout : Bool) : spacer_update :=
  if s.iMinimumSize ≠ aMinimumSize.map u.to_device_units then
    ⟨{ s with iMinimumSize := aMinimumSize.map u.to_device_units },
      s.parent_has_owner && aUpdateLayout⟩
  else ⟨s, false⟩

/-- Query `has_maximum_size` (lines 173-176). -/
def spacer.has_maximum_size (s : spacer) : Bool := s.iMaximumSize.isSome

/-- Query `maximum_size` (lines 178-183); `max_size` is the value of `size::max_size()`,
declared outside the sources. -/
def spacer.maximum_size (u : units_converter) (max_size : size) (s : spacer) : size :=
  match s.iMaximumSize with
  | some m => u.from_device_units m
  | none => max_size

/-- Setter `set_maximum_size` (lines 185-194). -/
def spacer.set_maximum_size (u : units_converter) (s : spacer) (aMaximumSize : Option size)
    (aUpdateLayout : Bool) : spacer_update :=
  if s.iMaximumSize ≠ aMaximumSize.map u.to_device_units then
    ⟨{ s with iMaximumSize := aMaximumSize.map u.to_device_units },
      s.parent_has_owner && aUpdateLayout⟩
  else ⟨s, false⟩

/-- Modelled from the spec: an explicitly set size is the size reported afterwards, so
converting a size to device units and back gives the size again. -/
def units_round_trip (u : units_converter) : Prop :=
  ∀ v, u.from_device_units (u.to_device_units v) = v

/-- The converter of a context whose units are the device units. -/
def device_units : units_converter := ⟨fun v => v, fun v => v⟩

/-- A converter between device units and units twice as large. -/
def doubling_units : units_converter := ⟨fun v => ⟨v.cx * 2, v.cy * 2⟩, fun v => ⟨v.cx / 2, v.cy / 2⟩⟩

/-- A spacer inside a parent layout that has an owner. -/
def owned_spacer : spacer :=
  ⟨some ⟨true⟩, ExpandHorizontally, none, none, none, none⟩

/-! ## Native window: event queue and dispatch (`native_window.cpp`)

Conventions of the embedding.

* The event classes and their type enumerations are declared outside the sources.  An
  event is carried as its type together with a number that stands for its arguments
  (position, button, key, text); an enumeration has the values that the dispatch names
  and `other n` for every value it leaves to `default`.
* The calls that the dispatch makes on the surface window, on the keyboard and on the
  native window itself (`invalidate`, `render`, `close`) are effects outside the
  sources; the embedding appends them to the list `notified`.  These callees are taken
  to return without calling back into the native window or destroying it.
* The answers of the hook `filter_event`, of the hook `window_event` of the window and
  of the keyboard grabber are parameters (`dispatch_hooks`).
* The loop of lines 175-190 need not terminate.  It is run with fuel, one unit for each
  evaluation of its condition, and the functions that reach it return `none` when the
  fuel is used up.
-/

/-- The values of `window_event_type` named by the dispatch. -/
inductive window_event_type where
  | Paint
  | Close
  | Resizing
  | Resized
  | SizeChanged
  | Enter
  | Leave
  | NonClientEnter
  | NonClientLeave
  | FocusGained
  | FocusLost
  | TitleTextChanged
  | other (n : Nat)
  deriving DecidableEq

/-- The values of `mouse_event_type` named by the dispatch. -/
inductive mouse_event_type where
  | WheelScrolled
  | ButtonPressed
  | ButtonDoubleClicked
  | ButtonReleased
  | Moved
  | other (n : Nat)
  deriving DecidableEq

/-- The values of `keyboard_event_type` named by the dispatch. -/
inductive keyboard_event_type where
  | KeyPressed
  | KeyReleased
  | TextInput
  | SysTextInput
  | other (n : Nat)
  deriving DecidableEq

/-- A `window_event`. -/
structure window_event where
  type : window_event_type
  data : Nat
  deriving DecidableEq

/-- A `mouse_event`, and also a `non_client_mouse_event`. -/
structure mouse_event where
  type : mouse_event_type
  data : Nat
  deriving DecidableEq

/-- A `keyboard_event`. -/
structure keyboard_event where
  type : keyboard_event_type
  data : Nat
  deriving DecidableEq

/-- The variant `native_event`. -/
inductive native_event where
  | window (e : window_event)
  | mouse (e : mouse_event)
  | non_client_mouse (e : mouse_event)
  | keyboard (e : keyboard_event)
  deriving DecidableEq

/-- A call made by the dispatch, with the number that stands for its arguments. -/
inductive notification where
  | invalidate
  | render
  | close
  | native_window_resized
  | native_window_mouse_entered (data : Nat)
  | native_window_mouse_left
  | native_window_focus_gained
  | native_window_focus_lost
  | native_window_title_text_changed
  | native_window_mouse_wheel_scrolled (data : Nat)
  | native_window_mouse_button_pressed (data : Nat)
  | native_window_mouse_button_double_clicked (data : Nat)
  | native_window_mouse_button_released (data : Nat)
  | native_window_mouse_moved (data : Nat)
  | native_window_non_client_mouse_wheel_scrolled (data : Nat)
  | native_window_non_client_mouse_button_pressed (data : Nat)
  | native_window_non_client_mouse_button_double_clicked (data : Nat)
  | native_window_non_client_mouse_button_released (data : Nat)
  | native_window_non_client_mouse_moved (data : Nat)
  | keyboard_key_pressed (data : Nat)
  | native_window_key_pressed (data : Nat)
  | keyboard_key_released (data : Nat)
  | native_window_key_released (data : Nat)
  | keyboard_text_input (data : Nat)
  | native_window_text_input (data : Nat)
  | keyboard_sys_text_input (data : Nat)
  | native_window_sys_text_input (data : Nat)
  deriving DecidableEq

/-- The answers of the hooks that the dispatch consults: `filter_event.trigger`, the
`window_event.trigger` of the window, and whether the keyboard grabber takes the
event. -/
structure dispatch_hooks where
  filter_event : native_event → Bool
  window_event_trigger : window_event → Bool
  grabber : keyboard_event → Bool

/-- The state of a `native_window` that the queue and the dispatch read and write. -/
structure native_window where
  iEventQueue : List native_event
  iNonClientEntered : Bool
  iCurrentEvent : Option native_event
  iProcessingEvent : Nat
  notified : List notification
  deriving DecidableEq

/-- The test `e->is<window_event>() && e.type() == t` of line 101. -/
def is_window_event_of_type (t : window_event_type) : native_event → Bool
  | native_event.window e => decide (e.type = t)
  | _ => false

/-- Query `events_queued` (lines 85-88). -/
def events_queued (w : native_window) : Bool := !w.iEventQueue.isEmpty

/-- The loop of lines 99-105: every queued window event of type `t` is erased. -/
def erase_events_of_type (t : window_event_type) : List native_event → List native_event
  | [] => []
  | e :: rest =>
    if is_window_event_of_type t e = true then erase_events_of_type t rest
    else e :: erase_events_of_type t rest

/-- Operation `push_event` (lines 90-112). -/
def push_event (w : native_window) (aEvent : native_event) : native_window :=
  match aEvent with
  | native_event.window windowEvent =>
    if windowEvent.type = window_event_type.Resized ∨
        windowEvent.type = window_event_type.SizeChanged then
      { w with iEventQueue := erase_events_of_type windowEvent.type w.iEventQueue ++ [aEvent] }
    else { w with iEventQueue := w.iEventQueue ++ [aEvent] }
  | _ => { w with iEventQueue := w.iEventQueue ++ [aEvent] }

/-- The loop of lines 175-190, with `fuel` evaluations of its condition left: `kept`
holds the events the iterator has passed, the last argument the events from the
iterator on.  An event that is not a window event leaves the iterator where it is. -/
def erase_resize_events : Nat → List native_event → List native_event →
    Option (List native_event)
  | 0, _, _ => none
  | _ + 1, kept, [] => some kept
  | fuel + 1, kept, e :: rest =>
    match e with
    | native_event.window windowEvent =>
      if windowEvent.type = window_event_type.Resized ∨
          windowEvent.type = window_event_type.SizeChanged then
        erase_resize_events fuel kept rest
      else erase_resize_events fuel (kept ++ [e]) rest
    | _ => erase_resize_events fuel kept (e :: rest)

/-- The calls appended to `notified`. -/
def native_window.notify (w : native_window) (calls : List notification) : native_window :=
  { w with notified := w.notified ++ calls }

/-- The constructor of a `neolib::scoped_counter` on
`iProcessingEvent`. -/
def native_window.enter (w : native_window) : native_window :=
  { w with iProcessingEvent := w.iProcessingEvent + 1 }

/-- The destructor of a `neolib::scoped_counter` on `iProcessingEvent`. -/
def native_window.leave (w : native_window) : native_window :=
  { w with iProcessingEvent := w.iProcessingEvent - 1 }

/-- The `switch` of lines 164-225 on an accepted window event. -/
def dispatch_window_event (fuel : Nat) (w : native_window) (windowEvent : window_event) :
    Option native_window :=
  match windowEvent.type with
  | window_event_type.Paint => some (w.notify [notification.invalidate, notification.render])
  | window_event_type.Close => some (w.notify [notification.close])
  | window_event_type.Resizing =>
    (erase_resize_events fuel [] w.iEventQueue).map (fun q =>
      { w.notify [notification.native_window_resized] with iEventQueue := q })
  | window_event_type.Resized => some (w.notify [notification.native_window_resized])
  | window_event_type.SizeChanged => some (w.notify [notification.native_window_resized])
  | window_event_type.Enter =>
    some ({ w with iNonClientEntered := false }.notify
      [notification.native_window_mouse_entered windowEvent.data])
  | window_event_type.Leave => some (w.notify [notification.native_window_mouse_left])
  | window_event_type.NonClientEnter =>
    some ({ w with iNonClientEntered := true }.notify
      [notification.native_window_mouse_entered windowEvent.data])
  | window_event_type.NonClientLeave =>
    some ({ w with iNonClientEntered := false }.notify
      [notification.native_window_mouse_left])
  | window_event_type.FocusGained => some (w.notify [notification.native_window_focus_gained])
  | window_event_type.FocusLost => some (w.notify [notification.native_window_focus_lost])
  | window_event_type.TitleTextChanged =>
    some (w.notify [notification.native_window_title_text_changed])
  | window_event_type.other _ => some w

/-- The `switch` of lines 230-250 on a mouse event. -/
def dispatch_mouse_event (w : native_window) (mouseEvent : mouse_event) : native_window :=
  match mouseEvent.type with
  | mouse_event_type.WheelScrolled =>
    w.notify [notification.native_window_mouse_wheel_scrolled mouseEvent.data]
  | mouse_event_type.ButtonPressed =>
    w.notify [notification.native_window_mouse_button_pressed mouseEvent.data]
  | mouse_event_type.ButtonDoubleClicked =>
    w.notify [notification.native_window_mouse_button_double_clicked mouseEvent.data]
  | mouse_event_type.ButtonReleased =>
    w.notify [notification.native_window_mouse_button_released mouseEvent.data]
  | mouse_event_type.Moved => w.notify [notification.native_window_mouse_moved mouseEvent.data]
  | mouse_event_type.other _ => w

/-- The `switch` of lines 255-275 on a non-client mouse event. -/
def dispatch_non_client_mouse_event (w : native_window) (mouseEvent : mouse_event) :
    native_window :=
  match mouseEvent.type with
  | mouse_event_type.WheelScrolled =>
    w.notify [notification.native_window_non_client_mouse_wheel_scrolled mouseEvent.data]
  | mouse_event_type.ButtonPressed =>
    w.notify [notification.native_window_non_client_mouse_button_pressed mouseEvent.data]
  | mouse_event_type.ButtonDoubleClicked =>
    w.notify [notification.native_window_non_client_mouse_button_double_clicked mouseEvent.data]
  | mouse_event_type.ButtonReleased =>
    w.notify [notification.native_window_non_client_mouse_button_released mouseEvent.data]
  | mouse_event_type.Moved =>
    w.notify [notification.native_window_non_client_mouse_moved mouseEvent.data]
  | mouse_event_type.other _ => w

/-- The `switch` of lines 281-314 on a keyboard event: the event goes to the keyboard
and to the surface window unless the grabber takes it. -/
def dispatch_keyboard_event (hooks : dispatch_hooks) (w : native_window)
    (keyboardEvent : keyboard_event) : native_window :=
  match keyboardEvent.type with
  | keyboard_event_type.KeyPressed =>
    if hooks.grabber keyboardEvent = true then w
    else w.notify [notification.keyboard_key_pressed keyboardEvent.data,
      notification.native_window_key_pressed keyboardEvent.data]
  | keyboard_event_type.KeyReleased =>
    if hooks.grabber keyboardEvent = true then w
    else w.notify [notification.keyboard_key_released keyboardEvent.data,
      notification.native_window_key_released keyboardEvent.data]
  | keyboard_event_type.TextInput =>
    if hooks.grabber keyboardEvent = true then w
    else w.notify [notification.keyboard_text_input keyboardEvent.data,
      notification.native_window_text_input keyboardEvent.data]
  | keyboard_event_type.SysTextInput =>
    if hooks.grabber keyboardEvent = true then w
    else w.notify [notification.keyboard_sys_text_input keyboardEvent.data,
      notification.native_window_sys_text_input keyboardEvent.data]
  | keyboard_event_type.other _ => w

/-- Lines 153-315 of `handle_event()`, on the current event `e`. -/
def dispatch_current_event (hooks : dispatch_hooks) (fuel : Nat) (w : native_window)
    (e : native_event) : Option native_window :=
  if hooks.filter_event e = false then some w
  else
    match e with
    | native_event.window windowEvent =>
      if hooks.window_event_trigger windowEvent = false then some w
      else dispatch_window_event fuel w windowEvent
    | native_event.mouse mouseEvent => some (dispatch_mouse_event w mouseEvent)
    | native_event.non_client_mouse mouseEvent =>
      some (dispatch_non_client_mouse_event w mouseEvent)
    | native_event.keyboard keyboardEvent =>
      some (dispatch_keyboard_event hooks w keyboardEvent)

/-- Operation `handle_event(aEvent)` (lines 125-135) with the `handle_event()` it calls
(lines 149-318). -/
def handle_event (hooks : dispatch_hooks) (fuel : Nat) (w : native_window)
    (aEvent : native_event) : Option native_window :=
  (dispatch_current_event hooks fuel
      ({ w.enter with iCurrentEvent := some aEvent }).enter aEvent).map
    (fun w1 => { w1.leave with iCurrentEvent := none }.leave)

/-- Operation `pump_event` (lines 114-123): the state it leaves and the value it
returns. -/
def pump_event (hooks : dispatch_hooks) (fuel : Nat) (w : native_window) :
    Option (native_window × Bool) :=
  match w.iEventQueue with
  | [] => some (w.enter.leave, false)
  | e :: rest =>
    (handle_event hooks fuel { w.enter with iEventQueue := rest } e).map
      (fun w1 => (w1.leave, true))

/-! ### Vocabulary of the event queue statements -/

/-- A call of one of the three operations of the queue. -/
inductive window_call where
  | push_event (e : native_event)
  | pump_event
  | handle_event (e : native_event)
  deriving DecidableEq

/-- A sequence of calls, each one run with `fuel`; `none` when one of them does not
return. -/
def run_calls (hooks : dispatch_hooks) (fuel : Nat) :
    List window_call → native_window → Option native_window
  | [], w => some w
  | window_call.push_event e :: rest, w => run_calls hooks fuel rest (push_event w e)
  | window_call.pump_event :: rest, w =>
    match pump_event hooks fuel w with
    | some r => run_calls hooks fuel rest r.1
    | none => none
  | window_call.handle_event e :: rest, w =>
    match handle_event hooks fuel w e with
    | some w1 => run_calls hooks fuel rest w1
    | none => none

/-- A native window with an empty queue and nothing notified. -/
def idle_window : native_window := ⟨[], false, none, 0, []⟩

/-- Hooks that accept every event and a grabber that takes none. -/
def accepting_hooks : dispatch_hooks := ⟨fun _ => true, fun _ => true, fun _ => false⟩

/-- Hooks whose filter rejects every event. -/
def rejecting_hooks : dispatch_hooks := ⟨fun _ => false, fun _ => true, fun _ => false⟩

/-- A window event of the given type. -/
def window_event_of (t : window_event_type) (data : Nat) : native_event :=
  native_event.window ⟨t, data⟩

/-- A mouse event `Moved`. -/
def mouse_moved (data : Nat) : native_event :=
  native_event.mouse ⟨mouse_event_type.Moved, data⟩

/-- The number of queued window events of type `t`. -/
def queued_of_type (t : window_event_type) (w : native_window) : Nat :=
  w.iEventQueue.countP (is_window_event_of_type t)

/-- Whether an event is a window event. -/
def native_event.is_window_event : native_event → Bool
  | native_event.window _ => true
  | _ => false

/-- Whether `x` is a window event of the same type as the window event `e`. -/
def same_window_type (e x : native_event) : Bool :=
  match e, x with
  | native_event.window a, native_event.window b => decide (b.type = a.type)
  | _, _ => false

/-- Whether an event is a window event `Resized` or `SizeChanged`. -/
def is_resize_notice (e : native_event) : Bool :=
  is_window_event_of_type window_event_type.Resized e ||
    is_window_event_of_type window_event_type.SizeChanged e

/-! ## Vocabulary of the statements about the classification loop -/

/-- The sum of the primary weights of the entries that ended up `Weighted`. -/
def weighted_weight (p : AxisPolicy) : List (item × disposition_e) → ℚ
  | [] => 0
  | x :: rest => (if is_weighted x = true then p.cx x.1.weight else 0) + weighted_weight p rest

/-- An expanding candidate is a visible item whose primary size policy is neither
`Minimum` nor `Fixed` (the `else` branch of lines 121-125). -/
def is_expanding_candidate (p : AxisPolicy) (it : item) : Bool :=
  it.visible && !decide (p.size_policy_x it.size_policy = size_policy_e.Minimum) &&
    !decide (p.size_policy_x it.size_policy = size_policy_e.Fixed)

/-- The number of expanding candidates of a layout. -/
def expanding_candidates (p : AxisPolicy) (l : layout) : Nat :=
  l.items.countP (is_expanding_candidate p)

/-- The value of `itemsUsingLeftover` at the start of every pass that the `while` loop
of lines 130-157 makes when it is allowed at most `fuel` passes. -/
def pass_counts (p : AxisPolicy) :
    Nat → List (item × disposition_e) → solver_state → List Nat
  | 0, _, _ => []
  | fuel + 1, ds, st =>
    if st.done = false ∧ 0 < st.itemsUsingLeftover then
      st.itemsUsingLeftover ::
        pass_counts p fuel (resolve_pass p ds { st with done := true }).1
          (resolve_pass p ds { st with done := true }).2
    else []

/-- Whether a dimension is a whole number. -/
def is_whole (d : ℚ) : Bool := decide (d.den = 1)

/-- Three Expanding widgets of weight 1 whose maxima are 10, 30 and 1000. -/
def staggered_maxima_layout : layout :=
  plain_layout [square_widget size_policy_e.Expanding 1 0 10,
    square_widget size_policy_e.Expanding 1 0 30,
    square_widget size_policy_e.Expanding 1 0 1000] alignment.VCentre

/-! ## Vocabulary of the statements about the cursor and the spacing count -/

/-- The margin added to the primary coordinate of the cursor at lines 169-170. -/
def leading_primary_margin : AxisPolicy → margins → ℚ
  | AxisPolicy.column_major, m => m.left
  | AxisPolicy.row_major, m => m.top

/-- The advance of the cursor in the words of the spec: a spacer advances it by its
primary extent, plus the spacing when always-use-spacing is set; another item whose
primary or orthogonal extent is zero advances it by nothing; any other item advances it
by its primary extent plus the spacing. -/
def claimed_advance (p : AxisPolicy) (l : layout) (it : item) (s : size) : ℚ :=
  if it.kind = item_kind.spacer then
    p.cx s + (if l.iAlwaysUseSpacing = true then p.cx l.spacing else 0)
  else if p.cx s = 0 ∨ p.cy s = 0 then 0
  else p.cx s + p.cx l.spacing

/-- The sum of the advances claimed for the items of a list, each with the size it was
laid out with; an item that was not laid out advances nothing. -/
def cursor_travel (p : AxisPolicy) (l : layout) : List (item × Option (point × size)) → ℚ
  | [] => 0
  | (it, some r) :: rest => claimed_advance p l it r.2 + cursor_travel p l rest
  | (_, none) :: rest => cursor_travel p l rest

/-- A spacer and two widgets, the second of zero minimum, with a spacing of 5 and
always-use-spacing off. -/
def cursor_example_layout : layout :=
  ⟨[⟨item_kind.spacer, true, ⟨size_policy_e.Fixed, size_policy_e.Fixed⟩, ⟨1, 1⟩,
      ⟨7, 0⟩, ⟨7, 0⟩⟩,
    square_widget size_policy_e.Fixed 1 10 10,
    square_widget size_policy_e.Fixed 1 0 0,
    square_widget size_policy_e.Fixed 1 20 20],
   ⟨3, 4, 0, 0⟩, ⟨5, 5⟩, alignment.Top, false, ⟨0, 0⟩, ⟨0, 0⟩, ⟨0, 0⟩⟩

/-! ## Grid layout: spans and the reads of the layout pass -/

/-- Operation `add_span(aFrom, aTo)` (lines 351-356): the span is appended; the request
for a layout of the owner acts on state outside the grid. -/
def add_span (g : grid_layout) (aFrom aTo : cell_coordinates) : grid_layout :=
  { g with iSpans := g.iSpans ++ [(aFrom, aTo)] }

/-- Operation `add_span(aRowFrom, aColumnFrom, aRows, aColumns)` (lines 346-349), the
sums being `uint32_t` arithmetic. -/
def add_span_of_extent (g : grid_layout) (aRowFrom aColumnFrom aRows aColumns : Nat) :
    grid_layout :=
  add_span g ⟨aColumnFrom, aRowFrom⟩
    ⟨(aColumnFrom + aColumns + 4294967295) % 4294967296,
     (aRowFrom + aRows + 4294967295) % 4294967296⟩

/-- The loop of lines 435-447 over `col2` with the read of `maxColWidth[col2]` checked:
`none` when the index is not below the length of the vector. -/
def span_columns_checked (w : List ℚ) (h : ℚ) (sx : ℚ) (s : span) (row2 : Nat) :
    Nat → Nat → point → span_walk → Option span_walk
  | 0, _, _, st => some st
  | n + 1, col2, colPos2, st =>
    if st.foundSpan then some st
    else
      match w[col2]? with
      | none => none
      | some wc =>
        span_columns_checked w h sx s row2 n (col2 + 1) ⟨colPos2.x + wc + sx, colPos2.y⟩
          (span_cell s row2 col2 colPos2 wc h st)

/-- The loop of lines 432-450 over `row2` with the reads checked.  Every turn of the loop
reads `maxRowHeight[row2]` at line 448, so the read is made at the head of the turn. -/
def span_rows_checked (w h : List ℚ) (spacing : size) (s : span) :
    Nat → Nat → point → span_walk → Option span_walk
  | 0, _, _, st => some st
  | n + 1, row2, rowPos2, st =>
    if st.foundSpan then some st
    else
      match h[row2]? with
      | none => none
      | some hr =>
        match span_columns_checked w hr spacing.cx s row2 (s.2.x + 1) 0 rowPos2 st with
        | none => none
        | some st1 =>
          span_rows_checked w h spacing s n (row2 + 1)
            ⟨rowPos2.x, rowPos2.y + hr + spacing.cy⟩ st1

/-- One turn of the loop of lines 424-452 with the reads checked: the walk is made for
a span that contains the cell `(col, row)`. -/
def span_step_checked (w h : List ℚ) (spacing : size) (availablePos : point)
    (row col : Nat) (r : Option span_walk) (s : span) : Option span_walk :=
  match r with
  | none => none
  | some st =>
    if span_contains s ⟨col, row⟩ then
      span_rows_checked w h spacing s (s.2.y + 1) 0 availablePos
        ⟨⟨0, 0⟩, st.foundSpan, st.call⟩
    else some st

/-- The loop of lines 424-452 over the spans with the reads checked. -/
def span_search_checked (w h : List ℚ) (spacing : size) (availablePos : point)
    (row col : Nat) (spans : List span) : Option span_walk :=
  spans.foldl (span_step_checked w h spacing availablePos row col)
    (some ⟨⟨0, 0⟩, false, none⟩)

/-- Whether the span walks made for an occupied cell `(col, row)` read the two vectors
within their bounds. -/
def cell_reads_within_bounds (w h : List ℚ) (spacing : size) (availablePos : point)
    (row col : Nat) (spans : List span) : Bool :=
  (span_search_checked w h spacing availablePos row col spans).isSome

/-- Whether every read of `maxRowHeight` and `maxColWidth` made by the loops of lines
411-461 is within bounds.  The loops themselves read `maxRowHeight[row]` and
`maxColWidth[col]` below `iDimensions`, the lengths of the vectors; the span walk is
made for every occupied cell they reach, i.e. in a row and a column that are not zero. -/
def reads_within_bounds (extents : item_ref → size) (g : grid_layout)
    (aPosition : point) : Bool :=
  (List.range g.iDimensions.cy).all (fun row =>
    (List.range g.iDimensions.cx).all (fun col =>
      decide ((maxRowHeight extents g).getD row 0 = 0) ||
      decide ((maxColWidth extents g).getD col 0 = 0) ||
      (cells_find g.iCells ⟨col, row⟩).isNone ||
      cell_reads_within_bounds (maxColWidth extents g) (maxRowHeight extents g) g.spacing
        ⟨aPosition.x + g.margins.left, aPosition.y + g.margins.top⟩ row col g.iSpans))

/-- The offset of entry `n` in the loops of lines 411-461: an earlier entry that is zero
is skipped, every other one advances by its value plus the spacing. -/
def skipping_offset (v : List ℚ) (spacing : ℚ) : Nat → ℚ
  | 0 => 0
  | n + 1 =>
    skipping_offset v spacing n + (if v.getD n 0 = 0 then 0 else v.getD n 0 + spacing)

/-- A grid of one row and one column holding `external 1`, with a span registered over
rows 0-1 and columns 0-1. -/
def overhanging_span_grid : grid_layout :=
  add_span (add_item_at_position list_row_operations (grid_layout.constructed 0 0)
    0 0 (item_ref.external 1)).state ⟨0, 0⟩ ⟨1, 1⟩

/-- Extents that give every item the size (20, 20). -/
def uniform_extents : item_ref → size := fun _ => ⟨20, 20⟩

/-- A grid of one row and three columns with spacing 2: `external 1`, `external 2` and
`external 3` in columns 0, 1 and 2, and a span over columns 1-2 of row 0. -/
def zero_column_span_grid : grid_layout :=
  { add_span (add_all list_row_operations
      [item_ref.external 1, item_ref.external 2, item_ref.external 3]
      (grid_layout.constructed 0 3)).state ⟨1, 0⟩ ⟨2, 0⟩ with
    spacing := ⟨2, 2⟩ }

/-- The extents of the items of `zero_column_span_grid` after the row container pass:
`external 1` has width zero, the other two have width 22 and all have height 10. -/
def zero_column_extents : item_ref → size
  | item_ref.external 1 => ⟨0, 10⟩
  | _ => ⟨22, 10⟩

/-- A grid of two rows and three columns without spans and with spacing 2 and margins
(1, 2, 0, 0); the occupants of column 1 have width zero. -/
def skipped_column_grid : grid_layout :=
  { (add_all list_row_operations
      [item_ref.external 1, item_ref.external 2, item_ref.external 3,
       item_ref.external 4, item_ref.external 5, item_ref.external 6]
      (grid_layout.constructed 0 3)).state with
    spacing := ⟨2, 2⟩
    margins := ⟨1, 2, 0, 0⟩ }

/-- The extents of the items of `skipped_column_grid`: widths 10, 0 and 30 in columns 0,
1 and 2, heights 5 in row 0 and 8 in row 1. -/
def skipped_column_extents : item_ref → size
  | item_ref.external 1 => ⟨10, 5⟩
  | item_ref.external 2 => ⟨0, 5⟩
  | item_ref.external 3 => ⟨30, 5⟩
  | item_ref.external 4 => ⟨10, 8⟩
  | item_ref.external 5 => ⟨0, 8⟩
  | item_ref.external 6 => ⟨30, 8⟩
  | _ => ⟨0, 0⟩

/-! ## The legacy solver `horizontal_layout::layout_items` (`horizontal_layout.cpp`)

Conventions of the embedding.

* The comparison `item.size_policy() == size_policy::Expanding` and the query
  `item.is_fixed_size()` are declared outside the sources; their answers are the
  parameters `item_queries`.  The constant
  `std::numeric_limits<size::dimension_type>::max()` is the parameter `max_value`.
* `itemsVisible - itemsZeroSized` is `uint32_t` arithmetic (`u32sub`);
  `itemsNotUsingLeftover` is a `std::size_t`, so that `++`, `--` and
  `itemsVisible - itemsNotUsingLeftover` are taken modulo `2 ^ 64`.
* `eachLeftover` is the floor of a quotient whose divisor can be zero; it is carried
  as an `fvalue`.  `leftover` only ever receives sums and differences of finite values.
* `itemDispositions` is carried as a list parallel to `items()` and
  `expandersUsingLeftover` as the list of the indices of its members.
* The `while (!done)` loop is run with fuel; the embedding returns `none` when the fuel
  is used up.  The calls on the owner and the placement loop of lines 236-299 are not
  embedded.
-/

/-- The answers of the item queries that are declared outside the sources. -/
structure item_queries where
  expanding : item → Bool
  is_fixed_size : item → Bool

/-- The state of a `horizontal_layout` that `minimum_size` and `layout_items` read:
`base_minimum_size` is the answer of `layout::minimum_size()`. -/
structure horizontal_layout where
  items : List item
  margins : margins
  spacing : size
  enabled : Bool
  base_minimum_size : size
  deriving DecidableEq

/-- Modelled from the spec: `layout::items_visible` (defined outside the sources) counts
the visible items whose variant is selected by the argument. -/
def horizontal_layout.items_visible (l : horizontal_layout) (t : item_type_e) : Nat :=
  l.items.countP (fun it => it.visible && t.selects it.kind)

/-- The loop of lines 67-78 of `minimum_size`: the number of zero-sized items and the
sizes of the others, the widths added up and the heights maximised. -/
def minimum_size_loop : List item → Nat × size → Nat × size
  | [], r => r
  | it :: rest, r =>
    if it.visible = false then minimum_size_loop rest r
    else if it.kind ≠ item_kind.spacer ∧ (it.minimum_size.cx = 0 ∨ it.minimum_size.cy = 0) then
      minimum_size_loop rest (r.1 + 1, r.2)
    else
      minimum_size_loop rest
        (r.1, ⟨r.2.cx + it.minimum_size.cx, max r.2.cy it.minimum_size.cy⟩)

/-- Query `horizontal_layout::minimum_size` (lines 60-86). -/
def horizontal_layout.minimum_size (max_value : ℚ) (l : horizontal_layout) : size :=
  if l.items_visible ItemTypeWidgetOrLayout = 0 then ⟨0, 0⟩
  else
    let r := minimum_size_loop l.items (0, ⟨0, 0⟩)
    let cx := r.2.cx + (l.margins.left + l.margins.right)
    let cy := r.2.cy + (l.margins.top + l.margins.bottom)
    let n := u32sub (l.items_visible ItemTypeWidgetOrLayout) r.1
    ⟨max (if cx ≠ max_value ∧ n > 0 then cx + l.spacing.cx * ((u32sub n 1 : ℕ) : ℚ) else cx)
        l.base_minimum_size.cx,
     max cy l.base_minimum_size.cy⟩

/-- The local `itemsZeroSized` after lines 130-140. -/
def itemsZeroSized (max_value : ℚ) (l : horizontal_layout) (aSize : size) : Nat :=
  if aSize.cx ≤ (l.minimum_size max_value).cx ∨ l.items_visible ItemTypeSpacerOnly ≠ 0 then
    l.items.countP (fun it =>
      it.visible && (decide (it.kind ≠ item_kind.spacer) &&
        (decide (it.minimum_size.cx = 0) || decide (it.minimum_size.cy = 0))))
  else 0

/-- The local `leftover` of line 143: the available width after lines 127-142. -/
def initial_leftover (max_value : ℚ) (l : horizontal_layout) (aSize : size) : ℚ :=
  if u32sub (l.items_visible ItemTypeWidgetOrLayout) (itemsZeroSized max_value l aSize) > 1 then
    aSize.cx - (l.margins.left + l.margins.right) -
      l.spacing.cx * ((u32sub (u32sub (l.items_visible ItemTypeWidgetOrLayout)
        (itemsZeroSized max_value l aSize)) 1 : ℕ) : ℚ)
  else aSize.cx - (l.margins.left + l.margins.right)

/-- The function `std::floor` on a value that may be special. -/
def ffloor : fvalue → fvalue
  | fvalue.finite q => fvalue.finite ((Int.floor q : ℤ) : ℚ)
  | v => v

/-- The local `eachLeftover` of line 144: `std::floor(leftover / itemsVisible)`. -/
def initial_eachLeftover (max_value : ℚ) (l : horizontal_layout) (aSize : size) : fvalue :=
  ffloor (fdiv (initial_leftover max_value l aSize)
    ((l.items_visible ItemTypeWidgetOrLayout : ℕ) : ℚ))

/-- The dispositions of the legacy solver (line 146). -/
inductive legacy_disposition where
  | Unknown
  | Normal
  | TooSmall
  | TooBig
  | FixedSize
  deriving DecidableEq

/-- The local variables that the `while` loop of lines 151-235 carries. -/
structure legacy_state where
  itemDispositions : List legacy_disposition
  expandersUsingLeftover : List Nat
  itemsNotUsingLeftover : Nat
  leftover : ℚ
  eachLeftover : fvalue
  totalExpanderWeight : size
  done : Bool
  deriving DecidableEq

/-- The divisor `itemsVisible - itemsNotUsingLeftover` of lines 200, 215 and 231. -/
def leftover_divisor (itemsVisible : Nat) (st : legacy_state) : Nat :=
  (itemsVisible + 18446744073709551616 - st.itemsNotUsingLeftover % 18446744073709551616)
    % 18446744073709551616

/-- The statement `if (expandersUsingLeftover.empty()) eachLeftover = std::floor(leftover
/ (itemsVisible - itemsNotUsingLeftover));` of lines 199-200, 214-215 and 230-231. -/
def recompute_eachLeftover (itemsVisible : Nat) (st : legacy_state) : legacy_state :=
  if st.expandersUsingLeftover = [] then
    { st with eachLeftover :=
        ffloor (fdiv st.leftover ((leftover_divisor itemsVisible st : ℕ) : ℚ)) }
  else st

/-- The statement `++itemsNotUsingLeftover`. -/
def count_up (st : legacy_state) : legacy_state :=
  { st with itemsNotUsingLeftover := (st.itemsNotUsingLeftover + 1) % 18446744073709551616 }

/-- The statement `--itemsNotUsingLeftover`. -/
def count_down (st : legacy_state) : legacy_state :=
  { st with itemsNotUsingLeftover :=
      (st.itemsNotUsingLeftover + 18446744073709551615) % 18446744073709551616 }

/-- The disposition `itemDispositions[&item]` of the item at index `i`. -/
def legacy_state.disposition (st : legacy_state) (i : Nat) : legacy_disposition :=
  st.itemDispositions.getD i legacy_disposition.Unknown

/-- The assignment `itemDispositions[&item] = d` for the item at index `i`. -/
def legacy_state.set_disposition (st : legacy_state) (i : Nat) (d : legacy_disposition) :
    legacy_state :=
  { st with itemDispositions := st.itemDispositions.set i d }

/-- Lines 163-173: an Expanding item whose maximum width reaches the leftover joins
`expandersUsingLeftover`; the first one to join resets the other variables. -/
def join_expanders (availableWidth : ℚ) (it : item) (i : Nat) (st : legacy_state) :
    legacy_state :=
  let st1 : legacy_state :=
    if st.expandersUsingLeftover = [] then
      { st with itemDispositions := st.itemDispositions.map (fun _ => legacy_disposition.Unknown)
                itemsNotUsingLeftover := 0
                leftover := availableWidth
                totalExpanderWeight := ⟨0, 0⟩
                eachLeftover := fvalue.finite 0 }
    else st
  { st1 with expandersUsingLeftover := st1.expandersUsingLeftover ++ [i]
             totalExpanderWeight := st1.totalExpanderWeight.add it.weight
             done := false }

/-- Lines 178-187: an item that is not Expanding, once there are expanders. -/
def beside_expanders (it : item) (i : Nat) (wasItemUsingLeftOver : Bool)
    (st : legacy_state) : legacy_state :=
  if st.disposition i ≠ legacy_disposition.TooBig then
    let st1 : legacy_state :=
      if st.disposition i = legacy_disposition.TooSmall then
        { st with leftover := st.leftover + it.maximum_size.cx }
      else st
    let st2 := st1.set_disposition i legacy_disposition.TooBig
    let st3 := if wasItemUsingLeftOver then count_up st2 else st2
    { st3 with leftover := st3.leftover - it.minimum_size.cx, done := false }
  else st

/-- Lines 191-202: an item whose maximum width is below `eachLeftover`. -/
def below_each (q : item_queries) (itemsVisible : Nat) (it : item) (i : Nat)
    (wasItemUsingLeftOver : Bool) (st : legacy_state) : legacy_state :=
  if st.disposition i ≠ legacy_disposition.TooSmall ∧
      st.disposition i ≠ legacy_disposition.Normal ∧
      st.disposition i ≠ legacy_disposition.FixedSize then
    let st1 : legacy_state :=
      if st.disposition i = legacy_disposition.TooBig then
        { st with leftover := st.leftover + it.minimum_size.cx }
      else st
    let st2 := st1.set_disposition i
      (if q.is_fixed_size it then legacy_disposition.FixedSize else legacy_disposition.TooSmall)
    let st3 := if wasItemUsingLeftOver then count_up st2 else st2
    let st4 : legacy_state := { st3 with leftover := st3.leftover - it.maximum_size.cx }
    { recompute_eachLeftover itemsVisible st4 with done := false }
  else st

/-- Lines 206-217: an item whose minimum width is above `eachLeftover`. -/
def above_each (q : item_queries) (itemsVisible : Nat) (it : item) (i : Nat)
    (wasItemUsingLeftOver : Bool) (st : legacy_state) : legacy_state :=
  if st.disposition i ≠ legacy_disposition.TooBig ∧
      st.disposition i ≠ legacy_disposition.FixedSize then
    let st1 : legacy_state :=
      if st.disposition i = legacy_disposition.TooSmall then
        { st with leftover := st.leftover + it.maximum_size.cx }
      else st
    let st2 := st1.set_disposition i
      (if q.is_fixed_size it then legacy_disposition.FixedSize else legacy_disposition.TooBig)
    let st3 := if wasItemUsingLeftOver then count_up st2 else st2
    let st4 : legacy_state := { st3 with leftover := st3.leftover - it.minimum_size.cx }
    { recompute_eachLeftover itemsVisible st4 with done := false }
  else st

/-- Lines 221-232: an item that `eachLeftover` fits and that is neither `Normal` nor
`FixedSize` yet. -/
def within_each (q : item_queries) (itemsVisible : Nat) (it : item) (i : Nat)
    (wasItemUsingLeftOver : Bool) (st : legacy_state) : legacy_state :=
  let st1 : legacy_state :=
    if st.disposition i = legacy_disposition.TooSmall then
      { st with leftover := st.leftover + it.maximum_size.cx }
    else if st.disposition i = legacy_disposition.TooBig then
      { st with leftover := st.leftover + it.minimum_size.cx }
    else st
  let st2 := st1.set_disposition i
    (if q.is_fixed_size it then legacy_disposition.FixedSize else legacy_disposition.Normal)
  let st3 :=
    if wasItemUsingLeftOver = true ∧ q.is_fixed_size it = true then count_up st2
    else if wasItemUsingLeftOver = false ∧ q.is_fixed_size it = false then count_down st2
    else st2
  { recompute_eachLeftover itemsVisible st3 with done := false }

/-- One execution of the `for` loop of lines 154-234 from the item of index `i` on.  The
`break` of line 174 leaves the remaining items untouched. -/
def legacy_pass (q : item_queries) (itemsVisible : Nat) (availableWidth : ℚ) :
    List item → Nat → legacy_state → legacy_state
  | [], _, st => st
  | it :: rest, i, st =>
    if it.visible = false then legacy_pass q itemsVisible availableWidth rest (i + 1) st
    else if i ∈ st.expandersUsingLeftover then
      legacy_pass q itemsVisible availableWidth rest (i + 1) st
    else if q.expanding it = true ∧ it.maximum_size.cx ≥ st.leftover then
      join_expanders availableWidth it i st
    else if q.expanding it = false ∧ st.expandersUsingLeftover ≠ [] then
      legacy_pass q itemsVisible availableWidth rest (i + 1)
        (beside_expanders it i
          (decide (st.disposition i = legacy_disposition.Unknown ∨
            st.disposition i = legacy_disposition.Normal)) st)
    else if flt it.maximum_size.cx st.eachLeftover = true then
      legacy_pass q itemsVisible availableWidth rest (i + 1)
        (below_each q itemsVisible it i
          (decide (st.disposition i = legacy_disposition.Unknown ∨
            st.disposition i = legacy_disposition.Normal)) st)
    else if fgt it.minimum_size.cx st.eachLeftover = true then
      legacy_pass q itemsVisible availableWidth rest (i + 1)
        (above_each q itemsVisible it i
          (decide (st.disposition i = legacy_disposition.Unknown ∨
            st.disposition i = legacy_disposition.Normal)) st)
    else if st.disposition i ≠ legacy_disposition.Normal ∧
        st.disposition i ≠ legacy_disposition.FixedSize then
      legacy_pass q itemsVisible availableWidth rest (i + 1)
        (within_each q itemsVisible it i
          (decide (st.disposition i = legacy_disposition.Unknown ∨
            st.disposition i = legacy_disposition.Normal)) st)
    else legacy_pass q itemsVisible availableWidth rest (i + 1) st

/-- The `while (!done)` loop of lines 151-235 with `fuel` passes allowed. -/
def legacy_loop (q : item_queries) (itemsVisible : Nat) (availableWidth : ℚ)
    (items : List item) : Nat → legacy_state → Option legacy_state
  | 0, _ => none
  | fuel + 1, st =>
    if st.done = true then some st
    else legacy_loop q itemsVisible availableWidth items fuel
      (legacy_pass q itemsVisible availableWidth items 0 { st with done := true })

/-- The local variables of `layout_items` at line 150, before the `while` loop. -/
def legacy_initial_state (max_value : ℚ) (l : horizontal_layout) (aSize : size) :
    legacy_state :=
  { itemDispositions := l.items.map (fun _ => legacy_disposition.Unknown)
    expandersUsingLeftover := []
    itemsNotUsingLeftover := 0
    leftover := initial_leftover max_value l aSize
    eachLeftover := initial_eachLeftover max_value l aSize
    totalExpanderWeight := ⟨0, 0⟩
    done := false }

/-- Lines 118-235 of `horizontal_layout::layout_items`: the local variables when the
`while` loop has ended; `some none` when the function returns at line 121 or 124, and
`none` when the fuel is used up. -/
def legacy_classification (q : item_queries) (max_value : ℚ) (fuel : Nat)
    (l : horizontal_layout) (aSize : size) : Option (Option legacy_state) :=
  if l.enabled = false then some none
  else if l.items_visible ItemTypeAll = 0 then some none
  else
    (legacy_loop q (l.items_visible ItemTypeWidgetOrLayout)
      (initial_leftover max_value l aSize) l.items fuel
      (legacy_initial_state max_value l aSize)).map some

/-- Item queries that read the size policy of both axes: an item is Expanding when both
policies are, and of fixed size when both are Fixed. -/
def policy_queries : item_queries :=
  ⟨fun it => decide (it.size_policy = ⟨size_policy_e.Expanding, size_policy_e.Expanding⟩),
   fun it => decide (it.size_policy = ⟨size_policy_e.Fixed, size_policy_e.Fixed⟩)⟩

/-- A horizontal layout whose only item is a visible spacer. -/
def only_spacer_layout : horizontal_layout :=
  ⟨[⟨item_kind.spacer, true, ⟨size_policy_e.Minimum, size_policy_e.Minimum⟩, ⟨1, 1⟩,
      ⟨0, 0⟩, ⟨1000, 1000⟩⟩], ⟨0, 0, 0, 0⟩, ⟨0, 0⟩, true, ⟨0, 0⟩⟩

/-- A horizontal layout whose only item is a visible widget of Minimum policy with
minimum width 5 and maximum width 5. -/
def small_widget_layout : horizontal_layout :=
  ⟨[square_widget size_policy_e.Minimum 1 5 5], ⟨0, 0, 0, 0⟩, ⟨0, 0⟩, true, ⟨0, 0⟩⟩

/-! ## Further example layouts of the solver statements -/

/-- Two Expanding widgets of weight -1, minimum 0 and maximum 1000. -/
def negative_weights_layout : layout :=
  plain_layout [square_widget size_policy_e.Expanding (-1) 0 1000,
    square_widget size_policy_e.Expanding (-1) 0 1000] alignment.VCentre

/-- A Fixed widget of minimum 100 followed by an Expanding widget of weight 1 whose
primary minimum is -5. -/
def negative_minimum_layout : layout :=
  plain_layout [square_widget size_policy_e.Fixed 1 100 100,
    ⟨item_kind.widget, true, ⟨size_policy_e.Expanding, size_policy_e.Expanding⟩, ⟨1, 1⟩,
      ⟨-5, 10⟩, ⟨1000, 1000⟩⟩] alignment.VCentre

/-- A Fixed widget of minimum 50 followed by an Expanding spacer, with a spacing of 5,
no margins and always-use-spacing off. -/
def widget_then_spacer_layout : layout :=
  ⟨[square_widget size_policy_e.Fixed 1 50 50,
    ⟨item_kind.spacer, true, ⟨size_policy_e.Expanding, size_policy_e.Minimum⟩, ⟨1, 1⟩,
      ⟨0, 0⟩, ⟨1000, 1000⟩⟩],
   ⟨0, 0, 0, 0⟩, ⟨5, 5⟩, alignment.Top, false, ⟨0, 0⟩, ⟨0, 0⟩, ⟨0, 0⟩⟩

/-- An Expanding widget of primary minimum 0 followed by an Expanding spacer, with a
spacing of 5, no margins and always-use-spacing on. -/
def zero_minimum_then_spacer_layout : layout :=
  ⟨[⟨item_kind.widget, true, ⟨size_policy_e.Expanding, size_policy_e.Expanding⟩, ⟨1, 1⟩,
      ⟨0, 10⟩, ⟨1000, 1000⟩⟩,
    ⟨item_kind.spacer, true, ⟨size_policy_e.Expanding, size_policy_e.Minimum⟩, ⟨1, 1⟩,
      ⟨0, 0⟩, ⟨1000, 1000⟩⟩],
   ⟨0, 0, 0, 0⟩, ⟨5, 5⟩, alignment.Top, true, ⟨0, 0⟩, ⟨0, 0⟩, ⟨0, 0⟩⟩

/-- The spacing that lines 210-214 add to the cursor after an item laid out with size `s`:
nothing after an item other than a spacer whose primary or orthogonal extent is zero
(the `continue` of line 211), the spacing after any other item that is not a spacer, and
after a spacer only when always-use-spacing is set (line 213). -/
def spacing_after (p : AxisPolicy) (l : layout) (it : item) (s : size) : ℚ :=
  if it.kind ≠ item_kind.spacer ∧ (p.cx s = 0 ∨ p.cy s = 0) then 0
  else if it.kind ≠ item_kind.spacer ∨ l.iAlwaysUseSpacing = true then p.cx l.spacing
  else 0

/-- The spacing inserted between the items: the spacing added to the cursor after every
item that was laid out and is followed by another item that was laid out. -/
def spacing_inserted (p : AxisPolicy) (l : layout) :
    List (item × Option (point × size)) → ℚ
  | [] => 0
  | (it, some r) :: rest =>
    (if rest.any (fun x => x.2.isSome) then spacing_after p l it r.2 else 0)
      + spacing_inserted p l rest
  | (_, none) :: rest => spacing_inserted p l rest

/-- An Expanding widget of weight 100, minimum 10 and maximum 90 followed by an Expanding
widget of weight 1, minimum 50 and maximum 1000. -/
def greedy_maximum_layout : layout :=
  plain_layout [square_widget size_policy_e.Expanding 100 10 90,
    square_widget size_policy_e.Expanding 1 50 1000] alignment.VCentre

/-- A Fixed widget of primary minimum -50, an Expanding widget of weight 100, minimum 0
and maximum 120, and an Expanding widget of weight 1, minimum 40 and maximum 1000. -/
def negative_fixed_layout : layout :=
  plain_layout [⟨item_kind.widget, true, ⟨size_policy_e.Fixed, size_policy_e.Fixed⟩, ⟨1, 1⟩,
      ⟨-50, 10⟩, ⟨1000, 1000⟩⟩,
    square_widget size_policy_e.Expanding 100 0 120,
    square_widget size_policy_e.Expanding 1 40 1000] alignment.VCentre

/-- A Fixed widget of primary minimum 0 followed by an Expanding widget of minimum 1, with
a spacing of -5 and no margins. -/
def negative_spacing_layout : layout :=
  ⟨[⟨item_kind.widget, true, ⟨size_policy_e.Fixed, size_policy_e.Fixed⟩, ⟨1, 1⟩,
      ⟨0, 10⟩, ⟨1000, 1000⟩⟩,
    square_widget size_policy_e.Expanding 1 1 1000],
   ⟨0, 0, 0, 0⟩, ⟨-5, -5⟩, alignment.Top, false, ⟨0, 0⟩, ⟨0, 0⟩, ⟨0, 0⟩⟩

/-- A Fixed widget of minimum 10 followed by an Expanding widget of minimum 1, with a
spacing of 5, a left margin of 1 and a right margin of 2. -/
def spaced_pair_layout : layout :=
  ⟨[square_widget size_policy_e.Fixed 1 10 10,
    square_widget size_policy_e.Expanding 1 1 1000],
   ⟨1, 0, 2, 0⟩, ⟨5, 5⟩, alignment.Top, false, ⟨0, 0⟩, ⟨0, 0⟩, ⟨0, 0⟩⟩

/-! ## Example items of the grid statements -/

/-- The items of `two_cell_grid`: two visible widgets of minimum size (10, 10). -/
def two_cell_items : item_ref → item
  | item_ref.external 1 => grid_widget ⟨10, 10⟩ ⟨100, 100⟩
  | item_ref.external 2 => grid_widget ⟨10, 10⟩ ⟨100, 100⟩
  | _ => grid_widget ⟨0, 0⟩ ⟨0, 0⟩

/-! ## The classification in rounded arithmetic

The dimensions and weights of the toolkit are `double` values and every operation of the
solver rounds its result.  The classification (lines 93-157) is embedded a second time
with the rounding made explicit: `fw` rounds the additions and subtractions of weights
(lines 126 and 151) and `fl` rounds every other operation; on the machine both are the
function `double` below.  With both the identity, the definitions are those of the exact
classification (`rounded_classification_exact`).  Comparisons are exact, and a result
beyond the range of `double` is not modelled. -/

/-- The number of binary digits of `n`, for `fuel ≥` that number. -/
def bit_length : Nat → Nat → Nat
  | 0, _ => 0
  | fuel + 1, n => if n = 0 then 0 else bit_length fuel (n / 2) + 1

/-- The power `2 ^ e` for an integer exponent. -/
def two_pow (e : ℤ) : ℚ :=
  if 0 ≤ e then ((2 ^ e.toNat : ℕ) : ℚ) else 1 / ((2 ^ (-e).toNat : ℕ) : ℚ)

/-- The integer nearest to `q`, the even one of the two when `q` lies half-way. -/
def round_half_even (q : ℚ) : ℤ :=
  if q - (Int.floor q : ℚ) < 1 / 2 then Int.floor q
  else if 1 / 2 < q - (Int.floor q : ℚ) then Int.floor q + 1
  else if Int.floor q % 2 = 0 then Int.floor q
  else Int.floor q + 1

/-- The exponent `e` with `2 ^ e ≤ |q| < 2 ^ (e + 1)`, for `q ≠ 0`: the difference of the
bit lengths of numerator and denominator, or one less. -/
def binary_exponent (q : ℚ) : ℤ :=
  if two_pow ((bit_length q.num.natAbs q.num.natAbs : ℤ) - (bit_length q.den q.den : ℤ))
      ≤ (if q < 0 then -q else q) then
    (bit_length q.num.natAbs q.num.natAbs : ℤ) - (bit_length q.den q.den : ℤ)
  else (bit_length q.num.natAbs q.num.natAbs : ℤ) - (bit_length q.den q.den : ℤ) - 1

/-- Rounding to the nearest IEEE 754 binary64 value, ties to even: 53 significant bits,
the exponent not below -1022 (smaller values are rounded on the subnormal grid of step
`2 ^ (-1074)`).  Overflow to an infinity is not modelled. -/
def double (q : ℚ) : ℚ :=
  if q = 0 then 0
  else
    (round_half_even (q / two_pow (max (binary_exponent q) (-1022) - 52)) : ℚ)
      * two_pow (max (binary_exponent q) (-1022) - 52)

/-- IEEE division `a / b` of two finite values, the quotient rounded. -/
def rounded_fdiv (fl : ℚ → ℚ) (a b : ℚ) : fvalue :=
  if b = 0 then
    (if a = 0 then fvalue.nan else if 0 < a then fvalue.pos_inf else fvalue.neg_inf)
  else fvalue.finite (fl (a / b))

/-- IEEE product `v * c` of a possibly special value with a finite one, the product
rounded. -/
def rounded_fmul (fl : ℚ → ℚ) : fvalue → ℚ → fvalue
  | fvalue.finite q, c => fvalue.finite (fl (q * c))
  | fvalue.pos_inf, c =>
      if c = 0 then fvalue.nan else if 0 < c then fvalue.pos_inf else fvalue.neg_inf
  | fvalue.neg_inf, c =>
      if c = 0 then fvalue.nan else if 0 < c then fvalue.neg_inf else fvalue.pos_inf
  | fvalue.nan, _ => fvalue.nan

/-- Component-wise sum of sizes (`size::operator+=`), each sum rounded. -/
def rounded_size_add (fw : ℚ → ℚ) (a b : size) : size := ⟨fw (a.cx + b.cx), fw (a.cy + b.cy)⟩

/-- Component-wise difference of sizes (`size::operator-=`), each difference rounded. -/
def rounded_size_sub (fw : ℚ → ℚ) (a b : size) : size := ⟨fw (a.cx - b.cx), fw (a.cy - b.cy)⟩

/-- The expression `cx(item.weight()) / cx(totalExpanderWeight) * leftover` of line 142:
a rounded quotient, then a rounded product. -/
def rounded_weightedSize (fl : ℚ → ℚ) (p : AxisPolicy) (it : item) (st : solver_state) :
    fvalue :=
  rounded_fmul fl (rounded_fdiv fl (p.cx it.weight) (p.cx st.totalExpanderWeight)) st.leftover

/-- First loop over the items (lines 105-128) in rounded arithmetic. -/
def rounded_classify_by_policy (fw fl : ℚ → ℚ) (p : AxisPolicy) :
    List item → solver_state → List (item × disposition_e) × solver_state
  | [], st => ([], st)
  | it :: rest, st =>
    if it.visible = false then
      ((it, disposition_e.Unknown) :: (rounded_classify_by_policy fw fl p rest st).1,
        (rounded_classify_by_policy fw fl p rest st).2)
    else if p.size_policy_x it.size_policy = size_policy_e.Minimum then
      ((it, disposition_e.TooSmall) ::
          (rounded_classify_by_policy fw fl p rest
            { st with leftover :=
                floor_at_zero (fl (st.leftover - p.cx it.minimum_size)) }).1,
        (rounded_classify_by_policy fw fl p rest
            { st with leftover :=
                floor_at_zero (fl (st.leftover - p.cx it.minimum_size)) }).2)
    else if p.size_policy_x it.size_policy = size_policy_e.Fixed then
      ((it, disposition_e.FixedSize) ::
          (rounded_classify_by_policy fw fl p rest
            { st with leftover :=
                floor_at_zero (fl (st.leftover - p.cx it.minimum_size)) }).1,
        (rounded_classify_by_policy fw fl p rest
            { st with leftover :=
                floor_at_zero (fl (st.leftover - p.cx it.minimum_size)) }).2)
    else
      ((it, disposition_e.Unknown) ::
          (rounded_classify_by_policy fw fl p rest
            { st with itemsUsingLeftover := st.itemsUsingLeftover + 1,
                      totalExpanderWeight :=
                        rounded_size_add fw st.totalExpanderWeight it.weight }).1,
        (rounded_classify_by_policy fw fl p rest
            { st with itemsUsingLeftover := st.itemsUsingLeftover + 1,
                      totalExpanderWeight :=
                        rounded_size_add fw st.totalExpanderWeight it.weight }).2)

/-- The test `minSize < weightedSize && maxSize > weightedSize` of line 143 on the rounded
share. -/
def rounded_share_fits (fl : ℚ → ℚ) (p : AxisPolicy) (it : item) (st : solver_state) : Bool :=
  flt (p.cx it.minimum_size) (rounded_weightedSize fl p it st) &&
    fgt (p.cx it.maximum_size) (rounded_weightedSize fl p it st)

/-- The disposition chosen at line 147 on the rounded share. -/
def rounded_resolved_disposition (fl : ℚ → ℚ) (p : AxisPolicy) (it : item)
    (st : solver_state) : disposition_e :=
  if fle (p.cx it.maximum_size) (rounded_weightedSize fl p it st) = true then
    disposition_e.TooSmall
  else disposition_e.Unweighted

/-- The solver variables after lines 148-152 in rounded arithmetic. -/
def rounded_resolve_item (fw fl : ℚ → ℚ) (p : AxisPolicy) (it : item) (st : solver_state) :
    solver_state :=
  { leftover := floor_at_zero (fl (st.leftover -
      p.cx (if rounded_resolved_disposition fl p it st = disposition_e.TooSmall
            then it.maximum_size else it.minimum_size))),
    itemsUsingLeftover := st.itemsUsingLeftover - 1,
    totalExpanderWeight := rounded_size_sub fw st.totalExpanderWeight it.weight,
    done := st.done }

/-- One execution of the `for` loop inside the `while` loop (lines 133-156) in rounded
arithmetic. -/
def rounded_resolve_pass (fw fl : ℚ → ℚ) (p : AxisPolicy) :
    List (item × disposition_e) → solver_state → List (item × disposition_e) × solver_state
  | [], st => ([], st)
  | (it, disposition) :: rest, st =>
    if it.visible = false then
      ((it, disposition) :: (rounded_resolve_pass fw fl p rest st).1,
        (rounded_resolve_pass fw fl p rest st).2)
    else if disposition ≠ disposition_e.Unknown ∧ disposition ≠ disposition_e.Weighted then
      ((it, disposition) :: (rounded_resolve_pass fw fl p rest st).1,
        (rounded_resolve_pass fw fl p rest st).2)
    else if rounded_share_fits fl p it st = true then
      ((it, disposition_e.Weighted) :: (rounded_resolve_pass fw fl p rest st).1,
        (rounded_resolve_pass fw fl p rest st).2)
    else if (rounded_resolve_item fw fl p it st).itemsUsingLeftover = 0 then
      ((it, rounded_resolved_disposition fl p it st) :: rest, rounded_resolve_item fw fl p it st)
    else
      ((it, rounded_resolved_disposition fl p it st) ::
          (rounded_resolve_pass fw fl p rest
            { rounded_resolve_item fw fl p it st with done := false }).1,
        (rounded_resolve_pass fw fl p rest
            { rounded_resolve_item fw fl p it st with done := false }).2)

/-- The `while (!done && itemsUsingLeftover > 0)` loop (lines 130-157) in rounded
arithmetic, unrolled at most `fuel` times. -/
def rounded_resolve_loop (fw fl : ℚ → ℚ) (p : AxisPolicy) :
    Nat → List (item × disposition_e) → solver_state → List (item × disposition_e) × solver_state
  | 0, ds, st => (ds, st)
  | fuel + 1, ds, st =>
    if st.done = false ∧ 0 < st.itemsUsingLeftover then
      rounded_resolve_loop fw fl p fuel
        (rounded_resolve_pass fw fl p ds { st with done := true }).1
        (rounded_resolve_pass fw fl p ds { st with done := true }).2
    else (ds, st)

/-- The local `availableSize` after lines 93-99 in rounded arithmetic: the sum of two
margins, the difference, the product of line 99 and its difference are each rounded. -/
def rounded_availableSize (fl : ℚ → ℚ) (p : AxisPolicy) (l : layout) (aSize : size) : size :=
  let a : size :=
    ⟨fl (aSize.cx - fl (l.margins.left + l.margins.right)),
     fl (aSize.cy - fl (l.margins.top + l.margins.bottom))⟩
  if 1 < spaces p l aSize then
    p.set_cx a (fl (p.cx a - fl (p.cx l.spacing * (((spaces p l aSize - 1 : ℕ) : ℚ)))))
  else a

/-- The dispositions and solver variables after the first loop (line 128) in rounded
arithmetic. -/
def rounded_initial_classification (fw fl : ℚ → ℚ) (p : AxisPolicy) (l : layout)
    (aSize : size) : List (item × disposition_e) × solver_state :=
  rounded_classify_by_policy fw fl p l.items
    { leftover := p.cx (rounded_availableSize fl p l aSize), itemsUsingLeftover := 0,
      totalExpanderWeight := ⟨0, 0⟩, done := false }

/-- The dispositions and solver variables when the `while` loop has ended (line 157) in
rounded arithmetic.  The loop is unrolled once more than there are expanding candidates,
which is enough for it to reach its exit condition (lemma `rounded_resolve_loop_exit`). -/
def rounded_classification (fw fl : ℚ → ℚ) (p : AxisPolicy) (l : layout) (aSize : size) :
    List (item × disposition_e) × solver_state :=
  rounded_resolve_loop fw fl p
    ((rounded_initial_classification fw fl p l aSize).2.itemsUsingLeftover + 1)
    (rounded_initial_classification fw fl p l aSize).1
    (rounded_initial_classification fw fl p l aSize).2

/-- The classification is settled in rounded arithmetic for the solver variables `st`
when every entry that uses leftover is `Weighted` and passes the test of line 143 against
`st`. -/
def rounded_settled (fl : ℚ → ℚ) (p : AxisPolicy) (ds : List (item × disposition_e))
    (st : solver_state) : Prop :=
  ∀ x ∈ ds, uses_leftover x = true →
    x.2 = disposition_e.Weighted ∧ rounded_share_fits fl p x.1 st = true

/-- Three Expanding widgets whose weights are the `double` values of 0.1, 0.2 and 0.3 and
whose maxima are 1, 1 and 1000. -/
def tenths_layout : layout :=
  plain_layout [square_widget size_policy_e.Expanding (double (1 / 10)) 0 1,
    square_widget size_policy_e.Expanding (double (2 / 10)) 0 1,
    square_widget size_policy_e.Expanding (double (3 / 10)) 0 1000] alignment.VCentre

/-! # Lemmas and theorems

Every definition of the development stands above this line. -/

/-! ## Accessor lemmas -/

theorem cx_set_cx (p : AxisPolicy) (s : size) (v : ℚ) : p.cx (p.set_cx s v) = v := by
  cases p <;> rfl

theorem cy_set_cx (p : AxisPolicy) (s : size) (v : ℚ) : p.cy (p.set_cx s v) = p.cy s := by
  cases p <;> rfl

theorem y_set_x (p : AxisPolicy) (pt : point) (v : ℚ) : p.y (p.set_x pt v) = p.y pt := by
  cases p <;> rfl

theorem cx_size_add (p : AxisPolicy) (a b : size) : p.cx (a.add b) = p.cx a + p.cx b := by
  cases p <;> rfl

theorem cx_size_sub (p : AxisPolicy) (a b : size) : p.cx (a.sub b) = p.cx a - p.cx b := by
  cases p <;> rfl

theorem cy_initial_size (p : AxisPolicy) (av : size) (it : item) :
    p.cy (initial_size p av it)
      = min (max (p.cy it.minimum_size) (p.cy av)) (p.cy it.maximum_size) := by
  cases p <;> rfl

/-! ## The classification keeps the item list -/

theorem classify_by_policy_fst (p : AxisPolicy) :
    ∀ (items : List item) (st : solver_state),
      (classify_by_policy p items st).1.map Prod.fst = items := by
  intro items
  induction items with
  | nil => intro st; rfl
  | cons it rest ih =>
    intro st
    unfold classify_by_policy
    split_ifs <;> simp [ih]

theorem resolve_pass_fst (p : AxisPolicy) :
    ∀ (ds : List (item × disposition_e)) (st : solver_state),
      (resolve_pass p ds st).1.map Prod.fst = ds.map Prod.fst := by
  intro ds
  induction ds with
  | nil => intro st; rfl
  | cons x rest ih =>
    intro st
    obtain ⟨it, d⟩ := x
    unfold resolve_pass
    split_ifs <;> simp [ih]

theorem resolve_loop_fst (p : AxisPolicy) :
    ∀ (fuel : Nat) (ds : List (item × disposition_e)) (st : solver_state),
      (resolve_loop p fuel ds st).1.map Prod.fst = ds.map Prod.fst := by
  intro fuel
  induction fuel with
  | zero => intro ds st; rfl
  | succ n ih =>
    intro ds st
    unfold resolve_loop
    split_ifs
    · rw [ih, resolve_pass_fst]
    · rfl

theorem classification_fst (p : AxisPolicy) (l : layout) (aSize : size) :
    (classification p l aSize).1.map Prod.fst = l.items := by
  unfold classification initial_classification
  rw [resolve_loop_fst, classify_by_policy_fst]

/-! ## Items debited by policy keep their disposition -/

theorem classify_by_policy_policy (p : AxisPolicy) :
    ∀ (items : List item) (st : solver_state) (x : item × disposition_e),
      x ∈ (classify_by_policy p items st).1 → x.1.visible = true →
      (p.size_policy_x x.1.size_policy = size_policy_e.Fixed → x.2 = disposition_e.FixedSize) ∧
      (p.size_policy_x x.1.size_policy = size_policy_e.Minimum → x.2 = disposition_e.TooSmall) := by
  intro items
  induction items with
  | nil => intro st x hx; simp [classify_by_policy] at hx
  | cons it rest ih =>
    intro st x hx hv
    unfold classify_by_policy at hx
    split_ifs at hx with h1 h2 h3
    all_goals
      simp only [List.mem_cons] at hx
      rcases hx with rfl | hx
    all_goals first
      | exact ih _ x hx hv
      | simp_all

theorem resolve_pass_policy (p : AxisPolicy) :
    ∀ (ds : List (item × disposition_e)) (st : solver_state),
      (∀ x ∈ ds, x.1.visible = true →
        (p.size_policy_x x.1.size_policy = size_policy_e.Fixed → x.2 = disposition_e.FixedSize) ∧
        (p.size_policy_x x.1.size_policy = size_policy_e.Minimum → x.2 = disposition_e.TooSmall)) →
      ∀ x ∈ (resolve_pass p ds st).1, x.1.visible = true →
        (p.size_policy_x x.1.size_policy = size_policy_e.Fixed → x.2 = disposition_e.FixedSize) ∧
        (p.size_policy_x x.1.size_policy = size_policy_e.Minimum → x.2 = disposition_e.TooSmall) := by
  intro ds
  induction ds with
  | nil => intro st _ x hx; simp [resolve_pass] at hx
  | cons y rest ih =>
    intro st hds x hx hv
    obtain ⟨it, d⟩ := y
    have hhead := hds (it, d) (List.mem_cons_self _ _)
    have htail : ∀ x ∈ rest, x.1.visible = true →
        (p.size_policy_x x.1.size_policy = size_policy_e.Fixed → x.2 = disposition_e.FixedSize) ∧
        (p.size_policy_x x.1.size_policy = size_policy_e.Minimum → x.2 = disposition_e.TooSmall) :=
      fun z hz => hds z (List.mem_cons_of_mem _ hz)
    unfold resolve_pass at hx
    split_ifs at hx with h1 h2 h3 h4
    all_goals
      simp only [List.mem_cons] at hx
      rcases hx with rfl | hx
    all_goals first
      | exact ih _ htail x hx hv
      | exact htail x hx hv
      | exact hhead hv
      | (have hh := hhead hv
         simp only [not_and_or, not_not] at h2
         constructor
         · intro hf; have := hh.1 hf; rcases h2 with h | h <;> simp_all
         · intro hf; have := hh.2 hf; rcases h2 with h | h <;> simp_all)

theorem resolve_loop_policy (p : AxisPolicy) :
    ∀ (fuel : Nat) (ds : List (item × disposition_e)) (st : solver_state),
      (∀ x ∈ ds, x.1.visible = true →
        (p.size_policy_x x.1.size_policy = size_policy_e.Fixed → x.2 = disposition_e.FixedSize) ∧
        (p.size_policy_x x.1.size_policy = size_policy_e.Minimum → x.2 = disposition_e.TooSmall)) →
      ∀ x ∈ (resolve_loop p fuel ds st).1, x.1.visible = true →
        (p.size_policy_x x.1.size_policy = size_policy_e.Fixed → x.2 = disposition_e.FixedSize) ∧
        (p.size_policy_x x.1.size_policy = size_policy_e.Minimum → x.2 = disposition_e.TooSmall) := by
  intro fuel
  induction fuel with
  | zero => intro ds st h x hx; exact h x hx
  | succ n ih =>
    intro ds st h x hx
    unfold resolve_loop at hx
    split_ifs at hx
    · exact ih _ _ (resolve_pass_policy p ds _ h) x hx
    · exact h x hx

theorem classification_policy (p : AxisPolicy) (l : layout) (aSize : size)
    (x : item × disposition_e) (hx : x ∈ (classification p l aSize).1)
    (hv : x.1.visible = true) :
    (p.size_policy_x x.1.size_policy = size_policy_e.Fixed → x.2 = disposition_e.FixedSize) ∧
    (p.size_policy_x x.1.size_policy = size_policy_e.Minimum → x.2 = disposition_e.TooSmall) :=
  resolve_loop_policy p _ _ _ (classify_by_policy_policy p _ _) x hx hv

/-! ## What the placement loop hands to each item -/

theorem place_items_zip (bits : Nat → Nat → Nat → Nat) (p : AxisPolicy) (l : layout)
    (av : size) (st : solver_state) (nbits : Nat) :
    ∀ (ds : List (item × disposition_e)) (ps : place_state) (it : item)
      (o : Option (point × size)),
      (it, o) ∈ List.zip (ds.map Prod.fst) (place_items bits p l av st nbits ds ps) →
      it.visible = true →
      ∃ d ps1, (it, d) ∈ ds ∧ p.y ps1.nextPos = p.y ps.nextPos ∧
        o = some (ps1.nextPos.add (alignment_offset p l av it),
                  item_size bits p av st nbits it d ps1) := by
  intro ds
  induction ds with
  | nil => intro ps it o h; simp [place_items] at h
  | cons y rest ih =>
    intro ps it o h hv
    obtain ⟨it0, d0⟩ := y
    unfold place_items at h
    split_ifs at h with h1
    · simp only [List.map_cons, List.zip_cons_cons, List.mem_cons, Prod.mk.injEq] at h
      rcases h with ⟨rfl, _⟩ | h
      · simp_all
      · obtain ⟨d, ps1, hm, hy, ho⟩ := ih ps it o h hv
        exact ⟨d, ps1, List.mem_cons_of_mem _ hm, hy, ho⟩
    · simp only [List.map_cons, List.zip_cons_cons, List.mem_cons, Prod.mk.injEq] at h
      rcases h with ⟨rfl, rfl⟩ | h
      · exact ⟨d0, ps, List.mem_cons_self _ _, rfl, rfl⟩
      · obtain ⟨d, ps1, hm, hy, ho⟩ := ih _ it o h hv
        refine ⟨d, ps1, List.mem_cons_of_mem _ hm, ?_, ho⟩
        rw [hy]
        simp only [next_place_state, advance]
        split_ifs <;> simp [y_set_x]

theorem items_visible_pos (l : layout) (it : item) (hmem : it ∈ l.items)
    (hv : it.visible = true) : l.items_visible ItemTypeAll ≠ 0 := by
  unfold layout.items_visible
  intro h
  rw [List.countP_eq_zero] at h
  have := h it hmem
  cases hk : it.kind <;> simp [hv, hk, item_type_e.selects, ItemTypeAll] at this

/-- Every visible item of the list is laid out: the call `item.layout` receives the cursor
plus the alignment offset and the size built for the disposition of the item. -/
theorem do_layout_items_zip (bits : Nat → Nat → Nat → Nat) (p : AxisPolicy) (l : layout)
    (aPosition : point) (aSize : size) (it : item) (o : Option (point × size))
    (hmem : (it, o) ∈ List.zip l.items (do_layout_items bits p l aPosition aSize).2)
    (hv : it.visible = true) :
    ∃ d ps1, (it, d) ∈ (classification p l aSize).1 ∧
      p.y ps1.nextPos = p.y (⟨aPosition.x + l.margins.left, aPosition.y + l.margins.top⟩ : point) ∧
      o = some (ps1.nextPos.add (alignment_offset p l (availableSize p l aSize) it),
                item_size bits p (availableSize p l aSize) (classification p l aSize).2
                  (bitsLeft p (classification p l aSize).1 (classification p l aSize).2)
                  it d ps1) := by
  have hne : l.items_visible ItemTypeAll ≠ 0 :=
    items_visible_pos l it (List.of_mem_zip hmem).1 hv
  unfold do_layout_items at hmem
  rw [if_neg hne] at hmem
  simp only [] at hmem
  rw [← classification_fst p l aSize] at hmem
  exact place_items_zip bits p l _ _ _ _ _ it o hmem hv

theorem place_items_hidden (bits : Nat → Nat → Nat → Nat) (p : AxisPolicy) (l : layout)
    (av : size) (st : solver_state) (nbits : Nat) (it : item) (d : disposition_e)
    (rest : List (item × disposition_e)) (ps : place_state) (hv : it.visible = false) :
    place_items bits p l av st nbits ((it, d) :: rest) ps
      = none :: place_items bits p l av st nbits rest ps := by
  rw [place_items, if_pos hv]

theorem place_items_visible (bits : Nat → Nat → Nat → Nat) (p : AxisPolicy) (l : layout)
    (av : size) (st : solver_state) (nbits : Nat) (it : item) (d : disposition_e)
    (rest : List (item × disposition_e)) (ps : place_state) (hv : it.visible = true) :
    place_items bits p l av st nbits ((it, d) :: rest) ps
      = some (ps.nextPos.add (alignment_offset p l av it),
              item_size bits p av st nbits it d ps) ::
          place_items bits p l av st nbits rest
            (next_place_state bits p l av st nbits it d ps) := by
  rw [place_items, if_neg (by simp [hv])]

theorem place_items_length (bits : Nat → Nat → Nat → Nat) (p : AxisPolicy) (l : layout)
    (av : size) (st : solver_state) (nbits : Nat) :
    ∀ (ds : List (item × disposition_e)) (ps : place_state),
      (place_items bits p l av st nbits ds ps).length = ds.length := by
  intro ds
  induction ds with
  | nil => intro ps; rfl
  | cons x rest ih =>
    intro ps
    obtain ⟨it, d⟩ := x
    cases hv : it.visible
    · rw [place_items_hidden _ _ _ _ _ _ _ _ _ _ hv]; simp [ih]
    · rw [place_items_visible _ _ _ _ _ _ _ _ _ _ hv]; simp [ih]

theorem cy_availableSize (p : AxisPolicy) (l : layout) (aSize : size) :
    p.cy (availableSize p l aSize) = p.cy aSize - orthogonal_margins p l.margins := by
  unfold availableSize
  split_ifs
  · rw [cy_set_cx]; cases p <;> rfl
  · cases p <;> rfl

theorem do_layout_items_length (bits : Nat → Nat → Nat → Nat) (p : AxisPolicy) (l : layout)
    (aPosition : point) (aSize : size) :
    (do_layout_items bits p l aPosition aSize).2.length = l.items.length := by
  unfold do_layout_items
  split_ifs
  · simp
  · simp only []
    rw [place_items_length, ← classification_fst p l aSize, List.length_map]

/-- The call made for the item at index `i` of the list sits at index `i` of the result. -/
theorem placed_at (bits : Nat → Nat → Nat → Nat) (p : AxisPolicy) (l : layout)
    (aPosition : point) (aSize : size) (i : Nat) (it : item) (hi : l.items[i]? = some it) :
    ∃ o, (do_layout_items bits p l aPosition aSize).2[i]? = some o ∧
      (it, o) ∈ List.zip l.items (do_layout_items bits p l aPosition aSize).2 := by
  obtain ⟨hlt, _⟩ := List.getElem?_eq_some.mp hi
  have hlt2 : i < (do_layout_items bits p l aPosition aSize).2.length := by
    rw [do_layout_items_length]; exact hlt
  refine ⟨(do_layout_items bits p l aPosition aSize).2[i], List.getElem?_eq_getElem hlt2, ?_⟩
  rw [List.mem_iff_getElem?]
  exact ⟨i, List.getElem?_zip_eq_some.mpr ⟨hi, List.getElem?_eq_getElem hlt2⟩⟩

theorem policy_debited_extent (bits : Nat → Nat → Nat → Nat) (p : AxisPolicy)
    (l : layout) (aPosition : point) (aSize : size) (it : item) (o : Option (point × size))
    (hmem : (it, o) ∈ List.zip l.items (do_layout_items bits p l aPosition aSize).2)
    (hv : it.visible = true)
    (hpol : p.size_policy_x it.size_policy = size_policy_e.Fixed ∨
      p.size_policy_x it.size_policy = size_policy_e.Minimum) :
    ∃ pos s, o = some (pos, s) ∧ p.cx s = p.cx it.minimum_size := by
  obtain ⟨d, ps1, hd, _, ho⟩ := do_layout_items_zip bits p l aPosition aSize it o hmem hv
  refine ⟨_, _, ho, ?_⟩
  have hcl := classification_policy p l aSize (it, d) hd hv
  unfold item_size
  rw [cx_set_cx]
  rcases hpol with h | h
  · have hd1 : d = disposition_e.FixedSize := hcl.1 h
    subst hd1
    simp [primary_extent]
  · have hd1 : d = disposition_e.TooSmall := hcl.2 h
    subst hd1
    simp [primary_extent, h]

/-- C1: for every counter, axis policy, layout, origin and allotted size, every visible
item of the list (at any index `i`) whose primary-axis size policy is Fixed or Minimum is
laid out, with a primary-axis extent equal to its own primary-axis minimum size. -/
theorem fixed_or_minimum_gets_minimum (bits : Nat → Nat → Nat → Nat) (p : AxisPolicy)
    (l : layout) (aPosition : point) (aSize : size) (i : Nat) (it : item)
    (hi : l.items[i]? = some it) (hv : it.visible = true)
    (hpol : p.size_policy_x it.size_policy = size_policy_e.Fixed ∨
      p.size_policy_x it.size_policy = size_policy_e.Minimum) :
    ∃ pos s, (do_layout_items bits p l aPosition aSize).2[i]? = some (some (pos, s)) ∧
      p.cx s = p.cx it.minimum_size := by
  obtain ⟨o, ho, hmem⟩ := placed_at bits p l aPosition aSize i it hi
  obtain ⟨pos, s, hs, hcx⟩ := policy_debited_extent bits p l aPosition aSize it o hmem hv hpol
  exact ⟨pos, s, by rw [ho, hs], hcx⟩

/-- Witness of C1 on the layout of the spec example (a Fixed widget of minimum 10 and two
Expanding widgets in 110 units): the Fixed widget, at index 0, is laid out 10 wide. -/
theorem fixed_or_minimum_gets_minimum_witness :
    spec_example_layout.items[0]? = some (square_widget size_policy_e.Fixed 1 10 10) ∧
    (do_layout_items bresenham_counter AxisPolicy.column_major spec_example_layout
      ⟨0, 0⟩ ⟨110, 20⟩).2[0]? = some (some ((⟨0, 5⟩ : point), (⟨10, 10⟩ : size))) ∧
    ∃ pos s, (do_layout_items bresenham_counter AxisPolicy.column_major spec_example_layout
        ⟨0, 0⟩ ⟨110, 20⟩).2[0]? = some (some (pos, s)) ∧
      AxisPolicy.column_major.cx s
        = AxisPolicy.column_major.cx (square_widget size_policy_e.Fixed 1 10 10).minimum_size :=
  ⟨rfl, by decide!,
   fixed_or_minimum_gets_minimum bresenham_counter AxisPolicy.column_major spec_example_layout
     ⟨0, 0⟩ ⟨110, 20⟩ 0 (square_widget size_policy_e.Fixed 1 10 10) rfl rfl (Or.inl rfl)⟩

/-- C6: every visible item of the list is laid out with the orthogonal extent
`min (max (orthogonal minimum) (available orthogonal space)) (orthogonal maximum)`, the
available orthogonal space being the allotted orthogonal size minus the two orthogonal
margins; when the orthogonal minimum is at most the orthogonal maximum, that extent lies
between them. -/
theorem orthogonal_extent_is_clamped (bits : Nat → Nat → Nat → Nat) (p : AxisPolicy)
    (l : layout) (aPosition : point) (aSize : size) (i : Nat) (it : item)
    (hi : l.items[i]? = some it) (hv : it.visible = true) :
    ∃ pos s, (do_layout_items bits p l aPosition aSize).2[i]? = some (some (pos, s)) ∧
      p.cy s = min (max (p.cy it.minimum_size) (p.cy aSize - orthogonal_margins p l.margins))
                (p.cy it.maximum_size) ∧
      (p.cy it.minimum_size ≤ p.cy it.maximum_size →
        p.cy it.minimum_size ≤ p.cy s ∧ p.cy s ≤ p.cy it.maximum_size) := by
  obtain ⟨o, ho, hmem⟩ := placed_at bits p l aPosition aSize i it hi
  obtain ⟨d, ps1, _, _, hs⟩ := do_layout_items_zip bits p l aPosition aSize it o hmem hv
  have hcy : p.cy (item_size bits p (availableSize p l aSize) (classification p l aSize).2
      (bitsLeft p (classification p l aSize).1 (classification p l aSize).2) it d ps1)
      = min (max (p.cy it.minimum_size) (p.cy aSize - orthogonal_margins p l.margins))
          (p.cy it.maximum_size) := by
    unfold item_size
    rw [cy_set_cx, cy_initial_size, cy_availableSize]
  refine ⟨_, _, by rw [ho, hs], hcy, ?_⟩
  intro hle
  rw [hcy]
  exact ⟨le_min (le_max_left _ _) hle, min_le_right _ _⟩

/-- Witness of C6: a widget with orthogonal bounds 10 and 15 in an orthogonal space of 20
is laid out 15 high. -/
theorem orthogonal_extent_is_clamped_witness :
    single_fixed_layout.items[0]? = some (square_widget size_policy_e.Fixed 1 10 15) ∧
    (do_layout_items bresenham_counter AxisPolicy.column_major single_fixed_layout
      ⟨0, 0⟩ ⟨110, 20⟩).2[0]? = some (some ((⟨0, 3⟩ : point), (⟨10, 15⟩ : size))) ∧
    ∃ pos s, (do_layout_items bresenham_counter AxisPolicy.column_major single_fixed_layout
        ⟨0, 0⟩ ⟨110, 20⟩).2[0]? = some (some (pos, s)) ∧
      AxisPolicy.column_major.cy s
        = min (max (AxisPolicy.column_major.cy (square_widget size_policy_e.Fixed 1 10 15).minimum_size)
            (AxisPolicy.column_major.cy ⟨110, 20⟩ -
              orthogonal_margins AxisPolicy.column_major single_fixed_layout.margins))
            (AxisPolicy.column_major.cy (square_widget size_policy_e.Fixed 1 10 15).maximum_size) ∧
      (AxisPolicy.column_major.cy (square_widget size_policy_e.Fixed 1 10 15).minimum_size
          ≤ AxisPolicy.column_major.cy (square_widget size_policy_e.Fixed 1 10 15).maximum_size →
        AxisPolicy.column_major.cy (square_widget size_policy_e.Fixed 1 10 15).minimum_size
            ≤ AxisPolicy.column_major.cy s ∧
          AxisPolicy.column_major.cy s
            ≤ AxisPolicy.column_major.cy (square_widget size_policy_e.Fixed 1 10 15).maximum_size) :=
  ⟨rfl, by decide!,
   orthogonal_extent_is_clamped bresenham_counter AxisPolicy.column_major single_fixed_layout
     ⟨0, 0⟩ ⟨110, 20⟩ 0 (square_widget size_policy_e.Fixed 1 10 15) rfl rfl⟩

/-- The offset of lines 177-195 in the example of the spec: Centre, extent 4, space 10. -/
theorem alignmentAdjust_centre_example : alignmentAdjust alignment.Centre 10 4 = 3 := by
  decide!

/-- C8, counterexample: on a layout without items, laid out at position (1, 2) with size
(3, 4), the call changes the recorded position and extents of the layout, so the state of
the layout is not the same as before. -/
theorem no_visible_items_changes_layout :
    empty_layout.items_visible ItemTypeAll = 0 ∧
    (do_layout_items bresenham_counter AxisPolicy.column_major empty_layout ⟨1, 2⟩ ⟨3, 4⟩).1
      ≠ empty_layout := by
  decide!

/-- C8, amended: when the layout has no visible item (widgets, sub-layouts and spacers all
counted), no item is laid out, and the layout after the call differs from the layout
before it only in its recorded position and extents, which are the arguments of the call. -/
theorem no_visible_items_only_records_geometry (bits : Nat → Nat → Nat → Nat)
    (p : AxisPolicy) (l : layout) (aPosition : point) (aSize : size)
    (h0 : l.items_visible ItemTypeAll = 0) :
    (∀ o ∈ (do_layout_items bits p l aPosition aSize).2, o = none) ∧
    (do_layout_items bits p l aPosition aSize).2.length = l.items.length ∧
    (do_layout_items bits p l aPosition aSize).1
      = { l with position := aPosition, extents := aSize } := by
  unfold do_layout_items
  rw [if_pos h0]
  refine ⟨?_, ?_, rfl⟩
  · intro o ho
    simp only [List.mem_map] at ho
    obtain ⟨_, _, rfl⟩ := ho
    rfl
  · simp

/-- Witness of the amended C8: a layout whose only item is invisible. -/
theorem no_visible_items_only_records_geometry_witness :
    (plain_layout [{ square_widget size_policy_e.Fixed 1 10 10 with visible := false }]
        alignment.None).items_visible ItemTypeAll = 0 ∧
    ((∀ o ∈ (do_layout_items bresenham_counter AxisPolicy.column_major
        (plain_layout [{ square_widget size_policy_e.Fixed 1 10 10 with visible := false }]
          alignment.None) ⟨1, 2⟩ ⟨3, 4⟩).2, o = none) ∧
    (do_layout_items bresenham_counter AxisPolicy.column_major
        (plain_layout [{ square_widget size_policy_e.Fixed 1 10 10 with visible := false }]
          alignment.None) ⟨1, 2⟩ ⟨3, 4⟩).2.length
      = (plain_layout [{ square_widget size_policy_e.Fixed 1 10 10 with visible := false }]
          alignment.None).items.length ∧
    (do_layout_items bresenham_counter AxisPolicy.column_major
        (plain_layout [{ square_widget size_policy_e.Fixed 1 10 10 with visible := false }]
          alignment.None) ⟨1, 2⟩ ⟨3, 4⟩).1
      = { plain_layout [{ square_widget size_policy_e.Fixed 1 10 10 with visible := false }]
            alignment.None with position := ⟨1, 2⟩, extents := ⟨3, 4⟩ }) :=
  ⟨by decide,
   no_visible_items_only_records_geometry bresenham_counter AxisPolicy.column_major
     (plain_layout [{ square_widget size_policy_e.Fixed 1 10 10 with visible := false }]
        alignment.None) ⟨1, 2⟩ ⟨3, 4⟩ (by decide)⟩

/-- C9, the code at the failing input: for a layout whose only item is a visible Expanding
spacer of weight zero, the `while` loop is entered (one item uses leftover, `done` is
false) with a total expander weight of zero, and the share computed at line 142 for that
item is the quotient `0 / 0` times the leftover, a NaN. -/
theorem zero_total_weight_is_divided_by :
    (initial_classification AxisPolicy.column_major zero_weight_layout ⟨100, 20⟩).2.itemsUsingLeftover = 1 ∧
    (initial_classification AxisPolicy.column_major zero_weight_layout ⟨100, 20⟩).2.done = false ∧
    AxisPolicy.column_major.cx
      (initial_classification AxisPolicy.column_major zero_weight_layout ⟨100, 20⟩).2.totalExpanderWeight = 0 ∧
    (initial_classification AxisPolicy.column_major zero_weight_layout ⟨100, 20⟩).1
      = [(⟨item_kind.spacer, true, ⟨size_policy_e.Expanding, size_policy_e.Minimum⟩,
            ⟨0, 0⟩, ⟨0, 0⟩, ⟨1000, 1000⟩⟩, disposition_e.Unknown)] ∧
    weightedSize AxisPolicy.column_major
      ⟨item_kind.spacer, true, ⟨size_policy_e.Expanding, size_policy_e.Minimum⟩,
            ⟨0, 0⟩, ⟨0, 0⟩, ⟨1000, 1000⟩⟩
      (initial_classification AxisPolicy.column_major zero_weight_layout ⟨100, 20⟩).2 = fvalue.nan := by
  decide!

/-- C10, counterexample: under the row-major policy `cx` selects the height, `x` the y
coordinate and `size_policy_x` the vertical policy; under the column-major policy they
select the width, the x coordinate and the horizontal policy.  Each of the six selections
stated by the claim fails on the size (3, 7), the point (1, 2) and the size policy
(Fixed, Expanding). -/
theorem row_major_primary_is_not_horizontal :
    AxisPolicy.row_major.cx ⟨3, 7⟩ ≠ (⟨3, 7⟩ : size).cx ∧
    AxisPolicy.row_major.x ⟨1, 2⟩ ≠ (⟨1, 2⟩ : point).x ∧
    AxisPolicy.row_major.size_policy_x ⟨size_policy_e.Fixed, size_policy_e.Expanding⟩
      ≠ (⟨size_policy_e.Fixed, size_policy_e.Expanding⟩ : size_policy).horizontal_size_policy ∧
    AxisPolicy.column_major.cx ⟨3, 7⟩ ≠ (⟨3, 7⟩ : size).cy ∧
    AxisPolicy.column_major.x ⟨1, 2⟩ ≠ (⟨1, 2⟩ : point).y ∧
    AxisPolicy.column_major.size_policy_x ⟨size_policy_e.Fixed, size_policy_e.Expanding⟩
      ≠ (⟨size_policy_e.Fixed, size_policy_e.Expanding⟩ : size_policy).vertical_size_policy := by
  decide!

/-- C10, amended: under the column-major policy the primary axis is horizontal (`cx`
selects the width, `x` the x coordinate, `size_policy_x` the horizontal size policy) and
the orthogonal axis vertical; under the row-major policy the primary axis is vertical
(height, y coordinate, vertical size policy) and the orthogonal axis horizontal. -/
theorem axis_policy_accessors (s : size) (pt : point) (sp : size_policy) :
    (AxisPolicy.column_major.cx s = s.cx ∧ AxisPolicy.column_major.x pt = pt.x ∧
      AxisPolicy.column_major.size_policy_x sp = sp.horizontal_size_policy ∧
      AxisPolicy.column_major.cy s = s.cy ∧ AxisPolicy.column_major.y pt = pt.y ∧
      AxisPolicy.column_major.size_policy_y sp = sp.vertical_size_policy) ∧
    (AxisPolicy.row_major.cx s = s.cy ∧ AxisPolicy.row_major.x pt = pt.y ∧
      AxisPolicy.row_major.size_policy_x sp = sp.vertical_size_policy ∧
      AxisPolicy.row_major.cy s = s.cx ∧ AxisPolicy.row_major.y pt = pt.x ∧
      AxisPolicy.row_major.size_policy_y sp = sp.horizontal_size_policy) :=
  ⟨⟨rfl, rfl, rfl, rfl, rfl, rfl⟩, ⟨rfl, rfl, rfl, rfl, rfl, rfl⟩⟩

/-! ## Invariants of the classification -/

theorem uses_leftover_of_weighted (x : item × disposition_e) (h : is_weighted x = true) :
    uses_leftover x = true := by
  unfold is_weighted at h
  unfold uses_leftover
  simp only [Bool.and_eq_true, decide_eq_true_eq] at h
  simp [h.1, h.2]

theorem classify_by_policy_state (p : AxisPolicy) :
    ∀ (items : List item) (st : solver_state),
      (classify_by_policy p items st).2.itemsUsingLeftover
          = st.itemsUsingLeftover + leftover_users (classify_by_policy p items st).1 ∧
      p.cx (classify_by_policy p items st).2.totalExpanderWeight
          = p.cx st.totalExpanderWeight + leftover_weight p (classify_by_policy p items st).1 ∧
      (classify_by_policy p items st).2.done = st.done := by
  intro items
  induction items with
  | nil => intro st; simp [classify_by_policy, leftover_users, leftover_weight]
  | cons it rest ih =>
    intro st
    unfold classify_by_policy
    split_ifs with h1 h2 h3
    · obtain ⟨a, b, c⟩ := ih st
      refine ⟨?_, ?_, c⟩
      · simp only [leftover_users, List.countP_cons] at a ⊢
        simp [uses_leftover, h1, a]
      · simp only [leftover_weight]
        simp [uses_leftover, h1, b]
    · obtain ⟨a, b, c⟩ := ih { st with leftover := floor_at_zero (st.leftover - p.cx it.minimum_size) }
      refine ⟨?_, ?_, c⟩
      · simp only [leftover_users, List.countP_cons] at a ⊢
        simp [uses_leftover, a]
      · simp only [leftover_weight]
        simp [uses_leftover, b]
    · obtain ⟨a, b, c⟩ := ih { st with leftover := floor_at_zero (st.leftover - p.cx it.minimum_size) }
      refine ⟨?_, ?_, c⟩
      · simp only [leftover_users, List.countP_cons] at a ⊢
        simp [uses_leftover, a]
      · simp only [leftover_weight]
        simp [uses_leftover, b]
    · obtain ⟨a, b, c⟩ := ih ⟨st.leftover, st.itemsUsingLeftover + 1,
        st.totalExpanderWeight.add it.weight, st.done⟩
      have hv : it.visible = true := by simpa using h1
      refine ⟨?_, ?_, c⟩
      · simp only [leftover_users, List.countP_cons] at a ⊢
        simp only [a]
        simp [uses_leftover, hv]
        omega
      · simp only [leftover_weight]
        rw [b, cx_size_add]
        simp [uses_leftover, hv]
        ring

theorem resolve_pass_skip (p : AxisPolicy) (it : item) (d : disposition_e)
    (rest : List (item × disposition_e)) (st : solver_state)
    (h : uses_leftover (it, d) = false) :
    resolve_pass p ((it, d) :: rest) st
      = ((it, d) :: (resolve_pass p rest st).1, (resolve_pass p rest st).2) := by
  rw [resolve_pass]
  by_cases hv : it.visible = false
  · rw [if_pos hv]
  · rw [if_neg hv]
    have hd : d ≠ disposition_e.Unknown ∧ d ≠ disposition_e.Weighted := by
      simp only [uses_leftover, Bool.and_eq_false_iff, Bool.or_eq_false_iff,
        decide_eq_false_iff_not] at h
      rcases h with h | h
      · exact absurd h hv
      · exact h
    rw [if_pos hd]

theorem uses_leftover_iff (it : item) (d : disposition_e) :
    uses_leftover (it, d) = true ↔
      it.visible = true ∧ (d = disposition_e.Unknown ∨ d = disposition_e.Weighted) := by
  simp [uses_leftover]

theorem resolve_pass_fits (p : AxisPolicy) (it : item) (d : disposition_e)
    (rest : List (item × disposition_e)) (st : solver_state)
    (h : uses_leftover (it, d) = true) (hf : share_fits p it st = true) :
    resolve_pass p ((it, d) :: rest) st
      = ((it, disposition_e.Weighted) :: (resolve_pass p rest st).1,
          (resolve_pass p rest st).2) := by
  obtain ⟨hv, hd⟩ := (uses_leftover_iff it d).mp h
  rw [resolve_pass]
  have h1 : ¬ it.visible = false := by simp [hv]
  have h2 : ¬ (d ≠ disposition_e.Unknown ∧ d ≠ disposition_e.Weighted) := by
    rintro ⟨a, b⟩; rcases hd with hd | hd <;> contradiction
  rw [if_neg h1, if_neg h2, if_pos hf]

theorem resolve_pass_break (p : AxisPolicy) (it : item) (d : disposition_e)
    (rest : List (item × disposition_e)) (st : solver_state)
    (h : uses_leftover (it, d) = true) (hf : share_fits p it st = false)
    (h0 : (resolve_item p it st).itemsUsingLeftover = 0) :
    resolve_pass p ((it, d) :: rest) st
      = ((it, resolved_disposition p it st) :: rest, resolve_item p it st) := by
  obtain ⟨hv, hd⟩ := (uses_leftover_iff it d).mp h
  rw [resolve_pass]
  have h1 : ¬ it.visible = false := by simp [hv]
  have h2 : ¬ (d ≠ disposition_e.Unknown ∧ d ≠ disposition_e.Weighted) := by
    rintro ⟨a, b⟩; rcases hd with hd | hd <;> contradiction
  have h3 : ¬ share_fits p it st = true := by simp [hf]
  rw [if_neg h1, if_neg h2, if_neg h3, if_pos h0]

theorem resolve_pass_continue (p : AxisPolicy) (it : item) (d : disposition_e)
    (rest : List (item × disposition_e)) (st : solver_state)
    (h : uses_leftover (it, d) = true) (hf : share_fits p it st = false)
    (h0 : (resolve_item p it st).itemsUsingLeftover ≠ 0) :
    resolve_pass p ((it, d) :: rest) st
      = ((it, resolved_disposition p it st) ::
            (resolve_pass p rest { resolve_item p it st with done := false }).1,
          (resolve_pass p rest { resolve_item p it st with done := false }).2) := by
  obtain ⟨hv, hd⟩ := (uses_leftover_iff it d).mp h
  rw [resolve_pass]
  have h1 : ¬ it.visible = false := by simp [hv]
  have h2 : ¬ (d ≠ disposition_e.Unknown ∧ d ≠ disposition_e.Weighted) := by
    rintro ⟨a, b⟩; rcases hd with hd | hd <;> contradiction
  have h3 : ¬ share_fits p it st = true := by simp [hf]
  rw [if_neg h1, if_neg h2, if_neg h3, if_neg h0]

theorem uses_leftover_resolved (p : AxisPolicy) (it it1 : item) (st : solver_state) :
    uses_leftover (it1, resolved_disposition p it st) = false := by
  unfold uses_leftover resolved_disposition
  split_ifs <;> simp

theorem leftover_users_cons (x : item × disposition_e) (rest : List (item × disposition_e)) :
    leftover_users (x :: rest)
      = leftover_users rest + (if uses_leftover x = true then 1 else 0) := by
  unfold leftover_users
  rw [List.countP_cons]

theorem leftover_weight_cons (p : AxisPolicy) (x : item × disposition_e)
    (rest : List (item × disposition_e)) :
    leftover_weight p (x :: rest)
      = (if uses_leftover x = true then p.cx x.1.weight else 0) + leftover_weight p rest := rfl

theorem settled_cons (p : AxisPolicy) (x : item × disposition_e)
    (rest : List (item × disposition_e)) (st : solver_state) :
    settled p (x :: rest) st ↔
      (uses_leftover x = true → x.2 = disposition_e.Weighted ∧ share_fits p x.1 st = true) ∧
        settled p rest st := by
  unfold settled
  simp

/-- What one pass of the `for` loop does to the solver variables: the count of items using
leftover and the total weight follow the entries that use leftover; a pass that ends with
`done` still true either met the `break` or changed nothing and found every candidate
fitting; a pass that clears `done` has lowered the count. -/
theorem resolve_pass_inv (p : AxisPolicy) :
    ∀ (ds : List (item × disposition_e)) (st : solver_state),
      leftover_users ds ≤ st.itemsUsingLeftover →
      (resolve_pass p ds st).2.itemsUsingLeftover + leftover_users ds
          = st.itemsUsingLeftover + leftover_users (resolve_pass p ds st).1 ∧
      p.cx (resolve_pass p ds st).2.totalExpanderWeight + leftover_weight p ds
          = p.cx st.totalExpanderWeight + leftover_weight p (resolve_pass p ds st).1 ∧
      (resolve_pass p ds st).2.itemsUsingLeftover ≤ st.itemsUsingLeftover ∧
      ((resolve_pass p ds st).2.done = true → st.done = true ∧
        ((resolve_pass p ds st).2.itemsUsingLeftover = 0 ∨
          ((resolve_pass p ds st).2 = st ∧ settled p (resolve_pass p ds st).1 st))) ∧
      ((resolve_pass p ds st).2.done = false → st.done = true →
        (resolve_pass p ds st).2.itemsUsingLeftover < st.itemsUsingLeftover) := by
  intro ds
  induction ds with
  | nil =>
    intro st _
    simp [resolve_pass, settled]
  | cons x rest ih =>
    intro st hle
    obtain ⟨it, d⟩ := x
    rw [leftover_users_cons] at hle
    by_cases hu : uses_leftover (it, d) = true
    · rw [if_pos hu] at hle
      by_cases hf : share_fits p it st = true
      · rw [resolve_pass_fits p it d rest st hu hf]
        obtain ⟨a, b, c, e, f⟩ := ih st (by omega)
        have hw : uses_leftover (it, disposition_e.Weighted) = true := by
          rw [uses_leftover_iff]; exact ⟨((uses_leftover_iff it d).mp hu).1, Or.inr rfl⟩
        refine ⟨?_, ?_, c, ?_, f⟩
        · simp only [leftover_users_cons, if_pos hu, if_pos hw]; omega
        · simp only [leftover_weight_cons, if_pos hu, if_pos hw]; linarith
        · intro hdone
          obtain ⟨e1, e2⟩ := e hdone
          refine ⟨e1, ?_⟩
          rcases e2 with e2 | ⟨e2, e3⟩
          · exact Or.inl e2
          · refine Or.inr ⟨e2, ?_⟩
            rw [settled_cons]
            exact ⟨fun _ => ⟨rfl, hf⟩, e3⟩
      · have hf1 : share_fits p it st = false := by simpa using hf
        have hr : uses_leftover (it, resolved_disposition p it st) = false :=
          uses_leftover_resolved p it it st
        have hcount : (resolve_item p it st).itemsUsingLeftover = st.itemsUsingLeftover - 1 := rfl
        have hweight : p.cx (resolve_item p it st).totalExpanderWeight
            = p.cx st.totalExpanderWeight - p.cx it.weight := by
          unfold resolve_item; simp only []; rw [cx_size_sub]
        by_cases h0 : (resolve_item p it st).itemsUsingLeftover = 0
        · rw [resolve_pass_break p it d rest st hu hf1 h0]
          refine ⟨?_, ?_, ?_, ?_, ?_⟩
          · simp only [leftover_users_cons, if_pos hu, hr]; simp; omega
          · simp only [leftover_weight_cons, if_pos hu, hr, hweight]; simp; ring
          · simp only []; omega
          · intro hdone
            exact ⟨hdone, Or.inl h0⟩
          · intro hdone hst
            simp only [] at hdone
            have : (resolve_item p it st).done = st.done := rfl
            rw [this, hst] at hdone
            exact absurd hdone (by simp)
        · rw [resolve_pass_continue p it d rest st hu hf1 h0]
          obtain ⟨a, b, c, e, f⟩ := ih { resolve_item p it st with done := false }
            (by simp only []; omega)
          simp only [] at a b c e f
          refine ⟨?_, ?_, ?_, ?_, ?_⟩
          · simp only [leftover_users_cons, if_pos hu, hr]; simp; omega
          · simp only [leftover_weight_cons, if_pos hu, hr]; simp
            rw [hweight] at b; linarith
          · simp only []; omega
          · intro hdone
            have := (e hdone).1
            exact absurd this (by simp)
          · intro _ _
            simp only []; omega
    · have hu1 : uses_leftover (it, d) = false := by simpa using hu
      rw [if_neg hu] at hle
      rw [resolve_pass_skip p it d rest st hu1]
      obtain ⟨a, b, c, e, f⟩ := ih st (by omega)
      refine ⟨?_, ?_, c, ?_, f⟩
      · simp only [leftover_users_cons, if_neg hu]; omega
      · simp only [leftover_weight_cons, if_neg hu]; linarith
      · intro hdone
        obtain ⟨e1, e2⟩ := e hdone
        refine ⟨e1, ?_⟩
        rcases e2 with e2 | ⟨e2, e3⟩
        · exact Or.inl e2
        · refine Or.inr ⟨e2, ?_⟩
          rw [settled_cons]
          exact ⟨fun h => absurd h hu, e3⟩

/-- The `while` loop, unrolled more often than there are items using leftover, ends in a
state in which its condition is false (it has terminated), and keeps the invariants. -/
theorem resolve_loop_exit (p : AxisPolicy) :
    ∀ (fuel : Nat) (ds : List (item × disposition_e)) (st : solver_state),
      leftover_users ds = st.itemsUsingLeftover →
      p.cx st.totalExpanderWeight = leftover_weight p ds →
      (st.done = true → settled p ds st) →
      (st.done = false → st.itemsUsingLeftover < fuel) →
      leftover_users (resolve_loop p fuel ds st).1
          = (resolve_loop p fuel ds st).2.itemsUsingLeftover ∧
      p.cx (resolve_loop p fuel ds st).2.totalExpanderWeight
          = leftover_weight p (resolve_loop p fuel ds st).1 ∧
      settled p (resolve_loop p fuel ds st).1 (resolve_loop p fuel ds st).2 ∧
      ¬ ((resolve_loop p fuel ds st).2.done = false ∧
          0 < (resolve_loop p fuel ds st).2.itemsUsingLeftover) := by
  intro fuel
  induction fuel with
  | zero =>
    intro ds st hu hw hs hfuel
    have hd : st.done = true := by
      cases h : st.done
      · exact absurd (hfuel h) (by omega)
      · rfl
    simp only [resolve_loop]
    exact ⟨hu, hw, hs hd, by simp [hd]⟩
  | succ n ih =>
    intro ds st hu hw hs hfuel
    rw [resolve_loop]
    by_cases hg : st.done = false ∧ 0 < st.itemsUsingLeftover
    · rw [if_pos hg]
      obtain ⟨a, b, c, e, f⟩ := resolve_pass_inv p ds { st with done := true }
        (by simp only []; omega)
      simp only [] at a b c e f
      apply ih
      · omega
      · linarith
      · intro hdone
        rcases (e hdone).2 with e2 | ⟨e2, e3⟩
        · intro x hx hux
          have h0 : leftover_users (resolve_pass p ds { st with done := true }).1 = 0 := by
            omega
          unfold leftover_users at h0
          rw [List.countP_eq_zero] at h0
          exact absurd hux (h0 x hx)
        · rw [e2]; exact e3
      · intro hdone
        have := f hdone trivial
        have := hfuel hg.1
        omega
    · rw [if_neg hg]
      refine ⟨hu, hw, ?_, hg⟩
      by_cases hd : st.done = true
      · exact hs hd
      · have h0 : st.itemsUsingLeftover = 0 := by
          have hd1 : st.done = false := by simpa using hd
          by_contra hne
          exact hg ⟨hd1, Nat.pos_of_ne_zero hne⟩
        intro x hx hux
        rw [← hu] at h0
        unfold leftover_users at h0
        rw [List.countP_eq_zero] at h0
        exact absurd hux (h0 x hx)

/-- When the `while` loop has ended, the count of items using leftover is the number of
entries that use leftover, the total expander weight is the sum of their weights, and
every one of them is `Weighted` with a share that fits against the final variables. -/
theorem classification_settled (p : AxisPolicy) (l : layout) (aSize : size) :
    leftover_users (classification p l aSize).1
        = (classification p l aSize).2.itemsUsingLeftover ∧
    p.cx (classification p l aSize).2.totalExpanderWeight
        = leftover_weight p (classification p l aSize).1 ∧
    settled p (classification p l aSize).1 (classification p l aSize).2 := by
  obtain ⟨a, b, c⟩ := classify_by_policy_state p l.items
    { leftover := p.cx (availableSize p l aSize), itemsUsingLeftover := 0,
      totalExpanderWeight := ⟨0, 0⟩, done := false }
  have hW0 : p.cx (⟨0, 0⟩ : size) = 0 := by cases p <;> rfl
  simp only [hW0, zero_add] at a b c
  obtain ⟨r1, r2, r3, _⟩ := resolve_loop_exit p
    ((initial_classification p l aSize).2.itemsUsingLeftover + 1)
    (initial_classification p l aSize).1 (initial_classification p l aSize).2
    a.symm b (by intro h; rw [initial_classification, c] at h; exact absurd h (by simp))
    (by intro _; omega)
  exact ⟨r1, r2, r3⟩

/-- The unrolling of `classification` is long enough: in the state it returns, the
condition of the `while` loop is false. -/
theorem classification_loop_ended (p : AxisPolicy) (l : layout) (aSize : size) :
    ¬ ((classification p l aSize).2.done = false ∧
        0 < (classification p l aSize).2.itemsUsingLeftover) := by
  obtain ⟨a, b, c⟩ := classify_by_policy_state p l.items
    { leftover := p.cx (availableSize p l aSize), itemsUsingLeftover := 0,
      totalExpanderWeight := ⟨0, 0⟩, done := false }
  have hW0 : p.cx (⟨0, 0⟩ : size) = 0 := by cases p <;> rfl
  simp only [hW0, zero_add] at a b c
  exact (resolve_loop_exit p
    ((initial_classification p l aSize).2.itemsUsingLeftover + 1)
    (initial_classification p l aSize).1 (initial_classification p l aSize).2
    a.symm b (by intro h; rw [initial_classification, c] at h; exact absurd h (by simp))
    (by intro _; omega)).2.2.2

/-! ## Shares, floors and the rounding units -/

theorem share_fits_iff (p : AxisPolicy) (it : item) (st : solver_state) :
    share_fits p it st = true ↔
      p.cx st.totalExpanderWeight ≠ 0 ∧
      p.cx it.minimum_size < p.cx it.weight / p.cx st.totalExpanderWeight * st.leftover ∧
      p.cx it.weight / p.cx st.totalExpanderWeight * st.leftover < p.cx it.maximum_size := by
  unfold share_fits weightedSize fdiv
  by_cases hW : p.cx st.totalExpanderWeight = 0
  · rw [if_pos hW]
    simp only [hW, ne_eq, not_true_eq_false, false_and, iff_false]
    split_ifs <;> simp [fmul, flt, fgt] <;> split_ifs <;> simp [flt, fgt]
  · rw [if_neg hW]
    simp [fmul, flt, fgt, hW]

theorem weighted_floor_sum_cons (p : AxisPolicy) (W : size) (L : ℚ)
    (x : item × disposition_e) (rest : List (item × disposition_e)) :
    weighted_floor_sum p W L (x :: rest)
      = (if is_weighted x = true then weighted_floor p x.1 W L else 0)
          + weighted_floor_sum p W L rest := by
  obtain ⟨it, d⟩ := x
  rw [weighted_floor_sum]
  simp [is_weighted]

theorem weighted_floor_sum_int (p : AxisPolicy) (W : size) (L : ℚ) :
    ∀ ds : List (item × disposition_e), ∃ z : ℤ, weighted_floor_sum p W L ds = (z : ℚ) := by
  intro ds
  induction ds with
  | nil => exact ⟨0, by simp [weighted_floor_sum]⟩
  | cons x rest ih =>
    obtain ⟨z, hz⟩ := ih
    rw [weighted_floor_sum_cons, hz]
    split_ifs
    · exact ⟨Int.floor (p.cx x.1.weight / p.cx W * L) + z, by simp [weighted_floor]⟩
    · exact ⟨z, by simp⟩

/-- The floors of the shares of the entries that use leftover add up to at most the share
of their total weight, and fall short of it by less than their number. -/
theorem weighted_floor_sum_bounds (p : AxisPolicy) (W : size) (L : ℚ) :
    ∀ ds : List (item × disposition_e),
      (∀ x ∈ ds, uses_leftover x = true → is_weighted x = true) →
      weighted_floor_sum p W L ds ≤ leftover_weight p ds / p.cx W * L ∧
      leftover_weight p ds / p.cx W * L - weighted_floor_sum p W L ds
          ≤ (leftover_users ds : ℚ) ∧
      (0 < leftover_users ds →
        leftover_weight p ds / p.cx W * L - weighted_floor_sum p W L ds
          < (leftover_users ds : ℚ)) := by
  intro ds
  induction ds with
  | nil =>
    intro _
    simp [weighted_floor_sum, leftover_weight, leftover_users]
  | cons x rest ih =>
    intro h
    obtain ⟨a, b, c⟩ := ih (fun y hy => h y (List.mem_cons_of_mem _ hy))
    rw [weighted_floor_sum_cons, leftover_weight_cons, leftover_users_cons]
    by_cases hu : uses_leftover x = true
    · have hw : is_weighted x = true := h x (List.mem_cons_self _ _) hu
      rw [if_pos hu, if_pos hw, if_pos hu]
      have h1 : weighted_floor p x.1 W L ≤ p.cx x.1.weight / p.cx W * L := Int.floor_le _
      have h2 : p.cx x.1.weight / p.cx W * L < weighted_floor p x.1 W L + 1 :=
        Int.lt_floor_add_one _
      have hsplit : (p.cx x.1.weight + leftover_weight p rest) / p.cx W * L
          = p.cx x.1.weight / p.cx W * L + leftover_weight p rest / p.cx W * L := by ring
      rw [hsplit]
      push_cast
      refine ⟨by linarith, by linarith, fun _ => by linarith⟩
    · have hw : ¬ is_weighted x = true := fun hw => hu (uses_leftover_of_weighted x hw)
      rw [if_neg hu, if_neg hw, if_neg hu]
      simp only [zero_add, add_zero]
      exact ⟨a, b, c⟩

theorem to_u32_of_bounds (d : ℚ) (N : ℕ) (h0 : 0 ≤ d) (hN : d < N) (hlt : N ≤ 4294967296) :
    ((to_u32 d : ℕ) : ℤ) = Int.floor d ∧ to_u32 d < N := by
  unfold to_u32
  rw [if_pos h0]
  have hf0 : 0 ≤ Int.floor d := Int.floor_nonneg.mpr h0
  have hfN : Int.floor d < N := by
    have : ((Int.floor d : ℤ) : ℚ) ≤ d := Int.floor_le d
    have : ((Int.floor d : ℤ) : ℚ) < ((N : ℤ) : ℚ) := by push_cast; linarith
    exact_mod_cast this
  have hmod : Int.floor d % 4294967296 = Int.floor d :=
    Int.emod_eq_of_lt hf0 (by omega)
  rw [hmod]
  constructor
  · exact Int.toNat_of_nonneg hf0
  · omega

/-! ## The counter -/

theorem handed_out_props (bits : Nat → Nat → Nat → Nat) (hc : counter_contract bits)
    (nbits n : Nat) (hle : nbits ≤ n) :
    handed_out bits nbits n 0 = 0 ∧
    (∀ k, handed_out bits nbits n k ≤ handed_out bits nbits n (k + 1) ∧
      handed_out bits nbits n (k + 1) ≤ handed_out bits nbits n k + 1) ∧
    handed_out bits nbits n n = nbits := by
  obtain ⟨c1, c2, c3⟩ := hc nbits n hle
  unfold handed_out
  by_cases h0 : nbits = 0
  · simp [h0]
  · refine ⟨by simp, ?_, ?_⟩
    · intro k
      by_cases hk : k = 0
      · subst hk
        simp [h0]
        exact c1
      · have := c2 k (by omega)
        simp [h0, hk]
        exact this
    · have hn : n ≠ 0 := by omega
      simp [h0, hn]
      exact c3 (by omega)

theorem handed_out_mono (bits : Nat → Nat → Nat → Nat) (hc : counter_contract bits)
    (nbits n : Nat) (hle : nbits ≤ n) (k j : Nat) :
    handed_out bits nbits n k ≤ handed_out bits nbits n (k + j) := by
  induction j with
  | zero => exact le_refl _
  | succ j ih =>
    have := ((handed_out_props bits hc nbits n hle).2.1 (k + j)).1
    rw [← Nat.add_assoc]
    omega

theorem handed_out_le (bits : Nat → Nat → Nat → Nat) (hc : counter_contract bits)
    (nbits n : Nat) (hle : nbits ≤ n) (k : Nat) (hk : k ≤ n) :
    handed_out bits nbits n k ≤ nbits := by
  have h1 := handed_out_mono bits hc nbits n hle k (n - k)
  have h2 := (handed_out_props bits hc nbits n hle).2.2
  have : k + (n - k) = n := by omega
  rw [this, h2] at h1
  exact h1

theorem bresenham_counter_contract : counter_contract bresenham_counter := by
  intro range steps hle
  unfold bresenham_counter
  refine ⟨?_, ?_, ?_⟩
  · rw [Nat.one_mul]
    by_cases h : steps = 0
    · subst h; simp
    · have : range / steps ≤ steps / steps := Nat.div_le_div_right hle
      rw [Nat.div_self (Nat.pos_of_ne_zero h)] at this
      exact this
  · intro k _
    constructor
    · exact Nat.div_le_div_right (Nat.mul_le_mul_right _ (Nat.le_succ k))
    · by_cases h : steps = 0
      · subst h; simp
      · have hpos : 0 < steps := Nat.pos_of_ne_zero h
        have h1 : (k + 1) * range ≤ k * range + steps := by
          rw [Nat.add_mul, Nat.one_mul]; omega
        calc (k + 1) * range / steps ≤ (k * range + steps) / steps :=
              Nat.div_le_div_right h1
          _ = k * range / steps + 1 := Nat.add_div_right _ hpos
  · intro hs
    exact Nat.mul_div_cancel_left range (by omega)

/-! ## The placement loop -/

theorem weighted_extents_cons (p : AxisPolicy) (x : item × disposition_e)
    (ds : List (item × disposition_e)) (o : Option (point × size))
    (os : List (Option (point × size))) :
    weighted_extents p (x :: ds) (o :: os)
      = if is_weighted x = true then extent_of p o :: weighted_extents p ds os
        else weighted_extents p ds os := by
  unfold weighted_extents
  rw [List.zip_cons_cons, List.filter_cons]
  split_ifs <;> simp

theorem u32sub_of_le (a b : Nat) (hba : b ≤ a) (ha : a < 4294967296) : u32sub a b = a - b := by
  unfold u32sub
  have hb : b < 4294967296 := by omega
  rw [Nat.mod_eq_of_lt ha, Nat.mod_eq_of_lt hb]
  omega

theorem primary_extent_static (bits : Nat → Nat → Nat → Nat) (p : AxisPolicy)
    (st : solver_state) (nbits : Nat) (it : item) (d : disposition_e) (ps : place_state)
    (h : d ≠ disposition_e.Weighted ∨ ¬ 0 < st.leftover) :
    primary_extent bits p st nbits it d ps
      = (static_extent p (it, d), ps.previousBit, ps.calls) := by
  unfold primary_extent static_extent
  have hw : ¬ (d = disposition_e.Weighted ∧ 0 < st.leftover) := by
    rintro ⟨a, b⟩
    rcases h with h | h
    · exact h a
    · exact h b
  by_cases h1 : d = disposition_e.FixedSize
  · simp [h1]
  · by_cases h2 : d = disposition_e.TooSmall
    · simp [h2]
    · simp only [if_neg h1, if_neg h2, if_neg hw]

theorem primary_extent_weighted (bits : Nat → Nat → Nat → Nat) (hc : counter_contract bits)
    (p : AxisPolicy) (st : solver_state) (nbits : Nat) (it : item) (ps : place_state)
    (c : Nat) (hpos : 0 < st.leftover) (hle : nbits ≤ st.itemsUsingLeftover)
    (hlt : nbits < 4294967296)
    (hprev : ps.previousBit = handed_out bits nbits st.itemsUsingLeftover c)
    (hcalls : nbits ≠ 0 → ps.calls = c) (hc1 : c + 1 ≤ st.itemsUsingLeftover) :
    primary_extent bits p st nbits it disposition_e.Weighted ps
      = (weighted_floor p it st.totalExpanderWeight st.leftover +
          (((handed_out bits nbits st.itemsUsingLeftover (c + 1)
              - handed_out bits nbits st.itemsUsingLeftover c : ℕ)) : ℚ),
         handed_out bits nbits st.itemsUsingLeftover (c + 1),
         if nbits ≠ 0 then c + 1 else ps.calls) := by
  have hmono := ((handed_out_props bits hc nbits _ hle).2.1 c).1
  have hbound := handed_out_le bits hc nbits _ hle (c + 1) hc1
  unfold primary_extent
  rw [if_neg (by decide), if_neg (by decide), if_pos ⟨rfl, hpos⟩]
  by_cases h0 : nbits = 0
  · have e1 : handed_out bits nbits st.itemsUsingLeftover (c + 1) = 0 := by
      simp [handed_out, h0]
    have e2 : handed_out bits nbits st.itemsUsingLeftover c = 0 := by
      simp [handed_out, h0]
    have hp0 : ps.previousBit = 0 := by rw [hprev, e2]
    rw [e1, e2, hp0]
    simp [h0, u32sub]
  · have hcc := hcalls h0
    have e1 : handed_out bits nbits st.itemsUsingLeftover (c + 1)
        = bits nbits st.itemsUsingLeftover (c + 1) := by
      simp [handed_out, h0]
    have hmod : bits nbits st.itemsUsingLeftover (c + 1) % 4294967296
        = bits nbits st.itemsUsingLeftover (c + 1) :=
      Nat.mod_eq_of_lt (by omega)
    simp only [h0, ne_eq, not_false_eq_true, if_true, hcc, hmod, hprev]
    rw [u32sub_of_le _ _ (by omega) (by omega), e1]

/-- The `Weighted` entries receive the floors of their shares plus the units that the
counter hands out while the loop walks over them. -/
theorem place_items_weighted_sum (bits : Nat → Nat → Nat → Nat) (hc : counter_contract bits)
    (p : AxisPolicy) (l : layout) (av : size) (st : solver_state) (nbits : Nat)
    (hpos : 0 < st.leftover) (hle : nbits ≤ st.itemsUsingLeftover) (hlt : nbits < 4294967296) :
    ∀ (ds : List (item × disposition_e)) (ps : place_state) (c : Nat),
      ps.previousBit = handed_out bits nbits st.itemsUsingLeftover c →
      (nbits ≠ 0 → ps.calls = c) →
      c + ds.countP is_weighted ≤ st.itemsUsingLeftover →
      (weighted_extents p ds (place_items bits p l av st nbits ds ps)).sum
        = weighted_floor_sum p st.totalExpanderWeight st.leftover ds
          + ((handed_out bits nbits st.itemsUsingLeftover (c + ds.countP is_weighted) : ℚ)
              - (handed_out bits nbits st.itemsUsingLeftover c : ℚ)) := by
  intro ds
  induction ds with
  | nil =>
    intro ps c _ _ _
    simp [weighted_extents, place_items, weighted_floor_sum]
  | cons x rest ih =>
    intro ps c hprev hcalls hcount
    obtain ⟨it, d⟩ := x
    rw [List.countP_cons] at hcount ⊢
    rw [weighted_floor_sum_cons]
    cases hv : it.visible
    · have hw : ¬ is_weighted (it, d) = true := by simp [is_weighted, hv]
      rw [place_items_hidden _ _ _ _ _ _ _ _ _ _ hv, weighted_extents_cons, if_neg hw,
        if_neg hw, if_neg hw]
      rw [if_neg hw] at hcount
      simpa using ih ps c hprev hcalls hcount
    · rw [place_items_visible _ _ _ _ _ _ _ _ _ _ hv, weighted_extents_cons]
      by_cases hw : is_weighted (it, d) = true
      · have hd : d = disposition_e.Weighted := by
          simpa [is_weighted, hv] using hw
        subst hd
        rw [if_pos hw] at hcount
        rw [if_pos hw, if_pos hw, if_pos hw]
        have hpe := primary_extent_weighted bits hc p st nbits it ps c hpos hle hlt hprev hcalls
          (by omega)
        have hmono := ((handed_out_props bits hc nbits _ hle).2.1 c).1
        have hnext := ih (next_place_state bits p l av st nbits it disposition_e.Weighted ps)
          (c + 1)
          (by simp only [next_place_state, hpe])
          (by intro h0; simp only [next_place_state, hpe, if_pos h0])
          (by omega)
        rw [List.sum_cons, hnext]
        simp only [extent_of, item_size, cx_set_cx, hpe]
        rw [Nat.cast_sub hmono]
        have e : c + 1 + List.countP is_weighted rest = c + (List.countP is_weighted rest + 1) := by
          omega
        rw [e]
        ring
      · rw [if_neg hw] at hcount
        rw [if_neg hw, if_neg hw, if_neg hw]
        have hd : d ≠ disposition_e.Weighted := by
          intro h; apply hw; simp [is_weighted, hv, h]
        have hpe := primary_extent_static bits p st nbits it d ps (Or.inl hd)
        have hnext := ih (next_place_state bits p l av st nbits it d ps) c
          (by simp only [next_place_state, hpe]; exact hprev)
          (by intro h0; simp only [next_place_state, hpe]; exact hcalls h0)
          hcount
        simpa using hnext

/-- Every `Weighted` entry receives the floor of its share plus zero or one unit. -/
theorem place_items_weighted_each (bits : Nat → Nat → Nat → Nat) (hc : counter_contract bits)
    (p : AxisPolicy) (l : layout) (av : size) (st : solver_state) (nbits : Nat)
    (hpos : 0 < st.leftover) (hle : nbits ≤ st.itemsUsingLeftover) (hlt : nbits < 4294967296) :
    ∀ (ds : List (item × disposition_e)) (ps : place_state) (c : Nat),
      ps.previousBit = handed_out bits nbits st.itemsUsingLeftover c →
      (nbits ≠ 0 → ps.calls = c) →
      c + ds.countP is_weighted ≤ st.itemsUsingLeftover →
      ∀ x o, (x, o) ∈ List.zip ds (place_items bits p l av st nbits ds ps) →
        is_weighted x = true →
        extent_of p o = weighted_floor p x.1 st.totalExpanderWeight st.leftover ∨
        extent_of p o = weighted_floor p x.1 st.totalExpanderWeight st.leftover + 1 := by
  intro ds
  induction ds with
  | nil =>
    intro ps c _ _ _ x o hmem
    simp [place_items] at hmem
  | cons y rest ih =>
    intro ps c hprev hcalls hcount x o hmem hx
    obtain ⟨it, d⟩ := y
    rw [List.countP_cons] at hcount
    cases hv : it.visible
    · have hw : ¬ is_weighted (it, d) = true := by simp [is_weighted, hv]
      rw [if_neg hw] at hcount
      rw [place_items_hidden _ _ _ _ _ _ _ _ _ _ hv, List.zip_cons_cons, List.mem_cons] at hmem
      rcases hmem with h | h
      · rw [Prod.mk.injEq] at h
        rw [h.1] at hx
        exact absurd hx hw
      · exact ih ps c hprev hcalls hcount x o h hx
    · rw [place_items_visible _ _ _ _ _ _ _ _ _ _ hv, List.zip_cons_cons, List.mem_cons] at hmem
      by_cases hw : is_weighted (it, d) = true
      · have hd : d = disposition_e.Weighted := by
          simpa [is_weighted, hv] using hw
        subst hd
        rw [if_pos hw] at hcount
        have hpe := primary_extent_weighted bits hc p st nbits it ps c hpos hle hlt hprev hcalls
          (by omega)
        have hstep := (handed_out_props bits hc nbits _ hle).2.1 c
        rcases hmem with h | h
        · rw [Prod.mk.injEq] at h
          rw [h.1, h.2]
          simp only [extent_of, item_size, cx_set_cx, hpe]
          have hcases : handed_out bits nbits st.itemsUsingLeftover (c + 1)
                - handed_out bits nbits st.itemsUsingLeftover c = 0 ∨
              handed_out bits nbits st.itemsUsingLeftover (c + 1)
                - handed_out bits nbits st.itemsUsingLeftover c = 1 := by omega
          rcases hcases with h0 | h1
          · left; rw [h0]; simp
          · right; rw [h1]; simp
        · exact ih (next_place_state bits p l av st nbits it disposition_e.Weighted ps) (c + 1)
            (by simp only [next_place_state, hpe])
            (by intro h0; simp only [next_place_state, hpe, if_pos h0])
            (by omega) x o h hx
      · rw [if_neg hw] at hcount
        have hd : d ≠ disposition_e.Weighted := by
          intro h; apply hw; simp [is_weighted, hv, h]
        have hpe := primary_extent_static bits p st nbits it d ps (Or.inl hd)
        rcases hmem with h | h
        · rw [Prod.mk.injEq] at h
          rw [h.1] at hx
          exact absurd hx hw
        · exact ih (next_place_state bits p l av st nbits it d ps) c
            (by simp only [next_place_state, hpe]; exact hprev)
            (by intro h0; simp only [next_place_state, hpe]; exact hcalls h0)
            hcount x o h hx

/-! ## The rounding units of a settled classification -/

theorem mem_classification_item (p : AxisPolicy) (l : layout) (aSize : size)
    (x : item × disposition_e) (hx : x ∈ (classification p l aSize).1) : x.1 ∈ l.items := by
  rw [← classification_fst p l aSize]
  exact List.mem_map_of_mem Prod.fst hx

theorem leftover_weight_nonneg (p : AxisPolicy) :
    ∀ ds : List (item × disposition_e),
      (∀ x ∈ ds, uses_leftover x = true → 0 ≤ p.cx x.1.weight) → 0 ≤ leftover_weight p ds := by
  intro ds
  induction ds with
  | nil => intro _; simp [leftover_weight]
  | cons x rest ih =>
    intro h
    rw [leftover_weight_cons]
    have h1 := ih (fun y hy => h y (List.mem_cons_of_mem _ hy))
    split_ifs with hu
    · have := h x (List.mem_cons_self _ _) hu
      linarith
    · linarith

theorem settled_weighted (p : AxisPolicy) (ds : List (item × disposition_e))
    (st : solver_state) (hs : settled p ds st) :
    ∀ x ∈ ds, uses_leftover x = true → is_weighted x = true := by
  intro x hx hu
  have h1 := (hs x hx hu).1
  have hv : x.1.visible = true := ((uses_leftover_iff x.1 x.2).mp hu).1
  simp [is_weighted, hv, h1]

theorem countP_weighted_eq_users (ds : List (item × disposition_e))
    (h : ∀ x ∈ ds, uses_leftover x = true → is_weighted x = true) :
    ds.countP is_weighted = leftover_users ds := by
  unfold leftover_users
  apply List.countP_congr
  intro x hx
  constructor
  · exact uses_leftover_of_weighted x
  · exact h x hx

/-- The facts about the final solver variables that hold as soon as one entry ended up
`Weighted` and the weights are not negative: the total weight is positive, `bitsLeft` is
the integer part of the leftover minus the floors already counted, and it is smaller than
the number of items using leftover. -/
theorem settled_bits (p : AxisPolicy) (l : layout) (aSize : size)
    (hlen : l.items.length < 4294967296)
    (hw : ∀ y ∈ (classification p l aSize).1, uses_leftover y = true → 0 ≤ p.cx y.1.weight)
    (x : item × disposition_e) (hx : x ∈ (classification p l aSize).1)
    (hxw : is_weighted x = true) :
    0 < p.cx (classification p l aSize).2.totalExpanderWeight ∧
    (classification p l aSize).1.countP is_weighted
      = (classification p l aSize).2.itemsUsingLeftover ∧
    bitsLeft p (classification p l aSize).1 (classification p l aSize).2
      < (classification p l aSize).2.itemsUsingLeftover ∧
    bitsLeft p (classification p l aSize).1 (classification p l aSize).2 < 4294967296 ∧
    ((bitsLeft p (classification p l aSize).1 (classification p l aSize).2 : ℕ) : ℚ)
      = ((Int.floor (classification p l aSize).2.leftover : ℤ) : ℚ)
        - weighted_floor_sum p (classification p l aSize).2.totalExpanderWeight
            (classification p l aSize).2.leftover (classification p l aSize).1 := by
  obtain ⟨hu, hW, hs⟩ := classification_settled p l aSize
  have hsw := settled_weighted p _ _ hs
  have hcnt := countP_weighted_eq_users _ hsw
  have hxu : uses_leftover x = true := uses_leftover_of_weighted x hxw
  have hfit := (share_fits_iff p x.1 _).mp (hs x hx hxu).2
  have hWnn : 0 ≤ p.cx (classification p l aSize).2.totalExpanderWeight := by
    rw [hW]
    exact leftover_weight_nonneg p _ hw
  have hWpos : 0 < p.cx (classification p l aSize).2.totalExpanderWeight :=
    lt_of_le_of_ne hWnn (Ne.symm hfit.1)
  have hNpos : 0 < leftover_users (classification p l aSize).1 := by
    unfold leftover_users
    exact List.countP_pos_iff.mpr ⟨x, hx, hxu⟩
  obtain ⟨b1, _, b3⟩ := weighted_floor_sum_bounds p
    (classification p l aSize).2.totalExpanderWeight (classification p l aSize).2.leftover
    (classification p l aSize).1 hsw
  have hone : leftover_weight p (classification p l aSize).1
      / p.cx (classification p l aSize).2.totalExpanderWeight
      * (classification p l aSize).2.leftover = (classification p l aSize).2.leftover := by
    rw [← hW, div_self hfit.1, one_mul]
  rw [hone] at b1
  have b3 := b3 hNpos
  rw [hone] at b3
  have hNlen : leftover_users (classification p l aSize).1 ≤ l.items.length := by
    unfold leftover_users
    have := List.countP_le_length uses_leftover (l := (classification p l aSize).1)
    have hl : (classification p l aSize).1.length = l.items.length := by
      rw [← classification_fst p l aSize, List.length_map]
    omega
  have hbits : bitsLeft p (classification p l aSize).1 (classification p l aSize).2
      = to_u32 ((classification p l aSize).2.leftover
          - weighted_floor_sum p (classification p l aSize).2.totalExpanderWeight
            (classification p l aSize).2.leftover (classification p l aSize).1) := by
    unfold bitsLeft weightedAmount
    rw [if_pos (by omega), if_pos hWpos]
  obtain ⟨t1, t2⟩ := to_u32_of_bounds
    ((classification p l aSize).2.leftover
      - weighted_floor_sum p (classification p l aSize).2.totalExpanderWeight
        (classification p l aSize).2.leftover (classification p l aSize).1)
    (leftover_users (classification p l aSize).1) (by linarith) b3 (by omega)
  refine ⟨hWpos, by omega, by omega, by omega, ?_⟩
  rw [hbits]
  obtain ⟨z, hz⟩ := weighted_floor_sum_int p (classification p l aSize).2.totalExpanderWeight
    (classification p l aSize).2.leftover (classification p l aSize).1
  rw [hz] at t1 ⊢
  rw [Int.floor_sub_int] at t1
  have : (((to_u32 ((classification p l aSize).2.leftover - (z : ℚ)) : ℕ) : ℤ) : ℚ)
      = ((Int.floor (classification p l aSize).2.leftover - z : ℤ) : ℚ) := by
    rw [t1]
  push_cast at this
  exact this

/-- Line 204 never divides by zero: when the `while` loop has ended, an entry whose
disposition is `Weighted` passed the test of line 143 against the final variables, which
a zero total weight cannot pass (its quotient is infinite or a NaN). -/
theorem weighted_divisor_ne_zero (p : AxisPolicy) (l : layout) (aSize : size)
    (x : item × disposition_e) (hx : x ∈ (classification p l aSize).1)
    (hxw : is_weighted x = true) :
    p.cx (classification p l aSize).2.totalExpanderWeight ≠ 0 := by
  obtain ⟨_, _, hs⟩ := classification_settled p l aSize
  exact ((share_fits_iff p x.1 _).mp (hs x hx (uses_leftover_of_weighted x hxw)).2).1

theorem do_layout_items_placed (bits : Nat → Nat → Nat → Nat) (p : AxisPolicy) (l : layout)
    (aPosition : point) (aSize : size) (x : item × disposition_e)
    (hx : x ∈ (classification p l aSize).1) (hv : x.1.visible = true) :
    (do_layout_items bits p l aPosition aSize).2
      = place_items bits p l (availableSize p l aSize) (classification p l aSize).2
        (bitsLeft p (classification p l aSize).1 (classification p l aSize).2)
        (classification p l aSize).1
        ⟨⟨aPosition.x + l.margins.left, aPosition.y + l.margins.top⟩, 0, 0⟩ := by
  have hne : l.items_visible ItemTypeAll ≠ 0 :=
    items_visible_pos l x.1 (mem_classification_item p l aSize x hx) hv
  unfold do_layout_items
  rw [if_neg hne]

/-- With a positive final leftover, non-negative weights and a counter that keeps its
contract, the extents of the `Weighted` entries add up to the integer part of the final
leftover. -/
theorem weighted_extents_sum_floor (bits : Nat → Nat → Nat → Nat) (hc : counter_contract bits)
    (p : AxisPolicy) (l : layout) (aPosition : point) (aSize : size)
    (hlen : l.items.length < 4294967296)
    (hw : ∀ y ∈ (classification p l aSize).1, uses_leftover y = true → 0 ≤ p.cx y.1.weight)
    (hpos : 0 < (classification p l aSize).2.leftover)
    (x : item × disposition_e) (hx : x ∈ (classification p l aSize).1)
    (hxw : is_weighted x = true) :
    (weighted_extents p (classification p l aSize).1
        (do_layout_items bits p l aPosition aSize).2).sum
      = ((Int.floor (classification p l aSize).2.leftover : ℤ) : ℚ) := by
  obtain ⟨_, hcnt, hlt, h32, hval⟩ := settled_bits p l aSize hlen hw x hx hxw
  have hv : x.1.visible = true := ((uses_leftover_iff x.1 x.2).mp
    (uses_leftover_of_weighted x hxw)).1
  rw [do_layout_items_placed bits p l aPosition aSize x hx hv]
  have hsum := place_items_weighted_sum bits hc p l (availableSize p l aSize)
    (classification p l aSize).2
    (bitsLeft p (classification p l aSize).1 (classification p l aSize).2)
    hpos (le_of_lt hlt) h32 (classification p l aSize).1
    ⟨⟨aPosition.x + l.margins.left, aPosition.y + l.margins.top⟩, 0, 0⟩ 0
    (by simp [handed_out]) (by intro _; rfl) (by omega)
  rw [hsum, Nat.zero_add, hcnt,
    (handed_out_props bits hc _ _ (le_of_lt hlt)).2.2,
    (handed_out_props bits hc _ _ (le_of_lt hlt)).1, hval]
  simp

/-- With a positive final leftover, non-negative weights and a counter that keeps its
contract, every `Weighted` entry receives the floor of its share or one unit more. -/
theorem weighted_extent_floor_or_succ (bits : Nat → Nat → Nat → Nat)
    (hc : counter_contract bits)
    (p : AxisPolicy) (l : layout) (aPosition : point) (aSize : size)
    (hlen : l.items.length < 4294967296)
    (hw : ∀ y ∈ (classification p l aSize).1, uses_leftover y = true → 0 ≤ p.cx y.1.weight)
    (hpos : 0 < (classification p l aSize).2.leftover)
    (x : item × disposition_e) (o : Option (point × size))
    (hmem : (x, o) ∈ List.zip (classification p l aSize).1
      (do_layout_items bits p l aPosition aSize).2)
    (hxw : is_weighted x = true) :
    extent_of p o = weighted_floor p x.1 (classification p l aSize).2.totalExpanderWeight
        (classification p l aSize).2.leftover ∨
    extent_of p o = weighted_floor p x.1 (classification p l aSize).2.totalExpanderWeight
        (classification p l aSize).2.leftover + 1 := by
  have hx : x ∈ (classification p l aSize).1 := (List.of_mem_zip hmem).1
  obtain ⟨_, hcnt, hlt, h32, _⟩ := settled_bits p l aSize hlen hw x hx hxw
  have hv : x.1.visible = true := ((uses_leftover_iff x.1 x.2).mp
    (uses_leftover_of_weighted x hxw)).1
  rw [do_layout_items_placed bits p l aPosition aSize x hx hv] at hmem
  exact place_items_weighted_each bits hc p l (availableSize p l aSize)
    (classification p l aSize).2
    (bitsLeft p (classification p l aSize).1 (classification p l aSize).2)
    hpos (le_of_lt hlt) h32 (classification p l aSize).1
    ⟨⟨aPosition.x + l.margins.left, aPosition.y + l.margins.top⟩, 0, 0⟩ 0
    (by simp [handed_out]) (by intro _; rfl) (by omega) x o hmem hxw

/-- A `Weighted` entry of non-negative minimum forces a positive leftover when the weights
of the entries using leftover are not negative. -/
theorem leftover_pos_of_weighted (p : AxisPolicy) (l : layout) (aSize : size)
    (hw : ∀ y ∈ (classification p l aSize).1, uses_leftover y = true → 0 ≤ p.cx y.1.weight)
    (x : item × disposition_e) (hx : x ∈ (classification p l aSize).1)
    (hxw : is_weighted x = true) (hmin : 0 ≤ p.cx x.1.minimum_size) :
    0 < (classification p l aSize).2.leftover := by
  obtain ⟨hu, hW, hs⟩ := classification_settled p l aSize
  have hxu : uses_leftover x = true := uses_leftover_of_weighted x hxw
  have hfit := (share_fits_iff p x.1 _).mp (hs x hx hxu).2
  have hWnn : 0 ≤ p.cx (classification p l aSize).2.totalExpanderWeight := by
    rw [hW]
    exact leftover_weight_nonneg p _ hw
  have hw1 := hw x hx hxu
  by_contra hneg
  have hL : (classification p l aSize).2.leftover ≤ 0 := not_lt.mp hneg
  have hq : 0 ≤ p.cx x.1.weight / p.cx (classification p l aSize).2.totalExpanderWeight :=
    div_nonneg hw1 hWnn
  have := mul_nonpos_of_nonneg_of_nonpos hq hL
  linarith [hfit.2.1]

theorem uses_leftover_visible (x : item × disposition_e) (h : uses_leftover x = true) :
    x.1.visible = true := ((uses_leftover_iff x.1 x.2).mp h).1

/-- C2, counterexample.  Two Expanding widgets of weight -1 in 2 units: both end up
`Weighted` with the share 1 and the final leftover is 2, but the total weight -2 fails the
guard of line 159, `weightedAmount` stays 0 and `bitsLeft` is 2, so each widget gets the
floor 1 plus one unit of the counter and the extents add up to 4.  The same widgets in
100 units: `bitsLeft` is 100, each widget gets the floor 50 plus 50 units and the extents
add up to 200.  A Fixed widget of minimum 100 followed by an Expanding widget of primary
minimum -5, in 100 units: the second widget ends up `Weighted` with the share 0 and the
final leftover is 0, so line 208 gives it its minimum and the extents add up to -5. -/
theorem weighted_extents_may_miss_leftover :
    counter_contract bresenham_counter ∧
    (classification AxisPolicy.column_major negative_weights_layout ⟨2, 20⟩).2.leftover
      = ((2 : ℕ) : ℚ) ∧
    (classification AxisPolicy.column_major negative_weights_layout ⟨2, 20⟩).1.countP
      is_weighted = 2 ∧
    bitsLeft AxisPolicy.column_major
      (classification AxisPolicy.column_major negative_weights_layout ⟨2, 20⟩).1
      (classification AxisPolicy.column_major negative_weights_layout ⟨2, 20⟩).2 = 2 ∧
    weighted_extents AxisPolicy.column_major
      (classification AxisPolicy.column_major negative_weights_layout ⟨2, 20⟩).1
      (do_layout_items bresenham_counter AxisPolicy.column_major negative_weights_layout
        ⟨0, 0⟩ ⟨2, 20⟩).2 = [2, 2] ∧
    (weighted_extents AxisPolicy.column_major
      (classification AxisPolicy.column_major negative_weights_layout ⟨2, 20⟩).1
      (do_layout_items bresenham_counter AxisPolicy.column_major negative_weights_layout
        ⟨0, 0⟩ ⟨2, 20⟩).2).sum ≠ ((2 : ℕ) : ℚ) ∧
    (classification AxisPolicy.column_major negative_weights_layout ⟨100, 20⟩).2.leftover
      = ((100 : ℕ) : ℚ) ∧
    (classification AxisPolicy.column_major negative_weights_layout ⟨100, 20⟩).1.countP
      is_weighted = 2 ∧
    weighted_extents AxisPolicy.column_major
      (classification AxisPolicy.column_major negative_weights_layout ⟨100, 20⟩).1
      (do_layout_items bresenham_counter AxisPolicy.column_major negative_weights_layout
        ⟨0, 0⟩ ⟨100, 20⟩).2 = [100, 100] ∧
    (weighted_extents AxisPolicy.column_major
      (classification AxisPolicy.column_major negative_weights_layout ⟨100, 20⟩).1
      (do_layout_items bresenham_counter AxisPolicy.column_major negative_weights_layout
        ⟨0, 0⟩ ⟨100, 20⟩).2).sum ≠ ((100 : ℕ) : ℚ) ∧
    (classification AxisPolicy.column_major negative_minimum_layout ⟨100, 20⟩).2.leftover
      = ((0 : ℕ) : ℚ) ∧
    (classification AxisPolicy.column_major negative_minimum_layout ⟨100, 20⟩).1.countP
      is_weighted = 1 ∧
    weighted_extents AxisPolicy.column_major
      (classification AxisPolicy.column_major negative_minimum_layout ⟨100, 20⟩).1
      (do_layout_items bresenham_counter AxisPolicy.column_major negative_minimum_layout
        ⟨0, 0⟩ ⟨100, 20⟩).2 = [-5] ∧
    (weighted_extents AxisPolicy.column_major
      (classification AxisPolicy.column_major negative_minimum_layout ⟨100, 20⟩).1
      (do_layout_items bresenham_counter AxisPolicy.column_major negative_minimum_layout
        ⟨0, 0⟩ ⟨100, 20⟩).2).sum ≠ ((0 : ℕ) : ℚ) :=
  ⟨bresenham_counter_contract, by decide!, by decide!, by decide!, by decide!, by decide!,
    by decide!, by decide!, by decide!, by decide!, by decide!, by decide!, by decide!,
    by decide!⟩

/-- C2, amended: for a counter that keeps its contract, a list of fewer than `2 ^ 32`
items, and visible items of non-negative primary weight and non-negative primary minimum,
whenever at least one item ends up `Weighted` and the final leftover is a natural number
`L`, the primary extents handed to the `Weighted` items add up to exactly `L`. -/
theorem weighted_extents_sum_to_leftover (bits : Nat → Nat → Nat → Nat)
    (hc : counter_contract bits) (p : AxisPolicy) (l : layout) (aPosition : point)
    (aSize : size) (hlen : l.items.length < 4294967296)
    (hwf : ∀ it ∈ l.items, it.visible = true →
      0 ≤ p.cx it.weight ∧ 0 ≤ p.cx it.minimum_size)
    (L : ℕ) (hL : (classification p l aSize).2.leftover = (L : ℚ))
    (hN : 1 ≤ (classification p l aSize).1.countP is_weighted) :
    (weighted_extents p (classification p l aSize).1
        (do_layout_items bits p l aPosition aSize).2).sum = (L : ℚ) := by
  obtain ⟨x, hx, hxw⟩ := List.countP_pos_iff.mp hN
  have hw : ∀ y ∈ (classification p l aSize).1, uses_leftover y = true →
      0 ≤ p.cx y.1.weight := fun y hy hu =>
    (hwf y.1 (mem_classification_item p l aSize y hy) (uses_leftover_visible y hu)).1
  have hmin : 0 ≤ p.cx x.1.minimum_size :=
    (hwf x.1 (mem_classification_item p l aSize x hx)
      (uses_leftover_visible x (uses_leftover_of_weighted x hxw))).2
  have hpos := leftover_pos_of_weighted p l aSize hw x hx hxw hmin
  rw [weighted_extents_sum_floor bits hc p l aPosition aSize hlen hw hpos x hx hxw, hL]
  simp

/-- Witness of the amended C2: the layout of the spec example in 111 units.  The two
Expanding widgets are `Weighted` in the end, the final leftover is 101, and their extents
50 and 51 add up to it. -/
theorem weighted_extents_sum_to_leftover_witness :
    counter_contract bresenham_counter ∧
    spec_example_layout.items.length < 4294967296 ∧
    (∀ it ∈ spec_example_layout.items, it.visible = true →
      0 ≤ AxisPolicy.column_major.cx it.weight ∧
      0 ≤ AxisPolicy.column_major.cx it.minimum_size) ∧
    (classification AxisPolicy.column_major spec_example_layout ⟨111, 20⟩).2.leftover
      = ((101 : ℕ) : ℚ) ∧
    1 ≤ (classification AxisPolicy.column_major spec_example_layout ⟨111, 20⟩).1.countP
      is_weighted ∧
    weighted_extents AxisPolicy.column_major
      (classification AxisPolicy.column_major spec_example_layout ⟨111, 20⟩).1
      (do_layout_items bresenham_counter AxisPolicy.column_major spec_example_layout
        ⟨0, 0⟩ ⟨111, 20⟩).2 = [50, 51] ∧
    (weighted_extents AxisPolicy.column_major
      (classification AxisPolicy.column_major spec_example_layout ⟨111, 20⟩).1
      (do_layout_items bresenham_counter AxisPolicy.column_major spec_example_layout
        ⟨0, 0⟩ ⟨111, 20⟩).2).sum = ((101 : ℕ) : ℚ) :=
  ⟨bresenham_counter_contract, by decide, by decide!, by decide!, by decide!, by decide!,
   weighted_extents_sum_to_leftover bresenham_counter bresenham_counter_contract
     AxisPolicy.column_major spec_example_layout ⟨0, 0⟩ ⟨111, 20⟩ (by decide) (by decide!)
     101 (by decide!) (by decide!)⟩

/-! ## Equal weights -/

theorem mem_zip_map_fst {α β γ : Type} :
    ∀ (ds : List (α × β)) (os : List γ) (a : α) (o : γ),
      (a, o) ∈ List.zip (ds.map Prod.fst) os → ∃ d, ((a, d), o) ∈ List.zip ds os := by
  intro ds
  induction ds with
  | nil => intro os a o h; simp at h
  | cons x rest ih =>
    intro os a o h
    cases os with
    | nil => simp at h
    | cons o1 os1 =>
      rw [List.map_cons, List.zip_cons_cons, List.mem_cons] at h
      rcases h with h | h
      · rw [Prod.mk.injEq] at h
        refine ⟨x.2, ?_⟩
        rw [List.zip_cons_cons, List.mem_cons]
        left
        rw [h.1, h.2]
      · obtain ⟨d, hd⟩ := ih os1 a o h
        exact ⟨d, by rw [List.zip_cons_cons]; exact List.mem_cons_of_mem _ hd⟩

theorem weighted_floor_congr (p : AxisPolicy) (a b : item) (W : size) (L : ℚ)
    (h : p.cx a.weight = p.cx b.weight) : weighted_floor p a W L = weighted_floor p b W L := by
  unfold weighted_floor
  rw [h]

/-- C4, counterexample: two visible Expanding widgets of equal weight 1 and minimum 0,
whose maxima are 10 and 1000, laid out in 100 units, receive the extents 10 and 90, which
differ by more than one unit. -/
theorem equal_weights_may_differ :
    (∀ it ∈ unequal_maxima_layout.items, it.visible = true ∧
      AxisPolicy.column_major.size_policy_x it.size_policy = size_policy_e.Expanding ∧
      AxisPolicy.column_major.cx it.weight = 1) ∧
    (do_layout_items bresenham_counter AxisPolicy.column_major unequal_maxima_layout
      ⟨0, 0⟩ ⟨100, 20⟩).2.map (extent_of AxisPolicy.column_major) = [10, 90] ∧
    ¬ (∀ a ∈ (do_layout_items bresenham_counter AxisPolicy.column_major unequal_maxima_layout
          ⟨0, 0⟩ ⟨100, 20⟩).2.map (extent_of AxisPolicy.column_major),
        ∀ b ∈ (do_layout_items bresenham_counter AxisPolicy.column_major unequal_maxima_layout
          ⟨0, 0⟩ ⟨100, 20⟩).2.map (extent_of AxisPolicy.column_major),
        |a - b| ≤ 1) := by
  decide!

theorem equal_weights_zip (bits : Nat → Nat → Nat → Nat)
    (hc : counter_contract bits) (p : AxisPolicy) (l : layout) (aPosition : point)
    (aSize : size) (hlen : l.items.length < 4294967296)
    (hwf : ∀ it ∈ l.items, it.visible = true →
      0 ≤ p.cx it.weight ∧ 0 ≤ p.cx it.minimum_size)
    (heq : ∀ a ∈ l.items, ∀ b ∈ l.items, a.visible = true → b.visible = true →
      p.cx a.weight = p.cx b.weight)
    (hall : ∀ x ∈ (classification p l aSize).1, x.1.visible = true →
      x.2 = disposition_e.Weighted)
    (it1 it2 : item) (o1 o2 : Option (point × size))
    (h1 : (it1, o1) ∈ List.zip l.items (do_layout_items bits p l aPosition aSize).2)
    (h2 : (it2, o2) ∈ List.zip l.items (do_layout_items bits p l aPosition aSize).2)
    (hv1 : it1.visible = true) (hv2 : it2.visible = true) :
    |extent_of p o1 - extent_of p o2| ≤ 1 := by
  have hw : ∀ y ∈ (classification p l aSize).1, uses_leftover y = true →
      0 ≤ p.cx y.1.weight := fun y hy hu =>
    (hwf y.1 (mem_classification_item p l aSize y hy) (uses_leftover_visible y hu)).1
  have hi1 : it1 ∈ l.items := (List.of_mem_zip h1).1
  have hi2 : it2 ∈ l.items := (List.of_mem_zip h2).1
  rw [← classification_fst p l aSize] at h1 h2
  obtain ⟨d1, hd1⟩ := mem_zip_map_fst _ _ it1 o1 h1
  obtain ⟨d2, hd2⟩ := mem_zip_map_fst _ _ it2 o2 h2
  have hx1 : (it1, d1) ∈ (classification p l aSize).1 := (List.of_mem_zip hd1).1
  have hx2 : (it2, d2) ∈ (classification p l aSize).1 := (List.of_mem_zip hd2).1
  have hw1 : is_weighted (it1, d1) = true := by
    have := hall _ hx1 hv1
    simp only [] at this
    simp [is_weighted, hv1, this]
  have hw2 : is_weighted (it2, d2) = true := by
    have := hall _ hx2 hv2
    simp only [] at this
    simp [is_weighted, hv2, this]
  have hpos := leftover_pos_of_weighted p l aSize hw _ hx1 hw1 (hwf it1 hi1 hv1).2
  have e1 := weighted_extent_floor_or_succ bits hc p l aPosition aSize hlen hw hpos _ o1 hd1 hw1
  have e2 := weighted_extent_floor_or_succ bits hc p l aPosition aSize hlen hw hpos _ o2 hd2 hw2
  have hfl := weighted_floor_congr p it1 it2 (classification p l aSize).2.totalExpanderWeight
    (classification p l aSize).2.leftover (heq it1 hi1 it2 hi2 hv1 hv2)
  simp only [] at e1 e2
  rw [hfl] at e1
  rw [abs_le]
  rcases e1 with e1 | e1 <;> rcases e2 with e2 | e2 <;> rw [e1, e2] <;> constructor <;> linarith

/-- C4, amended: for a counter that keeps its contract and a list of fewer than `2 ^ 32`
items, if all visible items have the same non-negative primary weight and a non-negative
primary minimum, and every visible item ends up `Weighted` (the share of each lies
strictly between its minimum and its maximum, so that no bound binds), then any two
visible items of the list are laid out with primary extents that differ by at most one
unit. -/
theorem equal_weights_differ_by_at_most_one (bits : Nat → Nat → Nat → Nat)
    (hc : counter_contract bits) (p : AxisPolicy) (l : layout) (aPosition : point)
    (aSize : size) (hlen : l.items.length < 4294967296)
    (hwf : ∀ it ∈ l.items, it.visible = true →
      0 ≤ p.cx it.weight ∧ 0 ≤ p.cx it.minimum_size)
    (heq : ∀ a ∈ l.items, ∀ b ∈ l.items, a.visible = true → b.visible = true →
      p.cx a.weight = p.cx b.weight)
    (hall : ∀ x ∈ (classification p l aSize).1, x.1.visible = true →
      x.2 = disposition_e.Weighted)
    (i j : Nat) (it1 it2 : item)
    (h1 : l.items[i]? = some it1) (h2 : l.items[j]? = some it2)
    (hv1 : it1.visible = true) (hv2 : it2.visible = true) :
    ∃ pos1 s1 pos2 s2,
      (do_layout_items bits p l aPosition aSize).2[i]? = some (some (pos1, s1)) ∧
      (do_layout_items bits p l aPosition aSize).2[j]? = some (some (pos2, s2)) ∧
      |p.cx s1 - p.cx s2| ≤ 1 := by
  obtain ⟨o1, ho1, hm1⟩ := placed_at bits p l aPosition aSize i it1 h1
  obtain ⟨o2, ho2, hm2⟩ := placed_at bits p l aPosition aSize j it2 h2
  have hdiff := equal_weights_zip bits hc p l aPosition aSize hlen hwf heq hall it1 it2 o1 o2
    hm1 hm2 hv1 hv2
  obtain ⟨_, _, _, _, hs1⟩ := do_layout_items_zip bits p l aPosition aSize it1 o1 hm1 hv1
  obtain ⟨_, _, _, _, hs2⟩ := do_layout_items_zip bits p l aPosition aSize it2 o2 hm2 hv2
  rw [hs1, hs2] at hdiff
  exact ⟨_, _, _, _, by rw [ho1, hs1], by rw [ho2, hs2], hdiff⟩

/-- Witness of the amended C4: three Expanding widgets of weight 1 without binding bounds,
laid out in 100 units, receive 33, 33 and 34. -/
theorem equal_weights_differ_by_at_most_one_witness :
    counter_contract bresenham_counter ∧
    three_expanders_layout.items.length < 4294967296 ∧
    (∀ x ∈ (classification AxisPolicy.column_major three_expanders_layout ⟨100, 20⟩).1,
      x.1.visible = true → x.2 = disposition_e.Weighted) ∧
    (do_layout_items bresenham_counter AxisPolicy.column_major three_expanders_layout
      ⟨0, 0⟩ ⟨100, 20⟩).2.map (extent_of AxisPolicy.column_major) = [33, 33, 34] ∧
    ∃ pos1 s1 pos2 s2,
      (do_layout_items bresenham_counter AxisPolicy.column_major three_expanders_layout
        ⟨0, 0⟩ ⟨100, 20⟩).2[0]? = some (some (pos1, s1)) ∧
      (do_layout_items bresenham_counter AxisPolicy.column_major three_expanders_layout
        ⟨0, 0⟩ ⟨100, 20⟩).2[2]? = some (some (pos2, s2)) ∧
      |AxisPolicy.column_major.cx s1 - AxisPolicy.column_major.cx s2| ≤ 1 :=
  ⟨bresenham_counter_contract, by decide, by decide!, by decide!,
   equal_weights_differ_by_at_most_one bresenham_counter bresenham_counter_contract
     AxisPolicy.column_major three_expanders_layout ⟨0, 0⟩ ⟨100, 20⟩ (by decide) (by decide!)
     (by decide!) (by decide!) 0 2
     (square_widget size_policy_e.Expanding 1 0 1000)
     (square_widget size_policy_e.Expanding 1 0 1000) rfl rfl rfl rfl⟩

/-! ## One Fixed item followed by equal expanders -/

theorem cx_availableSize (p : AxisPolicy) (l : layout) (aSize : size) :
    p.cx (availableSize p l aSize)
      = p.cx aSize - primary_margins p l.margins - reserved_spacing p l aSize := by
  unfold availableSize reserved_spacing
  split_ifs
  · rw [cx_set_cx]; cases p <;> simp [AxisPolicy.cx, primary_margins]
  · cases p <;> simp [AxisPolicy.cx, primary_margins]

theorem resolved_sum_cons (p : AxisPolicy) (x : item × disposition_e)
    (rest : List (item × disposition_e)) :
    resolved_sum p (x :: rest)
      = (if x.1.visible = true ∧ uses_leftover x = false then static_extent p x else 0)
          + resolved_sum p rest := rfl

theorem candidate_minimums_cons (p : AxisPolicy) (x : item × disposition_e)
    (rest : List (item × disposition_e)) :
    candidate_minimums p (x :: rest)
      = (if uses_leftover x = true then p.cx x.1.minimum_size else 0)
          + candidate_minimums p rest := rfl

theorem visible_minimums_nonneg (p : AxisPolicy) :
    ∀ items : List item, (∀ it ∈ items, it.visible = true → 0 ≤ p.cx it.minimum_size) →
      0 ≤ visible_minimums p items := by
  intro items
  induction items with
  | nil => intro _; exact le_refl _
  | cons it rest ih =>
    intro h
    have h1 := ih (fun y hy => h y (List.mem_cons_of_mem _ hy))
    rw [visible_minimums]
    split_ifs with hv
    · have := h it (List.mem_cons_self _ _) hv; linarith
    · linarith

/-- The first loop, when the minimums of the visible items fit in the leftover: nothing
is floored, the leftover is what the `Fixed` and `Minimum` items leave, and it still
covers the minimums of the expanding candidates. -/
theorem classify_by_policy_accounting (p : AxisPolicy) :
    ∀ (items : List item) (st : solver_state),
      (∀ it ∈ items, it.visible = true → 0 ≤ p.cx it.minimum_size) →
      visible_minimums p items ≤ st.leftover →
      resolved_sum p (classify_by_policy p items st).1
          + (classify_by_policy p items st).2.leftover = st.leftover ∧
      resolved_sum p (classify_by_policy p items st).1
          + candidate_minimums p (classify_by_policy p items st).1
          = visible_minimums p items ∧
      (classify_by_policy p items st).2.leftover ≤ st.leftover := by
  intro items
  induction items with
  | nil =>
    intro st _ _
    simp [classify_by_policy, resolved_sum, candidate_minimums, visible_minimums]
  | cons it rest ih =>
    intro st hmin hfit
    have hrest : ∀ y ∈ rest, y.visible = true → 0 ≤ p.cx y.minimum_size :=
      fun y hy => hmin y (List.mem_cons_of_mem _ hy)
    have hvm := visible_minimums_nonneg p rest hrest
    rw [visible_minimums] at hfit ⊢
    rw [classify_by_policy]
    by_cases hv : it.visible = false
    · rw [if_pos hv]
      rw [if_neg (by simp [hv])] at hfit
      obtain ⟨a, b, c⟩ := ih st hrest (by linarith)
      simp only [resolved_sum_cons, candidate_minimums_cons]
      have hu : uses_leftover (it, disposition_e.Unknown) = false := by simp [uses_leftover, hv]
      simp only [hu, hv]
      simp only [Bool.false_eq_true, false_and, if_false, zero_add]
      exact ⟨a, b, c⟩
    · have hv1 : it.visible = true := by simpa using hv
      rw [if_neg hv]
      rw [if_pos hv1] at hfit
      have hm0 := hmin it (List.mem_cons_self _ _) hv1
      have hfz : floor_at_zero (st.leftover - p.cx it.minimum_size)
          = st.leftover - p.cx it.minimum_size := by
        unfold floor_at_zero
        rw [if_neg (by linarith)]
      by_cases h2 : p.size_policy_x it.size_policy = size_policy_e.Minimum
      · rw [if_pos h2, hfz]
        obtain ⟨a, b, c⟩ := ih ⟨st.leftover - p.cx it.minimum_size, st.itemsUsingLeftover,
          st.totalExpanderWeight, st.done⟩ hrest (by simp only []; linarith)
        simp only [] at a b c
        simp only [resolved_sum_cons, candidate_minimums_cons]
        have hu : uses_leftover (it, disposition_e.TooSmall) = false := by simp [uses_leftover]
        simp only [hu, hv1, static_extent, h2]
        simp only [and_self, if_true, Bool.false_eq_true, if_false, zero_add, reduceCtorEq]
        exact ⟨by linarith, by linarith, by linarith⟩
      · rw [if_neg h2]
        by_cases h3 : p.size_policy_x it.size_policy = size_policy_e.Fixed
        · rw [if_pos h3, hfz]
          obtain ⟨a, b, c⟩ := ih ⟨st.leftover - p.cx it.minimum_size, st.itemsUsingLeftover,
            st.totalExpanderWeight, st.done⟩ hrest (by simp only []; linarith)
          simp only [] at a b c
          simp only [resolved_sum_cons, candidate_minimums_cons]
          have hu : uses_leftover (it, disposition_e.FixedSize) = false := by
            simp [uses_leftover]
          simp only [hu, hv1, static_extent]
          simp only [and_self, if_true, Bool.false_eq_true, if_false, zero_add]
          exact ⟨by linarith, by linarith, by linarith⟩
        · rw [if_neg h3]
          obtain ⟨a, b, c⟩ := ih ⟨st.leftover, st.itemsUsingLeftover + 1,
            st.totalExpanderWeight.add it.weight, st.done⟩ hrest (by simp only []; linarith)
          simp only [] at a b c
          simp only [resolved_sum_cons, candidate_minimums_cons]
          have hu : uses_leftover (it, disposition_e.Unknown) = true := by
            simp [uses_leftover, hv1]
          simp only [hu, hv1]
          simp only [Bool.true_eq_false, and_false, if_false, zero_add, if_true]
          exact ⟨a, by linarith, c⟩

theorem candidate_minimums_nonneg (p : AxisPolicy) :
    ∀ ds : List (item × disposition_e),
      (∀ x ∈ ds, uses_leftover x = true → 0 ≤ p.cx x.1.minimum_size) →
      0 ≤ candidate_minimums p ds := by
  intro ds
  induction ds with
  | nil => intro _; exact le_refl _
  | cons x rest ih =>
    intro h
    have h1 := ih (fun y hy => h y (List.mem_cons_of_mem _ hy))
    rw [candidate_minimums_cons]
    split_ifs with hu
    · have := h x (List.mem_cons_self _ _) hu; linarith
    · linarith

/-- A candidate whose maximum lies above the leftover and whose weight is part of a
non-negative total is never resolved to its maximum: when its share does not fit, it is
`Unweighted` and the leftover loses its minimum, without being floored. -/
theorem resolve_item_unweighted (p : AxisPolicy) (it : item) (st : solver_state)
    (hw0 : 0 ≤ p.cx it.weight) (hwW : p.cx it.weight ≤ p.cx st.totalExpanderWeight)
    (hmin : p.cx it.minimum_size ≤ st.leftover) (hL : 0 ≤ st.leftover)
    (hmax : st.leftover < p.cx it.maximum_size) :
    resolved_disposition p it st = disposition_e.Unweighted ∧
    (resolve_item p it st).leftover = st.leftover - p.cx it.minimum_size := by
  have hfle : fle (p.cx it.maximum_size) (weightedSize p it st) = false := by
    unfold weightedSize fdiv
    by_cases hW : p.cx st.totalExpanderWeight = 0
    · have hw : p.cx it.weight = 0 := le_antisymm (by rw [hW] at hwW; exact hwW) hw0
      simp [hW, hw, fmul, fle]
    · have hWpos : 0 < p.cx st.totalExpanderWeight :=
        lt_of_le_of_ne (le_trans hw0 hwW) (Ne.symm hW)
      rw [if_neg hW]
      simp only [fmul, fle, decide_eq_false_iff_not, not_le]
      have hq1 : p.cx it.weight / p.cx st.totalExpanderWeight ≤ 1 :=
        (div_le_one hWpos).mpr hwW
      have : p.cx it.weight / p.cx st.totalExpanderWeight * st.leftover ≤ 1 * st.leftover :=
        mul_le_mul_of_nonneg_right hq1 hL
      linarith
  have hd : resolved_disposition p it st = disposition_e.Unweighted := by
    unfold resolved_disposition
    rw [if_neg (by simp [hfle])]
  refine ⟨hd, ?_⟩
  unfold resolve_item
  simp only [hd, reduceCtorEq, if_false]
  unfold floor_at_zero
  rw [if_neg (by linarith)]

/-- One pass of the `for` loop when every candidate has a maximum above the bound `M` of
the leftover and the leftover covers the minimums of the candidates: the space handed to
the resolved entries plus the leftover is unchanged, and the leftover still covers the
minimums of the remaining candidates. -/
theorem resolve_pass_accounting (p : AxisPolicy) (M : ℚ) :
    ∀ (ds : List (item × disposition_e)) (st : solver_state) (K : ℚ),
      (∀ x ∈ ds, uses_leftover x = true →
        0 ≤ p.cx x.1.weight ∧ 0 ≤ p.cx x.1.minimum_size ∧ M < p.cx x.1.maximum_size) →
      leftover_weight p ds ≤ p.cx st.totalExpanderWeight →
      0 ≤ K → candidate_minimums p ds + K ≤ st.leftover → st.leftover ≤ M →
      resolved_sum p (resolve_pass p ds st).1 + (resolve_pass p ds st).2.leftover
          = resolved_sum p ds + st.leftover ∧
      candidate_minimums p (resolve_pass p ds st).1 + K ≤ (resolve_pass p ds st).2.leftover ∧
      (resolve_pass p ds st).2.leftover ≤ M := by
  intro ds
  induction ds with
  | nil =>
    intro st K _ _ _ h1 h2
    rw [resolve_pass]
    exact ⟨rfl, h1, h2⟩
  | cons x rest ih =>
    intro st K hcand hW hK hcm hM
    obtain ⟨it, d⟩ := x
    have hrest : ∀ y ∈ rest, uses_leftover y = true →
        0 ≤ p.cx y.1.weight ∧ 0 ≤ p.cx y.1.minimum_size ∧ M < p.cx y.1.maximum_size :=
      fun y hy => hcand y (List.mem_cons_of_mem _ hy)
    have hlwr := leftover_weight_nonneg p rest (fun y hy hu => (hrest y hy hu).1)
    have hcmr := candidate_minimums_nonneg p rest (fun y hy hu => (hrest y hy hu).2.1)
    rw [leftover_weight_cons] at hW
    rw [candidate_minimums_cons] at hcm
    by_cases hu : uses_leftover (it, d) = true
    · obtain ⟨hw0, hm0, hmax⟩ := hcand (it, d) (List.mem_cons_self _ _) hu
      simp only [] at hw0 hm0 hmax
      rw [if_pos hu] at hW hcm
      simp only [] at hW hcm
      have hv : it.visible = true := uses_leftover_visible (it, d) hu
      by_cases hf : share_fits p it st = true
      · rw [resolve_pass_fits p it d rest st hu hf]
        have hwt : uses_leftover (it, disposition_e.Weighted) = true := by
          rw [uses_leftover_iff]; exact ⟨hv, Or.inr rfl⟩
        obtain ⟨a, b, c⟩ := ih st (K + p.cx it.minimum_size) hrest (by linarith)
          (by linarith) (by linarith) hM
        simp only [resolved_sum_cons, candidate_minimums_cons, hu, hwt]
        simp only [Bool.true_eq_false, and_false, if_false, zero_add, if_true]
        exact ⟨a, by linarith, c⟩
      · have hf1 : share_fits p it st = false := by simpa using hf
        obtain ⟨hd, hl⟩ := resolve_item_unweighted p it st hw0 (by linarith) (by linarith)
          (by linarith) (by linarith)
        have hnu : uses_leftover (it, disposition_e.Unweighted) = false := by
          simp [uses_leftover]
        have hse : static_extent p (it, disposition_e.Unweighted) = p.cx it.minimum_size := by
          simp [static_extent]
        by_cases h0 : (resolve_item p it st).itemsUsingLeftover = 0
        · rw [resolve_pass_break p it d rest st hu hf1 h0, hd]
          simp only [resolved_sum_cons, candidate_minimums_cons, hu, hnu, hv, hse, hl]
          simp only [and_self, if_true, Bool.true_eq_false, and_false, if_false, zero_add,
            Bool.false_eq_true]
          exact ⟨by ring, by linarith, by linarith⟩
        · rw [resolve_pass_continue p it d rest st hu hf1 h0, hd]
          obtain ⟨a, b, c⟩ := ih { resolve_item p it st with done := false } K hrest
            (by
              have : p.cx (resolve_item p it st).totalExpanderWeight
                  = p.cx st.totalExpanderWeight - p.cx it.weight := by
                unfold resolve_item; simp only []; rw [cx_size_sub]
              simp only []; rw [this]; linarith)
            hK (by simp only []; rw [hl]; linarith) (by simp only []; rw [hl]; linarith)
          simp only [] at a b c
          simp only [resolved_sum_cons, candidate_minimums_cons, hu, hnu, hv, hse]
          simp only [and_self, if_true, Bool.true_eq_false, and_false, if_false, zero_add,
            Bool.false_eq_true]
          exact ⟨by linarith, b, c⟩
    · have hu1 : uses_leftover (it, d) = false := by simpa using hu
      rw [if_neg hu] at hW hcm
      rw [resolve_pass_skip p it d rest st hu1]
      obtain ⟨a, b, c⟩ := ih st K hrest (by linarith) hK (by linarith) hM
      simp only [resolved_sum_cons, candidate_minimums_cons, hu1]
      simp only [Bool.false_eq_true, if_false, zero_add]
      exact ⟨by linarith, b, c⟩

theorem resolve_pass_candidates (p : AxisPolicy) :
    ∀ (ds : List (item × disposition_e)) (st : solver_state),
      ∀ x ∈ (resolve_pass p ds st).1, uses_leftover x = true →
        ∃ d, (x.1, d) ∈ ds ∧ uses_leftover (x.1, d) = true := by
  intro ds
  induction ds with
  | nil => intro st x hx; simp [resolve_pass] at hx
  | cons y rest ih =>
    intro st x hx hux
    obtain ⟨it, d⟩ := y
    by_cases hu : uses_leftover (it, d) = true
    · by_cases hf : share_fits p it st = true
      · rw [resolve_pass_fits p it d rest st hu hf, List.mem_cons] at hx
        rcases hx with rfl | hx
        · exact ⟨d, List.mem_cons_self _ _, hu⟩
        · obtain ⟨d1, h1, h2⟩ := ih st x hx hux
          exact ⟨d1, List.mem_cons_of_mem _ h1, h2⟩
      · have hf1 : share_fits p it st = false := by simpa using hf
        by_cases h0 : (resolve_item p it st).itemsUsingLeftover = 0
        · rw [resolve_pass_break p it d rest st hu hf1 h0, List.mem_cons] at hx
          rcases hx with rfl | hx
          · rw [uses_leftover_resolved] at hux; exact absurd hux (by simp)
          · exact ⟨x.2, List.mem_cons_of_mem _ hx, hux⟩
        · rw [resolve_pass_continue p it d rest st hu hf1 h0, List.mem_cons] at hx
          rcases hx with rfl | hx
          · rw [uses_leftover_resolved] at hux; exact absurd hux (by simp)
          · obtain ⟨d1, h1, h2⟩ := ih _ x hx hux
            exact ⟨d1, List.mem_cons_of_mem _ h1, h2⟩
    · have hu1 : uses_leftover (it, d) = false := by simpa using hu
      rw [resolve_pass_skip p it d rest st hu1, List.mem_cons] at hx
      rcases hx with rfl | hx
      · exact absurd hux hu
      · obtain ⟨d1, h1, h2⟩ := ih st x hx hux
        exact ⟨d1, List.mem_cons_of_mem _ h1, h2⟩

/-- The `while` loop under the assumptions of `resolve_pass_accounting`: the space handed
to the resolved entries plus the leftover is what it was when the loop started, and the
final leftover is not negative. -/
theorem resolve_loop_accounting (p : AxisPolicy) (M : ℚ) :
    ∀ (fuel : Nat) (ds : List (item × disposition_e)) (st : solver_state),
      leftover_users ds = st.itemsUsingLeftover →
      p.cx st.totalExpanderWeight = leftover_weight p ds →
      (∀ x ∈ ds, uses_leftover x = true →
        0 ≤ p.cx x.1.weight ∧ 0 ≤ p.cx x.1.minimum_size ∧ M < p.cx x.1.maximum_size) →
      candidate_minimums p ds ≤ st.leftover → st.leftover ≤ M →
      resolved_sum p (resolve_loop p fuel ds st).1 + (resolve_loop p fuel ds st).2.leftover
          = resolved_sum p ds + st.leftover ∧
      0 ≤ (resolve_loop p fuel ds st).2.leftover := by
  intro fuel
  induction fuel with
  | zero =>
    intro ds st _ _ hcand hcm _
    rw [resolve_loop]
    exact ⟨rfl, le_trans (candidate_minimums_nonneg p ds
      (fun y hy hu => (hcand y hy hu).2.1)) hcm⟩
  | succ n ih =>
    intro ds st hu hW hcand hcm hM
    rw [resolve_loop]
    split_ifs with hg
    · obtain ⟨i1, i2, _, _, _⟩ := resolve_pass_inv p ds { st with done := true }
        (by simp only []; omega)
      obtain ⟨a, b, c⟩ := resolve_pass_accounting p M ds { st with done := true } 0 hcand
        (by simp only []; rw [hW]) (le_refl _) (by simp only []; linarith)
        (by simp only []; exact hM)
      simp only [] at i1 i2 a b c
      obtain ⟨r1, r2⟩ := ih (resolve_pass p ds { st with done := true }).1
        (resolve_pass p ds { st with done := true }).2
        (by omega) (by linarith)
        (by
          intro x hx hux
          obtain ⟨d, hd, hud⟩ := resolve_pass_candidates p ds _ x hx hux
          exact hcand (x.1, d) hd hud)
        (by linarith) c
      exact ⟨by linarith, r2⟩
    · exact ⟨rfl, le_trans (candidate_minimums_nonneg p ds
        (fun y hy hu => (hcand y hy hu).2.1)) hcm⟩

/-- The placement loop hands to the visible entries that do not use leftover their static
extent, so that the extents add up to `resolved_sum` plus the extents of the `Weighted`
entries, when every entry that uses leftover is `Weighted`. -/
theorem place_items_total (bits : Nat → Nat → Nat → Nat) (p : AxisPolicy) (l : layout)
    (av : size) (st : solver_state) (nbits : Nat) :
    ∀ (ds : List (item × disposition_e)) (ps : place_state),
      (∀ x ∈ ds, uses_leftover x = true → is_weighted x = true) →
      total_extent p (place_items bits p l av st nbits ds ps)
        = resolved_sum p ds
          + (weighted_extents p ds (place_items bits p l av st nbits ds ps)).sum := by
  intro ds
  induction ds with
  | nil => intro ps _; simp [total_extent, place_items, resolved_sum, weighted_extents]
  | cons x rest ih =>
    intro ps h
    obtain ⟨it, d⟩ := x
    have hrest : ∀ y ∈ rest, uses_leftover y = true → is_weighted y = true :=
      fun y hy => h y (List.mem_cons_of_mem _ hy)
    unfold total_extent at ih ⊢
    rw [resolved_sum_cons]
    cases hv : it.visible
    · have hw : ¬ is_weighted (it, d) = true := by simp [is_weighted, hv]
      rw [place_items_hidden _ _ _ _ _ _ _ _ _ _ hv, weighted_extents_cons, if_neg hw,
        List.map_cons, List.sum_cons, ih ps hrest]
      simp [extent_of, hv]
    · rw [place_items_visible _ _ _ _ _ _ _ _ _ _ hv, weighted_extents_cons, List.map_cons,
        List.sum_cons, ih _ hrest]
      by_cases hw : is_weighted (it, d) = true
      · have hu := uses_leftover_of_weighted _ hw
        rw [if_pos hw, List.sum_cons]
        simp only [hu, Bool.true_eq_false, and_false, if_false]
        ring
      · have hu : uses_leftover (it, d) = false := by
          by_contra hne
          exact hw (h (it, d) (List.mem_cons_self _ _) (by simpa using hne))
        have hd : d ≠ disposition_e.Weighted := by
          intro hd; apply hw; simp [is_weighted, hv, hd]
        rw [if_neg hw]
        simp only [hu, hv, and_self, if_true, extent_of, item_size, cx_set_cx,
          primary_extent_static bits p st nbits it d ps (Or.inl hd)]
        ring

theorem weighted_extents_none (p : AxisPolicy) :
    ∀ (ds : List (item × disposition_e)) (os : List (Option (point × size))),
      (∀ x ∈ ds, ¬ is_weighted x = true) → weighted_extents p ds os = [] := by
  intro ds
  induction ds with
  | nil => intro os _; simp [weighted_extents]
  | cons x rest ih =>
    intro os h
    cases os with
    | nil => simp [weighted_extents]
    | cons o os1 =>
      rw [weighted_extents_cons, if_neg (h x (List.mem_cons_self _ _))]
      exact ih os1 (fun y hy => h y (List.mem_cons_of_mem _ hy))

theorem expanding_of_uses_leftover (p : AxisPolicy) (x : item × disposition_e)
    (hpol : x.1.visible = true →
      (p.size_policy_x x.1.size_policy = size_policy_e.Fixed → x.2 = disposition_e.FixedSize) ∧
      (p.size_policy_x x.1.size_policy = size_policy_e.Minimum → x.2 = disposition_e.TooSmall))
    (hu : uses_leftover x = true) :
    p.size_policy_x x.1.size_policy = size_policy_e.Expanding := by
  obtain ⟨hv, hd⟩ := (uses_leftover_iff x.1 x.2).mp hu
  obtain ⟨h1, h2⟩ := hpol hv
  cases hp : p.size_policy_x x.1.size_policy
  · have := h1 hp
    rcases hd with hd | hd <;> rw [hd] at this <;> exact absurd this (by decide)
  · have := h2 hp
    rcases hd with hd | hd <;> rw [hd] at this <;> exact absurd this (by decide)
  · rfl

/-- Minimums are honoured even when they do not fit: a single Fixed widget of minimum 100
laid out in 50 units, without margins or spacing, receives the extent 100, which exceeds
the allotted size (lines 119-121 floor the leftover at zero, line 198 assigns the
minimum). -/
theorem extents_may_exceed_allotted_size :
    ¬ (total_extent AxisPolicy.column_major
          (do_layout_items bresenham_counter AxisPolicy.column_major wide_fixed_layout
            ⟨0, 0⟩ ⟨50, 20⟩).2
        + reserved_spacing AxisPolicy.column_major wide_fixed_layout ⟨50, 20⟩
        + primary_margins AxisPolicy.column_major wide_fixed_layout.margins
        ≤ AxisPolicy.column_major.cx ⟨50, 20⟩) := by
  decide!

/-- The spacing that the placement loop inserts can exceed the spacing reserved at lines
98-99.  With a spacer in the list, the two widgets of primary minimum 0 count as
zero-sized, no spacing is reserved and the three items share all 100 units (33, 33, 34);
the loop still advances the cursor by the spacing 5 after the first widget, so the last
item ends at 71 + 34 = 105. -/
theorem inserted_spacing_may_exceed_reserved :
    reserved_spacing AxisPolicy.column_major spacer_between_layout ⟨100, 20⟩ = 0 ∧
    (do_layout_items bresenham_counter AxisPolicy.column_major spacer_between_layout
      ⟨0, 0⟩ ⟨100, 20⟩).2
      = [some (⟨0, 0⟩, ⟨33, 20⟩), some (⟨38, 0⟩, ⟨33, 20⟩), some (⟨71, 0⟩, ⟨34, 20⟩)] := by
  decide!

/-- What the reservation of lines 96-99 does guarantee: for a counter that keeps its
contract and a list of fewer than `2 ^ 32` items, if no visible item has a negative
primary minimum, every visible Expanding item has a non-negative primary weight and a
primary maximum above the available primary size (allotted size minus primary margins
minus reserved spacing), and the primary minimums of the visible items plus the reserved
spacing plus the primary margins fit in the allotted primary size, then the primary
extents handed to the items plus the reserved spacing plus the primary margins do not
exceed the allotted primary size.  The spacing that is inserted can exceed the spacing
that was reserved (`inserted_spacing_may_exceed_reserved`,
`spacing_after_widget_is_not_reserved`). -/
theorem extents_fit_when_minimums_fit (bits : Nat → Nat → Nat → Nat)
    (hc : counter_contract bits) (p : AxisPolicy) (l : layout) (aPosition : point)
    (aSize : size) (hlen : l.items.length < 4294967296)
    (hmin : ∀ it ∈ l.items, it.visible = true → 0 ≤ p.cx it.minimum_size)
    (hexp : ∀ it ∈ l.items, it.visible = true →
      p.size_policy_x it.size_policy = size_policy_e.Expanding →
      0 ≤ p.cx it.weight ∧
      p.cx aSize - primary_margins p l.margins - reserved_spacing p l aSize
        < p.cx it.maximum_size)
    (hfit : visible_minimums p l.items + reserved_spacing p l aSize
      + primary_margins p l.margins ≤ p.cx aSize) :
    total_extent p (do_layout_items bits p l aPosition aSize).2
      + reserved_spacing p l aSize + primary_margins p l.margins ≤ p.cx aSize := by
  have hvm := visible_minimums_nonneg p l.items hmin
  have hav := cx_availableSize p l aSize
  by_cases h0 : l.items_visible ItemTypeAll = 0
  · have : total_extent p (do_layout_items bits p l aPosition aSize).2 = 0 := by
      unfold do_layout_items total_extent
      rw [if_pos h0]
      simp only [List.map_map]
      apply List.sum_eq_zero
      intro q hq
      rw [List.mem_map] at hq
      obtain ⟨_, _, rfl⟩ := hq
      rfl
    rw [this]
    linarith
  · have hplaced : (do_layout_items bits p l aPosition aSize).2
        = place_items bits p l (availableSize p l aSize) (classification p l aSize).2
          (bitsLeft p (classification p l aSize).1 (classification p l aSize).2)
          (classification p l aSize).1
          ⟨⟨aPosition.x + l.margins.left, aPosition.y + l.margins.top⟩, 0, 0⟩ := by
      unfold do_layout_items
      rw [if_neg h0]
    obtain ⟨hu, hW, hs⟩ := classification_settled p l aSize
    have hsw := settled_weighted p _ _ hs
    -- the first loop
    obtain ⟨a1, a2, a3⟩ := classify_by_policy_accounting p l.items
      { leftover := p.cx (availableSize p l aSize), itemsUsingLeftover := 0,
        totalExpanderWeight := ⟨0, 0⟩, done := false } hmin
      (by simp only []; rw [hav]; linarith)
    obtain ⟨s1, s2, _⟩ := classify_by_policy_state p l.items
      { leftover := p.cx (availableSize p l aSize), itemsUsingLeftover := 0,
        totalExpanderWeight := ⟨0, 0⟩, done := false }
    have hW0 : p.cx (⟨0, 0⟩ : size) = 0 := by cases p <;> rfl
    simp only [hW0, zero_add] at a1 a2 a3 s1 s2
    have hcand0 : ∀ x ∈ (initial_classification p l aSize).1, uses_leftover x = true →
        0 ≤ p.cx x.1.weight ∧ 0 ≤ p.cx x.1.minimum_size ∧
        p.cx (availableSize p l aSize) < p.cx x.1.maximum_size := by
      intro x hx hux
      have hxi : x.1 ∈ l.items := by
        have := List.mem_map_of_mem Prod.fst hx
        rw [initial_classification, classify_by_policy_fst] at this
        exact this
      have hv := uses_leftover_visible x hux
      have hpe := expanding_of_uses_leftover p x
        (classify_by_policy_policy p _ _ x hx) hux
      obtain ⟨e1, e2⟩ := hexp x.1 hxi hv hpe
      exact ⟨e1, hmin x.1 hxi hv, by rw [hav]; exact e2⟩
    -- the while loop
    obtain ⟨b1, b2⟩ := resolve_loop_accounting p (p.cx (availableSize p l aSize))
      ((initial_classification p l aSize).2.itemsUsingLeftover + 1)
      (initial_classification p l aSize).1 (initial_classification p l aSize).2
      s1.symm s2 hcand0
      (by unfold initial_classification; linarith)
      a3
    have b1 : resolved_sum p (classification p l aSize).1
        + (classification p l aSize).2.leftover = p.cx (availableSize p l aSize) := by
      unfold classification
      rw [b1]
      exact a1
    have b2 : 0 ≤ (classification p l aSize).2.leftover := b2
    -- the placement loop
    rw [hplaced, place_items_total bits p l _ _ _ _ _ hsw, ← hplaced]
    have hwsum : (weighted_extents p (classification p l aSize).1
        (do_layout_items bits p l aPosition aSize).2).sum
        ≤ (classification p l aSize).2.leftover := by
      by_cases hex : ∃ x ∈ (classification p l aSize).1, is_weighted x = true
      · obtain ⟨x, hx, hxw⟩ := hex
        have hxv := uses_leftover_visible x (uses_leftover_of_weighted x hxw)
        have hxi := mem_classification_item p l aSize x hx
        have hw : ∀ y ∈ (classification p l aSize).1, uses_leftover y = true →
            0 ≤ p.cx y.1.weight := by
          intro y hy huy
          have hyi := mem_classification_item p l aSize y hy
          have hyv := uses_leftover_visible y huy
          exact (hexp y.1 hyi hyv (expanding_of_uses_leftover p y
            (classification_policy p l aSize y hy) huy)).1
        have hpos := leftover_pos_of_weighted p l aSize hw x hx hxw (hmin x.1 hxi hxv)
        rw [weighted_extents_sum_floor bits hc p l aPosition aSize hlen hw hpos x hx hxw]
        exact Int.floor_le _
      · have hnone : ∀ x ∈ (classification p l aSize).1, ¬ is_weighted x = true :=
          fun x hx hxw => hex ⟨x, hx, hxw⟩
        rw [weighted_extents_none p _ _ hnone]
        simpa using b2
    linarith

/-- An instance of `extents_fit_when_minimums_fit`: the layout of the spec example in 110
units; the extents 10, 50 and 50 fill the allotted size exactly. -/
theorem extents_fit_when_minimums_fit_witness :
    counter_contract bresenham_counter ∧
    visible_minimums AxisPolicy.column_major spec_example_layout.items
      + reserved_spacing AxisPolicy.column_major spec_example_layout ⟨110, 20⟩
      + primary_margins AxisPolicy.column_major spec_example_layout.margins
      ≤ AxisPolicy.column_major.cx ⟨110, 20⟩ ∧
    total_extent AxisPolicy.column_major
      (do_layout_items bresenham_counter AxisPolicy.column_major spec_example_layout
        ⟨0, 0⟩ ⟨110, 20⟩).2 = 110 ∧
    total_extent AxisPolicy.column_major
      (do_layout_items bresenham_counter AxisPolicy.column_major spec_example_layout
        ⟨0, 0⟩ ⟨110, 20⟩).2
      + reserved_spacing AxisPolicy.column_major spec_example_layout ⟨110, 20⟩
      + primary_margins AxisPolicy.column_major spec_example_layout.margins
      ≤ AxisPolicy.column_major.cx ⟨110, 20⟩ :=
  ⟨bresenham_counter_contract, by decide!, by decide!,
   extents_fit_when_minimums_fit bresenham_counter bresenham_counter_contract
     AxisPolicy.column_major spec_example_layout ⟨0, 0⟩ ⟨110, 20⟩ (by decide) (by decide!)
     (by decide!) (by decide!)⟩

/-- When `bitsLeft` is zero the counter is never called (line 203), so the placement does
not depend on it. -/
theorem place_items_without_units (bits bits2 : Nat → Nat → Nat → Nat) (p : AxisPolicy)
    (l : layout) (a : size) (st : solver_state) :
    ∀ (ds : List (item × disposition_e)) (ps : place_state),
      place_items bits p l a st 0 ds ps = place_items bits2 p l a st 0 ds ps := by
  have hext : ∀ (it : item) (d : disposition_e) (ps : place_state),
      primary_extent bits p st 0 it d ps = primary_extent bits2 p st 0 it d ps := by
    intro it d ps
    simp [primary_extent]
  intro ds
  induction ds with
  | nil => intro ps; rfl
  | cons x rest ih =>
    intro ps
    obtain ⟨it, d⟩ := x
    simp only [place_items, item_size, next_place_state, hext, ih]

/-- The reservation of lines 96-99 against the insertion of lines 210-214, on a Fixed
widget of minimum 50 followed by an Expanding spacer, with a spacing of 5 and no margins,
laid out in 100 units, whatever the counter is (`bitsLeft` is 0 and it is not called).
The minimums fit.  Line 97 counts one space (the widget; always-use-spacing is off), so
no spacing is reserved and the spacer is given the whole leftover 50; line 214 still adds
the spacing after the widget, so the spacer is laid out from 55 to 105: the extents
50 + 50, the spacing 5 inserted between the two items and the margins 0 add up to 105,
more than the 100 units allotted. -/
theorem spacing_after_widget_is_not_reserved (bits : Nat → Nat → Nat → Nat) :
    visible_minimums AxisPolicy.column_major widget_then_spacer_layout.items
      + reserved_spacing AxisPolicy.column_major widget_then_spacer_layout ⟨100, 60⟩
      + primary_margins AxisPolicy.column_major widget_then_spacer_layout.margins
      ≤ AxisPolicy.column_major.cx ⟨100, 60⟩ ∧
    spaces AxisPolicy.column_major widget_then_spacer_layout ⟨100, 60⟩ = 1 ∧
    reserved_spacing AxisPolicy.column_major widget_then_spacer_layout ⟨100, 60⟩ = 0 ∧
    (do_layout_items bits AxisPolicy.column_major widget_then_spacer_layout
      ⟨0, 0⟩ ⟨100, 60⟩).2 = [some (⟨0, 0⟩, ⟨50, 50⟩), some (⟨55, 0⟩, ⟨50, 60⟩)] ∧
    total_extent AxisPolicy.column_major
      (do_layout_items bits AxisPolicy.column_major widget_then_spacer_layout
        ⟨0, 0⟩ ⟨100, 60⟩).2 = 100 ∧
    spacing_inserted AxisPolicy.column_major widget_then_spacer_layout
      (widget_then_spacer_layout.items.zip
        (do_layout_items bits AxisPolicy.column_major widget_then_spacer_layout
          ⟨0, 0⟩ ⟨100, 60⟩).2) = 5 ∧
    ¬ (total_extent AxisPolicy.column_major
          (do_layout_items bits AxisPolicy.column_major widget_then_spacer_layout
            ⟨0, 0⟩ ⟨100, 60⟩).2
        + spacing_inserted AxisPolicy.column_major widget_then_spacer_layout
            (widget_then_spacer_layout.items.zip
              (do_layout_items bits AxisPolicy.column_major widget_then_spacer_layout
                ⟨0, 0⟩ ⟨100, 60⟩).2)
        + primary_margins AxisPolicy.column_major widget_then_spacer_layout.margins
        ≤ AxisPolicy.column_major.cx ⟨100, 60⟩) := by
  have hbits : bitsLeft AxisPolicy.column_major
      (classification AxisPolicy.column_major widget_then_spacer_layout ⟨100, 60⟩).1
      (classification AxisPolicy.column_major widget_then_spacer_layout ⟨100, 60⟩).2 = 0 := by
    decide!
  have hvis : ¬ widget_then_spacer_layout.items_visible ItemTypeAll = 0 := by decide
  have hplaced : (do_layout_items bits AxisPolicy.column_major widget_then_spacer_layout
      ⟨0, 0⟩ ⟨100, 60⟩).2 = [some (⟨0, 0⟩, ⟨50, 50⟩), some (⟨55, 0⟩, ⟨50, 60⟩)] := by
    have hsame : (do_layout_items bits AxisPolicy.column_major widget_then_spacer_layout
        ⟨0, 0⟩ ⟨100, 60⟩).2
        = (do_layout_items bresenham_counter AxisPolicy.column_major
            widget_then_spacer_layout ⟨0, 0⟩ ⟨100, 60⟩).2 := by
      unfold do_layout_items
      rw [if_neg hvis, if_neg hvis, hbits]
      exact place_items_without_units bits bresenham_counter _ _ _ _ _ _
    rw [hsame]
    decide!
  rw [hplaced]
  decide!

/-- The same disagreement with always-use-spacing on: an Expanding widget of primary
minimum 0 followed by an Expanding spacer, with a spacing of 5, in 100 units.  Line 97
counts two visible items less one item that is zero-sized by its minimum (lines 32-46),
so no spacing is reserved and each item gets 50; the widget is laid out with the extent
50, not 0, and line 214 adds the spacing after it: the spacer is laid out from 55 to
105. -/
theorem spacing_after_zero_minimum_widget_is_not_reserved :
    items_zero_sized AxisPolicy.column_major zero_minimum_then_spacer_layout ⟨100, 60⟩ = 1 ∧
    spaces AxisPolicy.column_major zero_minimum_then_spacer_layout ⟨100, 60⟩ = 1 ∧
    reserved_spacing AxisPolicy.column_major zero_minimum_then_spacer_layout ⟨100, 60⟩ = 0 ∧
    (do_layout_items bresenham_counter AxisPolicy.column_major
      zero_minimum_then_spacer_layout ⟨0, 0⟩ ⟨100, 60⟩).2
      = [some (⟨0, 0⟩, ⟨50, 60⟩), some (⟨55, 0⟩, ⟨50, 60⟩)] ∧
    spacing_inserted AxisPolicy.column_major zero_minimum_then_spacer_layout
      (zero_minimum_then_spacer_layout.items.zip
        (do_layout_items bresenham_counter AxisPolicy.column_major
          zero_minimum_then_spacer_layout ⟨0, 0⟩ ⟨100, 60⟩).2) = 5 := by
  decide!

/-! ## Grid layout: cell map lemmas -/

theorem cells_find_append (a b : cell_list) (k : cell_coordinates) :
    cells_find (a ++ b) k = (cells_find a k).orElse (fun _ => cells_find b k) := by
  induction a with
  | nil => simp [cells_find]
  | cons e rest ih =>
    by_cases h : e.1 = k
    · simp [cells_find, h]
    · simp [cells_find, h, ih]

theorem cells_find_erase_self (cells : cell_list) (k : cell_coordinates) :
    cells_find (cells_erase cells k) k = none := by
  induction cells with
  | nil => simp [cells_erase, cells_find]
  | cons e rest ih =>
    by_cases h : e.1 = k
    · simpa [cells_erase, h] using ih
    · simpa [cells_erase, h, cells_find] using ih

theorem cells_find_erase_ne (cells : cell_list) (k k2 : cell_coordinates) (h : k2 ≠ k) :
    cells_find (cells_erase cells k) k2 = cells_find cells k2 := by
  induction cells with
  | nil => simp [cells_erase, cells_find]
  | cons e rest ih =>
    unfold cells_erase at ih ⊢
    by_cases h1 : e.1 = k
    · have h2 : ¬ e.1 = k2 := fun h3 => h (h3 ▸ h1)
      rw [List.filter_cons_of_neg (by simp [h1]), ih]
      simp only [cells_find, if_neg h2]
    · rw [List.filter_cons_of_pos (by simp [h1])]
      by_cases h2 : e.1 = k2
      · simp only [cells_find, if_pos h2]
      · simp only [cells_find, if_neg h2]
        exact ih

theorem cells_find_assign_self (cells : cell_list) (k : cell_coordinates) (v : item_ref) :
    cells_find (cells_assign cells k v) k = some v := by
  simp [cells_assign, cells_find_append, cells_find_erase_self, cells_find]

theorem cells_find_assign_ne (cells : cell_list) (k k2 : cell_coordinates) (v : item_ref)
    (h : k2 ≠ k) : cells_find (cells_assign cells k v) k2 = cells_find cells k2 := by
  have h2 : k ≠ k2 := fun h3 => h h3.symm
  rw [cells_assign, cells_find_append, cells_find_erase_ne _ _ _ h]
  cases cells_find cells k2 <;> simp [cells_find, h2]

theorem cells_find_mem (cells : cell_list) (k : cell_coordinates) (x : item_ref)
    (h : cells_find cells k = some x) : (k, x) ∈ cells := by
  induction cells with
  | nil => simp [cells_find] at h
  | cons e rest ih =>
    by_cases h1 : e.1 = k
    · simp [cells_find, h1] at h
      have : e = (k, x) := Prod.ext h1 h
      simp [this]
    · simp [cells_find, h1] at h
      exact List.mem_cons_of_mem _ (ih h)

/-- In a well-formed grid an item occupies one cell at most. -/
theorem cells_find_injective (g : grid_layout) (hwf : g.well_formed)
    (k1 k2 : cell_coordinates) (x : item_ref) (h1 : cells_find g.iCells k1 = some x)
    (h2 : cells_find g.iCells k2 = some x) : k1 = k2 := by
  have m1 := cells_find_mem _ _ _ h1
  have m2 := cells_find_mem _ _ _ h2
  have hinj := List.inj_on_of_nodup_map hwf.1 m1 m2 rfl
  exact congrArg Prod.fst hinj

/-- In a well-formed grid every occupant is in the item list. -/
theorem cells_find_items (g : grid_layout) (hwf : g.well_formed)
    (k : cell_coordinates) (x : item_ref) (h : cells_find g.iCells k = some x) :
    x ∈ g.items :=
  hwf.2.1 _ (cells_find_mem _ _ _ h)

theorem is_item_at_position_eq_false (g : grid_layout) (aRow aColumn : Nat) :
    is_item_at_position g aRow aColumn = false ↔
      cells_find g.iCells ⟨aColumn, aRow⟩ = none := by
  simp [is_item_at_position]

theorem is_item_at_position_eq_true (g : grid_layout) (aRow aColumn : Nat) :
    is_item_at_position g aRow aColumn = true ↔
      ∃ x, cells_find g.iCells ⟨aColumn, aRow⟩ = some x := by
  simp [is_item_at_position, Option.isSome_iff_exists]

/-! ## Grid layout: removal and insertion lemmas -/

theorem and_then_of_not_thrown (r : grid_outcome) (f : grid_layout → grid_outcome)
    (h : r.thrown = none) : r.and_then f = f r.state := by
  simp [grid_outcome.and_then, h]

theorem and_then_of_thrown (r : grid_outcome) (f : grid_layout → grid_outcome)
    (e : grid_error) (h : r.thrown = some e) : r.and_then f = r := by
  simp [grid_outcome.and_then, h]

theorem remove_item_at_position_unoccupied (ops : row_operations) (g : grid_layout)
    (aRow aColumn : Nat) (h : cells_find g.iCells ⟨aColumn, aRow⟩ = none) :
    remove_item_at_position ops g aRow aColumn = ⟨g, some grid_error.cell_unoccupied⟩ := by
  simp [remove_item_at_position, h]

theorem remove_item_at_position_occupied (ops : row_operations) (g : grid_layout)
    (aRow aColumn : Nat) (x : item_ref) (h : cells_find g.iCells ⟨aColumn, aRow⟩ = some x) :
    remove_item_at_position ops g aRow aColumn =
      ⟨removed_state ops g aRow aColumn x, none⟩ := by
  simp [remove_item_at_position, h]

theorem remove_if_occupied_unoccupied (ops : row_operations) (g : grid_layout)
    (aRow aColumn : Nat) (h : cells_find g.iCells ⟨aColumn, aRow⟩ = none) :
    remove_if_occupied ops g aRow aColumn = ⟨g, none⟩ := by
  simp [remove_if_occupied, is_item_at_position, h]

theorem remove_if_occupied_occupied (ops : row_operations) (g : grid_layout)
    (aRow aColumn : Nat) (x : item_ref) (h : cells_find g.iCells ⟨aColumn, aRow⟩ = some x) :
    remove_if_occupied ops g aRow aColumn = ⟨removed_state ops g aRow aColumn x, none⟩ := by
  simp [remove_if_occupied, is_item_at_position, h, remove_item_at_position]

theorem removed_state_cells (ops : row_operations) (g : grid_layout) (aRow aColumn : Nat)
    (x : item_ref) :
    (removed_state ops g aRow aColumn x).iCells = cells_erase g.iCells ⟨aColumn, aRow⟩ := rfl

theorem removed_state_items (ops : row_operations) (g : grid_layout) (aRow aColumn : Nat)
    (x : item_ref) :
    (removed_state ops g aRow aColumn x).items = g.items.erase x := rfl

theorem removed_state_spacers_made (ops : row_operations) (g : grid_layout)
    (aRow aColumn : Nat) (x : item_ref) :
    (removed_state ops g aRow aColumn x).spacers_made = g.spacers_made := rfl

theorem insert_item_cells (ops : row_operations) (g : grid_layout) (aRow aColumn : Nat)
    (x : item_ref) :
    (insert_item ops g aRow aColumn x).iCells = cells_assign g.iCells ⟨aColumn, aRow⟩ x := rfl

theorem insert_item_items (ops : row_operations) (g : grid_layout) (aRow aColumn : Nat)
    (x : item_ref) : (insert_item ops g aRow aColumn x).items = g.items ++ [x] := rfl

theorem insert_item_spacers_made (ops : row_operations) (g : grid_layout)
    (aRow aColumn : Nat) (x : item_ref) :
    (insert_item ops g aRow aColumn x).spacers_made = g.spacers_made := rfl

/-- The loop of lines 132-134 does nothing when every cell left of the target is
occupied. -/
theorem fill_spacers_of_occupied (ops : row_operations) (aRow : Nat) (n : Nat)
    (g : grid_layout) (h : ∀ col, col < n → is_item_at_position g aRow col = true) :
    fill_spacers ops aRow n g = ⟨g, none⟩ := by
  induction n with
  | zero => rfl
  | succ n ih =>
    rw [fill_spacers, ih (fun col hc => h col (Nat.lt_succ_of_lt hc))]
    simp [grid_outcome.and_then, h n (Nat.lt_succ_self n)]

/-- Insertion into a free cell whose left neighbours are all occupied: only lines
135-138 act. -/
theorem add_item_at_position_simple (ops : row_operations) (g : grid_layout)
    (aRow aColumn : Nat) (aItem : item_ref) (hrow : aItem ≠ item_ref.row_container)
    (hnew : belongs g aItem = false)
    (hfree : cells_find g.iCells ⟨aColumn, aRow⟩ = none)
    (hleft : ∀ col, col < aColumn → is_item_at_position g aRow col = true) :
    add_item_at_position ops g aRow aColumn aItem =
      ⟨insert_item ops g aRow aColumn aItem, none⟩ := by
  simp [add_item_at_position, add_item_with, hrow, hnew,
    remove_if_occupied_unoccupied ops g aRow aColumn hfree, grid_outcome.and_then,
    fill_spacers_of_occupied ops aRow aColumn g hleft]

/-- The spacer loop of `add_item_at_position`, in terms of the cell map.  The loop
throws nothing, it touches only the cells of its row left of the target, it keeps
the occupants it finds and it puts a spacer made during the loop into each free cell. -/
theorem fill_spacers_cells (ops : row_operations) (aRow : Nat) (n : Nat) (g : grid_layout)
    (hmade : ∀ x ∈ g.items, item_ref.created_before g.spacers_made x = true) :
    (fill_spacers ops aRow n g).thrown = none ∧
    g.spacers_made ≤ (fill_spacers ops aRow n g).state.spacers_made ∧
    (∀ x ∈ (fill_spacers ops aRow n g).state.items,
      item_ref.created_before (fill_spacers ops aRow n g).state.spacers_made x = true) ∧
    (∀ x, x ∈ (fill_spacers ops aRow n g).state.items ↔
      (x ∈ g.items ∨ ∃ m, x = item_ref.made m ∧ g.spacers_made ≤ m ∧
        m < (fill_spacers ops aRow n g).state.spacers_made ∧
        ∃ col, col < n ∧ cells_find g.iCells ⟨col, aRow⟩ = none ∧
          cells_find (fill_spacers ops aRow n g).state.iCells ⟨col, aRow⟩ = some x)) ∧
    (∀ k : cell_coordinates, (k.y ≠ aRow ∨ n ≤ k.x) →
      cells_find (fill_spacers ops aRow n g).state.iCells k = cells_find g.iCells k) ∧
    (∀ col, col < n → ∀ y, cells_find g.iCells ⟨col, aRow⟩ = some y →
      cells_find (fill_spacers ops aRow n g).state.iCells ⟨col, aRow⟩ = some y) ∧
    (∀ col, col < n → cells_find g.iCells ⟨col, aRow⟩ = none →
      ∃ m, g.spacers_made ≤ m ∧ m < (fill_spacers ops aRow n g).state.spacers_made ∧
        cells_find (fill_spacers ops aRow n g).state.iCells ⟨col, aRow⟩ =
          some (item_ref.made m)) ∧
    (fill_spacers ops aRow n g).state.iCursor = g.iCursor ∧
    (fill_spacers ops aRow n g).state.iSpans = g.iSpans := by
  induction n with
  | zero =>
    refine ⟨rfl, le_refl _, hmade, ?_, fun _ _ => rfl, ?_, ?_, rfl, rfl⟩
    · intro x
      constructor
      · intro hx; exact Or.inl hx
      · rintro (hx | ⟨m, _, _, _, col, hc, _⟩)
        · exact hx
        · exact absurd hc (Nat.not_lt_zero _)
    · intro col hc; exact absurd hc (Nat.not_lt_zero _)
    · intro col hc; exact absurd hc (Nat.not_lt_zero _)
  | succ n ih =>
    obtain ⟨ht, hle, hm, hitems, hframe, hkeep, hnewc, hcur, hsp⟩ := ih
    have hstep : fill_spacers ops aRow (n + 1) g =
        (if is_item_at_position (fill_spacers ops aRow n g).state aRow n then
          ⟨(fill_spacers ops aRow n g).state, none⟩
        else add_spacer_with ops (fill_spacers ops aRow n)
          (fill_spacers ops aRow n g).state aRow n) := by
      rw [fill_spacers, and_then_of_not_thrown _ _ ht]
    have hsame : cells_find (fill_spacers ops aRow n g).state.iCells ⟨n, aRow⟩ =
        cells_find g.iCells ⟨n, aRow⟩ := hframe ⟨n, aRow⟩ (Or.inr (le_refl n))
    by_cases hocc : is_item_at_position (fill_spacers ops aRow n g).state aRow n = true
    · -- the cell is occupied: nothing to do for this column
      rw [hstep, if_pos hocc]
      obtain ⟨y, hy⟩ := (is_item_at_position_eq_true _ _ _).1 hocc
      have hy2 : cells_find g.iCells ⟨n, aRow⟩ = some y := hsame ▸ hy
      refine ⟨rfl, hle, hm, ?_, ?_, ?_, ?_, hcur, hsp⟩
      · intro x
        rw [hitems x]
        constructor
        · rintro (hx | ⟨m, h1, h2, h3, col, hc, h4, h5⟩)
          · exact Or.inl hx
          · exact Or.inr ⟨m, h1, h2, h3, col, Nat.lt_succ_of_lt hc, h4, h5⟩
        · rintro (hx | ⟨m, h1, h2, h3, col, hc, h4, h5⟩)
          · exact Or.inl hx
          · rcases Nat.lt_succ_iff_lt_or_eq.1 hc with hc2 | hc2
            · exact Or.inr ⟨m, h1, h2, h3, col, hc2, h4, h5⟩
            · subst hc2; rw [hy2] at h4; cases h4
      · intro k hk
        apply hframe k
        rcases hk with hk | hk
        · exact Or.inl hk
        · exact Or.inr (Nat.le_of_succ_le hk)
      · intro col hc y2 hy3
        rcases Nat.lt_succ_iff_lt_or_eq.1 hc with hc2 | hc2
        · exact hkeep col hc2 y2 hy3
        · subst hc2; rw [hsame]; exact hy3
      · intro col hc hnone
        rcases Nat.lt_succ_iff_lt_or_eq.1 hc with hc2 | hc2
        · exact hnewc col hc2 hnone
        · subst hc2; rw [hy2] at hnone; cases hnone
    · -- the cell is free: a spacer is made and inserted
      have hfree : cells_find (fill_spacers ops aRow n g).state.iCells ⟨n, aRow⟩ = none := by
        rw [← is_item_at_position_eq_false]
        simpa using hocc
      have hfree0 : cells_find g.iCells ⟨n, aRow⟩ = none := hsame ▸ hfree
      have hleft : ∀ col, col < n →
          is_item_at_position (fill_spacers ops aRow n g).state aRow col = true := by
        intro col hc
        rw [is_item_at_position_eq_true]
        cases hg : cells_find g.iCells ⟨col, aRow⟩ with
        | none =>
          obtain ⟨m, _, _, h3⟩ := hnewc col hc hg
          exact ⟨_, h3⟩
        | some y => exact ⟨y, hkeep col hc y hg⟩
      have hfresh : item_ref.made (fill_spacers ops aRow n g).state.spacers_made ∉
          (fill_spacers ops aRow n g).state.items := by
        intro hmem
        have := hm _ hmem
        simp [item_ref.created_before] at this
      have hres : fill_spacers ops aRow (n + 1) g =
          ⟨insert_item ops { (fill_spacers ops aRow n g).state with
              spacers_made := (fill_spacers ops aRow n g).state.spacers_made + 1 } aRow n
            (item_ref.made (fill_spacers ops aRow n g).state.spacers_made), none⟩ := by
        rw [hstep, if_neg hocc, add_spacer_with,
          remove_if_occupied_unoccupied ops _ aRow n hfree,
          and_then_of_not_thrown _ _ rfl]
        have hb : belongs { (fill_spacers ops aRow n g).state with
            spacers_made := (fill_spacers ops aRow n g).state.spacers_made + 1 }
            (item_ref.made (fill_spacers ops aRow n g).state.spacers_made) = false := by
          simp only [belongs, decide_eq_false_iff_not]
          exact hfresh
        have h1 := add_item_at_position_simple ops
          { (fill_spacers ops aRow n g).state with
            spacers_made := (fill_spacers ops aRow n g).state.spacers_made + 1 } aRow n
          (item_ref.made (fill_spacers ops aRow n g).state.spacers_made)
          (by simp) hb hfree hleft
        simpa [add_item_at_position] using h1
      rw [hres]
      simp only [insert_item_cells, insert_item_items, insert_item_spacers_made]
      refine ⟨trivial, Nat.le_succ_of_le hle, ?_, ?_, ?_, ?_, ?_, hcur, hsp⟩
      · intro x hx
        rcases List.mem_append.1 hx with hx | hx
        · have := hm x hx
          cases x with
          | made k =>
            simp only [item_ref.created_before, decide_eq_true_eq] at this ⊢
            exact Nat.lt_succ_of_lt this
          | external k => rfl
          | row_container => rfl
        · simp only [List.mem_singleton] at hx
          subst hx
          simp [item_ref.created_before]
      · intro x
        rw [List.mem_append, hitems x]
        constructor
        · rintro ((hx | ⟨m, h1, h2, h3, col, hc, h4, h5⟩) | hx)
          · exact Or.inl hx
          · refine Or.inr ⟨m, h1, h2, Nat.lt_succ_of_lt h3, col, Nat.lt_succ_of_lt hc, h4, ?_⟩
            rw [cells_find_assign_ne _ _ _ _ (by
              intro hk
              have := congrArg cell_coordinates.x hk
              simp at this
              omega)]
            exact h5
          · simp only [List.mem_singleton] at hx
            refine Or.inr ⟨_, hx, hle, Nat.lt_succ_self _, n, Nat.lt_succ_self n, hfree0, ?_⟩
            rw [hx, cells_find_assign_self]
        · rintro (hx | ⟨m, h1, h2, h3, col, hc, h4, h5⟩)
          · exact Or.inl (Or.inl hx)
          · rcases Nat.lt_succ_iff_lt_or_eq.1 hc with hc2 | hc2
            · rw [cells_find_assign_ne _ _ _ _ (by
                intro hk
                have := congrArg cell_coordinates.x hk
                simp at this
                omega)] at h5
              have hx2 := cells_find_mem _ _ _ h5
              obtain ⟨m2, hm2, hm3, hm4⟩ := hnewc col hc2 h4
              rw [hm4] at h5
              cases h5
              exact Or.inl (Or.inr ⟨m2, h1.symm ▸ rfl, hm2, hm3, col, hc2, h4, hm4⟩)
            · subst hc2
              rw [cells_find_assign_self] at h5
              cases h5
              exact Or.inr (List.mem_singleton.2 rfl)
      · intro k hk
        have hne : k ≠ ⟨n, aRow⟩ := by
          intro hk2
          subst hk2
          rcases hk with hk | hk
          · exact hk rfl
          · simp at hk
        rw [cells_find_assign_ne _ _ _ _ hne]
        apply hframe k
        rcases hk with hk | hk
        · exact Or.inl hk
        · exact Or.inr (Nat.le_of_succ_le hk)
      · intro col hc y2 hy3
        rcases Nat.lt_succ_iff_lt_or_eq.1 hc with hc2 | hc2
        · rw [cells_find_assign_ne _ _ _ _ (by
            intro hk
            have := congrArg cell_coordinates.x hk
            simp at this
            omega)]
          exact hkeep col hc2 y2 hy3
        · subst hc2; rw [hfree0] at hy3; cases hy3
      · intro col hc hnone
        rcases Nat.lt_succ_iff_lt_or_eq.1 hc with hc2 | hc2
        · obtain ⟨m, h1, h2, h3⟩ := hnewc col hc2 hnone
          refine ⟨m, h1, Nat.lt_succ_of_lt h2, ?_⟩
          rw [cells_find_assign_ne _ _ _ _ (by
            intro hk
            have := congrArg cell_coordinates.x hk
            simp at this
            omega)]
          exact h3
        · subst hc2
          exact ⟨_, hle, Nat.lt_succ_self _, cells_find_assign_self _ _ _⟩

/-! ## Grid layout: insertion, removal and the failure paths -/

/-- The statement of lines 130-131 throws nothing, frees the target cell and leaves
every other cell as it was. -/
theorem remove_if_occupied_cells (ops : row_operations) (g : grid_layout)
    (aRow aColumn : Nat) :
    ∃ g1, remove_if_occupied ops g aRow aColumn = ⟨g1, none⟩ ∧
      cells_find g1.iCells ⟨aColumn, aRow⟩ = none ∧
      (∀ k : cell_coordinates, k ≠ ⟨aColumn, aRow⟩ →
        cells_find g1.iCells k = cells_find g.iCells k) ∧
      g1.spacers_made = g.spacers_made ∧ (∀ x, x ∈ g1.items → x ∈ g.items) := by
  cases h : cells_find g.iCells ⟨aColumn, aRow⟩ with
  | none =>
    exact ⟨g, remove_if_occupied_unoccupied ops g aRow aColumn h, h, fun _ _ => rfl, rfl,
      fun _ hx => hx⟩
  | some y =>
    refine ⟨removed_state ops g aRow aColumn y,
      remove_if_occupied_occupied ops g aRow aColumn y h, ?_, ?_, rfl, ?_⟩
    · rw [removed_state_cells]; exact cells_find_erase_self _ _
    · intro k hk
      rw [removed_state_cells]; exact cells_find_erase_ne _ _ _ hk
    · intro x hx
      rw [removed_state_items] at hx
      exact List.mem_of_mem_erase hx

theorem item_at_position_value (g : grid_layout) (aRow aColumn : Nat) :
    (item_at_position g aRow aColumn).value = cells_find g.iCells ⟨aColumn, aRow⟩ := by
  unfold item_at_position
  cases cells_find g.iCells ⟨aColumn, aRow⟩ <;> rfl

/-- The cell map after `add_item_at_position` of an item that is neither the row
container nor in the item list. -/
theorem add_item_at_position_cells (ops : row_operations) (g : grid_layout)
    (aRow aColumn : Nat) (aItem : item_ref) (hwf : g.well_formed)
    (hrow : aItem ≠ item_ref.row_container) (hnew : belongs g aItem = false) :
    (add_item_at_position ops g aRow aColumn aItem).thrown = none ∧
    cells_find (add_item_at_position ops g aRow aColumn aItem).state.iCells
      ⟨aColumn, aRow⟩ = some aItem ∧
    (∀ y, cells_find g.iCells ⟨aColumn, aRow⟩ = some y → ∀ k,
      cells_find (add_item_at_position ops g aRow aColumn aItem).state.iCells k ≠ some y) ∧
    (∀ col, col < aColumn → ∀ y, cells_find g.iCells ⟨col, aRow⟩ = some y →
      cells_find (add_item_at_position ops g aRow aColumn aItem).state.iCells
        ⟨col, aRow⟩ = some y) ∧
    (∀ col, col < aColumn → cells_find g.iCells ⟨col, aRow⟩ = none →
      ∃ m, g.spacers_made ≤ m ∧ item_ref.made m ∉ g.items ∧
        item_ref.made m ∈ (add_item_at_position ops g aRow aColumn aItem).state.items ∧
        cells_find (add_item_at_position ops g aRow aColumn aItem).state.iCells
          ⟨col, aRow⟩ = some (item_ref.made m)) ∧
    (∀ k : cell_coordinates, (k.y ≠ aRow ∨ aColumn < k.x) →
      cells_find (add_item_at_position ops g aRow aColumn aItem).state.iCells k =
        cells_find g.iCells k) := by
  obtain ⟨g1, hr1, hfree1, hsame1, hmade1, hitems1⟩ :=
    remove_if_occupied_cells ops g aRow aColumn
  have hmade : ∀ x ∈ g1.items, item_ref.created_before g1.spacers_made x = true := by
    intro x hx
    rw [hmade1]
    exact hwf.2.2.2 x (hitems1 x hx)
  obtain ⟨ht, hle, _, hitems, hframe, hkeep, hnewc, _, _⟩ :=
    fill_spacers_cells ops aRow aColumn g1 hmade
  have hres : add_item_at_position ops g aRow aColumn aItem =
      ⟨insert_item ops (fill_spacers ops aRow aColumn g1).state aRow aColumn aItem,
        none⟩ := by
    rw [add_item_at_position, add_item_with, if_neg hrow, hnew, hr1]
    simp only [Bool.false_eq_true, if_false]
    have h1 : (grid_outcome.mk g1 none).and_then (fill_spacers ops aRow aColumn) =
        fill_spacers ops aRow aColumn g1 := and_then_of_not_thrown _ _ rfl
    rw [h1, and_then_of_not_thrown _ _ ht]
  have hnotin : aItem ∉ g.items := by
    simpa [belongs] using hnew
  have hcol : ∀ col, col < aColumn →
      (⟨col, aRow⟩ : cell_coordinates) ≠ ⟨aColumn, aRow⟩ := by
    intro col hc hk
    have := congrArg cell_coordinates.x hk
    simp at this
    omega
  have hother : ∀ k : cell_coordinates, (k.y ≠ aRow ∨ aColumn < k.x) →
      k ≠ ⟨aColumn, aRow⟩ := by
    intro k hk hk2
    subst hk2
    rcases hk with hk | hk
    · exact hk rfl
    · simp at hk
  rw [hres]
  simp only [insert_item_cells, insert_item_items]
  refine ⟨trivial, cells_find_assign_self _ _ _, ?_, ?_, ?_, ?_⟩
  · intro y hy k hk
    have hyin : y ∈ g.items := cells_find_items g hwf _ _ hy
    by_cases hk1 : k = ⟨aColumn, aRow⟩
    · rw [hk1, cells_find_assign_self] at hk
      cases hk
      exact hnotin hyin
    · rw [cells_find_assign_ne _ _ _ _ hk1] at hk
      by_cases hk2 : k.y = aRow ∧ k.x < aColumn
      · have hkc : k = ⟨k.x, aRow⟩ := by
          cases k; simp at hk2 ⊢; exact hk2.1
        rw [hkc] at hk
        cases hg : cells_find g1.iCells ⟨k.x, aRow⟩ with
        | none =>
          obtain ⟨m, hm1, _, hm3⟩ := hnewc k.x hk2.2 hg
          rw [hm3] at hk
          cases hk
          have := hwf.2.2.2 _ hyin
          simp only [item_ref.created_before, decide_eq_true_eq] at this
          omega
        | some y2 =>
          rw [hkeep k.x hk2.2 y2 hg] at hk
          cases hk
          rw [hsame1 _ (hcol k.x hk2.2)] at hg
          exact hcol k.x hk2.2 (cells_find_injective g hwf _ _ _ hg hy)
      · have hk3 : k.y ≠ aRow ∨ aColumn ≤ k.x := by
          by_cases h1 : k.y = aRow
          · exact Or.inr (Nat.le_of_not_lt (fun h2 => hk2 ⟨h1, h2⟩))
          · exact Or.inl h1
        rw [hframe k hk3, hsame1 k hk1] at hk
        exact hk1 (cells_find_injective g hwf _ _ _ hk hy)
  · intro col hc y hy
    rw [cells_find_assign_ne _ _ _ _ (hcol col hc)]
    apply hkeep col hc y
    rw [hsame1 _ (hcol col hc)]
    exact hy
  · intro col hc hnone
    have hnone1 : cells_find g1.iCells ⟨col, aRow⟩ = none := by
      rw [hsame1 _ (hcol col hc)]; exact hnone
    obtain ⟨m, hm1, hm2, hm3⟩ := hnewc col hc hnone1
    refine ⟨m, hmade1 ▸ hm1, ?_, ?_, ?_⟩
    · intro hin
      have := hwf.2.2.2 _ hin
      simp only [item_ref.created_before, decide_eq_true_eq] at this
      omega
    · apply List.mem_append_left
      rw [hitems]
      exact Or.inr ⟨m, rfl, hm1, hm2, col, hc, hnone1, hm3⟩
    · rw [cells_find_assign_ne _ _ _ _ (hcol col hc)]
      exact hm3
  · intro k hk
    rw [cells_find_assign_ne _ _ _ _ (hother k hk)]
    rw [hframe k (by
      rcases hk with hk | hk
      · exact Or.inl hk
      · exact Or.inr (Nat.le_of_lt hk))]
    exact hsame1 k (hother k hk)

/-! ## Grid layout: raster order of `add` -/

theorem succ_mod_of_wrap (C n : Nat) (h : C ≤ n % C + 1) (hC : 0 < C) :
    (n + 1) % C = 0 ∧ (n + 1) / C = n / C + 1 := by
  have h1 : n % C < C := Nat.mod_lt n hC
  have h2 : n % C + 1 = C := by omega
  have h3 : n + 1 = C * (n / C + 1) := by
    have := Nat.div_add_mod n C
    rw [Nat.mul_add, Nat.mul_one]
    omega
  rw [h3]
  exact ⟨Nat.mul_mod_right _ _, Nat.mul_div_cancel_left _ hC⟩

theorem succ_mod_of_no_wrap (C n : Nat) (h : n % C + 1 < C) :
    (n + 1) % C = n % C + 1 ∧ (n + 1) / C = n / C := by
  have hC : 0 < C := by omega
  have h3 : n + 1 = C * (n / C) + (n % C + 1) := by
    have := Nat.div_add_mod n C
    omega
  constructor
  · rw [h3, Nat.mul_add_mod, Nat.mod_eq_of_lt h]
  · rw [h3, Nat.mul_add_div hC, Nat.div_eq_of_lt h, Nat.add_zero]

theorem raster_index_eq (C n : Nat) (k : cell_coordinates) (hk : k.x < C) :
    k.y * C + k.x = n ↔ k = ⟨n % C, n / C⟩ := by
  have hC : 0 < C := by omega
  constructor
  · intro h
    subst h
    have h1 : (k.y * C + k.x) % C = k.x := by
      rw [Nat.add_comm, Nat.add_mul_mod_self_right, Nat.mod_eq_of_lt hk]
    have h2 : (k.y * C + k.x) / C = k.y := by
      rw [Nat.add_comm, Nat.add_mul_div_right _ _ hC, Nat.div_eq_of_lt hk, Nat.zero_add]
    cases k
    simp only [cell_coordinates.mk.injEq]
    exact ⟨h1.symm, h2.symm⟩
  · intro h
    rw [h]
    show n / C * C + n % C = n
    rw [Nat.mul_comm]
    exact Nat.div_add_mod n C

theorem increment_cursor_raster (g : grid_layout) (C n : Nat) (hC : 0 < C)
    (hcols : g.iDimensions.cx = C) (hcur : g.iCursor = ⟨n % C, n / C⟩) :
    (increment_cursor g).iCursor = ⟨(n + 1) % C, (n + 1) / C⟩ := by
  unfold increment_cursor grid_layout.columns
  rw [hcols, hcur]
  by_cases h : n % C + 1 ≥ C
  · obtain ⟨h1, h2⟩ := succ_mod_of_wrap C n h hC
    simp only [h, if_true, h1, h2]
  · have h3 : n % C + 1 < C := Nat.lt_of_not_ge h
    obtain ⟨h1, h2⟩ := succ_mod_of_no_wrap C n h3
    simp only [h, if_false, h1, h2]

theorem increment_cursor_cells (g : grid_layout) :
    (increment_cursor g).iCells = g.iCells ∧ (increment_cursor g).items = g.items ∧
      (increment_cursor g).iDimensions = g.iDimensions ∧
      (increment_cursor g).spacers_made = g.spacers_made := by
  unfold increment_cursor
  split <;> exact ⟨rfl, rfl, rfl, rfl⟩

/-- The invariant of a run of `add` on a grid of `C` columns: after the items `done`,
cell `(row, column)` holds item number `row * C + column` of `done`. -/
theorem add_all_raster (ops : row_operations) (C : Nat) (hC : 0 < C) :
    ∀ (rest done : List item_ref) (g : grid_layout),
      g.iDimensions.cx = C → g.iCursor = ⟨done.length % C, done.length / C⟩ →
      (∀ k : cell_coordinates, cells_find g.iCells k =
        if k.x < C then done[k.y * C + k.x]? else none) →
      (∀ x, x ∈ g.items → x ∈ done) → (done ++ rest).Nodup →
      item_ref.row_container ∉ rest →
      (add_all ops rest g).thrown = none ∧
      (∀ k : cell_coordinates, cells_find (add_all ops rest g).state.iCells k =
        if k.x < C then (done ++ rest)[k.y * C + k.x]? else none) := by
  intro rest
  induction rest with
  | nil =>
    intro done g _ _ hcells _ _ _
    refine ⟨rfl, ?_⟩
    intro k
    rw [List.append_nil]
    exact hcells k
  | cons x rest ih =>
    intro done g hcols hcur hcells hitems hnodup hrow
    have hxrow : x ≠ item_ref.row_container := by
      intro h; exact hrow (h ▸ List.mem_cons_self _ _)
    have hxdone : x ∉ done := by
      intro h
      have := (List.nodup_append.1 hnodup).2.2
      exact this h (List.mem_cons_self _ _)
    have hnew : belongs g x = false := by
      simp only [belongs, decide_eq_false_iff_not]
      exact fun h => hxdone (hitems x h)
    have hmodlt : done.length % C < C := Nat.mod_lt _ hC
    have hidx : done.length / C * C + done.length % C = done.length := by
      rw [Nat.mul_comm]; exact Nat.div_add_mod _ _
    have hfree : cells_find g.iCells ⟨done.length % C, done.length / C⟩ = none := by
      rw [hcells]
      simp only [hmodlt, if_true, hidx]
      exact List.getElem?_eq_none (le_refl _)
    have hleft : ∀ col, col < done.length % C →
        is_item_at_position g (done.length / C) col = true := by
      intro col hc
      rw [is_item_at_position_eq_true, hcells]
      have hc2 : col < C := Nat.lt_trans hc hmodlt
      have hlt : done.length / C * C + col < done.length := by omega
      simp only [hc2, if_true]
      exact ⟨done[done.length / C * C + col], List.getElem?_eq_getElem hlt⟩
    have hadd : add ops g x = ⟨increment_cursor (insert_item ops g (done.length / C)
        (done.length % C) x), none⟩ := by
      rw [add, hcur, add_item_at_position_simple ops g _ _ x hxrow hnew hfree hleft]
      rfl
    have hcols2 : (insert_item ops g (done.length / C) (done.length % C) x).iDimensions.cx
        = C := by
      show max g.iDimensions.cx (done.length % C + 1) = C
      rw [hcols]
      exact Nat.max_eq_left hmodlt
    obtain ⟨hic, hii, hid, _⟩ := increment_cursor_cells
      (insert_item ops g (done.length / C) (done.length % C) x)
    have hstep := ih (done ++ [x])
      (increment_cursor (insert_item ops g (done.length / C) (done.length % C) x))
      (by rw [hid]; exact hcols2)
      (by
        rw [List.length_append, List.length_singleton]
        exact increment_cursor_raster _ C done.length hC hcols2 hcur)
      (by
        intro k
        rw [hic, insert_item_cells]
        by_cases hk : k.x < C
        · simp only [hk, if_true]
          by_cases hk2 : k = ⟨done.length % C, done.length / C⟩
          · rw [hk2, cells_find_assign_self]
            show some x = (done ++ [x])[done.length / C * C + done.length % C]?
            rw [hidx]
            simp
          · rw [cells_find_assign_ne _ _ _ _ hk2, hcells]
            simp only [hk, if_true]
            have hne : k.y * C + k.x ≠ done.length :=
              fun h => hk2 ((raster_index_eq C _ k hk).1 h)
            rcases Nat.lt_or_gt_of_ne hne with hlt | hgt
            · rw [List.getElem?_append_left hlt]
            · rw [List.getElem?_eq_none (Nat.le_of_lt hgt),
                List.getElem?_eq_none (by
                  rw [List.length_append, List.length_singleton]; omega)]
        · have hk2 : k ≠ ⟨done.length % C, done.length / C⟩ := by
            intro h; rw [h] at hk; exact hk hmodlt
          rw [cells_find_assign_ne _ _ _ _ hk2, hcells]
          simp only [hk, if_false])
      (by
        intro y hy
        rw [hii, insert_item_items] at hy
        rcases List.mem_append.1 hy with hy | hy
        · exact List.mem_append_left _ (hitems y hy)
        · exact List.mem_append_right _ hy)
      (by rw [List.append_assoc]; exact hnodup)
      (fun h => hrow (List.mem_cons_of_mem _ h))
    have hall : add_all ops (x :: rest) g = add_all ops rest
        (increment_cursor (insert_item ops g (done.length / C) (done.length % C) x)) := by
      rw [add_all, hadd, and_then_of_not_thrown _ _ rfl]
    rw [hall]
    have happ : done ++ x :: rest = done ++ [x] ++ rest := by
      rw [List.append_assoc]; rfl
    rw [happ]
    exact hstep

/-! ## Grid layout: the claims on `add`, `add_item_at_position` and removal -/

/-- C11: on a grid with no cell, no item, the cursor at (0, 0) and `C ≥ 1` columns, a run
of `add` over pairwise distinct items throws nothing, and afterwards item number `k` of
the run (counted from 0) is the occupant of the cell of row `k / C` and column `k % C`.
The items of the run are items that a caller of `add` holds: the private member
`iRowLayout` of the grid, which reaches `add_item_at_position` only from the grid itself
and is turned away by the guard of lines 122-127, is not one of them. -/
theorem add_fills_cells_in_raster_order (ops : row_operations) (g : grid_layout) (C : Nat)
    (xs : List item_ref) (hC : 1 ≤ C) (hcells : g.iCells = []) (hitems : g.items = [])
    (hcursor : g.iCursor = ⟨0, 0⟩) (hcols : g.columns = C) (hdistinct : xs.Nodup)
    (hrow : item_ref.row_container ∉ xs) :
    (add_all ops xs g).thrown = none ∧
    ∀ k x, xs[k]? = some x →
      (item_at_position (add_all ops xs g).state (k / C) (k % C)).value = some x := by
  have hC0 : 0 < C := hC
  obtain ⟨ht, hc⟩ := add_all_raster ops C hC0 xs [] g hcols
    (by simp [hcursor]) (by intro k; simp [hcells, cells_find])
    (by intro x hx; rw [hitems] at hx; exact hx) (by simpa using hdistinct) hrow
  refine ⟨ht, ?_⟩
  intro k x hk
  rw [item_at_position_value, hc]
  have hidx : k / C * C + k % C = k := by
    rw [Nat.mul_comm]; exact Nat.div_add_mod k C
  simp only [Nat.mod_lt k hC0, if_true, hidx, List.nil_append]
  exact hk

/-- Witness of C11: three items added to an empty grid of two columns. -/
theorem add_fills_cells_in_raster_order_witness :
    (add_all list_row_operations
      [item_ref.external 1, item_ref.external 2, item_ref.external 3]
      (grid_layout.constructed 0 2)).thrown = none ∧
    ∀ k x, [item_ref.external 1, item_ref.external 2, item_ref.external 3][k]? = some x →
      (item_at_position (add_all list_row_operations
        [item_ref.external 1, item_ref.external 2, item_ref.external 3]
        (grid_layout.constructed 0 2)).state (k / 2) (k % 2)).value = some x :=
  add_fills_cells_in_raster_order list_row_operations (grid_layout.constructed 0 2) 2
    [item_ref.external 1, item_ref.external 2, item_ref.external 3]
    (by decide) rfl rfl rfl rfl (by decide) (by decide)

/-- C12: in every grid state reached through the operations (`well_formed`), for every
item that is not already in the grid, `add_item_at_position(r, c, item)` throws nothing
and afterwards: cell (r, c) is occupied by the item; a previous occupant of (r, c)
occupies no cell; every cell (r, c') with c' < c is occupied, by its previous occupant if
it had one and otherwise by a spacer that the grid made during the call and that is new
to the item list; every other cell has the occupancy and occupant it had.  The item is
one that a caller holds, not the private member `iRowLayout` of the grid, whose parent
layout is the grid (lines 31-66) and which the guard of lines 122-127 turns away. -/
theorem add_item_at_position_fills_row (ops : row_operations) (g : grid_layout)
    (aRow aColumn : Nat) (aItem : item_ref) (hwf : g.well_formed)
    (hrow : aItem ≠ item_ref.row_container) (hnew : belongs g aItem = false) :
    (add_item_at_position ops g aRow aColumn aItem).thrown = none ∧
    (item_at_position (add_item_at_position ops g aRow aColumn aItem).state
      aRow aColumn).value = some aItem ∧
    (∀ y, (item_at_position g aRow aColumn).value = some y → ∀ r c,
      (item_at_position (add_item_at_position ops g aRow aColumn aItem).state r c).value
        ≠ some y) ∧
    (∀ col, col < aColumn →
      is_item_at_position (add_item_at_position ops g aRow aColumn aItem).state
        aRow col = true) ∧
    (∀ col, col < aColumn → ∀ y, (item_at_position g aRow col).value = some y →
      (item_at_position (add_item_at_position ops g aRow aColumn aItem).state
        aRow col).value = some y) ∧
    (∀ col, col < aColumn → is_item_at_position g aRow col = false →
      ∃ m, g.spacers_made ≤ m ∧ item_ref.made m ∉ g.items ∧
        item_ref.made m ∈ (add_item_at_position ops g aRow aColumn aItem).state.items ∧
        (item_at_position (add_item_at_position ops g aRow aColumn aItem).state
          aRow col).value = some (item_ref.made m)) ∧
    (∀ r c, (r ≠ aRow ∨ aColumn < c) →
      (item_at_position (add_item_at_position ops g aRow aColumn aItem).state r c).value =
        (item_at_position g r c).value) := by
  obtain ⟨h1, h2, h3, h4, h5, h6⟩ :=
    add_item_at_position_cells ops g aRow aColumn aItem hwf hrow hnew
  simp only [item_at_position_value]
  refine ⟨h1, h2, fun y hy r c => h3 y hy ⟨c, r⟩, ?_, h4, ?_, fun r c hrc => h6 ⟨c, r⟩ hrc⟩
  · intro col hc
    rw [is_item_at_position_eq_true]
    cases hg : cells_find g.iCells ⟨col, aRow⟩ with
    | none =>
      obtain ⟨m, _, _, _, hm⟩ := h5 col hc hg
      exact ⟨_, hm⟩
    | some y => exact ⟨y, h4 col hc y hg⟩
  · intro col hc hfree
    exact h5 col hc ((is_item_at_position_eq_false _ _ _).1 hfree)

/-- Witness of C12: an item added at cell (1, 2) of the two-cell grid; cell (1, 0), which
was unoccupied, receives the first spacer the grid makes. -/
theorem add_item_at_position_fills_row_witness :
    two_cell_grid.well_formed ∧
    belongs two_cell_grid (item_ref.external 7) = false ∧
    (item_at_position two_cell_grid 0 1).value = some (item_ref.external 2) ∧
    is_item_at_position two_cell_grid 1 0 = false ∧
    (item_at_position (add_item_at_position list_row_operations two_cell_grid 1 2
      (item_ref.external 7)).state 1 2).value = some (item_ref.external 7) ∧
    (item_at_position (add_item_at_position list_row_operations two_cell_grid 1 2
      (item_ref.external 7)).state 1 0).value = some (item_ref.made 0) ∧
    (item_at_position (add_item_at_position list_row_operations two_cell_grid 1 2
      (item_ref.external 7)).state 1 2).value = some (item_ref.external 7) :=
  ⟨by decide, by decide, by decide, by decide, by decide, by decide,
    (add_item_at_position_fills_row list_row_operations two_cell_grid 1 2
      (item_ref.external 7) (by decide) (by decide) (by decide)).2.1⟩

/-- C13: in every well-formed grid state, `add_item_at_position(r, c, item)` and
`add(item)` with an item that already belongs to the grid throw `item_already_added`
and leave the whole state (cell map, dimensions, cursor, row sub-layouts) as it was,
whatever occupies the target cell. -/
theorem item_already_added_changes_nothing (ops : row_operations) (g : grid_layout)
    (aRow aColumn : Nat) (aItem : item_ref) (hwf : g.well_formed)
    (hin : belongs g aItem = true) :
    add_item_at_position ops g aRow aColumn aItem =
      ⟨g, some grid_error.item_already_added⟩ ∧
    add ops g aItem = ⟨g, some grid_error.item_already_added⟩ := by
  have hrow : aItem ≠ item_ref.row_container := by
    intro h
    subst h
    simp only [belongs, decide_eq_true_eq] at hin
    exact hwf.2.2.1 hin
  have h1 : ∀ r c, add_item_at_position ops g r c aItem =
      ⟨g, some grid_error.item_already_added⟩ := by
    intro r c
    simp [add_item_at_position, add_item_with, hrow, hin]
  refine ⟨h1 _ _, ?_⟩
  rw [add, h1]
  rfl

theorem item_already_added_changes_nothing_witness :
    two_cell_grid.well_formed ∧ belongs two_cell_grid (item_ref.external 1) = true ∧
    (item_at_position two_cell_grid 0 1).value = some (item_ref.external 2) ∧
    add_item_at_position list_row_operations two_cell_grid 0 1 (item_ref.external 1) =
      ⟨two_cell_grid, some grid_error.item_already_added⟩ ∧
    add list_row_operations two_cell_grid (item_ref.external 1) =
      ⟨two_cell_grid, some grid_error.item_already_added⟩ :=
  ⟨by decide, by decide, by decide,
    item_already_added_changes_nothing list_row_operations two_cell_grid 0 1
      (item_ref.external 1) (by decide) (by decide)⟩

/-- C14: for every grid state and every (r, c), `item_at_position(r, c)` throws
`cell_unoccupied` exactly when `is_item_at_position(r, c)` is false, and so does
`remove_item_at_position(r, c)`; neither throws anything else; and a call that throws
leaves the whole state (cell map, dimensions, cursor, row sub-layouts) as it was. -/
theorem cell_unoccupied_iff_no_item (ops : row_operations) (g : grid_layout)
    (aRow aColumn : Nat) :
    ((item_at_position g aRow aColumn).thrown = some grid_error.cell_unoccupied ↔
      is_item_at_position g aRow aColumn = false) ∧
    ((remove_item_at_position ops g aRow aColumn).thrown = some grid_error.cell_unoccupied ↔
      is_item_at_position g aRow aColumn = false) ∧
    ((item_at_position g aRow aColumn).thrown ≠ none ↔
      is_item_at_position g aRow aColumn = false) ∧
    ((remove_item_at_position ops g aRow aColumn).thrown ≠ none ↔
      is_item_at_position g aRow aColumn = false) ∧
    (item_at_position g aRow aColumn).state = g ∧
    ((remove_item_at_position ops g aRow aColumn).thrown ≠ none →
      (remove_item_at_position ops g aRow aColumn).state = g) := by
  unfold item_at_position remove_item_at_position is_item_at_position
  cases cells_find g.iCells ⟨aColumn, aRow⟩ <;> simp

/-- C15: after a successful `remove_item_at_position(r, c)` cell (r, c) is unoccupied
and every other cell has the occupant, or the absence of occupant, it had before; and
for every item, `add_item_at_position(r, c, item)` followed by
`remove_item_at_position(r, c)` leaves (r, c) unoccupied. -/
theorem remove_item_at_position_frees_only_its_cell (ops : row_operations)
    (g : grid_layout) (aRow aColumn : Nat) :
    ((remove_item_at_position ops g aRow aColumn).thrown = none →
      is_item_at_position (remove_item_at_position ops g aRow aColumn).state
        aRow aColumn = false ∧
      ∀ r c, (r ≠ aRow ∨ c ≠ aColumn) →
        (item_at_position (remove_item_at_position ops g aRow aColumn).state r c).value =
          (item_at_position g r c).value) ∧
    (∀ aItem, is_item_at_position (remove_item_at_position ops
        (add_item_at_position ops g aRow aColumn aItem).state aRow aColumn).state
        aRow aColumn = false) := by
  have hafter : ∀ g2 : grid_layout,
      is_item_at_position (remove_item_at_position ops g2 aRow aColumn).state
        aRow aColumn = false := by
    intro g2
    cases h : cells_find g2.iCells ⟨aColumn, aRow⟩ with
    | none =>
      rw [remove_item_at_position_unoccupied ops g2 aRow aColumn h,
        is_item_at_position_eq_false]
      exact h
    | some y =>
      rw [remove_item_at_position_occupied ops g2 aRow aColumn y h,
        is_item_at_position_eq_false]
      exact cells_find_erase_self _ _
  refine ⟨fun hok => ⟨hafter g, ?_⟩, fun aItem => hafter _⟩
  intro r c hrc
  cases h : cells_find g.iCells ⟨aColumn, aRow⟩ with
  | none =>
    rw [remove_item_at_position_unoccupied ops g aRow aColumn h] at hok
    cases hok
  | some y =>
    rw [remove_item_at_position_occupied ops g aRow aColumn y h]
    simp only [item_at_position_value, removed_state_cells]
    apply cells_find_erase_ne
    intro hk
    rcases hrc with hr | hc
    · exact hr (congrArg cell_coordinates.y hk)
    · exact hc (congrArg cell_coordinates.x hk)

theorem remove_item_at_position_frees_only_its_cell_witness :
    (remove_item_at_position list_row_operations two_cell_grid 0 1).thrown = none ∧
    (is_item_at_position (remove_item_at_position list_row_operations two_cell_grid
        0 1).state 0 1 = false ∧
      ∀ r c, (r ≠ 0 ∨ c ≠ 1) →
        (item_at_position (remove_item_at_position list_row_operations two_cell_grid
          0 1).state r c).value = (item_at_position two_cell_grid r c).value) :=
  ⟨by decide, (remove_item_at_position_frees_only_its_cell list_row_operations
    two_cell_grid 0 1).1 (by decide)⟩

/-- C16, the code at the failing input: in the grid of one row holding `external 1` in
cell (0, 0) and `external 2` in cell (0, 1), `remove_item_at_position(0, 1)` succeeds
and leaves cell (0, 0) occupied, so that one more than the largest occupied row and
column index is 1 in both directions, but `rows()` and `columns()` are both 0: the loop
of lines 211-215 takes the largest index itself. -/
theorem removal_recomputes_dimensions_without_one :
    two_cell_grid.rows = 1 ∧ two_cell_grid.columns = 2 ∧
    (remove_item_at_position list_row_operations two_cell_grid 0 1).thrown = none ∧
    is_item_at_position
      (remove_item_at_position list_row_operations two_cell_grid 0 1).state 0 0 = true ∧
    dimensions_by_occupancy
      (remove_item_at_position list_row_operations two_cell_grid 0 1).state.iCells
        = ⟨1, 1⟩ ∧
    (remove_item_at_position list_row_operations two_cell_grid 0 1).state.rows = 0 ∧
    (remove_item_at_position list_row_operations two_cell_grid 0 1).state.columns = 0 := by
  decide

/-! ## Grid layout: the operations keep the grid well formed -/

theorem well_formed_constructed (aRows aColumns : Nat) :
    (grid_layout.constructed aRows aColumns).well_formed := by
  simp [grid_layout.well_formed, grid_layout.constructed]

theorem created_before_mono (k1 k2 : Nat) (h : k1 ≤ k2) (x : item_ref)
    (hx : item_ref.created_before k1 x = true) : item_ref.created_before k2 x = true := by
  cases x with
  | made n =>
    simp only [item_ref.created_before, decide_eq_true_eq] at hx ⊢
    omega
  | external n => rfl
  | row_container => rfl

theorem well_formed_removed_state (ops : row_operations) (g : grid_layout)
    (aRow aColumn : Nat) (y : item_ref) (hwf : g.well_formed)
    (hy : cells_find g.iCells ⟨aColumn, aRow⟩ = some y) :
    (removed_state ops g aRow aColumn y).well_formed := by
  obtain ⟨h1, h2, h3, h4⟩ := hwf
  have hsub : List.Sublist (cells_erase g.iCells ⟨aColumn, aRow⟩) g.iCells :=
    List.filter_sublist _
  refine ⟨?_, ?_, ?_, ?_⟩
  · rw [removed_state_cells]
    exact List.Nodup.sublist (List.Sublist.map _ hsub) h1
  · intro e he
    rw [removed_state_cells] at he
    rw [removed_state_items]
    have he2 : e ∈ g.iCells := hsub.subset he
    have hne : e.2 ≠ y := by
      intro heq
      have hmem := cells_find_mem _ _ _ hy
      have hinj := List.inj_on_of_nodup_map h1 he2 hmem heq
      have hk : e.1 ≠ ⟨aColumn, aRow⟩ := by
        have := (List.mem_filter.1 he).2
        simpa using this
      exact hk (congrArg Prod.fst hinj)
    exact (List.mem_erase_of_ne hne).2 (h2 e he2)
  · rw [removed_state_items]
    exact fun h => h3 (List.mem_of_mem_erase h)
  · intro x hx
    rw [removed_state_items] at hx
    exact h4 x (List.mem_of_mem_erase hx)

theorem well_formed_insert_item (ops : row_operations) (g : grid_layout)
    (aRow aColumn : Nat) (x : item_ref) (hwf : g.well_formed) (hnew : x ∉ g.items)
    (hrow : x ≠ item_ref.row_container)
    (hx : item_ref.created_before g.spacers_made x = true) :
    (insert_item ops g aRow aColumn x).well_formed := by
  obtain ⟨h1, h2, h3, h4⟩ := hwf
  have hsub : List.Sublist (cells_erase g.iCells ⟨aColumn, aRow⟩) g.iCells :=
    List.filter_sublist _
  refine ⟨?_, ?_, ?_, ?_⟩
  · rw [insert_item_cells, cells_assign, List.map_append]
    apply List.Nodup.append (List.Nodup.sublist (List.Sublist.map _ hsub) h1) (by simp)
    intro z hz1 hz2
    simp only [List.map_cons, List.map_nil, List.mem_singleton] at hz2
    subst hz2
    obtain ⟨e, he, rfl⟩ := List.mem_map.1 hz1
    exact hnew (h2 e (hsub.subset he))
  · intro e he
    rw [insert_item_cells, cells_assign] at he
    rw [insert_item_items]
    rcases List.mem_append.1 he with he | he
    · exact List.mem_append_left _ (h2 e (hsub.subset he))
    · simp only [List.mem_singleton] at he
      subst he
      exact List.mem_append_right _ (List.mem_singleton.2 rfl)
  · rw [insert_item_items]
    intro h
    rcases List.mem_append.1 h with h | h
    · exact h3 h
    · exact hrow (List.mem_singleton.1 h).symm
  · intro z hz
    rw [insert_item_items] at hz
    rw [insert_item_spacers_made]
    rcases List.mem_append.1 hz with hz | hz
    · exact h4 z hz
    · rw [List.mem_singleton.1 hz]; exact hx

theorem well_formed_remove_if_occupied (ops : row_operations) (g : grid_layout)
    (aRow aColumn : Nat) (hwf : g.well_formed) :
    (remove_if_occupied ops g aRow aColumn).state.well_formed := by
  cases h : cells_find g.iCells ⟨aColumn, aRow⟩ with
  | none => rw [remove_if_occupied_unoccupied ops g aRow aColumn h]; exact hwf
  | some y =>
    rw [remove_if_occupied_occupied ops g aRow aColumn y h]
    exact well_formed_removed_state ops g aRow aColumn y hwf h

/-- One more turn of the loop of lines 132-134. -/
theorem fill_spacers_succ (ops : row_operations) (aRow : Nat) (n : Nat) (g : grid_layout)
    (hmade : ∀ x ∈ g.items, item_ref.created_before g.spacers_made x = true) :
    fill_spacers ops aRow (n + 1) g =
      if is_item_at_position (fill_spacers ops aRow n g).state aRow n then
        fill_spacers ops aRow n g
      else ⟨insert_item ops { (fill_spacers ops aRow n g).state with
              spacers_made := (fill_spacers ops aRow n g).state.spacers_made + 1 } aRow n
            (item_ref.made (fill_spacers ops aRow n g).state.spacers_made), none⟩ := by
  obtain ⟨ht, _, hm, _, _, hkeep, hnewc, _, _⟩ := fill_spacers_cells ops aRow n g hmade
  rw [fill_spacers, and_then_of_not_thrown _ _ ht]
  by_cases hocc : is_item_at_position (fill_spacers ops aRow n g).state aRow n = true
  · rw [if_pos hocc, if_pos hocc]
    cases hr : fill_spacers ops aRow n g with
    | mk s t =>
      rw [hr] at ht
      simp only at ht
      rw [ht]
  · rw [if_neg hocc, if_neg hocc]
    have hfree : cells_find (fill_spacers ops aRow n g).state.iCells ⟨n, aRow⟩ = none := by
      rw [← is_item_at_position_eq_false]
      simpa using hocc
    have hleft : ∀ col, col < n →
        is_item_at_position (fill_spacers ops aRow n g).state aRow col = true := by
      intro col hc
      rw [is_item_at_position_eq_true]
      cases hg : cells_find g.iCells ⟨col, aRow⟩ with
      | none =>
        obtain ⟨m, _, _, h3⟩ := hnewc col hc hg
        exact ⟨_, h3⟩
      | some y => exact ⟨y, hkeep col hc y hg⟩
    have hb : belongs { (fill_spacers ops aRow n g).state with
        spacers_made := (fill_spacers ops aRow n g).state.spacers_made + 1 }
        (item_ref.made (fill_spacers ops aRow n g).state.spacers_made) = false := by
      simp only [belongs, decide_eq_false_iff_not]
      intro hmem
      have := hm _ hmem
      simp [item_ref.created_before] at this
    rw [add_spacer_with, remove_if_occupied_unoccupied ops _ aRow n hfree,
      and_then_of_not_thrown _ _ rfl]
    have h1 := add_item_at_position_simple ops
      { (fill_spacers ops aRow n g).state with
        spacers_made := (fill_spacers ops aRow n g).state.spacers_made + 1 } aRow n
      (item_ref.made (fill_spacers ops aRow n g).state.spacers_made)
      (by simp) hb hfree hleft
    simpa [add_item_at_position] using h1

theorem well_formed_fill_spacers (ops : row_operations) (aRow : Nat) (n : Nat)
    (g : grid_layout) (hwf : g.well_formed) :
    (fill_spacers ops aRow n g).state.well_formed ∧
      (∀ x, item_ref.created_before g.spacers_made x = true → x ∉ g.items →
        x ∉ (fill_spacers ops aRow n g).state.items) ∧
      g.spacers_made ≤ (fill_spacers ops aRow n g).state.spacers_made := by
  induction n with
  | zero => exact ⟨hwf, fun _ _ h => h, le_refl _⟩
  | succ n ih =>
    obtain ⟨ihwf, ihnew, ihle⟩ := ih
    rw [fill_spacers_succ ops aRow n g hwf.2.2.2]
    by_cases hocc : is_item_at_position (fill_spacers ops aRow n g).state aRow n = true
    · rw [if_pos hocc]; exact ⟨ihwf, ihnew, ihle⟩
    · rw [if_neg hocc]
      have hfresh : item_ref.made (fill_spacers ops aRow n g).state.spacers_made ∉
          (fill_spacers ops aRow n g).state.items := by
        intro hmem
        have := ihwf.2.2.2 _ hmem
        simp [item_ref.created_before] at this
      refine ⟨?_, ?_, ?_⟩
      · apply well_formed_insert_item
        · obtain ⟨h1, h2, h3, h4⟩ := ihwf
          exact ⟨h1, h2, h3, fun x hx => created_before_mono _ _ (Nat.le_succ _) x (h4 x hx)⟩
        · exact hfresh
        · simp
        · simp [item_ref.created_before]
      · intro x hx hxn
        rw [insert_item_items]
        intro hmem
        rcases List.mem_append.1 hmem with hmem | hmem
        · exact ihnew x hx hxn hmem
        · rw [List.mem_singleton.1 hmem] at hx
          simp only [item_ref.created_before, decide_eq_true_eq] at hx
          omega
      · rw [insert_item_spacers_made]
        exact Nat.le_succ_of_le ihle

/-- Insertion keeps the grid well formed, for every item whose address exists (a
spacer made by the grid being one of those made so far). -/
theorem well_formed_add_item_at_position (ops : row_operations) (g : grid_layout)
    (aRow aColumn : Nat) (aItem : item_ref) (hwf : g.well_formed)
    (hreal : item_ref.created_before g.spacers_made aItem = true) :
    (add_item_at_position ops g aRow aColumn aItem).state.well_formed := by
  unfold add_item_at_position add_item_with
  by_cases hrow : aItem = item_ref.row_container
  · rw [if_pos hrow]; exact hwf
  · rw [if_neg hrow]
    by_cases hin : belongs g aItem = true
    · rw [if_pos hin]; exact hwf
    · rw [if_neg hin]
      obtain ⟨g1, hr1, _, _, hmade1, hitems1⟩ := remove_if_occupied_cells ops g aRow aColumn
      have hwf1 : g1.well_formed := by
        have := well_formed_remove_if_occupied ops g aRow aColumn hwf
        rw [hr1] at this
        exact this
      obtain ⟨hwf2, hnew2, hle2⟩ := well_formed_fill_spacers ops aRow aColumn g1 hwf1
      obtain ⟨ht, _⟩ := fill_spacers_cells ops aRow aColumn g1 hwf1.2.2.2
      have h1 : (grid_outcome.mk g1 none).and_then (fill_spacers ops aRow aColumn) =
          fill_spacers ops aRow aColumn g1 := and_then_of_not_thrown _ _ rfl
      rw [hr1, h1, and_then_of_not_thrown _ _ ht]
      have hnotin : aItem ∉ g.items := by
        simpa [belongs] using hin
      apply well_formed_insert_item ops _ aRow aColumn aItem hwf2
      · exact hnew2 aItem (hmade1 ▸ hreal) (fun h => hnotin (hitems1 _ h))
      · exact hrow
      · exact created_before_mono _ _ (hmade1 ▸ hle2) _ hreal

/-- Removal keeps the grid well formed. -/
theorem well_formed_remove_item_at_position (ops : row_operations) (g : grid_layout)
    (aRow aColumn : Nat) (hwf : g.well_formed) :
    (remove_item_at_position ops g aRow aColumn).state.well_formed := by
  cases h : cells_find g.iCells ⟨aColumn, aRow⟩ with
  | none => rw [remove_item_at_position_unoccupied ops g aRow aColumn h]; exact hwf
  | some y =>
    rw [remove_item_at_position_occupied ops g aRow aColumn y h]
    exact well_formed_removed_state ops g aRow aColumn y hwf h

/-- Insertion at the cursor keeps the grid well formed. -/
theorem well_formed_add (ops : row_operations) (g : grid_layout) (aItem : item_ref)
    (hwf : g.well_formed)
    (hreal : item_ref.created_before g.spacers_made aItem = true) :
    (add ops g aItem).state.well_formed := by
  have h := well_formed_add_item_at_position ops g g.iCursor.y g.iCursor.x aItem hwf hreal
  unfold add grid_outcome.and_then
  cases ht : (add_item_at_position ops g g.iCursor.y g.iCursor.x aItem).thrown with
  | some e => simpa [ht] using h
  | none =>
    simp only [ht]
    obtain ⟨h1, h2, _, h4⟩ := increment_cursor_cells
      (add_item_at_position ops g g.iCursor.y g.iCursor.x aItem).state
    unfold grid_layout.well_formed
    rw [h1, h2, h4]
    exact h

/-! ## Grid layout: the cell list stays a map -/

theorem cells_erase_keys (cells : cell_list) (k : cell_coordinates)
    (h : (cells.map Prod.fst).Nodup) : ((cells_erase cells k).map Prod.fst).Nodup :=
  List.Nodup.sublist (List.Sublist.map _ (List.filter_sublist _)) h

theorem cells_assign_keys (cells : cell_list) (k : cell_coordinates) (v : item_ref)
    (h : (cells.map Prod.fst).Nodup) : ((cells_assign cells k v).map Prod.fst).Nodup := by
  rw [cells_assign, List.map_append]
  apply List.Nodup.append (cells_erase_keys cells k h) (by simp)
  intro z hz1 hz2
  simp only [List.map_cons, List.map_nil, List.mem_singleton] at hz2
  subst hz2
  obtain ⟨e, he, hek⟩ := List.mem_map.1 hz1
  have := (List.mem_filter.1 he).2
  simp only [decide_eq_true_eq] at this
  exact this hek

theorem cells_are_a_map_constructed (aRows aColumns : Nat) :
    (grid_layout.constructed aRows aColumns).cells_are_a_map := by
  simp [grid_layout.cells_are_a_map, grid_layout.constructed]

theorem cells_are_a_map_remove_if_occupied (ops : row_operations) (g : grid_layout)
    (aRow aColumn : Nat) (h : g.cells_are_a_map) :
    (remove_if_occupied ops g aRow aColumn).state.cells_are_a_map := by
  cases hf : cells_find g.iCells ⟨aColumn, aRow⟩ with
  | none => rw [remove_if_occupied_unoccupied ops g aRow aColumn hf]; exact h
  | some y =>
    rw [remove_if_occupied_occupied ops g aRow aColumn y hf]
    exact cells_erase_keys _ _ h

theorem cells_are_a_map_fill_spacers (ops : row_operations) (aRow : Nat) (n : Nat)
    (g : grid_layout) (hwf : g.well_formed) (h : g.cells_are_a_map) :
    (fill_spacers ops aRow n g).state.cells_are_a_map := by
  induction n with
  | zero => exact h
  | succ n ih =>
    rw [fill_spacers_succ ops aRow n g hwf.2.2.2]
    by_cases hocc : is_item_at_position (fill_spacers ops aRow n g).state aRow n = true
    · rw [if_pos hocc]; exact ih
    · rw [if_neg hocc]
      exact cells_assign_keys _ _ _ ih

/-- Insertion keeps the cell list a map. -/
theorem cells_are_a_map_add_item_at_position (ops : row_operations) (g : grid_layout)
    (aRow aColumn : Nat) (aItem : item_ref) (hwf : g.well_formed)
    (h : g.cells_are_a_map) :
    (add_item_at_position ops g aRow aColumn aItem).state.cells_are_a_map := by
  unfold add_item_at_position add_item_with
  by_cases hrow : aItem = item_ref.row_container
  · rw [if_pos hrow]; exact h
  · rw [if_neg hrow]
    by_cases hin : belongs g aItem = true
    · rw [if_pos hin]; exact h
    · rw [if_neg hin]
      obtain ⟨g1, hr1, _⟩ := remove_if_occupied_cells ops g aRow aColumn
      have hwf1 : g1.well_formed := by
        have := well_formed_remove_if_occupied ops g aRow aColumn hwf
        rw [hr1] at this
        exact this
      have hmap1 : g1.cells_are_a_map := by
        have := cells_are_a_map_remove_if_occupied ops g aRow aColumn h
        rw [hr1] at this
        exact this
      obtain ⟨ht, _⟩ := fill_spacers_cells ops aRow aColumn g1 hwf1.2.2.2
      have h1 : (grid_outcome.mk g1 none).and_then (fill_spacers ops aRow aColumn) =
          fill_spacers ops aRow aColumn g1 := and_then_of_not_thrown _ _ rfl
      rw [hr1, h1, and_then_of_not_thrown _ _ ht]
      exact cells_assign_keys _ _ _ (cells_are_a_map_fill_spacers ops aRow aColumn g1 hwf1 hmap1)

/-- Removal keeps the cell list a map. -/
theorem cells_are_a_map_remove_item_at_position (ops : row_operations) (g : grid_layout)
    (aRow aColumn : Nat) (h : g.cells_are_a_map) :
    (remove_item_at_position ops g aRow aColumn).state.cells_are_a_map := by
  cases hf : cells_find g.iCells ⟨aColumn, aRow⟩ with
  | none => rw [remove_item_at_position_unoccupied ops g aRow aColumn hf]; exact h
  | some y =>
    rw [remove_item_at_position_occupied ops g aRow aColumn y hf]
    exact cells_erase_keys _ _ h

/-- The recomputation of lines 210-215 in closed form: the largest column and row index
of the remaining cells, zero for no cell. -/
theorem recomputed_dimensions_le (cells : cell_list) :
    ∀ e ∈ cells, e.1.x ≤ (recomputed_dimensions cells).cx ∧
      e.1.y ≤ (recomputed_dimensions cells).cy := by
  unfold recomputed_dimensions
  have key : ∀ (l : cell_list) (d : cell_dimensions),
      (d.cx ≤ (l.foldl (fun d cell => (⟨max d.cx cell.1.x, max d.cy cell.1.y⟩ :
          cell_dimensions)) d).cx ∧
        d.cy ≤ (l.foldl (fun d cell => (⟨max d.cx cell.1.x, max d.cy cell.1.y⟩ :
          cell_dimensions)) d).cy) ∧
      ∀ e ∈ l, e.1.x ≤ (l.foldl (fun d cell => (⟨max d.cx cell.1.x, max d.cy cell.1.y⟩ :
          cell_dimensions)) d).cx ∧
        e.1.y ≤ (l.foldl (fun d cell => (⟨max d.cx cell.1.x, max d.cy cell.1.y⟩ :
          cell_dimensions)) d).cy := by
    intro l
    induction l with
    | nil => intro d; exact ⟨⟨le_refl _, le_refl _⟩, fun e he => absurd he (List.not_mem_nil e)⟩
    | cons c rest ih =>
      intro d
      rw [List.foldl_cons]
      obtain ⟨⟨h1, h2⟩, h3⟩ := ih ⟨max d.cx c.1.x, max d.cy c.1.y⟩
      refine ⟨⟨le_trans (le_max_left _ _) h1, le_trans (le_max_left _ _) h2⟩, ?_⟩
      intro e he
      rcases List.mem_cons.1 he with he | he
      · subst he
        exact ⟨le_trans (le_max_right _ _) h1, le_trans (le_max_right _ _) h2⟩
      · exact h3 e he
  exact (key cells ⟨0, 0⟩).2

/-! ## Grid layout pass: the walk over a span -/

theorem plain_offset_span (v : List ℚ) (spacing : ℚ) (a d : Nat) :
    plain_offset v spacing (a + d) - plain_offset v spacing a + v.getD (a + d) 0 =
      span_extent v spacing a (a + d) := by
  induction d with
  | zero => simp [span_extent, List.range_succ]
  | succ d ih =>
    have h1 : a + (d + 1) + 1 - a = (d + 1) + 1 := by omega
    have h2 : a + d + 1 - a = d + 1 := by omega
    have h3 : a + (d + 1) - a = d + 1 := by omega
    have h4 : a + d - a = d := by omega
    unfold span_extent at ih ⊢
    rw [h1, List.range_succ, List.map_append, List.sum_append, h3]
    rw [h2, h4] at ih
    rw [← Nat.add_assoc, plain_offset]
    simp only [List.map_cons, List.map_nil, List.sum_cons, List.sum_nil, add_zero]
    push_cast
    rw [← Nat.add_assoc] 
    linarith

theorem span_columns_found (w : List ℚ) (h sx : ℚ) (s : span) (row2 : Nat) (n col2 : Nat)
    (colPos2 : point) (st : span_walk) (hf : st.foundSpan = true) :
    span_columns w h sx s row2 n col2 colPos2 st = st := by
  cases n with
  | zero => rfl
  | succ n => rw [span_columns, if_pos hf]

theorem span_rows_found (w h : List ℚ) (spacing : size) (s : span) (n row2 : Nat)
    (rowPos2 : point) (st : span_walk) (hf : st.foundSpan = true) :
    span_rows w h spacing s n row2 rowPos2 st = st := by
  cases n with
  | zero => rfl
  | succ n => rw [span_rows, if_pos hf]

/-- The loop over `col2` in closed form, entered at column `j` without a span found:
`fromPos` is set when the row is the first row of the span and the first column is
still ahead, and the call is made when the row is the last row of the span. -/
theorem span_columns_run (w : List ℚ) (h sx : ℚ) (s : span) (row2 : Nat) (x0 y : ℚ) :
    ∀ (n j : Nat) (st : span_walk), j + n = s.2.x + 1 → 0 < n → st.foundSpan = false →
      span_columns w h sx s row2 n j ⟨x0 + plain_offset w sx j, y⟩ st =
        if row2 = s.2.y then
          ⟨if row2 = s.1.y ∧ j ≤ s.1.x ∧ s.1.x ≤ s.2.x then
              ⟨x0 + plain_offset w sx s.1.x, y⟩ else st.fromPos, true,
            some (if row2 = s.1.y ∧ j ≤ s.1.x ∧ s.1.x ≤ s.2.x then
                ⟨x0 + plain_offset w sx s.1.x, y⟩ else st.fromPos,
              ⟨x0 + plain_offset w sx s.2.x + w.getD s.2.x 0 -
                  (if row2 = s.1.y ∧ j ≤ s.1.x ∧ s.1.x ≤ s.2.x then
                    (⟨x0 + plain_offset w sx s.1.x, y⟩ : point) else st.fromPos).x,
                y + h - (if row2 = s.1.y ∧ j ≤ s.1.x ∧ s.1.x ≤ s.2.x then
                    (⟨x0 + plain_offset w sx s.1.x, y⟩ : point) else st.fromPos).y⟩)⟩
        else
          ⟨if row2 = s.1.y ∧ j ≤ s.1.x ∧ s.1.x ≤ s.2.x then
              ⟨x0 + plain_offset w sx s.1.x, y⟩ else st.fromPos, false, st.call⟩ := by
  intro n
  induction n with
  | zero => intro j st _ h0; exact absurd h0 (Nat.lt_irrefl 0)
  | succ n ih =>
    intro j st hj _ hf
    rw [span_columns, hf]
    simp only [Bool.false_eq_true, if_false]
    have hnext : (⟨x0 + plain_offset w sx j + w.getD j 0 + sx, y⟩ : point) =
        ⟨x0 + plain_offset w sx (j + 1), y⟩ := by
      rw [plain_offset]; congr 1; ring
    rw [hnext]
    rcases Nat.eq_zero_or_pos n with hn | hn
    · -- the last column of the span
      subst hn
      have hjx : j = s.2.x := by omega
      have hF0 : (if row2 = s.1.y ∧ j = s.1.x then (⟨x0 + plain_offset w sx j, y⟩ : point)
            else st.fromPos) =
          (if row2 = s.1.y ∧ j ≤ s.1.x ∧ s.1.x ≤ s.2.x then
            (⟨x0 + plain_offset w sx s.1.x, y⟩ : point) else st.fromPos) := by
        by_cases c1 : row2 = s.1.y ∧ j = s.1.x
        · have c2 : row2 = s.1.y ∧ j ≤ s.1.x ∧ s.1.x ≤ s.2.x := by omega
          rw [if_pos c1, if_pos c2, c1.2]
        · have c2 : ¬ (row2 = s.1.y ∧ j ≤ s.1.x ∧ s.1.x ≤ s.2.x) := by omega
          rw [if_neg c1, if_neg c2]
      rw [span_columns]
      unfold span_cell
      rw [hF0]
      by_cases hr : row2 = s.2.y
      · rw [if_pos ⟨hr, hjx⟩, if_pos hr, hjx]
      · rw [if_neg (fun hc => hr hc.1), if_neg hr, hf]
    · -- a column before the last one
      have hjx : j ≠ s.2.x := by omega
      have hcell : span_cell s row2 j ⟨x0 + plain_offset w sx j, y⟩ (w.getD j 0) h st =
          ⟨if row2 = s.1.y ∧ j = s.1.x then ⟨x0 + plain_offset w sx j, y⟩
            else st.fromPos, false, st.call⟩ := by
        rw [span_cell, if_neg (fun hc => hjx hc.2), hf]
      rw [hcell, ih (j + 1) _ (by omega) hn rfl]
      have hF : (if row2 = s.1.y ∧ j + 1 ≤ s.1.x ∧ s.1.x ≤ s.2.x then
            (⟨x0 + plain_offset w sx s.1.x, y⟩ : point)
          else (if row2 = s.1.y ∧ j = s.1.x then ⟨x0 + plain_offset w sx j, y⟩
            else st.fromPos)) =
          (if row2 = s.1.y ∧ j ≤ s.1.x ∧ s.1.x ≤ s.2.x then
            (⟨x0 + plain_offset w sx s.1.x, y⟩ : point) else st.fromPos) := by
        by_cases hr1 : row2 = s.1.y
        · by_cases c1 : j + 1 ≤ s.1.x ∧ s.1.x ≤ s.2.x
          · have c2 : j ≤ s.1.x ∧ s.1.x ≤ s.2.x := by omega
            simp only [hr1, c1, c2, and_self, if_true]
          · by_cases c3 : j = s.1.x
            · have c2 : j ≤ s.1.x ∧ s.1.x ≤ s.2.x := by omega
              simp only [hr1, c1, c2, c3, and_self, and_false, if_true, if_false]
              rw [if_neg (by omega)]
              simp
            · have c2 : ¬ (j ≤ s.1.x ∧ s.1.x ≤ s.2.x) := by omega
              simp only [hr1, c1, c2, c3, and_false, if_false]
        · simp only [hr1, false_and, if_false]
      simp only [hF]

/-- The loop over `col2` of one row of the walk, from its first column. -/
theorem span_columns_row (w : List ℚ) (h sx : ℚ) (s : span) (row2 : Nat) (x0 y : ℚ)
    (st : span_walk) (hf : st.foundSpan = false) (hx : s.1.x ≤ s.2.x) :
    span_columns w h sx s row2 (s.2.x + 1) 0 ⟨x0, y⟩ st =
      if row2 = s.2.y then
        ⟨if row2 = s.1.y then ⟨x0 + plain_offset w sx s.1.x, y⟩ else st.fromPos, true,
          some (if row2 = s.1.y then ⟨x0 + plain_offset w sx s.1.x, y⟩ else st.fromPos,
            ⟨x0 + plain_offset w sx s.2.x + w.getD s.2.x 0 -
                (if row2 = s.1.y then
                  (⟨x0 + plain_offset w sx s.1.x, y⟩ : point) else st.fromPos).x,
              y + h - (if row2 = s.1.y then
                  (⟨x0 + plain_offset w sx s.1.x, y⟩ : point) else st.fromPos).y⟩)⟩
      else
        ⟨if row2 = s.1.y then ⟨x0 + plain_offset w sx s.1.x, y⟩ else st.fromPos,
          false, st.call⟩ := by
  have h0 : (⟨x0, y⟩ : point) = ⟨x0 + plain_offset w sx 0, y⟩ := by
    simp [plain_offset]
  have hc : ∀ r : Nat, (r = s.1.y ∧ 0 ≤ s.1.x ∧ s.1.x ≤ s.2.x) ↔ r = s.1.y := by
    intro r; constructor
    · exact fun h => h.1
    · exact fun h => ⟨h, Nat.zero_le _, hx⟩
  rw [h0, span_columns_run w h sx s row2 x0 y (s.2.x + 1) 0 st (by omega) (by omega) hf]
  simp only [hc]

/-- The walk over a span in closed form, entered at row `i` without a span found: the
call of `layout_as` is made at the last cell of the span, from the position recorded at
its first cell. -/
theorem span_rows_run (w h : List ℚ) (spacing : size) (s : span) (x0 y0 : ℚ)
    (hx : s.1.x ≤ s.2.x) :
    ∀ (n i : Nat) (st : span_walk), i + n = s.2.y + 1 → 0 < n → st.foundSpan = false →
      span_rows w h spacing s n i ⟨x0, y0 + plain_offset h spacing.cy i⟩ st =
        ⟨if i ≤ s.1.y ∧ s.1.y ≤ s.2.y then
            ⟨x0 + plain_offset w spacing.cx s.1.x, y0 + plain_offset h spacing.cy s.1.y⟩
          else st.fromPos, true,
          some (if i ≤ s.1.y ∧ s.1.y ≤ s.2.y then
              ⟨x0 + plain_offset w spacing.cx s.1.x, y0 + plain_offset h spacing.cy s.1.y⟩
            else st.fromPos,
            ⟨x0 + plain_offset w spacing.cx s.2.x + w.getD s.2.x 0 -
                (if i ≤ s.1.y ∧ s.1.y ≤ s.2.y then
                  (⟨x0 + plain_offset w spacing.cx s.1.x,
                    y0 + plain_offset h spacing.cy s.1.y⟩ : point) else st.fromPos).x,
              y0 + plain_offset h spacing.cy s.2.y + h.getD s.2.y 0 -
                (if i ≤ s.1.y ∧ s.1.y ≤ s.2.y then
                  (⟨x0 + plain_offset w spacing.cx s.1.x,
                    y0 + plain_offset h spacing.cy s.1.y⟩ : point) else st.fromPos).y⟩)⟩ := by
  intro n
  induction n with
  | zero => intro i st _ h0; exact absurd h0 (Nat.lt_irrefl 0)
  | succ n ih =>
    intro i st hi _ hf
    rw [span_rows, hf]
    simp only [Bool.false_eq_true, if_false]
    rw [span_columns_row w (h.getD i 0) spacing.cx s i x0 _ st hf hx]
    have hnext : (⟨x0, y0 + plain_offset h spacing.cy i + h.getD i 0 + spacing.cy⟩ : point) =
        ⟨x0, y0 + plain_offset h spacing.cy (i + 1)⟩ := by
      rw [plain_offset]; congr 1; ring
    rw [hnext]
    rcases Nat.eq_zero_or_pos n with hn | hn
    · -- the last row of the span
      subst hn
      have hiy : i = s.2.y := by omega
      have hF0 : (if i = s.1.y then
            (⟨x0 + plain_offset w spacing.cx s.1.x, y0 + plain_offset h spacing.cy i⟩ : point)
            else st.fromPos) =
          (if i ≤ s.1.y ∧ s.1.y ≤ s.2.y then
            (⟨x0 + plain_offset w spacing.cx s.1.x,
              y0 + plain_offset h spacing.cy s.1.y⟩ : point) else st.fromPos) := by
        by_cases c1 : i = s.1.y
        · have c2 : i ≤ s.1.y ∧ s.1.y ≤ s.2.y := by omega
          rw [if_pos c1, if_pos c2, c1]
        · have c2 : ¬ (i ≤ s.1.y ∧ s.1.y ≤ s.2.y) := by omega
          rw [if_neg c1, if_neg c2]
      rw [if_pos hiy, span_rows, hF0, hiy]
    · -- a row before the last one
      have hiy : i ≠ s.2.y := by omega
      rw [if_neg hiy, ih (i + 1) _ (by omega) hn rfl]
      have hF : (if i + 1 ≤ s.1.y ∧ s.1.y ≤ s.2.y then
            (⟨x0 + plain_offset w spacing.cx s.1.x,
              y0 + plain_offset h spacing.cy s.1.y⟩ : point)
          else (if i = s.1.y then
            ⟨x0 + plain_offset w spacing.cx s.1.x, y0 + plain_offset h spacing.cy i⟩
            else st.fromPos)) =
          (if i ≤ s.1.y ∧ s.1.y ≤ s.2.y then
            (⟨x0 + plain_offset w spacing.cx s.1.x,
              y0 + plain_offset h spacing.cy s.1.y⟩ : point) else st.fromPos) := by
        by_cases c1 : i + 1 ≤ s.1.y ∧ s.1.y ≤ s.2.y
        · have c2 : i ≤ s.1.y ∧ s.1.y ≤ s.2.y := by omega
          rw [if_pos c1, if_pos c2]
        · by_cases c3 : i = s.1.y
          · have c2 : i ≤ s.1.y ∧ s.1.y ≤ s.2.y := by omega
            rw [if_neg c1, if_pos c3, if_pos c2, c3]
          · have c2 : ¬ (i ≤ s.1.y ∧ s.1.y ≤ s.2.y) := by omega
            rw [if_neg c1, if_neg c3, if_neg c2]
      simp only [hF]

/-- The walk over a span that contains a cell, from the available position: the
position and the extents of the call. -/
theorem span_rows_call (w h : List ℚ) (spacing : size) (s : span) (availablePos : point)
    (st : span_walk) (hf : st.foundSpan = false) (hx : s.1.x ≤ s.2.x) (hy : s.1.y ≤ s.2.y) :
    span_rows w h spacing s (s.2.y + 1) 0 availablePos st =
      ⟨⟨availablePos.x + plain_offset w spacing.cx s.1.x,
          availablePos.y + plain_offset h spacing.cy s.1.y⟩, true,
        some (⟨availablePos.x + plain_offset w spacing.cx s.1.x,
            availablePos.y + plain_offset h spacing.cy s.1.y⟩,
          ⟨span_extent w spacing.cx s.1.x s.2.x, span_extent h spacing.cy s.1.y s.2.y⟩)⟩ := by
  obtain ⟨ax, ay⟩ := availablePos
  have hrun := span_rows_run w h spacing s ax ay hx (s.2.y + 1) 0 st
    (by omega) (by omega) hf
  have hz : plain_offset h spacing.cy 0 = 0 := rfl
  rw [hz, add_zero] at hrun
  rw [hrun]
  have hc : (0 ≤ s.1.y ∧ s.1.y ≤ s.2.y) := ⟨Nat.zero_le _, hy⟩
  simp only [hc, and_self, if_true]
  obtain ⟨dx, hdx⟩ : ∃ d, s.2.x = s.1.x + d := ⟨s.2.x - s.1.x, by omega⟩
  obtain ⟨dy, hdy⟩ : ∃ d, s.2.y = s.1.y + d := ⟨s.2.y - s.1.y, by omega⟩
  have e1 := plain_offset_span w spacing.cx s.1.x dx
  have e2 := plain_offset_span h spacing.cy s.1.y dy
  rw [← hdx] at e1
  rw [← hdy] at e2
  rw [← e1, ← e2]
  congr 3
  · congr 1
    · ring
    · ring

theorem span_search_found (w h : List ℚ) (spacing : size) (availablePos : point)
    (row col : Nat) (spans : List span) (st : span_walk) (hf : st.foundSpan = true) :
    (spans.foldl (fun st s =>
      if span_contains s ⟨col, row⟩ then
        span_rows w h spacing s (s.2.y + 1) 0 availablePos ⟨⟨0, 0⟩, st.foundSpan, st.call⟩
      else st) st).foundSpan = true ∧
    (spans.foldl (fun st s =>
      if span_contains s ⟨col, row⟩ then
        span_rows w h spacing s (s.2.y + 1) 0 availablePos ⟨⟨0, 0⟩, st.foundSpan, st.call⟩
      else st) st).call = st.call := by
  induction spans generalizing st with
  | nil => exact ⟨hf, rfl⟩
  | cons s rest ih =>
    rw [List.foldl_cons]
    by_cases hc : span_contains s ⟨col, row⟩ = true
    · rw [if_pos hc, span_rows_found _ _ _ _ _ _ _ _ (by exact hf)]
      exact ih ⟨⟨0, 0⟩, st.foundSpan, st.call⟩ hf
    · rw [if_neg hc]
      exact ih st hf

/-- The search of lines 424-452 in terms of `find_span`: the call is the one of the
first span that contains the cell, and there is none when no span contains it. -/
theorem span_search_eq (w h : List ℚ) (spacing : size) (availablePos : point)
    (row col : Nat) (spans : List span) :
    match spans.find? (fun s => span_contains s ⟨col, row⟩) with
    | some s =>
      (span_search w h spacing availablePos row col spans).foundSpan = true ∧
      (span_search w h spacing availablePos row col spans).call =
        some (⟨availablePos.x + plain_offset w spacing.cx s.1.x,
            availablePos.y + plain_offset h spacing.cy s.1.y⟩,
          ⟨span_extent w spacing.cx s.1.x s.2.x, span_extent h spacing.cy s.1.y s.2.y⟩)
    | none =>
      (span_search w h spacing availablePos row col spans).foundSpan = false ∧
      (span_search w h spacing availablePos row col spans).call = none := by
  unfold span_search
  generalize hst : (⟨⟨0, 0⟩, false, none⟩ : span_walk) = st0
  have hf0 : st0.foundSpan = false := by rw [← hst]
  have hc0 : st0.call = none := by rw [← hst]
  clear hst
  induction spans generalizing st0 with
  | nil => exact ⟨hf0, hc0⟩
  | cons s rest ih =>
    rw [List.find?_cons, List.foldl_cons]
    by_cases hc : span_contains s ⟨col, row⟩ = true
    · rw [if_pos hc]
      simp only [hc]
      have hb : s.1.x ≤ s.2.x ∧ s.1.y ≤ s.2.y := by
        simp only [span_contains, decide_eq_true_eq] at hc
        omega
      rw [span_rows_call w h spacing s availablePos ⟨⟨0, 0⟩, st0.foundSpan, st0.call⟩
        hf0 hb.1 hb.2]
      obtain ⟨h1, h2⟩ := span_search_found w h spacing availablePos row col rest
        ⟨⟨availablePos.x + plain_offset w spacing.cx s.1.x,
            availablePos.y + plain_offset h spacing.cy s.1.y⟩, true,
          some (⟨availablePos.x + plain_offset w spacing.cx s.1.x,
              availablePos.y + plain_offset h spacing.cy s.1.y⟩,
            ⟨span_extent w spacing.cx s.1.x s.2.x,
              span_extent h spacing.cy s.1.y s.2.y⟩)⟩ rfl
      exact ⟨h1, h2⟩
    · have hc2 : span_contains s ⟨col, row⟩ = false := by simpa using hc
      rw [if_neg hc]
      simp only [hc2]
      exact ih st0 hf0 hc0

/-- The calls made for a cell that lies in a span: one call, with the geometry of the
first span that contains the cell. -/
theorem cell_calls_of_span (g : grid_layout) (w h : List ℚ) (availablePos colPos : point)
    (row col : Nat) (s : span) (hs : find_span g ⟨col, row⟩ = some s) :
    cell_calls w h g.spacing availablePos colPos row col g.iSpans =
      [(⟨availablePos.x + plain_offset w g.spacing.cx s.1.x,
          availablePos.y + plain_offset h g.spacing.cy s.1.y⟩,
        ⟨span_extent w g.spacing.cx s.1.x s.2.x, span_extent h g.spacing.cy s.1.y s.2.y⟩)] := by
  have h1 := span_search_eq w h g.spacing availablePos row col g.iSpans
  unfold find_span at hs
  rw [hs] at h1
  unfold cell_calls
  rw [h1.1, h1.2]
  simp

/-- The calls made for a cell that lies in no span: the call of line 454. -/
theorem cell_calls_of_no_span (g : grid_layout) (w h : List ℚ)
    (availablePos colPos : point) (row col : Nat) (hs : find_span g ⟨col, row⟩ = none) :
    cell_calls w h g.spacing availablePos colPos row col g.iSpans =
      [(colPos, ⟨w.getD col 0, h.getD row 0⟩)] := by
  have h1 := span_search_eq w h g.spacing availablePos row col g.iSpans
  unfold find_span at hs
  rw [hs] at h1
  unfold cell_calls
  rw [h1.1, h1.2]
  simp

/-- Every call of the loop over the columns of a row is one of the calls made for an
occupied cell of that row whose column has a non-zero width. -/
theorem layout_columns_mem (g : grid_layout) (w h : List ℚ) (availablePos : point)
    (row : Nat) (e : grid_call) :
    ∀ (n col : Nat) (colPos : point),
      e ∈ layout_columns g w h availablePos row n col colPos →
      ∃ c pos, col ≤ c ∧ c < col + n ∧ w.getD c 0 ≠ 0 ∧ e.cell = ⟨c, row⟩ ∧
        cells_find g.iCells ⟨c, row⟩ = some e.subject ∧
        (e.position, e.extents) ∈ cell_calls w h g.spacing availablePos pos row c g.iSpans := by
  intro n
  induction n with
  | zero => intro col colPos he; simp [layout_columns] at he
  | succ n ih =>
    intro col colPos he
    rw [layout_columns] at he
    by_cases hw : w.getD col 0 = 0
    · rw [if_pos hw] at he
      obtain ⟨c, pos, h1, h2, h3⟩ := ih (col + 1) colPos he
      exact ⟨c, pos, by omega, by omega, h3⟩
    · rw [if_neg hw] at he
      rcases List.mem_append.1 he with he | he
      · cases hc : cells_find g.iCells ⟨col, row⟩ with
        | none => rw [hc] at he; simp at he
        | some x =>
          rw [hc] at he
          simp only [List.mem_map] at he
          obtain ⟨c, hcm, rfl⟩ := he
          exact ⟨col, colPos, le_refl _, by omega, hw, rfl, hc, hcm⟩
      · obtain ⟨c, pos, h1, h2, h3⟩ := ih (col + 1) _ he
        exact ⟨c, pos, by omega, by omega, h3⟩

/-- Every call of the layout pass is one of the calls made for an occupied cell whose
row has a non-zero height and whose column has a non-zero width. -/
theorem layout_rows_mem (g : grid_layout) (w h : List ℚ) (availablePos : point)
    (e : grid_call) :
    ∀ (n row : Nat) (rowPos : point),
      e ∈ layout_rows g w h availablePos n row rowPos →
      ∃ r c pos, row ≤ r ∧ r < row + n ∧ c < g.iDimensions.cx ∧ h.getD r 0 ≠ 0 ∧
        w.getD c 0 ≠ 0 ∧ e.cell = ⟨c, r⟩ ∧
        cells_find g.iCells ⟨c, r⟩ = some e.subject ∧
        (e.position, e.extents) ∈ cell_calls w h g.spacing availablePos pos r c g.iSpans := by
  intro n
  induction n with
  | zero => intro row rowPos he; simp [layout_rows] at he
  | succ n ih =>
    intro row rowPos he
    rw [layout_rows] at he
    by_cases hh : h.getD row 0 = 0
    · rw [if_pos hh] at he
      obtain ⟨r, c, pos, h1, h2, h3⟩ := ih (row + 1) rowPos he
      exact ⟨r, c, pos, by omega, by omega, h3⟩
    · rw [if_neg hh] at he
      rcases List.mem_append.1 he with he | he
      · obtain ⟨c, pos, h1, h2, h3, h4, h5, h6⟩ :=
          layout_columns_mem g w h availablePos row e _ _ _ he
        exact ⟨row, c, pos, le_refl _, by omega, by omega, hh, h3, h4, h5, h6⟩
      · obtain ⟨r, c, pos, h1, h2, h3⟩ := ih (row + 1) _ he
        exact ⟨r, c, pos, by omega, by omega, h3⟩

/-! ## Grid layout pass: the extents of a spanned item -/

theorem maxRowHeight_length (extents : item_ref → size) (g : grid_layout) :
    (maxRowHeight extents g).length = g.rows := by
  simp [maxRowHeight, grid_layout.rows]

theorem maxColWidth_length (extents : item_ref → size) (g : grid_layout) :
    (maxColWidth extents g).length = g.columns := by
  simp [maxColWidth, grid_layout.columns]

/-- Every call of the layout pass on an item whose cell lies in a span has the geometry
of the walk over the first span that contains the cell. -/
theorem layout_items_span_call (extents : item_ref → size) (g : grid_layout)
    (aPosition : point) (aSize : size) (e : grid_call) (s : span)
    (he : e ∈ layout_items extents g aPosition aSize)
    (hs : find_span g e.cell = some s) :
    e.position = ⟨aPosition.x + g.margins.left +
        plain_offset (maxColWidth extents g) g.spacing.cx s.1.x,
      aPosition.y + g.margins.top +
        plain_offset (maxRowHeight extents g) g.spacing.cy s.1.y⟩ ∧
    e.extents = ⟨span_extent (maxColWidth extents g) g.spacing.cx s.1.x s.2.x,
      span_extent (maxRowHeight extents g) g.spacing.cy s.1.y s.2.y⟩ := by
  unfold layout_items at he
  by_cases hen : g.enabled = true
  · rw [if_pos hen] at he
    obtain ⟨r, c, pos, _, _, _, _, _, hcell, _, hcall⟩ :=
      layout_rows_mem g _ _ _ e _ _ _ he
    rw [hcell] at hs
    rw [cell_calls_of_span g _ _ _ pos r c s hs] at hcall
    simp only [List.mem_singleton, Prod.mk.injEq] at hcall
    exact hcall
  · rw [if_neg hen] at he
    simp at he

/-- C17: in the layout pass, every call of `layout_as` on an item whose cell lies in a
span covering rows r0..r1 and columns c0..c1 of the grid gives the item a height equal to
the sum of the computed heights of rows r0..r1 plus `spacing.cy * (r1 - r0)` and a width
equal to the sum of the computed widths of columns c0..c1 plus `spacing.cx * (c1 - c0)`;
the rows and columns of the span are entries of the two vectors. -/
theorem spanned_item_extents (extents : item_ref → size) (g : grid_layout)
    (aPosition : point) (aSize : size) (e : grid_call) (s : span)
    (he : e ∈ layout_items extents g aPosition aSize)
    (hs : find_span g e.cell = some s)
    (hcols : s.2.x < g.columns) (hrows : s.2.y < g.rows) :
    e.extents.cy = span_extent (maxRowHeight extents g) g.spacing.cy s.1.y s.2.y ∧
    e.extents.cx = span_extent (maxColWidth extents g) g.spacing.cx s.1.x s.2.x ∧
    s.1.y ≤ s.2.y ∧ s.2.y < (maxRowHeight extents g).length ∧
    s.1.x ≤ s.2.x ∧ s.2.x < (maxColWidth extents g).length := by
  obtain ⟨_, h2⟩ := layout_items_span_call extents g aPosition aSize e s he hs
  have hc : span_contains s e.cell = true := by
    unfold find_span at hs
    exact List.find?_some (p := fun s => span_contains s e.cell) hs
  simp only [span_contains, decide_eq_true_eq] at hc
  rw [h2, maxRowHeight_length, maxColWidth_length]
  exact ⟨rfl, rfl, by omega, hrows, by omega, hcols⟩

theorem spanned_item_extents_witness :
    maxRowHeight span_example_extents span_example_grid = [10, 20] ∧
    span_example_grid.spacing.cy = 2 ∧
    (⟨⟨0, 0⟩, item_ref.external 1, ⟨0, 0⟩, ⟨5, 32⟩⟩ : grid_call) ∈
      layout_items span_example_extents span_example_grid ⟨0, 0⟩ ⟨100, 100⟩ ∧
    find_span span_example_grid ⟨0, 0⟩ = some (⟨0, 0⟩, ⟨0, 1⟩) ∧
    span_extent (maxRowHeight span_example_extents span_example_grid)
      span_example_grid.spacing.cy 0 1 = 32 ∧
    (32 : ℚ) = span_extent (maxRowHeight span_example_extents span_example_grid)
      span_example_grid.spacing.cy 0 1 :=
  ⟨by decide!, by decide!, by decide!, by decide, by decide!,
    (spanned_item_extents span_example_extents span_example_grid ⟨0, 0⟩ ⟨100, 100⟩
      ⟨⟨0, 0⟩, item_ref.external 1, ⟨0, 0⟩, ⟨5, 32⟩⟩ (⟨0, 0⟩, ⟨0, 1⟩)
      (by decide!) (by decide) (by decide) (by decide)).1⟩

/-! ## Grid layout: minimum and maximum size -/

theorem foldr_max_push (l : List ℚ) (a b : ℚ) :
    l.foldr max (max a b) = max b (l.foldr max a) := by
  induction l with
  | nil => exact max_comm a b
  | cons v rest ih =>
    simp only [List.foldr_cons, ih]
    exact max_left_comm v b _

theorem foldl_max_filter {α : Type} (p : α → Bool) (f : α → ℚ) (l : List α) (a : ℚ) :
    l.foldl (fun result e => if p e = true then max result (f e) else result) a =
      ((l.filter p).map f).foldr max a := by
  induction l generalizing a with
  | nil => rfl
  | cons e rest ih =>
    rw [List.foldl_cons]
    by_cases h : p e = true
    · rw [if_pos h, ih, List.filter_cons_of_pos h, List.map_cons, List.foldr_cons,
        foldr_max_push]
    · rw [if_neg h, ih, List.filter_cons_of_neg h]

theorem foldl_add_filter {α : Type} (p : α → Bool) (f : α → ℚ) (l : List α) (a : ℚ) :
    l.foldl (fun result e => if p e = true then result + f e else result) a =
      a + ((l.filter p).map f).sum := by
  induction l generalizing a with
  | nil => simp
  | cons e rest ih =>
    rw [List.foldl_cons]
    by_cases h : p e = true
    · rw [if_pos h, ih, List.filter_cons_of_pos h, List.map_cons, List.sum_cons, add_assoc]
    · rw [if_neg h, ih, List.filter_cons_of_neg h]

theorem cells_find_of_mem (cells : cell_list) (hmap : (cells.map Prod.fst).Nodup)
    (e : cell_coordinates × item_ref) (he : e ∈ cells) :
    cells_find cells e.1 = some e.2 := by
  induction cells with
  | nil => simp at he
  | cons d rest ih =>
    rw [List.map_cons, List.nodup_cons] at hmap
    rcases List.mem_cons.1 he with h | h
    · subst h; simp [cells_find]
    · have hne : d.1 ≠ e.1 := by
        intro heq
        exact hmap.1 (heq ▸ List.mem_map_of_mem Prod.fst h)
      simp only [cells_find, if_neg hne]
      exact ih hmap.2 h

theorem find_span_of_no_spans (g : grid_layout) (hspans : g.iSpans = [])
    (aCell : cell_coordinates) : find_span g aCell = none := by
  simp [find_span, hspans]

/-- The test of the code for a visible row agrees with the words of the spec when the
cell list is a map and the cells lie within the dimensions. -/
theorem is_row_visible_eq (info : item_ref → item) (g : grid_layout)
    (hmap : g.cells_are_a_map) (hdims : g.cells_within_dimensions) (row : Nat) :
    is_row_visible info g row = row_is_visible info g row := by
  rw [Bool.eq_iff_iff]
  unfold is_row_visible row_is_visible
  rw [List.any_eq_true, List.any_eq_true]
  constructor
  · rintro ⟨col, _, hc⟩
    unfold cell_shows_row at hc
    cases hf : cells_find g.iCells ⟨col, row⟩ with
    | none => rw [hf] at hc; cases hc
    | some x =>
      rw [hf] at hc
      refine ⟨(⟨col, row⟩, x), cells_find_mem _ _ _ hf, ?_⟩
      simpa using hc
  · rintro ⟨e, he, hc⟩
    simp only [Bool.and_eq_true, decide_eq_true_eq] at hc
    refine ⟨e.1.x, List.mem_range.2 (hdims e he).1, ?_⟩
    unfold cell_shows_row
    have hk : (⟨e.1.x, row⟩ : cell_coordinates) = e.1 := by
      rw [← hc.1.1]
    rw [hk, cells_find_of_mem g.iCells hmap e he]
    simpa using ⟨hc.1.2, hc.2⟩

/-- The test of the code for a visible column agrees with the words of the spec. -/
theorem is_column_visible_eq (info : item_ref → item) (g : grid_layout)
    (hmap : g.cells_are_a_map) (hdims : g.cells_within_dimensions) (column : Nat) :
    is_column_visible info g column = column_is_visible info g column := by
  rw [Bool.eq_iff_iff]
  unfold is_column_visible column_is_visible
  rw [List.any_eq_true, List.any_eq_true]
  constructor
  · rintro ⟨row, _, hc⟩
    unfold cell_shows_column at hc
    cases hf : cells_find g.iCells ⟨column, row⟩ with
    | none => rw [hf] at hc; cases hc
    | some x =>
      rw [hf] at hc
      refine ⟨(⟨column, row⟩, x), cells_find_mem _ _ _ hf, ?_⟩
      simpa using hc
  · rintro ⟨e, he, hc⟩
    simp only [Bool.and_eq_true, decide_eq_true_eq] at hc
    refine ⟨e.1.y, List.mem_range.2 (hdims e he).2, ?_⟩
    unfold cell_shows_column
    have hk : (⟨column, e.1.y⟩ : cell_coordinates) = e.1 := by
      rw [← hc.1.1]
    rw [hk, cells_find_of_mem g.iCells hmap e he]
    simpa using ⟨hc.1.2, hc.2⟩

theorem row_minimum_size_eq (info : item_ref → item) (g : grid_layout)
    (hspans : g.iSpans = []) (row : Nat) :
    row_minimum_size info g row =
      largest_among info g (fun k => decide (k.y = row)) (fun it => it.minimum_size.cy) := by
  unfold row_minimum_size largest_among
  have h := foldl_max_filter (fun e : cell_coordinates × item_ref => decide (e.1.y = row))
    (fun e => (info e.2).minimum_size.cy) g.iCells 0
  simp only [decide_eq_true_eq] at h
  rw [← h]
  congr 1
  funext result cell
  simp only [row_share, find_span_of_no_spans g hspans]

theorem column_minimum_size_eq (info : item_ref → item) (g : grid_layout)
    (hspans : g.iSpans = []) (column : Nat) :
    column_minimum_size info g column =
      largest_among info g (fun k => decide (k.x = column))
        (fun it => it.minimum_size.cx) := by
  unfold column_minimum_size largest_among
  have h := foldl_max_filter (fun e : cell_coordinates × item_ref => decide (e.1.x = column))
    (fun e => (info e.2).minimum_size.cx) g.iCells 0
  simp only [decide_eq_true_eq] at h
  rw [← h]
  congr 1
  funext result cell
  simp only [column_share, find_span_of_no_spans g hspans]

theorem rows_minimum_size_eq (info : item_ref → item) (g : grid_layout)
    (hspans : g.iSpans = []) (hmap : g.cells_are_a_map)
    (hdims : g.cells_within_dimensions) :
    rows_minimum_size info g =
      ((rows_that_are_visible info g).map (fun row =>
        largest_among info g (fun k => decide (k.y = row))
          (fun it => it.minimum_size.cy))).sum := by
  unfold rows_minimum_size rows_that_are_visible
  rw [foldl_add_filter, zero_add]
  have h1 : is_row_visible info g = row_is_visible info g :=
    funext (is_row_visible_eq info g hmap hdims)
  have h2 : row_minimum_size info g = fun row =>
      largest_among info g (fun k => decide (k.y = row)) (fun it => it.minimum_size.cy) :=
    funext (row_minimum_size_eq info g hspans)
  rw [h1, h2]

theorem columns_minimum_size_eq (info : item_ref → item) (g : grid_layout)
    (hspans : g.iSpans = []) (hmap : g.cells_are_a_map)
    (hdims : g.cells_within_dimensions) :
    columns_minimum_size info g =
      ((columns_that_are_visible info g).map (fun column =>
        largest_among info g (fun k => decide (k.x = column))
          (fun it => it.minimum_size.cx))).sum := by
  unfold columns_minimum_size columns_that_are_visible
  rw [foldl_add_filter, zero_add]
  have h1 : is_column_visible info g = column_is_visible info g :=
    funext (is_column_visible_eq info g hmap hdims)
  have h2 : column_minimum_size info g = fun column =>
      largest_among info g (fun k => decide (k.x = column))
        (fun it => it.minimum_size.cx) :=
    funext (column_minimum_size_eq info g hspans)
  rw [h1, h2]

theorem visible_rows_eq (info : item_ref → item) (g : grid_layout)
    (hmap : g.cells_are_a_map) (hdims : g.cells_within_dimensions) :
    visible_rows info g = (rows_that_are_visible info g).length := by
  have h0 : visible_rows info g = (List.range g.rows).countP (is_row_visible info g) := rfl
  have h1 : is_row_visible info g = row_is_visible info g :=
    funext (is_row_visible_eq info g hmap hdims)
  rw [h0, h1, List.countP_eq_length_filter]
  rfl

theorem visible_columns_eq (info : item_ref → item) (g : grid_layout)
    (hmap : g.cells_are_a_map) (hdims : g.cells_within_dimensions) :
    visible_columns info g = (columns_that_are_visible info g).length := by
  have h0 : visible_columns info g =
      (List.range g.columns).countP (is_column_visible info g) := rfl
  have h1 : is_column_visible info g = column_is_visible info g :=
    funext (is_column_visible_eq info g hmap hdims)
  rw [h0, h1, List.countP_eq_length_filter]
  rfl

theorem add_spacing_of_finite (max_dimension v spacing : ℚ) (n : Nat)
    (hv : v ≠ max_dimension) :
    add_spacing max_dimension v spacing n = v + spacing * ((n - 1 : Nat) : ℚ) := by
  unfold add_spacing
  by_cases hn : n > 0
  · rw [if_pos ⟨hv, hn⟩]
  · have h0 : n = 0 := by omega
    rw [if_neg (fun h => hn h.2), h0]
    simp

/-- A row that is visible in the words of the spec is a row of the grid when the cells
lie within the dimensions. -/
theorem row_is_visible_lt_rows (info : item_ref → item) (g : grid_layout)
    (hdims : g.cells_within_dimensions) (row : Nat)
    (h : row_is_visible info g row = true) : row < g.rows := by
  unfold row_is_visible at h
  rw [List.any_eq_true] at h
  obtain ⟨e, he, hc⟩ := h
  simp only [Bool.and_eq_true, decide_eq_true_eq] at hc
  rw [← hc.1.1]
  exact (hdims e he).2

theorem column_is_visible_lt_columns (info : item_ref → item) (g : grid_layout)
    (hdims : g.cells_within_dimensions) (column : Nat)
    (h : column_is_visible info g column = true) : column < g.columns := by
  unfold column_is_visible at h
  rw [List.any_eq_true] at h
  obtain ⟨e, he, hc⟩ := h
  simp only [Bool.and_eq_true, decide_eq_true_eq] at hc
  rw [← hc.1.1]
  exact (hdims e he).1

/-- The formula of `minimum_size()` in a state whose occupied cells lie within the
dimensions: for a grid without spans that has a visible item other than a spacer and
whose sums stay off the sentinel `size::max_dimension()`, the height of `minimum_size()`
is the larger of the minimum height of the base class and the sum, over the visible rows,
of the tallest minimum height among the cells of the row, plus the top and bottom
margins, plus `spacing.cy` times the number of visible rows less one (nothing for no
visible row); the width is the same with columns, widths, the left and right margins and
`spacing.cx`.  A row or column is visible when it contains a visible occupant with a
non-zero minimum height or width, and every such row or column is one of the grid.  The
hypothesis on the dimensions is not kept by `remove_item_at_position`
(`minimum_size_misses_cell_outside_dimensions`). -/
theorem minimum_size_sums_visible_rows (info : item_ref → item) (max_dimension : ℚ)
    (g : grid_layout) (hspans : g.iSpans = [])
    (hvis : g.items_visible info ItemTypeWidgetOrLayout ≠ 0)
    (hmap : g.cells_are_a_map) (hdims : g.cells_within_dimensions)
    (hcy : ((rows_that_are_visible info g).map (fun row =>
        largest_among info g (fun k => decide (k.y = row))
          (fun it => it.minimum_size.cy))).sum + (g.margins.top + g.margins.bottom)
        ≠ max_dimension)
    (hcx : ((columns_that_are_visible info g).map (fun column =>
        largest_among info g (fun k => decide (k.x = column))
          (fun it => it.minimum_size.cx))).sum + (g.margins.left + g.margins.right)
        ≠ max_dimension) :
    (minimum_size info max_dimension g).cy =
      max g.base_minimum_size.cy
        (((rows_that_are_visible info g).map (fun row =>
            largest_among info g (fun k => decide (k.y = row))
              (fun it => it.minimum_size.cy))).sum +
          (g.margins.top + g.margins.bottom) +
          g.spacing.cy * (((rows_that_are_visible info g).length - 1 : Nat) : ℚ)) ∧
    (minimum_size info max_dimension g).cx =
      max g.base_minimum_size.cx
        (((columns_that_are_visible info g).map (fun column =>
            largest_among info g (fun k => decide (k.x = column))
              (fun it => it.minimum_size.cx))).sum +
          (g.margins.left + g.margins.right) +
          g.spacing.cx * (((columns_that_are_visible info g).length - 1 : Nat) : ℚ)) ∧
    (∀ row, row_is_visible info g row = true ↔ row ∈ rows_that_are_visible info g) ∧
    (∀ column, column_is_visible info g column = true ↔
      column ∈ columns_that_are_visible info g) := by
  unfold minimum_size
  rw [if_neg hvis]
  simp only
  rw [rows_minimum_size_eq info g hspans hmap hdims,
    columns_minimum_size_eq info g hspans hmap hdims,
    visible_rows_eq info g hmap hdims, visible_columns_eq info g hmap hdims,
    add_spacing_of_finite _ _ _ _ hcy, add_spacing_of_finite _ _ _ _ hcx]
  refine ⟨max_comm _ _, max_comm _ _, ?_, ?_⟩
  · intro row
    unfold rows_that_are_visible
    rw [List.mem_filter, List.mem_range]
    exact ⟨fun h => ⟨row_is_visible_lt_rows info g hdims row h, h⟩, fun h => h.2⟩
  · intro column
    unfold columns_that_are_visible
    rw [List.mem_filter, List.mem_range]
    exact ⟨fun h => ⟨column_is_visible_lt_columns info g hdims column h, h⟩, fun h => h.2⟩

/-- An instance of the formula: the three visible rows of `spaced_three_row_grid`. -/
theorem minimum_size_sums_visible_rows_witness :
    rows_that_are_visible three_visible_rows_items spaced_three_row_grid = [0, 1, 2] ∧
    columns_that_are_visible three_visible_rows_items spaced_three_row_grid = [0] ∧
    minimum_size three_visible_rows_items 100000 spaced_three_row_grid = ⟨16, 72⟩ ∧
    (minimum_size three_visible_rows_items 100000 spaced_three_row_grid).cy =
      max spaced_three_row_grid.base_minimum_size.cy
        (((rows_that_are_visible three_visible_rows_items spaced_three_row_grid).map
            (fun row => largest_among three_visible_rows_items spaced_three_row_grid
              (fun k => decide (k.y = row)) (fun it => it.minimum_size.cy))).sum +
          (spaced_three_row_grid.margins.top + spaced_three_row_grid.margins.bottom) +
          spaced_three_row_grid.spacing.cy *
            (((rows_that_are_visible three_visible_rows_items
              spaced_three_row_grid).length - 1 : Nat) : ℚ)) :=
  ⟨by decide!, by decide!, by decide!,
    (minimum_size_sums_visible_rows three_visible_rows_items 100000 spaced_three_row_grid
      rfl (by decide!) (by decide) (by decide) (by decide!) (by decide!)).1⟩

/-- C18, the code at the failing input: the grid of one row and two columns holds two
visible widgets of minimum size (10, 10) and has no span, no margins, no spacing and a
base class minimum of zero; `minimum_size()` is (20, 10).  After
`remove_item_at_position(0, 1)` the widget of cell (0, 0) is still there, row 0 and
column 0 are visible in the words of the claim and their tallest and widest minimums are
10, so the claim gives the size (10, 10); but `rows()` and `columns()` are 0 (lines
210-215), the loops of lines 274-285 run over no row and no column, and `minimum_size()`
returns (0, 0). -/
theorem minimum_size_misses_cell_outside_dimensions :
    (remove_item_at_position list_row_operations two_cell_grid 0 1).thrown = none ∧
    (remove_item_at_position list_row_operations two_cell_grid 0 1).state.iSpans = [] ∧
    (remove_item_at_position list_row_operations two_cell_grid 0 1).state.items_visible
      two_cell_items ItemTypeWidgetOrLayout = 1 ∧
    (item_at_position (remove_item_at_position list_row_operations two_cell_grid
      0 1).state 0 0).value = some (item_ref.external 1) ∧
    row_is_visible two_cell_items
      (remove_item_at_position list_row_operations two_cell_grid 0 1).state 0 = true ∧
    column_is_visible two_cell_items
      (remove_item_at_position list_row_operations two_cell_grid 0 1).state 0 = true ∧
    largest_among two_cell_items
      (remove_item_at_position list_row_operations two_cell_grid 0 1).state
      (fun k => decide (k.y = 0)) (fun it => it.minimum_size.cy) = 10 ∧
    largest_among two_cell_items
      (remove_item_at_position list_row_operations two_cell_grid 0 1).state
      (fun k => decide (k.x = 0)) (fun it => it.minimum_size.cx) = 10 ∧
    (remove_item_at_position list_row_operations two_cell_grid 0 1).state.rows = 0 ∧
    (remove_item_at_position list_row_operations two_cell_grid 0 1).state.columns = 0 ∧
    minimum_size two_cell_items 100000
      (remove_item_at_position list_row_operations two_cell_grid 0 1).state = ⟨0, 0⟩ ∧
    minimum_size two_cell_items 100000 two_cell_grid = ⟨20, 10⟩ := by
  decide!

/-- C19, the code at the failing input: in the grid of one column whose rows 0, 1 and 2
hold visible widgets of minimum heights 10, 0 and 10 and maximum heights 100, 7 and 50,
all maxima are finite, the visible rows are rows 0 and 2 and `minimum_size()` sums those
two rows (height 20); the maximum height in the words of the claim is 100 + 50 = 150,
but `maximum_size()` returns the height 107 = 100 + 7: the loop of lines 305-312 runs
over the rows 0 and 1, the rows below `visible_rows()`. -/
theorem maximum_size_sums_leading_rows :
    three_row_grid.items_visible three_row_items ItemTypeAll = 3 ∧
    (∀ e ∈ three_row_grid.iCells,
      (three_row_items e.2).maximum_size.cy ≠ 100000 ∧
      (three_row_items e.2).maximum_size.cx ≠ 100000) ∧
    rows_that_are_visible three_row_items three_row_grid = [0, 2] ∧
    visible_rows three_row_items three_row_grid = 2 ∧
    (minimum_size three_row_items 100000 three_row_grid).cy = 20 ∧
    maximum_height_by_visible_rows three_row_items three_row_grid = 150 ∧
    (maximum_size three_row_items 100000 three_row_grid).cy = 107 := by
  decide!

/-! ## Spacer: size policy -/

/-- C20: `size_policy()` returns the size policy that was set when one is set;
otherwise each axis is Expanding when its flag is in the expansion policy and Minimum
when it is not, so that a `horizontal_spacer` is Expanding horizontally and Minimum
vertically and a `vertical_spacer` the reverse. -/
theorem spacer_size_policy_follows_expansion (s : spacer) :
    (∀ p, s.iSizePolicy = some p → s.has_size_policy = true ∧ s.size_policy = p) ∧
    (s.has_size_policy = false →
      s.size_policy.horizontal_size_policy =
        (if (s.iExpansionPolicy.band ExpandHorizontally).nonzero then
          size_policy_e.Expanding else size_policy_e.Minimum) ∧
      s.size_policy.vertical_size_policy =
        (if (s.iExpansionPolicy.band ExpandVertically).nonzero then
          size_policy_e.Expanding else size_policy_e.Minimum)) ∧
    horizontal_spacer.size_policy = ⟨size_policy_e.Expanding, size_policy_e.Minimum⟩ ∧
    vertical_spacer.size_policy = ⟨size_policy_e.Minimum, size_policy_e.Expanding⟩ := by
  refine ⟨?_, ?_, by decide, by decide⟩
  · intro p hp
    simp [spacer.has_size_policy, spacer.size_policy, hp]
  · intro hnone
    have h0 : s.iSizePolicy = none := by
      simpa [spacer.has_size_policy] using hnone
    simp only [spacer.size_policy, h0, expand_vertically, expand_horizontally,
      size_policy.uniform, size_policy.set_horizontal_size_policy,
      size_policy.set_vertical_size_policy]
    constructor
    · split <;> split <;> simp_all
    · split <;> split <;> simp_all

theorem spacer_size_policy_follows_expansion_witness :
    (spacer.create (ExpandHorizontally.bor ExpandVertically)).has_size_policy = false ∧
    (spacer.create (ExpandHorizontally.bor ExpandVertically)).size_policy =
      ⟨size_policy_e.Expanding, size_policy_e.Expanding⟩ ∧
    ((spacer.create (ExpandHorizontally.bor ExpandVertically)).size_policy.horizontal_size_policy =
        (if ((spacer.create (ExpandHorizontally.bor ExpandVertically)).iExpansionPolicy.band
            ExpandHorizontally).nonzero then
          size_policy_e.Expanding else size_policy_e.Minimum) ∧
      (spacer.create (ExpandHorizontally.bor ExpandVertically)).size_policy.vertical_size_policy =
        (if ((spacer.create (ExpandHorizontally.bor ExpandVertically)).iExpansionPolicy.band
            ExpandVertically).nonzero then
          size_policy_e.Expanding else size_policy_e.Minimum)) :=
  ⟨by decide, by decide,
    (spacer_size_policy_follows_expansion
      (spacer.create (ExpandHorizontally.bor ExpandVertically))).2.1 (by decide)⟩

/-! ## Spacer: overrides, defaults and layout requests -/

theorem spacer_update_state_if (c : Prop) [Decidable c] (a s : spacer) (r : Bool) :
    (if c then (⟨a, r⟩ : spacer_update) else ⟨s, false⟩).state = if c then a else s := by
  split_ifs <;> rfl

theorem spacer_update_requested_if (c : Prop) [Decidable c] (a s : spacer) (r : Bool) :
    (if c then (⟨a, r⟩ : spacer_update) else ⟨s, false⟩).layout_requested
      = (decide c && r) := by
  split_ifs with h <;> simp [h]

theorem set_weight_stored (s : spacer) (aWeight : Option size) (aUpdateLayout : Bool) :
    (s.set_weight aWeight aUpdateLayout).state.iWeight = aWeight := by
  unfold spacer.set_weight
  rw [spacer_update_state_if]
  by_cases h : s.iWeight = aWeight
  · rw [if_neg (not_not.mpr h)]; exact h
  · rw [if_pos h]

theorem set_minimum_size_stored (u : units_converter) (s : spacer) (aMinimumSize : Option size)
    (aUpdateLayout : Bool) :
    (s.set_minimum_size u aMinimumSize aUpdateLayout).state.iMinimumSize
      = aMinimumSize.map u.to_device_units := by
  unfold spacer.set_minimum_size
  rw [spacer_update_state_if]
  by_cases h : s.iMinimumSize = aMinimumSize.map u.to_device_units
  · rw [if_neg (not_not.mpr h)]; exact h
  · rw [if_pos h]

theorem set_maximum_size_stored (u : units_converter) (s : spacer) (aMaximumSize : Option size)
    (aUpdateLayout : Bool) :
    (s.set_maximum_size u aMaximumSize aUpdateLayout).state.iMaximumSize
      = aMaximumSize.map u.to_device_units := by
  unfold spacer.set_maximum_size
  rw [spacer_update_state_if]
  by_cases h : s.iMaximumSize = aMaximumSize.map u.to_device_units
  · rw [if_neg (not_not.mpr h)]; exact h
  · rw [if_pos h]

theorem set_size_policy_stored (s : spacer) (aSizePolicy : Option size_policy)
    (aUpdateLayout : Bool) :
    (s.set_size_policy aSizePolicy aUpdateLayout).state.iSizePolicy = aSizePolicy := by
  unfold spacer.set_size_policy
  rw [spacer_update_state_if]
  by_cases h : s.iSizePolicy = aSizePolicy
  · rw [if_neg (not_not.mpr h)]; exact h
  · rw [if_pos h]

theorem parent_has_owner_of_no_parent (s : spacer) (h : s.has_parent = false) :
    s.parent_has_owner = false := by
  unfold spacer.has_parent at h
  unfold spacer.parent_has_owner
  cases hp : s.iParent with
  | none => rfl
  | some a => rw [hp] at h; simp at h

/-- C21.  Spacer: the three optional overrides.  After a value `v` has been set, the query
`has_weight` (`has_minimum_size`, `has_maximum_size`) is true and `weight`
(`minimum_size`, `maximum_size`) returns `v`; a spacer without the override returns the
default, which is weight 1 on both axes, minimum size (0, 0) and the maximum size
`size::max_size()`; setting none, in particular after a value had been set, brings the
default back.  The sizes go through the unit conversions, which are taken to invert each
other. -/
theorem spacer_overrides_and_defaults (u : units_converter) (hu : units_round_trip u)
    (max_size : size) (s : spacer) (v : size) (aUpdateLayout : Bool) :
    ((s.set_weight (some v) aUpdateLayout).state.has_weight = true ∧
      (s.set_weight (some v) aUpdateLayout).state.weight = v) ∧
    ((s.set_minimum_size u (some v) aUpdateLayout).state.has_minimum_size = true ∧
      (s.set_minimum_size u (some v) aUpdateLayout).state.minimum_size u = v) ∧
    ((s.set_maximum_size u (some v) aUpdateLayout).state.has_maximum_size = true ∧
      (s.set_maximum_size u (some v) aUpdateLayout).state.maximum_size u max_size = v) ∧
    (s.has_weight = false → s.weight = ⟨1, 1⟩) ∧
    (s.has_minimum_size = false → s.minimum_size u = ⟨0, 0⟩) ∧
    (s.has_maximum_size = false → s.maximum_size u max_size = max_size) ∧
    ((s.set_weight none aUpdateLayout).state.has_weight = false ∧
      (s.set_weight none aUpdateLayout).state.weight = ⟨1, 1⟩ ∧
      ((s.set_weight (some v) aUpdateLayout).state.set_weight none aUpdateLayout).state.weight
        = ⟨1, 1⟩) ∧
    ((s.set_minimum_size u none aUpdateLayout).state.has_minimum_size = false ∧
      (s.set_minimum_size u none aUpdateLayout).state.minimum_size u = ⟨0, 0⟩ ∧
      ((s.set_minimum_size u (some v) aUpdateLayout).state.set_minimum_size u none
        aUpdateLayout).state.minimum_size u = ⟨0, 0⟩) ∧
    ((s.set_maximum_size u none aUpdateLayout).state.has_maximum_size = false ∧
      (s.set_maximum_size u none aUpdateLayout).state.maximum_size u max_size = max_size ∧
      ((s.set_maximum_size u (some v) aUpdateLayout).state.set_maximum_size u none
        aUpdateLayout).state.maximum_size u max_size = max_size) := by
  refine ⟨⟨?_, ?_⟩, ⟨?_, ?_⟩, ⟨?_, ?_⟩, ?_, ?_, ?_, ⟨?_, ?_, ?_⟩, ⟨?_, ?_, ?_⟩, ⟨?_, ?_, ?_⟩⟩
  · simp [spacer.has_weight, set_weight_stored]
  · simp [spacer.weight, set_weight_stored]
  · simp [spacer.has_minimum_size, set_minimum_size_stored]
  · simp [spacer.minimum_size, set_minimum_size_stored, hu v]
  · simp [spacer.has_maximum_size, set_maximum_size_stored]
  · simp [spacer.maximum_size, set_maximum_size_stored, hu v]
  · intro h
    unfold spacer.has_weight at h
    cases hw : s.iWeight with
    | none => simp [spacer.weight, hw, size.square]
    | some a => rw [hw] at h; simp at h
  · intro h
    unfold spacer.has_minimum_size at h
    cases hw : s.iMinimumSize with
    | none => simp [spacer.minimum_size, hw]
    | some a => rw [hw] at h; simp at h
  · intro h
    unfold spacer.has_maximum_size at h
    cases hw : s.iMaximumSize with
    | none => simp [spacer.maximum_size, hw]
    | some a => rw [hw] at h; simp at h
  · simp [spacer.has_weight, set_weight_stored]
  · simp [spacer.weight, set_weight_stored, size.square]
  · simp [spacer.weight, set_weight_stored, size.square]
  · simp [spacer.has_minimum_size, set_minimum_size_stored]
  · simp [spacer.minimum_size, set_minimum_size_stored]
  · simp [spacer.minimum_size, set_minimum_size_stored]
  · simp [spacer.has_maximum_size, set_maximum_size_stored]
  · simp [spacer.maximum_size, set_maximum_size_stored]
  · simp [spacer.maximum_size, set_maximum_size_stored]

theorem doubling_units_round_trip : units_round_trip doubling_units := by
  intro v
  obtain ⟨a, b⟩ := v
  simp [doubling_units]

/-- Witness of C21: a horizontal spacer whose sizes are converted between device units
and units twice as large.  A minimum size of (3, 4) is stored as (6, 8) and reported as
(3, 4); without overrides the spacer reports weight (1, 1), minimum (0, 0) and the
maximum size. -/
theorem spacer_overrides_and_defaults_witness :
    units_round_trip doubling_units ∧
    (horizontal_spacer.set_minimum_size doubling_units (some ⟨3, 4⟩) true).state.iMinimumSize
      = some ⟨6, 8⟩ ∧
    (horizontal_spacer.set_minimum_size doubling_units (some ⟨3, 4⟩)
      true).state.minimum_size doubling_units = ⟨3, 4⟩ ∧
    horizontal_spacer.has_weight = false ∧
    horizontal_spacer.weight = ⟨1, 1⟩ ∧
    horizontal_spacer.minimum_size doubling_units = ⟨0, 0⟩ ∧
    horizontal_spacer.maximum_size doubling_units ⟨1000000, 1000000⟩
      = ⟨1000000, 1000000⟩ :=
  ⟨doubling_units_round_trip, by decide!,
   (spacer_overrides_and_defaults doubling_units doubling_units_round_trip ⟨1000000, 1000000⟩
     horizontal_spacer ⟨3, 4⟩ true).2.1.2,
   by decide,
   (spacer_overrides_and_defaults doubling_units doubling_units_round_trip ⟨1000000, 1000000⟩
     horizontal_spacer ⟨3, 4⟩ true).2.2.2.1 (by decide),
   (spacer_overrides_and_defaults doubling_units doubling_units_round_trip ⟨1000000, 1000000⟩
     horizontal_spacer ⟨3, 4⟩ true).2.2.2.2.1 (by decide),
   (spacer_overrides_and_defaults doubling_units doubling_units_round_trip ⟨1000000, 1000000⟩
     horizontal_spacer ⟨3, 4⟩ true).2.2.2.2.2.1 (by decide)⟩

/-- C22.  Spacer: each of `set_weight`, `set_size_policy`, `set_minimum_size` and
`set_maximum_size` requests a layout of the root of the owning hierarchy exactly when the
new value differs from the stored one, the spacer has a parent layout that has an owner, and
the flag `aUpdateLayout` is true; a call with the stored value returns the spacer unchanged
and requests nothing; a spacer without a parent never requests a layout.  The two size
setters compare and store the size in device units. -/
theorem spacer_setters_request_layout (u : units_converter) (s : spacer)
    (aWeight : Option size) (aSizePolicy : Option size_policy)
    (aMinimumSize aMaximumSize : Option size) (aUpdateLayout : Bool) :
    (((s.set_weight aWeight aUpdateLayout).layout_requested = true ↔
        s.iWeight ≠ aWeight ∧ s.parent_has_owner = true ∧ aUpdateLayout = true) ∧
      (s.iWeight = aWeight → s.set_weight aWeight aUpdateLayout = ⟨s, false⟩)) ∧
    (((s.set_size_policy aSizePolicy aUpdateLayout).layout_requested = true ↔
        s.iSizePolicy ≠ aSizePolicy ∧ s.parent_has_owner = true ∧ aUpdateLayout = true) ∧
      (s.iSizePolicy = aSizePolicy →
        s.set_size_policy aSizePolicy aUpdateLayout = ⟨s, false⟩)) ∧
    (((s.set_minimum_size u aMinimumSize aUpdateLayout).layout_requested = true ↔
        s.iMinimumSize ≠ aMinimumSize.map u.to_device_units ∧ s.parent_has_owner = true ∧
          aUpdateLayout = true) ∧
      (s.iMinimumSize = aMinimumSize.map u.to_device_units →
        s.set_minimum_size u aMinimumSize aUpdateLayout = ⟨s, false⟩)) ∧
    (((s.set_maximum_size u aMaximumSize aUpdateLayout).layout_requested = true ↔
        s.iMaximumSize ≠ aMaximumSize.map u.to_device_units ∧ s.parent_has_owner = true ∧
          aUpdateLayout = true) ∧
      (s.iMaximumSize = aMaximumSize.map u.to_device_units →
        s.set_maximum_size u aMaximumSize aUpdateLayout = ⟨s, false⟩)) ∧
    (s.has_parent = false →
      (s.set_weight aWeight aUpdateLayout).layout_requested = false ∧
      (s.set_size_policy aSizePolicy aUpdateLayout).layout_requested = false ∧
      (s.set_minimum_size u aMinimumSize aUpdateLayout).layout_requested = false ∧
      (s.set_maximum_size u aMaximumSize aUpdateLayout).layout_requested = false) := by
  refine ⟨⟨?_, ?_⟩, ⟨?_, ?_⟩, ⟨?_, ?_⟩, ⟨?_, ?_⟩, ?_⟩
  · unfold spacer.set_weight
    rw [spacer_update_requested_if]
    simp
  · intro h
    unfold spacer.set_weight
    rw [if_neg (not_not.mpr h)]
  · unfold spacer.set_size_policy
    rw [spacer_update_requested_if]
    simp
  · intro h
    unfold spacer.set_size_policy
    rw [if_neg (not_not.mpr h)]
  · unfold spacer.set_minimum_size
    rw [spacer_update_requested_if]
    simp
  · intro h
    unfold spacer.set_minimum_size
    rw [if_neg (not_not.mpr h)]
  · unfold spacer.set_maximum_size
    rw [spacer_update_requested_if]
    simp
  · intro h
    unfold spacer.set_maximum_size
    rw [if_neg (not_not.mpr h)]
  · intro h
    have hp := parent_has_owner_of_no_parent s h
    unfold spacer.set_weight spacer.set_size_policy spacer.set_minimum_size
      spacer.set_maximum_size
    simp only [spacer_update_requested_if, hp, Bool.false_and, Bool.and_false, and_self]

/-- Witness of C22: a spacer inside an owned layout.  Setting the weight (2, 2) with the
flag requests a layout; setting it without the flag, or setting the value already stored,
does not; a spacer without a parent requests nothing. -/
theorem spacer_setters_request_layout_witness :
    (owned_spacer.set_weight (some ⟨2, 2⟩) true).layout_requested = true ∧
    (owned_spacer.set_weight (some ⟨2, 2⟩) false).layout_requested = false ∧
    owned_spacer.set_weight none true = ⟨owned_spacer, false⟩ ∧
    (horizontal_spacer.set_weight (some ⟨2, 2⟩) true).layout_requested = false :=
  ⟨(spacer_setters_request_layout device_units owned_spacer (some ⟨2, 2⟩) none none none
      true).1.1.mpr ⟨by decide, by decide, rfl⟩,
   by decide!,
   (spacer_setters_request_layout device_units owned_spacer none none none none true).1.2 rfl,
   ((spacer_setters_request_layout device_units horizontal_spacer (some ⟨2, 2⟩) none
      none none true).2.2.2.2 (by decide)).1⟩

/-! ## Native window: the event queue -/

theorem erase_events_of_type_eq_filter (t : window_event_type) :
    ∀ q : List native_event,
      erase_events_of_type t q = q.filter (fun x => !is_window_event_of_type t x) := by
  intro q
  induction q with
  | nil => rfl
  | cons e rest ih =>
    unfold erase_events_of_type
    by_cases h : is_window_event_of_type t e = true
    · rw [if_pos h, ih, List.filter_cons_of_neg (by simp [h])]
    · rw [if_neg h, ih, List.filter_cons_of_pos (by simpa using h)]

theorem is_resize_notice_window (a : window_event) :
    is_resize_notice (native_event.window a) = true ↔
      (a.type = window_event_type.Resized ∨ a.type = window_event_type.SizeChanged) := by
  simp [is_resize_notice, is_window_event_of_type]

theorem same_window_type_window (a : window_event) (x : native_event) :
    same_window_type (native_event.window a) x = is_window_event_of_type a.type x := by
  cases x <;> rfl

/-- What `push_event` does to the queue; the other fields are left alone. -/
theorem push_event_eq (w : native_window) (e : native_event) :
    push_event w e =
      { w with iEventQueue :=
          (if is_resize_notice e = true then
            w.iEventQueue.filter (fun x => !same_window_type e x)
           else w.iEventQueue) ++ [e] } := by
  cases e with
  | window a =>
    unfold push_event
    by_cases h : a.type = window_event_type.Resized ∨ a.type = window_event_type.SizeChanged
    · simp only [if_pos h, if_pos ((is_resize_notice_window a).mpr h),
        erase_events_of_type_eq_filter, same_window_type_window]
    · have h2 : ¬ is_resize_notice (native_event.window a) = true :=
        fun hn => h ((is_resize_notice_window a).mp hn)
      simp only [if_neg h, if_neg h2]
  | mouse a => rfl
  | non_client_mouse a => rfl
  | keyboard a => rfl

theorem count_filter_of_kept {α : Type} [DecidableEq α] (f : α → Bool) (x : α)
    (h : f x = true) : ∀ q : List α, (q.filter f).count x = q.count x := by
  intro q
  induction q with
  | nil => rfl
  | cons a rest ih =>
    by_cases ha : f a = true
    · rw [List.filter_cons_of_pos ha, List.count_cons, List.count_cons, ih]
    · rw [List.filter_cons_of_neg ha, List.count_cons, ih]
      have hne : ¬ (a == x) = true := by
        intro he
        have : a = x := by simpa using he
        rw [this] at ha
        exact ha h
      simp [hne]

/-- C24.  Native event queue: `push_event(e)` appends `e`; when `e` is a window event
`Resized` or `SizeChanged` it first removes every queued window event of the type of `e`,
and otherwise it removes nothing.  The events in front of `e` are a sublist of the old
queue (they keep their relative order), and an event that is not a window event of the type
of `e`, such as a `SizeChanged` when `Resized` is pushed or any mouse or keyboard event,
is queued as often as before. -/
theorem push_event_coalesces (w : native_window) (e : native_event) :
    (is_resize_notice e = false → (push_event w e).iEventQueue = w.iEventQueue ++ [e]) ∧
    (is_resize_notice e = true →
      (push_event w e).iEventQueue
        = w.iEventQueue.filter (fun x => !same_window_type e x) ++ [e]) ∧
    (push_event w e).iEventQueue.getLast? = some e ∧
    List.Sublist (push_event w e).iEventQueue.dropLast w.iEventQueue ∧
    (∀ x, same_window_type e x = false →
      (push_event w e).iEventQueue.dropLast.count x = w.iEventQueue.count x) ∧
    (push_event w e).iNonClientEntered = w.iNonClientEntered ∧
    (push_event w e).notified = w.notified := by
  rw [push_event_eq]
  refine ⟨?_, ?_, ?_, ?_, ?_, rfl, rfl⟩
  · intro h
    simp [h]
  · intro h
    simp [h]
  · simp
  · simp only [List.dropLast_concat]
    split_ifs
    · exact List.filter_sublist _
    · exact List.Sublist.refl _
  · intro x hx
    simp only [List.dropLast_concat]
    split_ifs
    · exact count_filter_of_kept _ x (by simp [hx]) _
    · rfl

/-- Witness of C24: onto the queue `Resized, SizeChanged, Moved, Resized` a `Resized` is
pushed.  The two queued `Resized` go, the `SizeChanged` and the mouse event stay in their
order, and the new event is last. -/
theorem push_event_coalesces_witness :
    is_resize_notice (window_event_of window_event_type.Resized 9) = true ∧
    (push_event
      ⟨[window_event_of window_event_type.Resized 1,
        window_event_of window_event_type.SizeChanged 2, mouse_moved 3,
        window_event_of window_event_type.Resized 4], false, none, 0, []⟩
      (window_event_of window_event_type.Resized 9)).iEventQueue
      = [window_event_of window_event_type.SizeChanged 2, mouse_moved 3,
         window_event_of window_event_type.Resized 9] :=
  ⟨by decide,
   ((push_event_coalesces
      ⟨[window_event_of window_event_type.Resized 1,
        window_event_of window_event_type.SizeChanged 2, mouse_moved 3,
        window_event_of window_event_type.Resized 4], false, none, 0, []⟩
      (window_event_of window_event_type.Resized 9)).2.1 (by decide)).trans (by decide)⟩

/-! ## Native window: the loop of the `Resizing` case -/

/-- The loop of lines 175-190 never leaves an event that is not a window event: the
iterator is neither advanced nor is the event erased. -/
theorem erase_resize_events_stuck (e : native_event) (he : e.is_window_event = false) :
    ∀ (fuel : Nat) (kept rest : List native_event),
      erase_resize_events fuel kept (e :: rest) = none := by
  intro fuel
  induction fuel with
  | zero => intro kept rest; rfl
  | succ n ih =>
    intro kept rest
    cases e with
    | window a => simp [native_event.is_window_event] at he
    | mouse a => unfold erase_resize_events; exact ih kept rest
    | non_client_mouse a => unfold erase_resize_events; exact ih kept rest
    | keyboard a => unfold erase_resize_events; exact ih kept rest

theorem erase_resize_events_window (fuel : Nat) (kept rest : List native_event)
    (a : window_event) :
    erase_resize_events (fuel + 1) kept (native_event.window a :: rest) =
      erase_resize_events fuel
        (kept ++ [native_event.window a].filter (fun x => !is_resize_notice x)) rest := by
  rw [erase_resize_events]
  by_cases h : a.type = window_event_type.Resized ∨ a.type = window_event_type.SizeChanged
  · have h2 := (is_resize_notice_window a).mpr h
    simp [h, h2]
  · have h2 : is_resize_notice (native_event.window a) = false := by
      cases hn : is_resize_notice (native_event.window a) with
      | false => rfl
      | true => exact absurd ((is_resize_notice_window a).mp hn) h
    simp [h, h2]

/-- With a queue of window events only, the loop ends after one evaluation of its condition
for each event and one more, and has erased the `Resized` and `SizeChanged` events. -/
theorem erase_resize_events_of_window_events :
    ∀ (rest kept : List native_event) (fuel : Nat),
      (∀ x ∈ rest, x.is_window_event = true) → rest.length < fuel →
      erase_resize_events fuel kept rest
        = some (kept ++ rest.filter (fun x => !is_resize_notice x)) := by
  intro rest
  induction rest with
  | nil =>
    intro kept fuel _ hf
    cases fuel with
    | zero => simp at hf
    | succ n => simp [erase_resize_events]
  | cons e rest ih =>
    intro kept fuel hall hf
    cases fuel with
    | zero => simp at hf
    | succ n =>
      have he := hall e (List.mem_cons_self _ _)
      cases e with
      | window a =>
        rw [erase_resize_events_window, ih _ n
          (fun x hx => hall x (List.mem_cons_of_mem _ hx))
          (by simpa using hf)]
        by_cases hn : is_resize_notice (native_event.window a) = true
        · simp [hn]
        · simp [hn]
      | mouse a => simp [native_event.is_window_event] at he
      | non_client_mouse a => simp [native_event.is_window_event] at he
      | keyboard a => simp [native_event.is_window_event] at he

/-- With an event in the queue that is not a window event, the loop does not end, however
many evaluations of its condition it is allowed. -/
theorem erase_resize_events_of_other_event :
    ∀ (rest kept : List native_event) (fuel : Nat),
      (∃ x ∈ rest, x.is_window_event = false) →
      erase_resize_events fuel kept rest = none := by
  intro rest
  induction rest with
  | nil => intro kept fuel h; obtain ⟨x, hx, _⟩ := h; simp at hx
  | cons e rest ih =>
    intro kept fuel h
    by_cases he : e.is_window_event = false
    · exact erase_resize_events_stuck e he fuel kept rest
    · cases fuel with
      | zero => rfl
      | succ n =>
        obtain ⟨x, hx, hxw⟩ := h
        have hxr : x ∈ rest := by
          rcases List.mem_cons.mp hx with h1 | h1
          · rw [h1] at hxw; exact absurd hxw he
          · exact h1
        cases e with
        | window a =>
          rw [erase_resize_events_window]
          exact ih _ n ⟨x, hxr, hxw⟩
        | mouse a => simp [native_event.is_window_event] at he
        | non_client_mouse a => simp [native_event.is_window_event] at he
        | keyboard a => simp [native_event.is_window_event] at he

/-- Whenever the loop ends, the queue it leaves is the old one without its `Resized` and
`SizeChanged` events. -/
theorem erase_resize_events_some (fuel : Nat) (kept rest q : List native_event)
    (h : erase_resize_events fuel kept rest = some q) :
    q = kept ++ rest.filter (fun x => !is_resize_notice x) ∧
    (∀ x ∈ rest, x.is_window_event = true) ∧ rest.length < fuel := by
  have hall : ∀ x ∈ rest, x.is_window_event = true := by
    intro x hx
    cases hw : x.is_window_event with
    | true => rfl
    | false =>
      rw [erase_resize_events_of_other_event rest kept fuel ⟨x, hx, hw⟩] at h
      simp at h
  have hlen : rest.length < fuel := by
    by_contra hge
    have hle : fuel ≤ rest.length := Nat.le_of_not_lt hge
    clear hge
    revert h
    induction rest generalizing fuel kept with
    | nil =>
      have : fuel = 0 := by simpa using hle
      subst this
      simp [erase_resize_events]
    | cons e rest ih =>
      cases fuel with
      | zero => simp [erase_resize_events]
      | succ n =>
        cases e with
        | window a =>
          rw [erase_resize_events_window]
          exact ih n _ (fun x hx => hall x (List.mem_cons_of_mem _ hx))
            (by simpa using hle)
        | mouse a =>
          have := hall _ (List.mem_cons_self _ _)
          simp [native_event.is_window_event] at this
        | non_client_mouse a =>
          have := hall _ (List.mem_cons_self _ _)
          simp [native_event.is_window_event] at this
        | keyboard a =>
          have := hall _ (List.mem_cons_self _ _)
          simp [native_event.is_window_event] at this
  refine ⟨?_, hall, hlen⟩
  rw [erase_resize_events_of_window_events rest kept fuel hall hlen] at h
  exact (Option.some.inj h).symm

/-! ## Native window: dispatch -/

theorem enter_leave (w : native_window) : w.enter.leave = w := by
  cases w
  simp [native_window.enter, native_window.leave]

/-- An event that the filter rejects leaves everything as it was: the counter is back at
its value and the current event is cleared. -/
theorem handle_event_rejected (hooks : dispatch_hooks) (fuel : Nat) (w : native_window)
    (e : native_event) (h : hooks.filter_event e = false) :
    handle_event hooks fuel w e = some { w with iCurrentEvent := none } := by
  unfold handle_event dispatch_current_event
  rw [if_pos h]
  cases w
  simp [native_window.enter, native_window.leave]

/-- The dispatch of an accepted `Resizing` event: the surface window is notified, then the
loop of lines 175-190 runs on the queue. -/
theorem handle_event_resizing (hooks : dispatch_hooks) (fuel : Nat) (w : native_window)
    (a : window_event) (hf : hooks.filter_event (native_event.window a) = true)
    (ht : hooks.window_event_trigger a = true) (ha : a.type = window_event_type.Resizing) :
    handle_event hooks fuel w (native_event.window a) =
      (erase_resize_events fuel [] w.iEventQueue).map (fun q =>
        { w with iEventQueue := q, iCurrentEvent := none,
                 notified := w.notified ++ [notification.native_window_resized] }) := by
  unfold handle_event dispatch_current_event
  rw [if_neg (by simp [hf])]
  simp only [ht]
  rw [if_neg (by simp)]
  unfold dispatch_window_event
  rw [ha]
  cases w
  simp only [native_window.enter, native_window.leave, native_window.notify, Option.map_map]
  congr 1

theorem dispatch_window_event_sublist (fuel : Nat) (w w1 : native_window) (a : window_event)
    (h : dispatch_window_event fuel w a = some w1) :
    List.Sublist w1.iEventQueue w.iEventQueue ∧ w1.iProcessingEvent = w.iProcessingEvent := by
  unfold dispatch_window_event at h
  split at h
  case h_3 =>
    cases hq : erase_resize_events fuel [] w.iEventQueue with
    | none => rw [hq] at h; simp at h
    | some q =>
      rw [hq] at h
      have h2 := Option.some.inj h
      subst h2
      have hsome := (erase_resize_events_some fuel [] w.iEventQueue q hq).1
      refine ⟨?_, rfl⟩
      show List.Sublist q w.iEventQueue
      rw [hsome, List.nil_append]
      exact List.filter_sublist _
  all_goals
    have h2 := Option.some.inj h
    subst h2
    exact ⟨List.Sublist.refl _, rfl⟩

theorem dispatch_mouse_event_queue (w : native_window) (a : mouse_event) :
    (dispatch_mouse_event w a).iEventQueue = w.iEventQueue ∧
    (dispatch_mouse_event w a).iProcessingEvent = w.iProcessingEvent := by
  unfold dispatch_mouse_event
  split <;> exact ⟨rfl, rfl⟩

theorem dispatch_non_client_mouse_event_queue (w : native_window) (a : mouse_event) :
    (dispatch_non_client_mouse_event w a).iEventQueue = w.iEventQueue ∧
    (dispatch_non_client_mouse_event w a).iProcessingEvent = w.iProcessingEvent := by
  unfold dispatch_non_client_mouse_event
  split <;> exact ⟨rfl, rfl⟩

theorem dispatch_keyboard_event_queue (hooks : dispatch_hooks) (w : native_window)
    (a : keyboard_event) :
    (dispatch_keyboard_event hooks w a).iEventQueue = w.iEventQueue ∧
    (dispatch_keyboard_event hooks w a).iProcessingEvent = w.iProcessingEvent := by
  unfold dispatch_keyboard_event
  split <;> first | exact ⟨rfl, rfl⟩ | (split <;> exact ⟨rfl, rfl⟩)

theorem dispatch_current_event_sublist (hooks : dispatch_hooks) (fuel : Nat)
    (w w1 : native_window) (e : native_event)
    (h : dispatch_current_event hooks fuel w e = some w1) :
    List.Sublist w1.iEventQueue w.iEventQueue ∧ w1.iProcessingEvent = w.iProcessingEvent := by
  unfold dispatch_current_event at h
  split_ifs at h with h1
  · have h2 := Option.some.inj h
    subst h2
    exact ⟨List.Sublist.refl _, rfl⟩
  · cases e with
    | window a =>
      simp only at h
      split_ifs at h with h3
      · have h2 := Option.some.inj h
        subst h2
        exact ⟨List.Sublist.refl _, rfl⟩
      · exact dispatch_window_event_sublist fuel w w1 a h
    | mouse a =>
      have h2 := Option.some.inj h
      subst h2
      rw [(dispatch_mouse_event_queue w a).1, (dispatch_mouse_event_queue w a).2]
      exact ⟨List.Sublist.refl _, rfl⟩
    | non_client_mouse a =>
      have h2 := Option.some.inj h
      subst h2
      rw [(dispatch_non_client_mouse_event_queue w a).1,
        (dispatch_non_client_mouse_event_queue w a).2]
      exact ⟨List.Sublist.refl _, rfl⟩
    | keyboard a =>
      have h2 := Option.some.inj h
      subst h2
      rw [(dispatch_keyboard_event_queue hooks w a).1,
        (dispatch_keyboard_event_queue hooks w a).2]
      exact ⟨List.Sublist.refl _, rfl⟩

/-- Whenever `handle_event` returns, the queue it leaves is a sublist of the queue it
found, and the counter of events being processed is back at its value. -/
theorem handle_event_sublist (hooks : dispatch_hooks) (fuel : Nat) (w w1 : native_window)
    (e : native_event) (h : handle_event hooks fuel w e = some w1) :
    List.Sublist w1.iEventQueue w.iEventQueue ∧ w1.iProcessingEvent = w.iProcessingEvent ∧
    w1.iCurrentEvent = none := by
  unfold handle_event at h
  cases hd : dispatch_current_event hooks fuel
      ({ w.enter with iCurrentEvent := some e }).enter e with
  | none => rw [hd] at h; simp at h
  | some w2 =>
    rw [hd] at h
    have h2 := Option.some.inj h
    subst h2
    obtain ⟨hs, hp⟩ := dispatch_current_event_sublist hooks fuel _ w2 e hd
    refine ⟨hs, ?_, rfl⟩
    simp only [native_window.leave, hp, native_window.enter]
    omega

/-- Operation `pump_event` on an empty queue returns false and changes nothing. -/
theorem pump_event_empty (hooks : dispatch_hooks) (fuel : Nat) (w : native_window)
    (h : w.iEventQueue = []) : pump_event hooks fuel w = some (w, false) := by
  unfold pump_event
  rw [h]
  simp only [enter_leave]

/-- Whenever `pump_event` returns on a queue that is not empty, it returns true and leaves
a sublist of the tail of the queue. -/
theorem pump_event_cons (hooks : dispatch_hooks) (fuel : Nat) (w : native_window)
    (e : native_event) (rest : List native_event) (r : native_window × Bool)
    (hq : w.iEventQueue = e :: rest) (h : pump_event hooks fuel w = some r) :
    r.2 = true ∧ List.Sublist r.1.iEventQueue rest ∧
    handle_event hooks fuel { w.enter with iEventQueue := rest } e
      = some { r.1 with iProcessingEvent := w.iProcessingEvent + 1 } := by
  unfold pump_event at h
  rw [hq] at h
  simp only at h
  cases hd : handle_event hooks fuel { w.enter with iEventQueue := rest } e with
  | none => rw [hd] at h; simp at h
  | some w2 =>
    rw [hd] at h
    have h2 := Option.some.inj h
    subst h2
    obtain ⟨hs, hp, _⟩ := handle_event_sublist hooks fuel _ w2 e hd
    refine ⟨rfl, hs, ?_⟩
    congr 1
    cases w2
    simp only [native_window.leave, native_window.enter] at hp ⊢
    simp [hp]

theorem pump_event_sublist (hooks : dispatch_hooks) (fuel : Nat) (w : native_window)
    (r : native_window × Bool) (h : pump_event hooks fuel w = some r) :
    List.Sublist r.1.iEventQueue w.iEventQueue := by
  cases hq : w.iEventQueue with
  | nil =>
    rw [pump_event_empty hooks fuel w hq] at h
    have h2 := Option.some.inj h
    subst h2
    rw [hq]
  | cons e rest =>
    exact (pump_event_cons hooks fuel w e rest r hq h).2.1.trans (List.sublist_cons_self _ _)

/-! ## Native window: at most one `Resized` and one `SizeChanged` -/

theorem queued_of_type_push (t : window_event_type) (w : native_window) (e : native_event)
    (ht : t = window_event_type.Resized ∨ t = window_event_type.SizeChanged)
    (h : queued_of_type t w ≤ 1) : queued_of_type t (push_event w e) ≤ 1 := by
  rw [push_event_eq]
  unfold queued_of_type at h ⊢
  simp only [List.countP_append]
  by_cases he : is_window_event_of_type t e = true
  · -- the event pushed has type `t`: every queued event of type `t` is erased
    cases e with
    | window a =>
      have hta : a.type = t := by simpa [is_window_event_of_type] using he
      have hn : is_resize_notice (native_event.window a) = true :=
        (is_resize_notice_window a).mpr (by rw [hta]; exact ht)
      rw [if_pos hn]
      have h0 : List.countP (is_window_event_of_type t)
          (List.filter (fun x => !same_window_type (native_event.window a) x) w.iEventQueue)
            = 0 := by
        rw [List.countP_eq_zero]
        intro x hx
        have := (List.mem_filter.mp hx).2
        rw [same_window_type_window, hta] at this
        simpa using this
      rw [h0]
      simp [List.countP_cons, he]
    | mouse a => simp [is_window_event_of_type] at he
    | non_client_mouse a => simp [is_window_event_of_type] at he
    | keyboard a => simp [is_window_event_of_type] at he
  · have h1 : List.countP (is_window_event_of_type t) [e] = 0 := by
      simp [List.countP_cons, he]
    rw [h1, Nat.add_zero]
    split_ifs
    · exact le_trans ((List.filter_sublist _).countP_le _) h
    · exact h

theorem run_calls_keeps_bound (hooks : dispatch_hooks) (fuel : Nat) (t : window_event_type)
    (ht : t = window_event_type.Resized ∨ t = window_event_type.SizeChanged) :
    ∀ (calls : List window_call) (w0 w1 : native_window),
      queued_of_type t w0 ≤ 1 → run_calls hooks fuel calls w0 = some w1 →
      queued_of_type t w1 ≤ 1 := by
  intro calls
  induction calls with
  | nil =>
    intro w0 w1 h0 hrun
    have := Option.some.inj hrun
    subst this
    exact h0
  | cons c rest ih =>
    intro w0 w1 h0 hrun
    cases c with
    | push_event e =>
      exact ih _ w1 (queued_of_type_push t w0 e ht h0) hrun
    | pump_event =>
      unfold run_calls at hrun
      cases hp : pump_event hooks fuel w0 with
      | none => rw [hp] at hrun; simp at hrun
      | some r =>
        rw [hp] at hrun
        exact ih _ w1 (le_trans ((pump_event_sublist hooks fuel w0 r hp).countP_le _) h0) hrun
    | handle_event e =>
      unfold run_calls at hrun
      cases hp : handle_event hooks fuel w0 e with
      | none => rw [hp] at hrun; simp at hrun
      | some w2 =>
        rw [hp] at hrun
        exact ih _ w1
          (le_trans ((handle_event_sublist hooks fuel w0 w2 e hp).1.countP_le _) h0) hrun

/-- C23.  Native event queue: a state reached from a window with an empty queue by a
sequence of calls of `push_event`, `pump_event` and `handle_event` holds at most one
`Resized` window event and at most one `SizeChanged` window event, whatever the hooks
answer. -/
theorem queue_holds_at_most_one_resize_notice (hooks : dispatch_hooks) (fuel : Nat)
    (calls : List window_call) (w0 w1 : native_window) (h0 : w0.iEventQueue = [])
    (hrun : run_calls hooks fuel calls w0 = some w1) :
    queued_of_type window_event_type.Resized w1 ≤ 1 ∧
    queued_of_type window_event_type.SizeChanged w1 ≤ 1 :=
  ⟨run_calls_keeps_bound hooks fuel _ (Or.inl rfl) calls w0 w1
      (by simp [queued_of_type, h0]) hrun,
   run_calls_keeps_bound hooks fuel _ (Or.inr rfl) calls w0 w1
      (by simp [queued_of_type, h0]) hrun⟩

/-- Witness of C23: `Resized`, `SizeChanged`, `Resized` and a mouse event are pushed, one
event is pumped (the `SizeChanged`, by then the head) and a `SizeChanged` is pushed.  The
queue reached is `Resized, Moved, SizeChanged`. -/
theorem queue_holds_at_most_one_resize_notice_witness :
    run_calls accepting_hooks 5
      [window_call.push_event (window_event_of window_event_type.Resized 1),
       window_call.push_event (window_event_of window_event_type.SizeChanged 2),
       window_call.push_event (window_event_of window_event_type.Resized 3),
       window_call.push_event (mouse_moved 7),
       window_call.pump_event,
       window_call.push_event (window_event_of window_event_type.SizeChanged 4)] idle_window
      = some ⟨[window_event_of window_event_type.Resized 3, mouse_moved 7,
          window_event_of window_event_type.SizeChanged 4], false, none, 0,
          [notification.native_window_resized]⟩ ∧
    queued_of_type window_event_type.Resized
      ⟨[window_event_of window_event_type.Resized 3, mouse_moved 7,
          window_event_of window_event_type.SizeChanged 4], false, none, 0,
          [notification.native_window_resized]⟩ ≤ 1 ∧
    queued_of_type window_event_type.SizeChanged
      ⟨[window_event_of window_event_type.Resized 3, mouse_moved 7,
          window_event_of window_event_type.SizeChanged 4], false, none, 0,
          [notification.native_window_resized]⟩ ≤ 1 :=
  ⟨by decide,
   queue_holds_at_most_one_resize_notice accepting_hooks 5
     [window_call.push_event (window_event_of window_event_type.Resized 1),
      window_call.push_event (window_event_of window_event_type.SizeChanged 2),
      window_call.push_event (window_event_of window_event_type.Resized 3),
      window_call.push_event (mouse_moved 7),
      window_call.pump_event,
      window_call.push_event (window_event_of window_event_type.SizeChanged 4)] idle_window
     ⟨[window_event_of window_event_type.Resized 3, mouse_moved 7,
        window_event_of window_event_type.SizeChanged 4], false, none, 0,
        [notification.native_window_resized]⟩ rfl (by decide)⟩

/-! ## Native window: a rejected event -/

/-- C27.  Native event dispatch: when the filter hook rejects the event, `handle_event`
returns having made no call on the surface window, the keyboard or the native window
itself (nothing is notified), with the flag `iNonClientEntered` and the event queue as they
were; only the current event is cleared. -/
theorem rejected_event_is_ignored (hooks : dispatch_hooks) (fuel : Nat) (w : native_window)
    (e : native_event) (h : hooks.filter_event e = false) :
    ∃ w1, handle_event hooks fuel w e = some w1 ∧
      w1.notified = w.notified ∧
      w1.iNonClientEntered = w.iNonClientEntered ∧
      w1.iEventQueue = w.iEventQueue ∧
      w1.iProcessingEvent = w.iProcessingEvent ∧
      w1.iCurrentEvent = none :=
  ⟨{ w with iCurrentEvent := none }, handle_event_rejected hooks fuel w e h,
    rfl, rfl, rfl, rfl, rfl⟩

/-- Witness of C27: a `NonClientEnter` event that the filter rejects, handled with a
`Resized` event queued.  The flag stays false, the queue keeps its event and nothing is
notified. -/
theorem rejected_event_is_ignored_witness :
    rejecting_hooks.filter_event (window_event_of window_event_type.NonClientEnter 0) = false ∧
    ∃ w1, handle_event rejecting_hooks 0
        ⟨[window_event_of window_event_type.Resized 1], false, none, 0, []⟩
        (window_event_of window_event_type.NonClientEnter 0) = some w1 ∧
      w1.notified = [] ∧
      w1.iNonClientEntered = false ∧
      w1.iEventQueue = [window_event_of window_event_type.Resized 1] ∧
      w1.iProcessingEvent = 0 ∧
      w1.iCurrentEvent = none :=
  ⟨rfl, rejected_event_is_ignored rejecting_hooks 0
    ⟨[window_event_of window_event_type.Resized 1], false, none, 0, []⟩
    (window_event_of window_event_type.NonClientEnter 0) rfl⟩

/-! ## Native window: the `Resizing` case does not return with other events queued -/

/-- C25.  Native event dispatch: `pump_event` on an empty queue returns false and changes
nothing, and whenever it returns on a queue that is not empty it returns true, having
taken the head off the queue and handled it.  It does not always return: with a `Resizing`
event at the head and a mouse event behind it, and hooks that accept the event, the loop
of lines 175-190 never ends, however many evaluations of its condition it is allowed. -/
theorem pump_event_hangs_on_resizing_head :
    (∀ (hooks : dispatch_hooks) (fuel : Nat) (w : native_window),
      w.iEventQueue = [] → pump_event hooks fuel w = some (w, false)) ∧
    (∀ (hooks : dispatch_hooks) (fuel : Nat) (w : native_window) (r : native_window × Bool),
      pump_event hooks fuel w = some r → (r.2 = false ↔ w.iEventQueue = [])) ∧
    events_queued
      ⟨[window_event_of window_event_type.Resizing 0, mouse_moved 1], false, none, 0, []⟩
      = true ∧
    (∀ fuel : Nat, pump_event accepting_hooks fuel
      ⟨[window_event_of window_event_type.Resizing 0, mouse_moved 1], false, none, 0, []⟩
      = none) := by
  refine ⟨pump_event_empty, ?_, by decide, ?_⟩
  · intro hooks fuel w r h
    cases hq : w.iEventQueue with
    | nil =>
      rw [pump_event_empty hooks fuel w hq] at h
      have h2 := Option.some.inj h
      subst h2
      simp
    | cons e rest =>
      have := (pump_event_cons hooks fuel w e rest r hq h).1
      simp [this]
  · intro fuel
    unfold pump_event
    simp only [window_event_of]
    rw [handle_event_resizing accepting_hooks fuel _ _ rfl rfl rfl]
    rw [erase_resize_events_of_other_event _ _ _ ⟨mouse_moved 1, by simp [native_window.enter],
      by decide⟩]
    rfl

/-- C26.  Native event dispatch: the scenario of the claim works, since after `Resizing`
and `Resized` have been pushed one `pump_event` handles `Resizing` and leaves an empty
queue; and handling an accepted `Resizing` event returns exactly when every queued event
is a window event, in which case the `Resized` and `SizeChanged` events are gone and the
others are left in their order.  With a mouse event queued in front of a `Resized` event
the call does not return, however many evaluations of the condition of the loop of lines
175-190 it is allowed, and the `Resized` event is never removed. -/
theorem resizing_dispatch_hangs_on_other_events :
    (∀ fuel : Nat, pump_event accepting_hooks (fuel + 2)
      (push_event (push_event idle_window (window_event_of window_event_type.Resizing 0))
        (window_event_of window_event_type.Resized 1))
      = some (⟨[], false, none, 0, [notification.native_window_resized]⟩, true)) ∧
    (∀ (hooks : dispatch_hooks) (fuel : Nat) (w : native_window) (a : window_event),
      hooks.filter_event (native_event.window a) = true →
      hooks.window_event_trigger a = true → a.type = window_event_type.Resizing →
      ((handle_event hooks fuel w (native_event.window a)).isSome = true ↔
        (∀ x ∈ w.iEventQueue, x.is_window_event = true) ∧ w.iEventQueue.length < fuel) ∧
      (∀ w1, handle_event hooks fuel w (native_event.window a) = some w1 →
        w1.iEventQueue = w.iEventQueue.filter (fun x => !is_resize_notice x))) ∧
    (∀ fuel : Nat, handle_event accepting_hooks fuel
      ⟨[mouse_moved 1, window_event_of window_event_type.Resized 2], false, none, 0, []⟩
      (window_event_of window_event_type.Resizing 0) = none) := by
  refine ⟨?_, ?_, ?_⟩
  · intro fuel
    have hpush : push_event
        (push_event idle_window (window_event_of window_event_type.Resizing 0))
        (window_event_of window_event_type.Resized 1)
        = ⟨[native_event.window ⟨window_event_type.Resizing, 0⟩,
            native_event.window ⟨window_event_type.Resized, 1⟩], false, none, 0, []⟩ := by
      decide
    rw [hpush]
    unfold pump_event
    simp only []
    rw [handle_event_resizing accepting_hooks _ _ _ rfl rfl rfl]
    rw [erase_resize_events_of_window_events _ _ _ (by
      intro x hx
      simp only [native_window.enter, List.mem_singleton] at hx
      rw [hx]; rfl) (by simp [native_window.enter])]
    simp [native_window.enter, native_window.leave, is_resize_notice, is_window_event_of_type]
  · intro hooks fuel w a hf ht ha
    rw [handle_event_resizing hooks fuel w a hf ht ha]
    constructor
    · constructor
      · intro h
        cases hq : erase_resize_events fuel [] w.iEventQueue with
        | none => rw [hq] at h; simp at h
        | some q => exact (erase_resize_events_some fuel [] w.iEventQueue q hq).2
      · intro h
        rw [erase_resize_events_of_window_events _ _ _ h.1 h.2]
        rfl
    · intro w1 h
      cases hq : erase_resize_events fuel [] w.iEventQueue with
      | none => rw [hq] at h; simp at h
      | some q =>
        rw [hq] at h
        have h2 := Option.some.inj h
        subst h2
        simpa using (erase_resize_events_some fuel [] w.iEventQueue q hq).1
  · intro fuel
    simp only [window_event_of]
    rw [handle_event_resizing accepting_hooks fuel _ _ rfl rfl rfl]
    rw [erase_resize_events_of_other_event _ _ _ ⟨mouse_moved 1, by simp, by decide⟩]
    rfl

/-! ## The classification loop: what is left unresolved -/

theorem weighted_weight_eq_leftover_weight (p : AxisPolicy) :
    ∀ ds : List (item × disposition_e),
      (∀ x ∈ ds, uses_leftover x = true → is_weighted x = true) →
      weighted_weight p ds = leftover_weight p ds := by
  intro ds
  induction ds with
  | nil => intro _; rfl
  | cons x rest ih =>
    intro h
    unfold weighted_weight leftover_weight
    rw [ih (fun y hy => h y (List.mem_cons_of_mem _ hy))]
    by_cases hu : uses_leftover x = true
    · rw [if_pos hu, if_pos (h x (List.mem_cons_self _ _) hu)]
    · have hw : ¬ is_weighted x = true := fun hw => hu (uses_leftover_of_weighted x hw)
      rw [if_neg hu, if_neg hw]

/-- The exact classification, in which no operation rounds: when the `while` loop has
ended, every expanding candidate that is still unresolved (its entry passes the tests of
lines 135-139) is `Weighted`, the final total weight is not zero for it, and its share
`weight / total weight * leftover`, taken with the final variables, lies strictly between
its primary minimum and its primary maximum; the `Weighted` entries are exactly the
unresolved ones, the final count of items using leftover is their number and the final
total weight is the sum of their weights.  The last part does not survive the rounding of
`double` arithmetic (`rounded_total_weight_misses_weighted_sum`). -/
theorem unresolved_candidates_are_weighted (p : AxisPolicy) (l : layout) (aSize : size) :
    (∀ x ∈ (classification p l aSize).1, uses_leftover x = true →
      x.2 = disposition_e.Weighted ∧
      p.cx (classification p l aSize).2.totalExpanderWeight ≠ 0 ∧
      p.cx x.1.minimum_size
        < p.cx x.1.weight / p.cx (classification p l aSize).2.totalExpanderWeight
            * (classification p l aSize).2.leftover ∧
      p.cx x.1.weight / p.cx (classification p l aSize).2.totalExpanderWeight
            * (classification p l aSize).2.leftover
        < p.cx x.1.maximum_size) ∧
    (∀ x ∈ (classification p l aSize).1, is_weighted x = true ↔ uses_leftover x = true) ∧
    (classification p l aSize).2.itemsUsingLeftover
      = (classification p l aSize).1.countP is_weighted ∧
    p.cx (classification p l aSize).2.totalExpanderWeight
      = weighted_weight p (classification p l aSize).1 := by
  obtain ⟨hcount, hweight, hs⟩ := classification_settled p l aSize
  have hw := settled_weighted p _ _ hs
  refine ⟨?_, ?_, ?_, ?_⟩
  · intro x hx hu
    exact ⟨(hs x hx hu).1, (share_fits_iff p x.1 _).mp (hs x hx hu).2⟩
  · intro x hx
    exact ⟨uses_leftover_of_weighted x, hw x hx⟩
  · rw [countP_weighted_eq_users _ hw, hcount]
  · rw [weighted_weight_eq_leftover_weight p _ hw, hweight]

/-- An instance of `unresolved_candidates_are_weighted`: three Expanding widgets of weight
1 and maxima 10, 30 and 1000 in 90 units.  The first two are resolved at their maxima; the
third is left unresolved with total weight 1 and leftover 50, and its share 50 lies
between 0 and 1000. -/
theorem unresolved_candidates_are_weighted_witness :
    (square_widget size_policy_e.Expanding 1 0 1000, disposition_e.Weighted)
      ∈ (classification AxisPolicy.column_major staggered_maxima_layout ⟨90, 20⟩).1 ∧
    (classification AxisPolicy.column_major staggered_maxima_layout ⟨90, 20⟩).2.leftover = 50 ∧
    (classification AxisPolicy.column_major staggered_maxima_layout
      ⟨90, 20⟩).2.itemsUsingLeftover = 1 ∧
    AxisPolicy.column_major.cx (classification AxisPolicy.column_major staggered_maxima_layout
      ⟨90, 20⟩).2.totalExpanderWeight ≠ 0 ∧
    AxisPolicy.column_major.cx (square_widget size_policy_e.Expanding 1 0 1000).minimum_size
      < AxisPolicy.column_major.cx (square_widget size_policy_e.Expanding 1 0 1000).weight
          / AxisPolicy.column_major.cx (classification AxisPolicy.column_major
              staggered_maxima_layout ⟨90, 20⟩).2.totalExpanderWeight
          * (classification AxisPolicy.column_major staggered_maxima_layout ⟨90, 20⟩).2.leftover :=
  ⟨by decide!, by decide!, by decide!,
   ((unresolved_candidates_are_weighted AxisPolicy.column_major staggered_maxima_layout
      ⟨90, 20⟩).1 (square_widget size_policy_e.Expanding 1 0 1000, disposition_e.Weighted)
      (by decide!) (by decide!)).2.1,
   ((unresolved_candidates_are_weighted AxisPolicy.column_major staggered_maxima_layout
      ⟨90, 20⟩).1 (square_widget size_policy_e.Expanding 1 0 1000, disposition_e.Weighted)
      (by decide!) (by decide!)).2.2.1⟩

/-! ## The classification loop: number of passes -/

theorem classify_by_policy_candidates (p : AxisPolicy) :
    ∀ (items : List item) (st : solver_state),
      (classify_by_policy p items st).2.itemsUsingLeftover
        = st.itemsUsingLeftover + items.countP (is_expanding_candidate p) := by
  intro items
  induction items with
  | nil => intro st; rfl
  | cons it rest ih =>
    intro st
    unfold classify_by_policy
    by_cases hv : it.visible = false
    · rw [if_pos hv]
      simp only
      rw [ih, List.countP_cons_of_neg]
      simp [is_expanding_candidate, hv]
    · rw [if_neg hv]
      by_cases hm : p.size_policy_x it.size_policy = size_policy_e.Minimum
      · rw [if_pos hm]
        simp only
        rw [ih, List.countP_cons_of_neg]
        simp [is_expanding_candidate, hm]
      · rw [if_neg hm]
        by_cases hf : p.size_policy_x it.size_policy = size_policy_e.Fixed
        · rw [if_pos hf]
          simp only
          rw [ih, List.countP_cons_of_neg]
          simp [is_expanding_candidate, hf]
        · rw [if_neg hf]
          simp only
          rw [ih, List.countP_cons_of_pos]
          · simp only
            omega
          · have hv2 : it.visible = true := by simpa using hv
            simp [is_expanding_candidate, hv2, hm, hf]

theorem initial_classification_candidates (p : AxisPolicy) (l : layout) (aSize : size) :
    (initial_classification p l aSize).2.itemsUsingLeftover = expanding_candidates p l := by
  unfold initial_classification expanding_candidates
  rw [classify_by_policy_candidates]
  simp

theorem initial_classification_users (p : AxisPolicy) (l : layout) (aSize : size) :
    leftover_users (initial_classification p l aSize).1
      = (initial_classification p l aSize).2.itemsUsingLeftover := by
  obtain ⟨a, _, _⟩ := classify_by_policy_state p l.items
    { leftover := p.cx (availableSize p l aSize), itemsUsingLeftover := 0,
      totalExpanderWeight := ⟨0, 0⟩, done := false }
  simp only [zero_add] at a
  exact a.symm

theorem pass_counts_of_done (p : AxisPolicy) (fuel : Nat) (ds : List (item × disposition_e))
    (st : solver_state) (h : st.done = true) : pass_counts p fuel ds st = [] := by
  cases fuel with
  | zero => rfl
  | succ n =>
    unfold pass_counts
    rw [if_neg (by simp [h])]

/-- Every pass starts with fewer items using leftover than the pass before it, so the
loop makes no more passes than there are such items. -/
theorem pass_counts_decrease (p : AxisPolicy) :
    ∀ (fuel : Nat) (ds : List (item × disposition_e)) (st : solver_state),
      leftover_users ds = st.itemsUsingLeftover →
      (∀ c ∈ pass_counts p fuel ds st, c ≤ st.itemsUsingLeftover) ∧
      List.Pairwise (fun a b => b < a) (pass_counts p fuel ds st) ∧
      (pass_counts p fuel ds st).length ≤ st.itemsUsingLeftover := by
  intro fuel
  induction fuel with
  | zero => intro ds st _; simp [pass_counts]
  | succ n ih =>
    intro ds st hu
    unfold pass_counts
    by_cases hc : st.done = false ∧ 0 < st.itemsUsingLeftover
    · rw [if_pos hc]
      obtain ⟨h1, _, h3, _, h5⟩ := resolve_pass_inv p ds { st with done := true }
        (by rw [hu])
      simp only at h1 h3 h5
      have hu2 : leftover_users (resolve_pass p ds { st with done := true }).1
          = (resolve_pass p ds { st with done := true }).2.itemsUsingLeftover := by omega
      obtain ⟨i1, i2, i3⟩ := ih _ _ hu2
      cases hd : (resolve_pass p ds { st with done := true }).2.done with
      | true =>
        rw [pass_counts_of_done p n _ _ hd]
        simp
        omega
      | false =>
        have hlt := h5 hd trivial
        refine ⟨?_, ?_, ?_⟩
        · intro c hcm
          rcases List.mem_cons.mp hcm with rfl | hcm
          · exact le_refl _
          · exact le_trans (i1 c hcm) h3
        · rw [List.pairwise_cons]
          exact ⟨fun c hcm => lt_of_le_of_lt (i1 c hcm) hlt, i2⟩
        · simp only [List.length_cons]
          omega
    · rw [if_neg hc]
      simp

/-- More fuel than there are items using leftover changes nothing: the loop has ended. -/
theorem resolve_loop_fuel (p : AxisPolicy) :
    ∀ (fuel : Nat) (ds : List (item × disposition_e)) (st : solver_state),
      leftover_users ds = st.itemsUsingLeftover →
      (st.done = false → st.itemsUsingLeftover < fuel) →
      ∀ k, resolve_loop p (fuel + k) ds st = resolve_loop p fuel ds st := by
  intro fuel
  induction fuel with
  | zero =>
    intro ds st _ hd k
    have hdone : st.done = true := by
      cases h : st.done with
      | true => rfl
      | false => exact absurd (hd h) (Nat.not_lt_zero _)
    cases k with
    | zero => rfl
    | succ k =>
      rw [Nat.zero_add]
      unfold resolve_loop
      rw [if_neg (by simp [hdone])]
  | succ n ih =>
    intro ds st hu hd k
    rw [show n + 1 + k = (n + k) + 1 from by omega]
    unfold resolve_loop
    by_cases hc : st.done = false ∧ 0 < st.itemsUsingLeftover
    · rw [if_pos hc, if_pos hc]
      obtain ⟨h1, _, h3, _, h5⟩ := resolve_pass_inv p ds { st with done := true }
        (by rw [hu])
      simp only at h1 h3 h5
      have hu2 : leftover_users (resolve_pass p ds { st with done := true }).1
          = (resolve_pass p ds { st with done := true }).2.itemsUsingLeftover := by omega
      exact ih _ _ hu2 (by
        intro hdf
        have := h5 hdf trivial
        have := hd hc.1
        omega) k
    · rw [if_neg hc, if_neg hc]

/-- C29.  Box layout solver: the classification loop starts with as many items using
leftover as there are expanding candidates, `n`.  However many passes it is allowed, it
makes at most `n + 1` of them, and every pass starts with strictly fewer items using
leftover than the pass before it; allowed `n + 1` passes or more, it ends in the state
`classification` describes, in which the condition of the `while` loop is false. -/
theorem classification_loop_terminates (p : AxisPolicy) (l : layout) (aSize : size)
    (fuel : Nat) :
    (initial_classification p l aSize).2.itemsUsingLeftover = expanding_candidates p l ∧
    (pass_counts p fuel (initial_classification p l aSize).1
      (initial_classification p l aSize).2).length ≤ expanding_candidates p l + 1 ∧
    List.Pairwise (fun a b => b < a)
      (pass_counts p fuel (initial_classification p l aSize).1
        (initial_classification p l aSize).2) ∧
    (expanding_candidates p l + 1 ≤ fuel →
      resolve_loop p fuel (initial_classification p l aSize).1
        (initial_classification p l aSize).2 = classification p l aSize) ∧
    ¬ ((classification p l aSize).2.done = false ∧
        0 < (classification p l aSize).2.itemsUsingLeftover) := by
  have hn := initial_classification_candidates p l aSize
  have hu := initial_classification_users p l aSize
  obtain ⟨_, h2, h3⟩ := pass_counts_decrease p fuel _ _ hu
  refine ⟨hn, by omega, h2, ?_, classification_loop_ended p l aSize⟩
  intro hf
  obtain ⟨k, hk⟩ := Nat.exists_eq_add_of_le hf
  rw [hk, ← hn]
  exact resolve_loop_fuel p _ _ _ hu (by intro _; omega) k

/-- Witness of C29: three Expanding widgets of weight 1 and maxima 10, 30 and 1000 in 90
units are three expanding candidates.  The loop makes two passes, which start with 3 and
with 1 items using leftover, and ten passes allowed give the same state as four. -/
theorem classification_loop_terminates_witness :
    expanding_candidates AxisPolicy.column_major staggered_maxima_layout = 3 ∧
    pass_counts AxisPolicy.column_major 10
      (initial_classification AxisPolicy.column_major staggered_maxima_layout ⟨90, 20⟩).1
      (initial_classification AxisPolicy.column_major staggered_maxima_layout ⟨90, 20⟩).2
      = [3, 1] ∧
    resolve_loop AxisPolicy.column_major 10
      (initial_classification AxisPolicy.column_major staggered_maxima_layout ⟨90, 20⟩).1
      (initial_classification AxisPolicy.column_major staggered_maxima_layout ⟨90, 20⟩).2
      = classification AxisPolicy.column_major staggered_maxima_layout ⟨90, 20⟩ :=
  ⟨by decide, by decide!,
   (classification_loop_terminates AxisPolicy.column_major staggered_maxima_layout ⟨90, 20⟩
      10).2.2.2.1 (by decide)⟩

/-! ## Every visible item receives an extent within its bounds -/

theorem place_items_entry (bits : Nat → Nat → Nat → Nat) (p : AxisPolicy) (l : layout)
    (av : size) (st : solver_state) (nbits : Nat) :
    ∀ (ds : List (item × disposition_e)) (ps : place_state) (x : item × disposition_e)
      (o : Option (point × size)),
      (x, o) ∈ List.zip ds (place_items bits p l av st nbits ds ps) →
      x.1.visible = true →
      ∃ ps1, o = some (ps1.nextPos.add (alignment_offset p l av x.1),
                  item_size bits p av st nbits x.1 x.2 ps1) := by
  intro ds
  induction ds with
  | nil => intro ps x o h; simp [place_items] at h
  | cons y rest ih =>
    intro ps x o h hv
    obtain ⟨it0, d0⟩ := y
    unfold place_items at h
    split_ifs at h with h1
    · simp only [List.zip_cons_cons, List.mem_cons, Prod.mk.injEq] at h
      rcases h with ⟨rfl, _⟩ | h
      · simp_all
      · exact ih ps x o h hv
    · simp only [List.zip_cons_cons, List.mem_cons, Prod.mk.injEq] at h
      rcases h with ⟨rfl, rfl⟩ | h
      · exact ⟨ps, rfl⟩
      · exact ih _ x o h hv

theorem static_extent_within (p : AxisPolicy) (x : item × disposition_e)
    (h : p.cx x.1.minimum_size ≤ p.cx x.1.maximum_size) :
    p.cx x.1.minimum_size ≤ static_extent p x ∧ static_extent p x ≤ p.cx x.1.maximum_size := by
  unfold static_extent
  split_ifs
  · exact ⟨le_refl _, h⟩
  · exact ⟨le_refl _, h⟩
  · exact ⟨h, le_refl _⟩
  · exact ⟨le_refl _, h⟩

theorem whole_eq_num (d : ℚ) (h : is_whole d = true) : d = ((d.num : ℤ) : ℚ) := by
  unfold is_whole at h
  exact (Rat.coe_int_num_of_den_eq_one (by simpa using h)).symm

/-- The floor of a share that lies strictly between two whole numbers, and the floor plus
one, lie between them. -/
theorem floor_within_whole_bounds (lo hi share : ℚ) (hlo : is_whole lo = true)
    (hhi : is_whole hi = true) (h1 : lo < share) (h2 : share < hi) :
    lo ≤ ((Int.floor share : ℤ) : ℚ) ∧ ((Int.floor share : ℤ) : ℚ) + 1 ≤ hi := by
  rw [whole_eq_num lo hlo] at h1 ⊢
  rw [whole_eq_num hi hhi] at h2 ⊢
  constructor
  · exact_mod_cast Int.le_floor.mpr (le_of_lt h1)
  · have : Int.floor share < hi.num := Int.floor_lt.mpr h2
    exact_mod_cast this

/-- C30.  Box layout solver: in a layout whose visible items have whole primary minimums
and maximums with `0 ≤ minimum ≤ maximum` and non-negative primary weights, every visible
item is laid out with a primary extent between its minimum and its maximum.  The counter
of the rounding units is taken to keep its contract and the list to hold fewer than 2^32
items. -/
theorem visible_extent_within_bounds (bits : Nat → Nat → Nat → Nat)
    (hc : counter_contract bits) (p : AxisPolicy) (l : layout) (aPosition : point)
    (aSize : size) (hlen : l.items.length < 4294967296)
    (hitems : ∀ it ∈ l.items, it.visible = true →
      is_whole (p.cx it.minimum_size) = true ∧ is_whole (p.cx it.maximum_size) = true ∧
      0 ≤ p.cx it.minimum_size ∧ p.cx it.minimum_size ≤ p.cx it.maximum_size ∧
      0 ≤ p.cx it.weight)
    (i : Nat) (it : item) (hi : l.items[i]? = some it) (hv : it.visible = true) :
    ∃ pos s, (do_layout_items bits p l aPosition aSize).2[i]? = some (some (pos, s)) ∧
      p.cx it.minimum_size ≤ p.cx s ∧ p.cx s ≤ p.cx it.maximum_size := by
  have hmemit : it ∈ l.items := List.mem_iff_getElem?.mpr ⟨i, hi⟩
  obtain ⟨hwmin, hwmax, hmin0, hminmax, _⟩ := hitems it hmemit hv
  -- the entry of the item in the classification
  have hfst := classification_fst p l aSize
  have hmap : ((classification p l aSize).1.map Prod.fst)[i]? = some it := by rw [hfst]; exact hi
  rw [List.getElem?_map] at hmap
  obtain ⟨x, hx, hxit⟩ := Option.map_eq_some'.mp hmap
  have hxmem : x ∈ (classification p l aSize).1 := List.mem_iff_getElem?.mpr ⟨i, hx⟩
  -- the call made for it
  obtain ⟨o, ho, _⟩ := placed_at bits p l aPosition aSize i it hi
  have hzip : (x, o) ∈ List.zip (classification p l aSize).1
      (do_layout_items bits p l aPosition aSize).2 := by
    rw [List.mem_iff_getElem?]
    exact ⟨i, List.getElem?_zip_eq_some.mpr ⟨hx, ho⟩⟩
  have hxv : x.1.visible = true := by rw [hxit]; exact hv
  have hzip2 := hzip
  rw [do_layout_items_placed bits p l aPosition aSize x hxmem hxv] at hzip2
  obtain ⟨ps1, hoeq⟩ := place_items_entry bits p l _ _ _ _ _ x o hzip2 hxv
  refine ⟨_, _, by rw [ho, hoeq], ?_⟩
  rw [hxit]
  unfold item_size
  rw [cx_set_cx]
  by_cases hw : x.2 = disposition_e.Weighted ∧ 0 < (classification p l aSize).2.leftover
  · -- a Weighted entry: the floor of its share, or one more
    have hxw : is_weighted x = true := by simp [is_weighted, hxv, hw.1]
    have hweights : ∀ y ∈ (classification p l aSize).1, uses_leftover y = true →
        0 ≤ p.cx y.1.weight := by
      intro y hy hu
      exact (hitems y.1 (mem_classification_item p l aSize y hy)
        ((uses_leftover_iff y.1 y.2).mp hu).1).2.2.2.2
    have hext := weighted_extent_floor_or_succ bits hc p l aPosition aSize hlen hweights
      hw.2 x o hzip hxw
    rw [hoeq] at hext
    simp only [extent_of] at hext
    unfold item_size at hext
    rw [cx_set_cx, hxit] at hext
    obtain ⟨_, _, hs⟩ := classification_settled p l aSize
    have hfit := (share_fits_iff p x.1 _).mp
      (hs x hxmem (uses_leftover_of_weighted x hxw)).2
    rw [hxit] at hfit
    have hb := floor_within_whole_bounds _ _ _ hwmin hwmax hfit.2.1 hfit.2.2
    unfold weighted_floor at hext
    rcases hext with h | h
    · rw [h]
      exact ⟨hb.1, by linarith [hb.2]⟩
    · rw [h]
      exact ⟨by linarith [hb.1], hb.2⟩
  · have hstat := primary_extent_static bits p (classification p l aSize).2
      (bitsLeft p (classification p l aSize).1 (classification p l aSize).2) it x.2 ps1
      (by
        by_cases h1 : x.2 = disposition_e.Weighted
        · exact Or.inr (fun h2 => hw ⟨h1, h2⟩)
        · exact Or.inl h1)
    rw [hstat]
    exact static_extent_within p (it, x.2) hminmax

/-- Witness of C30: the layout of the spec example in 111 units.  The second item, an
Expanding widget with minimum 0 and maximum 1000, is laid out with a primary extent
between these bounds. -/
theorem visible_extent_within_bounds_witness :
    counter_contract bresenham_counter ∧
    spec_example_layout.items.length < 4294967296 ∧
    (∀ it ∈ spec_example_layout.items, it.visible = true →
      is_whole (AxisPolicy.column_major.cx it.minimum_size) = true ∧
      is_whole (AxisPolicy.column_major.cx it.maximum_size) = true ∧
      0 ≤ AxisPolicy.column_major.cx it.minimum_size ∧
      AxisPolicy.column_major.cx it.minimum_size ≤ AxisPolicy.column_major.cx it.maximum_size ∧
      0 ≤ AxisPolicy.column_major.cx it.weight) ∧
    spec_example_layout.items[1]? = some (square_widget size_policy_e.Expanding 1 0 1000) ∧
    (do_layout_items bresenham_counter AxisPolicy.column_major spec_example_layout
      ⟨0, 0⟩ ⟨111, 20⟩).2[1]? = some (some (⟨10, 0⟩, ⟨50, 20⟩)) ∧
    ∃ pos s, (do_layout_items bresenham_counter AxisPolicy.column_major spec_example_layout
        ⟨0, 0⟩ ⟨111, 20⟩).2[1]? = some (some (pos, s)) ∧
      AxisPolicy.column_major.cx (square_widget size_policy_e.Expanding 1 0 1000).minimum_size
        ≤ AxisPolicy.column_major.cx s ∧
      AxisPolicy.column_major.cx s
        ≤ AxisPolicy.column_major.cx (square_widget size_policy_e.Expanding 1 0 1000).maximum_size :=
  ⟨bresenham_counter_contract, by decide, by decide!, by decide, by decide!,
   visible_extent_within_bounds bresenham_counter bresenham_counter_contract
     AxisPolicy.column_major spec_example_layout ⟨0, 0⟩ ⟨111, 20⟩ (by decide) (by decide!)
     1 (square_widget size_policy_e.Expanding 1 0 1000) (by decide) (by decide)⟩

/-! ## The cursor of the placement loop -/

theorem x_set_x (p : AxisPolicy) (pt : point) (v : ℚ) : p.x (p.set_x pt v) = v := by
  cases p <;> rfl

theorem x_set_y (p : AxisPolicy) (pt : point) (v : ℚ) : p.x (p.set_y pt v) = p.x pt := by
  cases p <;> rfl

theorem x_add (p : AxisPolicy) (a b : point) : p.x (a.add b) = p.x a + p.x b := by
  cases p <;> rfl

theorem x_alignment_offset (p : AxisPolicy) (l : layout) (av : size) (it : item) :
    p.x (alignment_offset p l av it) = 0 := by
  unfold alignment_offset
  rw [x_set_y]
  cases p <;> rfl

/-- Lines 210-214 advance the cursor by the amount the spec describes. -/
theorem advance_eq (p : AxisPolicy) (l : layout) (it : item) (s : size) (nextPos : point) :
    p.x (advance p l it s nextPos) = p.x nextPos + claimed_advance p l it s := by
  unfold advance claimed_advance
  by_cases hk : it.kind = item_kind.spacer
  · rw [if_neg (by simp [hk]), if_pos hk]
    by_cases ha : l.iAlwaysUseSpacing = true
    · rw [if_pos (Or.inr ha), if_pos ha, x_set_x, x_set_x]
      ring
    · rw [if_neg (by simp [hk, ha]), if_neg ha, x_set_x]
      ring
  · rw [if_neg hk]
    by_cases hz : p.cx s = 0 ∨ p.cy s = 0
    · rw [if_pos ⟨hk, hz⟩, if_pos hz]
      ring
    · rw [if_neg (by simp [hz]), if_pos (Or.inl hk), if_neg hz, x_set_x, x_set_x]
      ring

theorem cursor_travel_hidden (p : AxisPolicy) (l : layout) :
    ∀ (xs : List (item × Option (point × size))),
      (∀ e ∈ xs, e.2 = none) → cursor_travel p l xs = 0 := by
  intro xs
  induction xs with
  | nil => intro _; rfl
  | cons e rest ih =>
    intro h
    obtain ⟨it, o⟩ := e
    have ho : o = none := h (it, o) (List.mem_cons_self _ _)
    subst ho
    rw [cursor_travel]
    exact ih (fun e he => h e (List.mem_cons_of_mem _ he))

/-- The cursor at which the entry of index `i` is laid out: the cursor at the start of
the loop plus the advances of the entries before it. -/
theorem place_items_cursor (bits : Nat → Nat → Nat → Nat) (p : AxisPolicy) (l : layout)
    (av : size) (st : solver_state) (nbits : Nat) :
    ∀ (ds : List (item × disposition_e)) (ps : place_state) (i : Nat)
      (x : item × disposition_e),
      ds[i]? = some x → x.1.visible = true →
      ∃ pos s, (place_items bits p l av st nbits ds ps)[i]? = some (some (pos, s)) ∧
        p.x pos = p.x ps.nextPos +
          cursor_travel p l (List.zip ((ds.map Prod.fst).take i)
            ((place_items bits p l av st nbits ds ps).take i)) := by
  intro ds
  induction ds with
  | nil => intro ps i x h; simp at h
  | cons y rest ih =>
    intro ps i x h hv
    obtain ⟨it0, d0⟩ := y
    cases i with
    | zero =>
      simp only [List.getElem?_cons_zero, Option.some.injEq] at h
      subst h
      rw [place_items_visible bits p l av st nbits it0 d0 rest ps hv]
      refine ⟨ps.nextPos.add (alignment_offset p l av it0),
        item_size bits p av st nbits it0 d0 ps, List.getElem?_cons_zero, ?_⟩
      rw [x_add, x_alignment_offset]
      simp [cursor_travel]
    | succ j =>
      simp only [List.getElem?_cons_succ] at h
      by_cases hv0 : it0.visible = true
      · rw [place_items_visible bits p l av st nbits it0 d0 rest ps hv0]
        obtain ⟨pos, s, h1, h2⟩ := ih (next_place_state bits p l av st nbits it0 d0 ps) j x h hv
        refine ⟨pos, s, by simpa using h1, ?_⟩
        rw [h2]
        simp only [List.map_cons, List.take_succ_cons, List.zip_cons_cons, cursor_travel,
          List.zip]
        have hadv : p.x (next_place_state bits p l av st nbits it0 d0 ps).nextPos
            = p.x ps.nextPos + claimed_advance p l it0 (item_size bits p av st nbits it0 d0 ps) := by
          unfold next_place_state
          exact advance_eq p l it0 _ ps.nextPos
        rw [hadv]
        ring
      · have hv1 : it0.visible = false := by simpa using hv0
        rw [place_items_hidden bits p l av st nbits it0 d0 rest ps hv1]
        obtain ⟨pos, s, h1, h2⟩ := ih ps j x h hv
        refine ⟨pos, s, by simpa using h1, ?_⟩
        rw [h2]
        simp only [List.map_cons, List.take_succ_cons, List.zip_cons_cons, cursor_travel,
          List.zip]

theorem place_items_none_of_hidden (bits : Nat → Nat → Nat → Nat) (p : AxisPolicy)
    (l : layout) (av : size) (st : solver_state) (nbits : Nat) :
    ∀ (ds : List (item × disposition_e)) (ps : place_state) (j : Nat)
      (y : item × disposition_e),
      ds[j]? = some y → y.1.visible = false →
      (place_items bits p l av st nbits ds ps)[j]? = some none := by
  intro ds
  induction ds with
  | nil => intro ps j y h; simp at h
  | cons z rest ih =>
    intro ps j y h hv
    obtain ⟨it0, d0⟩ := z
    cases j with
    | zero =>
      simp only [List.getElem?_cons_zero, Option.some.injEq] at h
      subst h
      rw [place_items_hidden bits p l av st nbits it0 d0 rest ps hv]
      exact List.getElem?_cons_zero
    | succ k =>
      simp only [List.getElem?_cons_succ] at h
      by_cases hv0 : it0.visible = true
      · rw [place_items_visible bits p l av st nbits it0 d0 rest ps hv0]
        simpa using ih _ k y h hv
      · have hv1 : it0.visible = false := by simpa using hv0
        rw [place_items_hidden bits p l av st nbits it0 d0 rest ps hv1]
        simpa using ih _ k y h hv

theorem x_cursor_start (p : AxisPolicy) (l : layout) (aPosition : point) :
    p.x (⟨aPosition.x + l.margins.left, aPosition.y + l.margins.top⟩ : point)
      = p.x aPosition + leading_primary_margin p l.margins := by
  cases p <;> rfl

/-- C31.  Box layout solver: every visible item is laid out at the primary coordinate
`origin + leading margin + the advances of the items before it`, where an item that is
not a spacer and was given a zero primary or orthogonal extent advances the cursor by
nothing, any other item that is not a spacer advances it by its primary extent plus the
spacing, and a spacer advances it by its primary extent, plus the spacing only when
always-use-spacing is set; an item that is not visible advances nothing.  In particular
the first visible item is laid out at `origin + leading margin`. -/
theorem cursor_advances_by_extent_and_spacing (bits : Nat → Nat → Nat → Nat)
    (p : AxisPolicy) (l : layout) (aPosition : point) (aSize : size) (i : Nat) (it : item)
    (hi : l.items[i]? = some it) (hv : it.visible = true) :
    ∃ pos s, (do_layout_items bits p l aPosition aSize).2[i]? = some (some (pos, s)) ∧
      p.x pos = p.x aPosition + leading_primary_margin p l.margins +
        cursor_travel p l (List.zip (l.items.take i)
          ((do_layout_items bits p l aPosition aSize).2.take i)) ∧
      ((∀ j it1, j < i → l.items[j]? = some it1 → it1.visible = false) →
        p.x pos = p.x aPosition + leading_primary_margin p l.margins) := by
  have hfst := classification_fst p l aSize
  have hmap : ((classification p l aSize).1.map Prod.fst)[i]? = some it := by rw [hfst]; exact hi
  rw [List.getElem?_map] at hmap
  obtain ⟨x, hx, hxit⟩ := Option.map_eq_some'.mp hmap
  have hxmem : x ∈ (classification p l aSize).1 := List.mem_iff_getElem?.mpr ⟨i, hx⟩
  have hxv : x.1.visible = true := by rw [hxit]; exact hv
  have hplaced := do_layout_items_placed bits p l aPosition aSize x hxmem hxv
  obtain ⟨pos, s, h1, h2⟩ := place_items_cursor bits p l (availableSize p l aSize)
    (classification p l aSize).2
    (bitsLeft p (classification p l aSize).1 (classification p l aSize).2)
    (classification p l aSize).1
    ⟨⟨aPosition.x + l.margins.left, aPosition.y + l.margins.top⟩, 0, 0⟩ i x hx hxv
  rw [← hplaced, hfst, x_cursor_start] at h2
  rw [← hplaced] at h1
  refine ⟨pos, s, h1, h2, ?_⟩
  intro hall
  rw [h2, cursor_travel_hidden, add_zero]
  intro e he
  obtain ⟨j, hj⟩ := List.mem_iff_getElem?.mp he
  obtain ⟨hj1, hj2⟩ := List.getElem?_zip_eq_some.mp hj
  rw [List.getElem?_take] at hj1 hj2
  split_ifs at hj1 with hlt
  -- the entry of index `j` is hidden, so nothing was laid out for it
  have hmapj : ((classification p l aSize).1.map Prod.fst)[j]? = some e.1 := by
    rw [hfst]; exact hj1
  rw [List.getElem?_map] at hmapj
  obtain ⟨y, hy, hyit⟩ := Option.map_eq_some'.mp hmapj
  have hyv : y.1.visible = false := by rw [hyit]; exact hall j e.1 hlt hj1
  have hnone := place_items_none_of_hidden bits p l (availableSize p l aSize)
    (classification p l aSize).2
    (bitsLeft p (classification p l aSize).1 (classification p l aSize).2)
    (classification p l aSize).1
    ⟨⟨aPosition.x + l.margins.left, aPosition.y + l.margins.top⟩, 0, 0⟩ j y hy hyv
  rw [← hplaced] at hnone
  rw [if_pos hlt, hnone] at hj2
  exact (Option.some.inj hj2).symm

/-- Witness of C31: a spacer of extent 7, a widget of extent 10, a widget of extent 0
and a widget of extent 20, laid out from (100, 200) with margins (3, 4), spacing 5 and
always-use-spacing off.  The spacer advances the cursor by 7, the first widget by 15,
the zero-sized widget by nothing: the last widget is laid out at 125. -/
theorem cursor_advances_by_extent_and_spacing_witness :
    cursor_example_layout.items[3]? = some (square_widget size_policy_e.Fixed 1 20 20) ∧
    (do_layout_items bresenham_counter AxisPolicy.column_major cursor_example_layout
      ⟨100, 200⟩ ⟨300, 50⟩).2
      = [some (⟨103, 204⟩, ⟨7, 0⟩), some (⟨110, 204⟩, ⟨10, 10⟩), some (⟨125, 204⟩, ⟨0, 0⟩),
         some (⟨125, 204⟩, ⟨20, 20⟩)] ∧
    AxisPolicy.column_major.x (⟨100, 200⟩ : point)
      + leading_primary_margin AxisPolicy.column_major cursor_example_layout.margins
      + cursor_travel AxisPolicy.column_major cursor_example_layout
          (List.zip (cursor_example_layout.items.take 3)
            ((do_layout_items bresenham_counter AxisPolicy.column_major cursor_example_layout
              ⟨100, 200⟩ ⟨300, 50⟩).2.take 3)) = 125 ∧
    ∃ pos s, (do_layout_items bresenham_counter AxisPolicy.column_major cursor_example_layout
        ⟨100, 200⟩ ⟨300, 50⟩).2[3]? = some (some (pos, s)) ∧
      AxisPolicy.column_major.x pos = AxisPolicy.column_major.x (⟨100, 200⟩ : point)
        + leading_primary_margin AxisPolicy.column_major cursor_example_layout.margins
        + cursor_travel AxisPolicy.column_major cursor_example_layout
            (List.zip (cursor_example_layout.items.take 3)
              ((do_layout_items bresenham_counter AxisPolicy.column_major
                cursor_example_layout ⟨100, 200⟩ ⟨300, 50⟩).2.take 3)) ∧
      ((∀ j it1, j < 3 → cursor_example_layout.items[j]? = some it1 → it1.visible = false) →
        AxisPolicy.column_major.x pos = AxisPolicy.column_major.x (⟨100, 200⟩ : point)
          + leading_primary_margin AxisPolicy.column_major cursor_example_layout.margins) :=
  ⟨by decide, by decide!, by decide!,
   cursor_advances_by_extent_and_spacing bresenham_counter AxisPolicy.column_major
     cursor_example_layout ⟨100, 200⟩ ⟨300, 50⟩ 3 (square_widget size_policy_e.Fixed 1 20 20)
     (by decide) (by decide)⟩

/-! ## The spacing count -/

theorem countP_le_countP {α : Type} (f g : α → Bool) (h : ∀ a, f a = true → g a = true) :
    ∀ xs : List α, xs.countP f ≤ xs.countP g := by
  intro xs
  induction xs with
  | nil => simp
  | cons a rest ih =>
    by_cases hf : f a = true
    · rw [List.countP_cons_of_pos _ _ hf, List.countP_cons_of_pos _ _ (h a hf)]
      omega
    · rw [List.countP_cons_of_neg _ _ hf]
      by_cases hg : g a = true
      · rw [List.countP_cons_of_pos _ _ hg]; omega
      · rw [List.countP_cons_of_neg _ _ hg]; exact ih

theorem items_zero_sized_le (p : AxisPolicy) (l : layout) (aSize : size) :
    items_zero_sized p l aSize ≤ l.items_visible ItemTypeWidgetOrLayout := by
  unfold items_zero_sized layout.items_visible
  split_ifs
  · apply countP_le_countP
    intro it h
    cases hk : it.kind <;>
      simp_all [item_type_e.selects, ItemTypeWidgetOrLayout]
  · exact Nat.zero_le _

theorem items_visible_le_all (l : layout) :
    l.items_visible ItemTypeWidgetOrLayout ≤ l.items_visible ItemTypeAll := by
  unfold layout.items_visible
  apply countP_le_countP
  intro it h
  cases hk : it.kind <;> simp_all [item_type_e.selects, ItemTypeWidgetOrLayout, ItemTypeAll]

theorem items_visible_le_length (l : layout) (t : item_type_e) :
    l.items_visible t ≤ l.items.length := by
  unfold layout.items_visible
  exact List.countP_le_length _

/-- C39.  Box layout solver: the number of zero-sized items is at most the number of
visible items that are not spacers, which is at most the number of visible items; so the
unsigned subtraction of line 97 does not wrap, `spaces` is the difference of the two
counts, and when spacing is subtracted (line 98, `spaces > 1`) the amount taken from the
available primary size is `spacing * (spaces - 1)` with `spaces - 1` below the number of
visible items. -/
theorem spaces_does_not_underflow (p : AxisPolicy) (l : layout) (aSize : size)
    (hlen : l.items.length < 4294967296) :
    items_zero_sized p l aSize ≤ l.items_visible ItemTypeWidgetOrLayout ∧
    l.items_visible ItemTypeWidgetOrLayout ≤ l.items_visible ItemTypeAll ∧
    items_zero_sized p l aSize ≤
      (if l.iAlwaysUseSpacing = true then l.items_visible ItemTypeAll
       else l.items_visible ItemTypeWidgetOrLayout) ∧
    spaces p l aSize + items_zero_sized p l aSize =
      (if l.iAlwaysUseSpacing = true then l.items_visible ItemTypeAll
       else l.items_visible ItemTypeWidgetOrLayout) ∧
    (1 < spaces p l aSize →
      p.cx (availableSize p l aSize)
        = p.cx aSize - primary_margins p l.margins
          - p.cx l.spacing * (((spaces p l aSize - 1 : ℕ) : ℚ)) ∧
      spaces p l aSize - 1 < l.items_visible ItemTypeAll) := by
  have h1 := items_zero_sized_le p l aSize
  have h2 := items_visible_le_all l
  have h3 := items_visible_le_length l ItemTypeAll
  have h4 : items_zero_sized p l aSize ≤
      (if l.iAlwaysUseSpacing = true then l.items_visible ItemTypeAll
       else l.items_visible ItemTypeWidgetOrLayout) := by
    split_ifs <;> omega
  have h5 : (if l.iAlwaysUseSpacing = true then l.items_visible ItemTypeAll
       else l.items_visible ItemTypeWidgetOrLayout) ≤ l.items_visible ItemTypeAll := by
    split_ifs <;> omega
  have hsp : spaces p l aSize + items_zero_sized p l aSize =
      (if l.iAlwaysUseSpacing = true then l.items_visible ItemTypeAll
       else l.items_visible ItemTypeWidgetOrLayout) := by
    unfold spaces u32sub
    generalize (if l.iAlwaysUseSpacing = true then l.items_visible ItemTypeAll
       else l.items_visible ItemTypeWidgetOrLayout) = a at h4 h5 ⊢
    generalize items_zero_sized p l aSize = z at h4 ⊢
    omega
  refine ⟨h1, h2, h4, hsp, ?_⟩
  intro hgt
  constructor
  · rw [cx_availableSize]
    unfold reserved_spacing
    rw [if_pos hgt]
  · omega

/-- Witness of C39: a spacer and three widgets, one of the widgets being counted as
zero-sized; three of the four visible items are not spacers, and `spaces` is 2. -/
theorem spaces_does_not_underflow_witness :
    cursor_example_layout.items.length < 4294967296 ∧
    items_zero_sized AxisPolicy.column_major cursor_example_layout ⟨300, 50⟩ = 1 ∧
    cursor_example_layout.items_visible ItemTypeWidgetOrLayout = 3 ∧
    spaces AxisPolicy.column_major cursor_example_layout ⟨300, 50⟩ = 2 ∧
    spaces AxisPolicy.column_major cursor_example_layout ⟨300, 50⟩
      + items_zero_sized AxisPolicy.column_major cursor_example_layout ⟨300, 50⟩ =
      (if cursor_example_layout.iAlwaysUseSpacing = true
       then cursor_example_layout.items_visible ItemTypeAll
       else cursor_example_layout.items_visible ItemTypeWidgetOrLayout) :=
  ⟨by decide, by decide!, by decide, by decide!,
   (spaces_does_not_underflow AxisPolicy.column_major cursor_example_layout ⟨300, 50⟩
     (by decide)).2.2.2.1⟩

/-! ## Native window: the scan of the `Resizing` case does not always end -/

/-- C36.  Native event dispatch: handling an accepted `Resizing` event does not end when
the queue holds an event that is not a window event, whatever the hooks and the rest of
the queue are and however many evaluations of the condition of the loop of lines
175-190 are allowed; a queue holding one keyboard event is enough. -/
theorem resizing_scan_never_passes_other_events :
    (∀ (hooks : dispatch_hooks) (w : native_window) (a : window_event),
      hooks.filter_event (native_event.window a) = true →
      hooks.window_event_trigger a = true → a.type = window_event_type.Resizing →
      (∃ x ∈ w.iEventQueue, x.is_window_event = false) →
      ∀ fuel : Nat, handle_event hooks fuel w (native_event.window a) = none) ∧
    (∀ fuel : Nat, handle_event accepting_hooks fuel
      ⟨[native_event.keyboard ⟨keyboard_event_type.KeyPressed, 65⟩], false, none, 0, []⟩
      (window_event_of window_event_type.Resizing 0) = none) ∧
    (∀ fuel : Nat, handle_event accepting_hooks fuel
      ⟨[window_event_of window_event_type.Paint 0,
        native_event.non_client_mouse ⟨mouse_event_type.ButtonPressed, 1⟩], false, none, 0, []⟩
      (window_event_of window_event_type.Resizing 0) = none) := by
  have hgen : ∀ (hooks : dispatch_hooks) (w : native_window) (a : window_event),
      hooks.filter_event (native_event.window a) = true →
      hooks.window_event_trigger a = true → a.type = window_event_type.Resizing →
      (∃ x ∈ w.iEventQueue, x.is_window_event = false) →
      ∀ fuel : Nat, handle_event hooks fuel w (native_event.window a) = none := by
    intro hooks w a hf ht ha hx fuel
    rw [handle_event_resizing hooks fuel w a hf ht ha,
      erase_resize_events_of_other_event _ _ _ hx]
    rfl
  refine ⟨hgen, ?_, ?_⟩
  · intro fuel
    exact hgen accepting_hooks _ ⟨window_event_type.Resizing, 0⟩ rfl rfl rfl
      ⟨native_event.keyboard ⟨keyboard_event_type.KeyPressed, 65⟩, by simp, rfl⟩ fuel
  · intro fuel
    exact hgen accepting_hooks _ ⟨window_event_type.Resizing, 0⟩ rfl rfl rfl
      ⟨native_event.non_client_mouse ⟨mouse_event_type.ButtonPressed, 1⟩, by simp, rfl⟩ fuel

/-! ## Grid layout: the cursor after a removal -/

/-- C38.  Grid layout: a call of `remove_item_at_position` that does not throw leaves the
cursor at (0, 0), whichever cell was removed; a following `add` of an item that the grid
accepts (it is not in the grid and is not the row container) does not throw and puts the
item into cell (0, 0), and an item that occupied cell (0, 0) before occupies no cell
afterwards. -/
theorem removal_resets_cursor (ops : row_operations) (g : grid_layout) (aRow aColumn : Nat)
    (aItem : item_ref) (hwf : g.well_formed)
    (hok : (remove_item_at_position ops g aRow aColumn).thrown = none)
    (hrow : aItem ≠ item_ref.row_container)
    (hnew : belongs (remove_item_at_position ops g aRow aColumn).state aItem = false) :
    (remove_item_at_position ops g aRow aColumn).state.iCursor = ⟨0, 0⟩ ∧
    (add ops (remove_item_at_position ops g aRow aColumn).state aItem).thrown = none ∧
    (item_at_position (add ops (remove_item_at_position ops g aRow aColumn).state
      aItem).state 0 0).value = some aItem ∧
    (∀ y, (item_at_position (remove_item_at_position ops g aRow aColumn).state 0 0).value
        = some y →
      ∀ r c, (item_at_position (add ops (remove_item_at_position ops g aRow aColumn).state
        aItem).state r c).value ≠ some y) := by
  have hcur : (remove_item_at_position ops g aRow aColumn).state.iCursor = ⟨0, 0⟩ := by
    cases hc : cells_find g.iCells ⟨aColumn, aRow⟩ with
    | none =>
      rw [remove_item_at_position_unoccupied ops g aRow aColumn hc] at hok
      simp at hok
    | some x =>
      rw [remove_item_at_position_occupied ops g aRow aColumn x hc]
      rfl
  have hwf1 := well_formed_remove_item_at_position ops g aRow aColumn hwf
  generalize remove_item_at_position ops g aRow aColumn = r at hcur hwf1 hnew
  obtain ⟨h1, h2, h3, _⟩ := add_item_at_position_cells ops r.state 0 0 aItem hwf1 hrow hnew
  have hadd : add ops r.state aItem
      = ⟨increment_cursor (add_item_at_position ops r.state 0 0 aItem).state, none⟩ := by
    unfold add
    rw [hcur]
    exact and_then_of_not_thrown _ _ h1
  rw [hadd]
  refine ⟨hcur, rfl, ?_, ?_⟩
  · rw [item_at_position_value]
    show cells_find (increment_cursor _).iCells _ = _
    rw [(increment_cursor_cells _).1]
    exact h2
  · intro y hy r0 c0
    rw [item_at_position_value] at hy ⊢
    show cells_find (increment_cursor _).iCells _ ≠ _
    rw [(increment_cursor_cells _).1]
    exact h3 y hy _

/-- Witness of C38: from the grid holding `external 1` in cell (0, 0) and `external 2` in
cell (0, 1), cell (0, 1) is removed; the cursor is at (0, 0), and adding `external 3`
puts it into cell (0, 0), from which `external 1` is evicted. -/
theorem removal_resets_cursor_witness :
    two_cell_grid.well_formed ∧
    two_cell_grid.iCursor = ⟨0, 1⟩ ∧
    (remove_item_at_position list_row_operations two_cell_grid 0 1).thrown = none ∧
    (item_at_position (remove_item_at_position list_row_operations two_cell_grid 0 1).state
      0 0).value = some (item_ref.external 1) ∧
    (remove_item_at_position list_row_operations two_cell_grid 0 1).state.iCursor = ⟨0, 0⟩ ∧
    (add list_row_operations
      (remove_item_at_position list_row_operations two_cell_grid 0 1).state
      (item_ref.external 3)).thrown = none ∧
    (item_at_position (add list_row_operations
      (remove_item_at_position list_row_operations two_cell_grid 0 1).state
      (item_ref.external 3)).state 0 0).value = some (item_ref.external 3) ∧
    (∀ y, (item_at_position (remove_item_at_position list_row_operations two_cell_grid
        0 1).state 0 0).value = some y →
      ∀ r c, (item_at_position (add list_row_operations
        (remove_item_at_position list_row_operations two_cell_grid 0 1).state
        (item_ref.external 3)).state r c).value ≠ some y) :=
  ⟨by decide, by decide, by decide, by decide,
   removal_resets_cursor list_row_operations two_cell_grid 0 1 (item_ref.external 3)
     (by decide) (by decide) (by decide) (by decide)⟩

/-! ## Grid layout: what a replacement and a removal leave behind -/

/-- C32.  Grid layout: on the grid of one row and two columns that holds `external 1` in
cell (0, 0) and `external 2` in cell (0, 1) the dimensions are one more than the largest
occupied indices, (2 columns, 1 row).  After `add_item_at_position(0, 0, external 3)`,
which replaces the occupant of cell (0, 0), cell (0, 1) still holds `external 2` but
`columns()` is 1: the removal of the old occupant recomputes the dimensions as the largest
occupied index (lines 210-215) and the insertion only raises them to `aColumn + 1`. -/
theorem replacing_add_breaks_dimensions :
    two_cell_grid.iDimensions = dimensions_by_occupancy two_cell_grid.iCells ∧
    two_cell_grid.columns = 2 ∧ two_cell_grid.rows = 1 ∧
    belongs two_cell_grid (item_ref.external 3) = false ∧
    (add_item_at_position list_row_operations two_cell_grid 0 0
      (item_ref.external 3)).thrown = none ∧
    (item_at_position (add_item_at_position list_row_operations two_cell_grid 0 0
      (item_ref.external 3)).state 0 0).value = some (item_ref.external 3) ∧
    (item_at_position (add_item_at_position list_row_operations two_cell_grid 0 0
      (item_ref.external 3)).state 0 1).value = some (item_ref.external 2) ∧
    (add_item_at_position list_row_operations two_cell_grid 0 0
      (item_ref.external 3)).state.columns = 1 ∧
    (dimensions_by_occupancy (add_item_at_position list_row_operations two_cell_grid 0 0
      (item_ref.external 3)).state.iCells).cx = 2 := by
  decide

/-- The double removal of lines 202-208 under row operations whose `find` locates the
occupant: on the grid of one row and two columns that holds `external 1` in cell (0, 0)
and `external 2` in cell (0, 1), the row sub-layout of row 0 holds both items.  After
`remove_item_at_position(0, 0)` cell (0, 1) still holds `external 2`, but the row
sub-layout is empty: line 205 removes `external 1`, found at index 0, and line 208 then
removes index 0 again, which by then is `external 2`. -/
theorem second_removal_hits_neighbour_when_found :
    two_cell_grid.iRows = [[item_ref.external 1, item_ref.external 2]] ∧
    (remove_item_at_position list_row_operations two_cell_grid 0 0).thrown = none ∧
    (item_at_position (remove_item_at_position list_row_operations two_cell_grid
      0 0).state 0 1).value = some (item_ref.external 2) ∧
    (remove_item_at_position list_row_operations two_cell_grid 0 0).state.iRows = [[]] ∧
    item_ref.external 2 ∉
      (remove_item_at_position list_row_operations two_cell_grid 0 0).state.iRows.getD 0 [] ∧
    row_after_removal list_row_operations
      [item_ref.external 1, item_ref.external 2] 0 (item_ref.external 1) = [] := by
  decide

/-- The same call under row operations whose `find` never locates the wrapper that line
203 passes: line 205 is not reached, line 208 removes index 0 once, and the row
sub-layout of row 0 is left holding `external 2`, the occupant of cell (0, 1), and no
longer holds `external 1`. -/
theorem single_removal_when_not_found :
    (remove_item_at_position { list_row_operations with find := fun _ _ => none }
      two_cell_grid 0 0).thrown = none ∧
    (item_at_position (remove_item_at_position
      { list_row_operations with find := fun _ _ => none } two_cell_grid
      0 0).state 0 1).value = some (item_ref.external 2) ∧
    (remove_item_at_position { list_row_operations with find := fun _ _ => none }
      two_cell_grid 0 0).state.iRows = [[item_ref.external 2]] := by
  decide

/-! ## Grid layout pass: the calls of the loops of lines 411-461 -/

/-- The calls of the loop over `col`: one group per occupied cell of a column that is
not zero, made with the cursor at the skipping offset of the column. -/
theorem layout_columns_calls (g : grid_layout) (w h : List ℚ) (availablePos : point)
    (row : Nat) (X0 : ℚ) (e : grid_call) :
    ∀ (n col : Nat) (colPos : point),
      colPos.x = X0 + skipping_offset w g.spacing.cx col →
      (e ∈ layout_columns g w h availablePos row n col colPos ↔
        ∃ c x cc, col ≤ c ∧ c < col + n ∧ w.getD c 0 ≠ 0 ∧
          cells_find g.iCells ⟨c, row⟩ = some x ∧
          cc ∈ cell_calls w h g.spacing availablePos
            ⟨X0 + skipping_offset w g.spacing.cx c, colPos.y⟩ row c g.iSpans ∧
          e = ⟨⟨c, row⟩, x, cc.1, cc.2⟩) := by
  intro n
  induction n with
  | zero =>
    intro col colPos _
    simp only [layout_columns, List.not_mem_nil, false_iff]
    rintro ⟨c, x, cc, h1, h2, _⟩
    omega
  | succ n ih =>
    intro col colPos hpos
    rw [layout_columns]
    by_cases hw : w.getD col 0 = 0
    · rw [if_pos hw, ih (col + 1) colPos (by rw [hpos, skipping_offset, if_pos hw, add_zero])]
      constructor
      · rintro ⟨c, x, cc, h1, h2, h3⟩
        exact ⟨c, x, cc, by omega, by omega, h3⟩
      · rintro ⟨c, x, cc, h1, h2, h3, h4⟩
        have hne : c ≠ col := fun hc => h3 (hc ▸ hw)
        exact ⟨c, x, cc, by omega, by omega, h3, h4⟩
    · rw [if_neg hw, List.mem_append,
        ih (col + 1) ⟨colPos.x + w.getD col 0 + g.spacing.cx, colPos.y⟩
          (by
            show colPos.x + w.getD col 0 + g.spacing.cx = _
            rw [hpos, skipping_offset, if_neg hw]; ring)]
      have hposeq : colPos = ⟨X0 + skipping_offset w g.spacing.cx col, colPos.y⟩ := by
        obtain ⟨cx, cy⟩ := colPos
        simp only at hpos
        rw [hpos]
      constructor
      · rintro (he | ⟨c, x, cc, h1, h2, h3⟩)
        · cases hc : cells_find g.iCells ⟨col, row⟩ with
          | none => rw [hc] at he; simp at he
          | some x =>
            rw [hc] at he
            simp only [List.mem_map] at he
            obtain ⟨cc, hcm, rfl⟩ := he
            rw [hposeq] at hcm
            exact ⟨col, x, cc, le_refl _, by omega, hw, hc, hcm, rfl⟩
        · exact ⟨c, x, cc, by omega, by omega, h3⟩
      · rintro ⟨c, x, cc, h1, h2, h3, h4, h5, h6⟩
        by_cases hcc : c = col
        · subst hcc
          left
          rw [h4]
          simp only [List.mem_map]
          refine ⟨cc, ?_, h6.symm⟩
          rw [hposeq]
          exact h5
        · right
          exact ⟨c, x, cc, by omega, by omega, h3, h4, h5, h6⟩

/-- The calls of the loop over `row`. -/
theorem layout_rows_calls (g : grid_layout) (w h : List ℚ) (availablePos : point)
    (X0 Y0 : ℚ) (e : grid_call) :
    ∀ (n row : Nat) (rowPos : point),
      rowPos.x = X0 → rowPos.y = Y0 + skipping_offset h g.spacing.cy row →
      (e ∈ layout_rows g w h availablePos n row rowPos ↔
        ∃ r c x cc, row ≤ r ∧ r < row + n ∧ h.getD r 0 ≠ 0 ∧ c < g.iDimensions.cx ∧
          w.getD c 0 ≠ 0 ∧ cells_find g.iCells ⟨c, r⟩ = some x ∧
          cc ∈ cell_calls w h g.spacing availablePos
            ⟨X0 + skipping_offset w g.spacing.cx c,
             Y0 + skipping_offset h g.spacing.cy r⟩ r c g.iSpans ∧
          e = ⟨⟨c, r⟩, x, cc.1, cc.2⟩) := by
  intro n
  induction n with
  | zero =>
    intro row rowPos _ _
    simp only [layout_rows, List.not_mem_nil, false_iff]
    rintro ⟨r, c, x, cc, h1, h2, _⟩
    omega
  | succ n ih =>
    intro row rowPos hx hy
    rw [layout_rows]
    by_cases hh : h.getD row 0 = 0
    · rw [if_pos hh, ih (row + 1) rowPos hx (by rw [hy, skipping_offset, if_pos hh, add_zero])]
      constructor
      · rintro ⟨r, c, x, cc, h1, h2, h3⟩
        exact ⟨r, c, x, cc, by omega, by omega, h3⟩
      · rintro ⟨r, c, x, cc, h1, h2, h3, h4⟩
        have hne : r ≠ row := fun hc => h3 (hc ▸ hh)
        exact ⟨r, c, x, cc, by omega, by omega, h3, h4⟩
    · rw [if_neg hh, List.mem_append,
        ih (row + 1) ⟨rowPos.x, rowPos.y + h.getD row 0 + g.spacing.cy⟩ hx
          (by
            show rowPos.y + h.getD row 0 + g.spacing.cy = _
            rw [hy, skipping_offset, if_neg hh]; ring),
        layout_columns_calls g w h availablePos row X0 e g.iDimensions.cx 0 rowPos
          (by rw [hx, skipping_offset, add_zero])]
      constructor
      · rintro (⟨c, x, cc, h1, h2, h3, h4, h5, h6⟩ | ⟨r, c, x, cc, h1, h2, h3⟩)
        · rw [hy] at h5
          exact ⟨row, c, x, cc, le_refl _, by omega, hh, by omega, h3, h4, h5, h6⟩
        · exact ⟨r, c, x, cc, by omega, by omega, h3⟩
      · rintro ⟨r, c, x, cc, h1, h2, h3, h4, h5, h6, h7, h8⟩
        by_cases hrr : r = row
        · subst hrr
          left
          rw [hy]
          exact ⟨c, x, cc, Nat.zero_le _, by omega, h5, h6, h7, h8⟩
        · right
          exact ⟨r, c, x, cc, by omega, by omega, h3, h4, h5, h6, h7, h8⟩

theorem getD_ne_zero_lt (v : List ℚ) (i : Nat) (h : v.getD i 0 ≠ 0) : i < v.length := by
  by_contra hge
  apply h
  rw [List.getD_eq_getElem?_getD, List.getElem?_eq_none (by omega)]
  rfl

/-- The calls of the layout pass of an enabled grid. -/
theorem layout_items_calls (extents : item_ref → size) (g : grid_layout)
    (aPosition : point) (aSize : size) (he : g.enabled = true) (e : grid_call) :
    e ∈ layout_items extents g aPosition aSize ↔
      ∃ r c x cc, (maxRowHeight extents g).getD r 0 ≠ 0 ∧
        (maxColWidth extents g).getD c 0 ≠ 0 ∧ cells_find g.iCells ⟨c, r⟩ = some x ∧
        cc ∈ cell_calls (maxColWidth extents g) (maxRowHeight extents g) g.spacing
          ⟨aPosition.x + g.margins.left, aPosition.y + g.margins.top⟩
          ⟨aPosition.x + g.margins.left +
              skipping_offset (maxColWidth extents g) g.spacing.cx c,
           aPosition.y + g.margins.top +
              skipping_offset (maxRowHeight extents g) g.spacing.cy r⟩ r c g.iSpans ∧
        e = ⟨⟨c, r⟩, x, cc.1, cc.2⟩ := by
  unfold layout_items
  rw [if_pos he,
    layout_rows_calls g _ _ _ (aPosition.x + g.margins.left) (aPosition.y + g.margins.top) e
      g.iDimensions.cy 0 _ rfl (by simp [skipping_offset])]
  constructor
  · rintro ⟨r, c, x, cc, _, _, h3, _, h5, h6, h7, h8⟩
    exact ⟨r, c, x, cc, h3, h5, h6, h7, h8⟩
  · rintro ⟨r, c, x, cc, h3, h5, h6, h7, h8⟩
    have hr := getD_ne_zero_lt _ _ h3
    have hc := getD_ne_zero_lt _ _ h5
    rw [maxRowHeight_length] at hr
    rw [maxColWidth_length] at hc
    exact ⟨r, c, x, cc, Nat.zero_le _, by simpa [grid_layout.rows] using hr, h3,
      by simpa [grid_layout.columns] using hc, h5, h6, h7, h8⟩

/-- C33.  Grid layout pass: the occupant of a cell `(r, c)` that lies in no span and whose
row height `h[r]` and column width `w[c]` are both not zero is laid out exactly once,
with the size `(w[c], h[r])`, at the position whose `x` is the origin plus the left
margin plus `w[c'] + spacing.cx` for every column `c' < c` with `w[c'] ≠ 0`, and whose
`y` is the origin plus the top margin plus `h[r'] + spacing.cy` for every row `r' < r`
with `h[r'] ≠ 0`. -/
theorem unspanned_cell_is_placed_at_skipping_offset (extents : item_ref → size)
    (g : grid_layout) (aPosition : point) (aSize : size) (r c : Nat) (x : item_ref)
    (he : g.enabled = true) (hx : cells_find g.iCells ⟨c, r⟩ = some x)
    (hs : find_span g ⟨c, r⟩ = none)
    (hh : (maxRowHeight extents g).getD r 0 ≠ 0)
    (hw : (maxColWidth extents g).getD c 0 ≠ 0) (e : grid_call) :
    (e ∈ layout_items extents g aPosition aSize ∧ e.cell = ⟨c, r⟩) ↔
      e = ⟨⟨c, r⟩, x,
        ⟨aPosition.x + g.margins.left +
            skipping_offset (maxColWidth extents g) g.spacing.cx c,
         aPosition.y + g.margins.top +
            skipping_offset (maxRowHeight extents g) g.spacing.cy r⟩,
        ⟨(maxColWidth extents g).getD c 0, (maxRowHeight extents g).getD r 0⟩⟩ := by
  rw [layout_items_calls extents g aPosition aSize he e]
  constructor
  · rintro ⟨⟨r1, c1, x1, cc, h1, h2, h3, h4, h5⟩, hcell⟩
    rw [h5] at hcell
    simp only [cell_coordinates.mk.injEq] at hcell
    obtain ⟨hc1, hr1⟩ := hcell
    subst hc1 hr1
    rw [hx] at h3
    have := Option.some.inj h3
    subst this
    rw [cell_calls_of_no_span g _ _ _ _ r1 c1 hs, List.mem_singleton] at h4
    rw [h5, h4]
  · intro h
    refine ⟨⟨r, c, x,
      (⟨aPosition.x + g.margins.left +
            skipping_offset (maxColWidth extents g) g.spacing.cx c,
         aPosition.y + g.margins.top +
            skipping_offset (maxRowHeight extents g) g.spacing.cy r⟩,
        ⟨(maxColWidth extents g).getD c 0, (maxRowHeight extents g).getD r 0⟩),
      hh, hw, hx, ?_, h⟩, by rw [h]⟩
    rw [cell_calls_of_no_span g _ _ _ _ r c hs]
    exact List.mem_singleton_self _

/-- Witness of C33: a grid of two rows and three columns with margins (1, 2) and spacing
2, laid out from (100, 200); the widths are 10, 0 and 30 and the heights 5 and 8.  The
occupant of cell (1, 2) is laid out at (113, 209) with size (30, 8): column 1, of width
zero, adds nothing to the offset. -/
theorem unspanned_cell_is_placed_at_skipping_offset_witness :
    maxColWidth skipped_column_extents skipped_column_grid = [10, 0, 30] ∧
    maxRowHeight skipped_column_extents skipped_column_grid = [5, 8] ∧
    (⟨⟨2, 1⟩, item_ref.external 6, ⟨113, 209⟩, ⟨30, 8⟩⟩ : grid_call)
      ∈ layout_items skipped_column_extents skipped_column_grid ⟨100, 200⟩ ⟨300, 300⟩ :=
  ⟨by decide!, by decide!,
   (((unspanned_cell_is_placed_at_skipping_offset skipped_column_extents skipped_column_grid
      ⟨100, 200⟩ ⟨300, 300⟩ 1 2 (item_ref.external 6) (by decide) (by decide) (by decide)
      (by decide!) (by decide!) ⟨⟨2, 1⟩, item_ref.external 6, ⟨113, 209⟩, ⟨30, 8⟩⟩).mpr
      (by decide!)).1)⟩

/-! ## Grid layout pass: a span behind a column of width zero -/

/-- C34.  Grid layout pass: in a grid of one row and three columns with spacing 2 whose
column 0 has width zero, the item of cell (0, 1), laid out through the span over columns
1-2, is positioned at `x = 2`: the walk of lines 432-450 advances by `maxColWidth[0] +
spacing` over column 0.  An item outside a span in that cell would be laid out at
`x = 0`, the offset of the loop of lines 416-458, which skips the columns of width
zero. -/
theorem spanned_item_is_not_at_skipping_offset :
    maxColWidth zero_column_extents zero_column_span_grid = [0, 10, 10] ∧
    maxRowHeight zero_column_extents zero_column_span_grid = [10] ∧
    find_span zero_column_span_grid ⟨1, 0⟩ = some (⟨1, 0⟩, ⟨2, 0⟩) ∧
    layout_items zero_column_extents zero_column_span_grid ⟨0, 0⟩ ⟨100, 100⟩
      = [⟨⟨1, 0⟩, item_ref.external 2, ⟨2, 0⟩, ⟨22, 10⟩⟩,
         ⟨⟨2, 0⟩, item_ref.external 3, ⟨2, 0⟩, ⟨22, 10⟩⟩] ∧
    skipping_offset (maxColWidth zero_column_extents zero_column_span_grid)
      zero_column_span_grid.spacing.cx 1 = 0 ∧
    plain_offset (maxColWidth zero_column_extents zero_column_span_grid)
      zero_column_span_grid.spacing.cx 1 = 2 ∧
    layout_items zero_column_extents { zero_column_span_grid with iSpans := [] }
        ⟨0, 0⟩ ⟨100, 100⟩
      = [⟨⟨1, 0⟩, item_ref.external 2, ⟨0, 0⟩, ⟨22, 10⟩⟩,
         ⟨⟨2, 0⟩, item_ref.external 3, ⟨24, 0⟩, ⟨22, 10⟩⟩] := by
  decide!

/-! ## Grid layout pass: reads beyond the vectors -/

theorem span_cell_foundSpan (s : span) (row2 col2 : Nat) (colPos2 : point) (w h : ℚ)
    (st : span_walk) (hf : st.foundSpan = false) (hc : col2 ≠ s.2.x) :
    (span_cell s row2 col2 colPos2 w h st).foundSpan = false := by
  unfold span_cell
  rw [if_neg (fun hh => hc hh.2)]
  exact hf

/-- The walk over the columns of a span that reaches beyond `maxColWidth` reads the
vector at its length. -/
theorem span_columns_checked_beyond (w : List ℚ) (h sx : ℚ) (s : span) (row2 : Nat)
    (hlen : w.length ≤ s.2.x) :
    ∀ (n col2 : Nat) (colPos2 : point) (st : span_walk),
      st.foundSpan = false → col2 ≤ w.length → w.length < col2 + n →
      span_columns_checked w h sx s row2 n col2 colPos2 st = none := by
  intro n
  induction n with
  | zero => intro col2 colPos2 st _ h1 h2; omega
  | succ n ih =>
    intro col2 colPos2 st hf h1 h2
    rw [span_columns_checked, if_neg (by simp [hf])]
    by_cases hcol : col2 = w.length
    · rw [hcol, List.getElem?_eq_none (le_refl _)]
    · have hlt : col2 < w.length := by omega
      rw [List.getElem?_eq_getElem hlt]
      exact ih (col2 + 1) _ _ (span_cell_foundSpan s row2 col2 colPos2 _ h st hf (by omega))
        (by omega) (by omega)

/-- The walk over a span that reaches beyond `maxColWidth` makes a read outside the
vectors. -/
theorem span_rows_checked_beyond (w h : List ℚ) (spacing : size) (s : span)
    (availablePos : point) (st : span_walk) (hf : st.foundSpan = false)
    (hlen : w.length ≤ s.2.x) :
    span_rows_checked w h spacing s (s.2.y + 1) 0 availablePos st = none := by
  rw [span_rows_checked, if_neg (by simp [hf])]
  cases hh : h[0]? with
  | none => rfl
  | some hr =>
    simp only
    rw [span_columns_checked_beyond w hr spacing.cx s 0 hlen (s.2.x + 1) 0 availablePos st hf
      (Nat.zero_le _) (by omega)]

/-- When the checked walk over the columns returns, it returns the state of the walk of
the pass. -/
theorem span_columns_checked_eq (w : List ℚ) (h sx : ℚ) (s : span) (row2 : Nat) :
    ∀ (n col2 : Nat) (colPos2 : point) (st st1 : span_walk),
      span_columns_checked w h sx s row2 n col2 colPos2 st = some st1 →
      span_columns w h sx s row2 n col2 colPos2 st = st1 := by
  intro n
  induction n with
  | zero =>
    intro col2 colPos2 st st1 hc
    rw [span_columns_checked] at hc
    rw [span_columns]
    exact Option.some.inj hc
  | succ n ih =>
    intro col2 colPos2 st st1 hc
    rw [span_columns_checked] at hc
    rw [span_columns]
    by_cases hf : st.foundSpan = true
    · rw [if_pos hf] at hc ⊢
      exact Option.some.inj hc
    · rw [if_neg hf] at hc ⊢
      cases hw : w[col2]? with
      | none => rw [hw] at hc; simp at hc
      | some wc =>
        rw [hw] at hc
        have hget : w.getD col2 0 = wc := by
          rw [List.getD_eq_getElem?_getD, hw]
          rfl
        rw [hget]
        exact ih _ _ _ _ hc

/-- When the checked walk over a span returns, it returns the state of the walk of the
pass. -/
theorem span_rows_checked_eq (w h : List ℚ) (spacing : size) (s : span) :
    ∀ (n row2 : Nat) (rowPos2 : point) (st st1 : span_walk),
      span_rows_checked w h spacing s n row2 rowPos2 st = some st1 →
      span_rows w h spacing s n row2 rowPos2 st = st1 := by
  intro n
  induction n with
  | zero =>
    intro row2 rowPos2 st st1 hc
    rw [span_rows_checked] at hc
    rw [span_rows]
    exact Option.some.inj hc
  | succ n ih =>
    intro row2 rowPos2 st st1 hc
    rw [span_rows_checked] at hc
    rw [span_rows]
    by_cases hf : st.foundSpan = true
    · rw [if_pos hf] at hc ⊢
      exact Option.some.inj hc
    · rw [if_neg hf] at hc ⊢
      cases hh : h[row2]? with
      | none => rw [hh] at hc; simp at hc
      | some hr =>
        rw [hh] at hc
        have hget : h.getD row2 0 = hr := by
          rw [List.getD_eq_getElem?_getD, hh]
          rfl
        rw [hget]
        simp only at hc
        cases hcol : span_columns_checked w hr spacing.cx s row2 (s.2.x + 1) 0 rowPos2 st with
        | none => rw [hcol] at hc; simp at hc
        | some st2 =>
          rw [hcol] at hc
          rw [span_columns_checked_eq w hr spacing.cx s row2 _ _ _ _ _ hcol]
          exact ih _ _ _ _ hc

theorem span_search_checked_none (w h : List ℚ) (spacing : size) (availablePos : point)
    (row col : Nat) :
    ∀ spans : List span,
      spans.foldl (span_step_checked w h spacing availablePos row col) none = none := by
  intro spans
  induction spans with
  | nil => rfl
  | cons s rest ih =>
    rw [List.foldl_cons]
    exact ih

theorem span_search_checked_beyond (w h : List ℚ) (spacing : size) (availablePos : point)
    (row col : Nat) (s : span) (hlen : w.length ≤ s.2.x) :
    ∀ (spans : List span) (st : span_walk), st.foundSpan = false →
      spans.find? (fun s => span_contains s ⟨col, row⟩) = some s →
      spans.foldl (span_step_checked w h spacing availablePos row col) (some st) = none := by
  intro spans
  induction spans with
  | nil => intro st _ hf; simp at hf
  | cons s0 rest ih =>
    intro st hst hf
    rw [List.foldl_cons]
    by_cases hc : span_contains s0 ⟨col, row⟩ = true
    · simp only [List.find?_cons, hc] at hf
      have hs0 : s0 = s := Option.some.inj hf
      subst hs0
      have hstep : span_step_checked w h spacing availablePos row col (some st) s0 = none := by
        unfold span_step_checked
        simp only [hc, if_true]
        exact span_rows_checked_beyond w h spacing s0 availablePos _ hst hlen
      rw [hstep]
      exact span_search_checked_none w h spacing availablePos row col rest
    · have hstep : span_step_checked w h spacing availablePos row col (some st) s0
          = some st := by
        unfold span_step_checked
        simp only [hc]
        rfl
      have hc2 : span_contains s0 ⟨col, row⟩ = false := by simpa using hc
      simp only [List.find?_cons, hc2] at hf
      rw [hstep]
      exact ih st hst hf

/-- When the first span that contains a cell reaches beyond `maxColWidth`, the span walks
made for the cell read outside the vectors. -/
theorem cell_reads_beyond (w h : List ℚ) (spacing : size) (availablePos : point)
    (row col : Nat) (s : span) (spans : List span)
    (hfind : spans.find? (fun s => span_contains s ⟨col, row⟩) = some s)
    (hlen : w.length ≤ s.2.x) :
    cell_reads_within_bounds w h spacing availablePos row col spans = false := by
  unfold cell_reads_within_bounds span_search_checked
  rw [span_search_checked_beyond w h spacing availablePos row col s hlen spans _ rfl hfind]
  rfl

/-- C37.  Grid layout pass: `add_span` registers a span without comparing it with the
dimensions.  Whenever the first span that contains an occupied cell of a non-zero row
and a non-zero column reaches beyond the last column, the walk of lines 432-450 reads
`maxColWidth` outside its bounds.  Such a state is reached by `add_item_at_position(0,
0, item)` and `add_span` of rows 0-1 and columns 0-1 on an empty grid: `rows()` and
`columns()` are 1, both vectors have length 1, and the walk reads `maxColWidth[1]`. -/
theorem span_walk_reads_beyond_vectors :
    (∀ (extents : item_ref → size) (g : grid_layout) (aPosition : point) (r c : Nat)
      (s : span),
      r < g.rows → c < g.columns →
      (maxRowHeight extents g).getD r 0 ≠ 0 → (maxColWidth extents g).getD c 0 ≠ 0 →
      (cells_find g.iCells ⟨c, r⟩).isSome = true →
      find_span g ⟨c, r⟩ = some s → g.columns ≤ s.2.x →
      reads_within_bounds extents g aPosition = false) ∧
    overhanging_span_grid =
      add_span (add_item_at_position list_row_operations (grid_layout.constructed 0 0)
        0 0 (item_ref.external 1)).state ⟨0, 0⟩ ⟨1, 1⟩ ∧
    overhanging_span_grid.rows = 1 ∧ overhanging_span_grid.columns = 1 ∧
    maxColWidth uniform_extents overhanging_span_grid = [10] ∧
    maxRowHeight uniform_extents overhanging_span_grid = [10] ∧
    (maxColWidth uniform_extents overhanging_span_grid)[1]? = none ∧
    span_columns_checked (maxColWidth uniform_extents overhanging_span_grid) 10 0
      (⟨0, 0⟩, ⟨1, 1⟩) 0 2 0 ⟨0, 0⟩ ⟨⟨0, 0⟩, false, none⟩ = none ∧
    reads_within_bounds uniform_extents overhanging_span_grid ⟨0, 0⟩ = false ∧
    reads_within_bounds span_example_extents span_example_grid ⟨0, 0⟩ = true := by
  refine ⟨?_, rfl, by decide, by decide, by decide!, by decide!, by decide!, by decide!,
    by decide!, by decide!⟩
  intro extents g aPosition r c s hr hc hh hw hocc hs hlen
  unfold reads_within_bounds
  rw [List.all_eq_false]
  refine ⟨r, List.mem_range.mpr hr, ?_⟩
  rw [List.all_eq_true]
  intro hall
  have h1 := hall c (List.mem_range.mpr hc)
  have hbeyond := cell_reads_beyond (maxColWidth extents g) (maxRowHeight extents g)
    g.spacing ⟨aPosition.x + g.margins.left, aPosition.y + g.margins.top⟩ r c s g.iSpans hs
    (by rw [maxColWidth_length]; exact hlen)
  simp only [hbeyond, Bool.or_false, Bool.or_eq_true, decide_eq_true_eq] at h1
  rcases h1 with (h1 | h1) | h1
  · exact hh h1
  · exact hw h1
  · rw [Option.isNone_iff_eq_none] at h1
    rw [h1] at hocc
    simp at hocc

/-! ## The legacy solver: divisors that are zero -/

theorem ffloor_fdiv_zero (a : ℚ) (q : ℚ) : ffloor (fdiv a 0) ≠ fvalue.finite q := by
  unfold fdiv
  rw [if_pos rfl]
  split_ifs <;> simp [ffloor]

theorem ffloor_fdiv_of_ne_zero (a b : ℚ) (hb : b ≠ 0) :
    ffloor (fdiv a b) = fvalue.finite ((Int.floor (a / b) : ℤ) : ℚ) := by
  unfold fdiv
  rw [if_neg hb]
  rfl

/-- C40.  Legacy horizontal solver: the divisor of line 144 is the number of visible items
that are not spacers, while the check of line 123 counts the spacers too; for a layout
that passes the check with no such item the division is by zero and `eachLeftover` is
not a finite number (for the layout holding one visible spacer, laid out in 100 units, it
is the floor of 100 / 0).  The divisor `itemsVisible - itemsNotUsingLeftover` of lines
200, 215 and 231 is zero once every visible item has been classified as not using
leftover: for the layout holding one widget of maximum width 5, laid out in 100 units,
the first pass classifies the widget `TooSmall`, counts it, and line 200 divides the
leftover 95 by `1 - 1`. -/
theorem legacy_divisors_can_be_zero :
    (∀ (max_value : ℚ) (l : horizontal_layout) (aSize : size) (q : ℚ),
      l.items_visible ItemTypeWidgetOrLayout = 0 →
      initial_eachLeftover max_value l aSize ≠ fvalue.finite q) ∧
    (∀ (itemsVisible : Nat) (st : legacy_state) (q : ℚ),
      st.expandersUsingLeftover = [] → leftover_divisor itemsVisible st = 0 →
      (recompute_eachLeftover itemsVisible st).eachLeftover ≠ fvalue.finite q) ∧
    (only_spacer_layout.enabled = true ∧
      only_spacer_layout.items_visible ItemTypeAll = 1 ∧
      only_spacer_layout.items_visible ItemTypeWidgetOrLayout = 0 ∧
      initial_leftover 1000000 only_spacer_layout ⟨100, 20⟩ = 100 ∧
      initial_eachLeftover 1000000 only_spacer_layout ⟨100, 20⟩ = fvalue.pos_inf) ∧
    (small_widget_layout.enabled = true ∧
      small_widget_layout.items_visible ItemTypeAll = 1 ∧
      small_widget_layout.items_visible ItemTypeWidgetOrLayout = 1 ∧
      legacy_initial_state 1000000 small_widget_layout ⟨100, 20⟩
        = ⟨[legacy_disposition.Unknown], [], 0, 100, fvalue.finite 100, ⟨0, 0⟩, false⟩ ∧
      leftover_divisor 1
        ⟨[legacy_disposition.TooSmall], [], 1, 95, fvalue.finite 100, ⟨0, 0⟩, true⟩ = 0 ∧
      legacy_pass policy_queries 1 100 small_widget_layout.items 0
        ⟨[legacy_disposition.Unknown], [], 0, 100, fvalue.finite 100, ⟨0, 0⟩, true⟩
        = ⟨[legacy_disposition.TooSmall], [], 1, 95, fvalue.pos_inf, ⟨0, 0⟩, false⟩ ∧
      legacy_classification policy_queries 1000000 3 small_widget_layout ⟨100, 20⟩
        = some (some ⟨[legacy_disposition.TooSmall], [], 1, 95, fvalue.pos_inf, ⟨0, 0⟩,
            true⟩)) := by
  refine ⟨?_, ?_, ⟨by decide, by decide, by decide, by decide!, by decide!⟩,
    ⟨by decide, by decide, by decide, by decide!, by decide, by decide!, by decide!⟩⟩
  · intro max_value l aSize q h
    unfold initial_eachLeftover
    rw [h]
    exact ffloor_fdiv_zero _ q
  · intro itemsVisible st q he hd
    unfold recompute_eachLeftover
    rw [if_pos he, hd]
    exact ffloor_fdiv_zero _ q

/-! ## The classification in rounded arithmetic -/

theorem cx_rounded_size_add (fw : ℚ → ℚ) (p : AxisPolicy) (a b : size) :
    p.cx (rounded_size_add fw a b) = fw (p.cx a + p.cx b) := by
  cases p <;> rfl

theorem cx_rounded_size_sub (fw : ℚ → ℚ) (p : AxisPolicy) (a b : size) :
    p.cx (rounded_size_sub fw a b) = fw (p.cx a - p.cx b) := by
  cases p <;> rfl

theorem rounded_classify_by_policy_state (fw fl : ℚ → ℚ) (p : AxisPolicy) :
    ∀ (items : List item) (st : solver_state),
      (rounded_classify_by_policy fw fl p items st).2.itemsUsingLeftover
          = st.itemsUsingLeftover
            + leftover_users (rounded_classify_by_policy fw fl p items st).1 ∧
      ((∀ q, fw q = q) →
        p.cx (rounded_classify_by_policy fw fl p items st).2.totalExpanderWeight
          = p.cx st.totalExpanderWeight
            + leftover_weight p (rounded_classify_by_policy fw fl p items st).1) ∧
      (rounded_classify_by_policy fw fl p items st).2.done = st.done := by
  intro items
  induction items with
  | nil => intro st; simp [rounded_classify_by_policy, leftover_users, leftover_weight]
  | cons it rest ih =>
    intro st
    unfold rounded_classify_by_policy
    split_ifs with h1 h2 h3
    · obtain ⟨a, b, c⟩ := ih st
      refine ⟨?_, fun hfw => ?_, c⟩
      · simp only [leftover_users, List.countP_cons] at a ⊢
        simp [uses_leftover, h1, a]
      · simp only [leftover_weight]
        simp [uses_leftover, h1, b hfw]
    · obtain ⟨a, b, c⟩ := ih
        { st with leftover := floor_at_zero (fl (st.leftover - p.cx it.minimum_size)) }
      refine ⟨?_, fun hfw => ?_, c⟩
      · simp only [leftover_users, List.countP_cons] at a ⊢
        simp [uses_leftover, a]
      · simp only [leftover_weight]
        simp [uses_leftover, b hfw]
    · obtain ⟨a, b, c⟩ := ih
        { st with leftover := floor_at_zero (fl (st.leftover - p.cx it.minimum_size)) }
      refine ⟨?_, fun hfw => ?_, c⟩
      · simp only [leftover_users, List.countP_cons] at a ⊢
        simp [uses_leftover, a]
      · simp only [leftover_weight]
        simp [uses_leftover, b hfw]
    · obtain ⟨a, b, c⟩ := ih ⟨st.leftover, st.itemsUsingLeftover + 1,
        rounded_size_add fw st.totalExpanderWeight it.weight, st.done⟩
      have hv : it.visible = true := by simpa using h1
      refine ⟨?_, fun hfw => ?_, c⟩
      · simp only [leftover_users, List.countP_cons] at a ⊢
        simp only [a]
        simp [uses_leftover, hv]
        omega
      · simp only [leftover_weight]
        rw [b hfw, cx_rounded_size_add, hfw]
        simp [uses_leftover, hv]
        ring

theorem rounded_resolve_pass_skip (fw fl : ℚ → ℚ) (p : AxisPolicy) (it : item)
    (d : disposition_e) (rest : List (item × disposition_e)) (st : solver_state)
    (h : uses_leftover (it, d) = false) :
    rounded_resolve_pass fw fl p ((it, d) :: rest) st
      = ((it, d) :: (rounded_resolve_pass fw fl p rest st).1,
          (rounded_resolve_pass fw fl p rest st).2) := by
  rw [rounded_resolve_pass]
  by_cases hv : it.visible = false
  · rw [if_pos hv]
  · rw [if_neg hv]
    have hd : d ≠ disposition_e.Unknown ∧ d ≠ disposition_e.Weighted := by
      simp only [uses_leftover, Bool.and_eq_false_iff, Bool.or_eq_false_iff,
        decide_eq_false_iff_not] at h
      rcases h with h | h
      · exact absurd h hv
      · exact h
    rw [if_pos hd]

theorem rounded_resolve_pass_fits (fw fl : ℚ → ℚ) (p : AxisPolicy) (it : item)
    (d : disposition_e) (rest : List (item × disposition_e)) (st : solver_state)
    (h : uses_leftover (it, d) = true) (hf : rounded_share_fits fl p it st = true) :
    rounded_resolve_pass fw fl p ((it, d) :: rest) st
      = ((it, disposition_e.Weighted) :: (rounded_resolve_pass fw fl p rest st).1,
          (rounded_resolve_pass fw fl p rest st).2) := by
  obtain ⟨hv, hd⟩ := (uses_leftover_iff it d).mp h
  rw [rounded_resolve_pass]
  have h1 : ¬ it.visible = false := by simp [hv]
  have h2 : ¬ (d ≠ disposition_e.Unknown ∧ d ≠ disposition_e.Weighted) := by
    rintro ⟨a, b⟩; rcases hd with hd | hd <;> contradiction
  rw [if_neg h1, if_neg h2, if_pos hf]

theorem rounded_resolve_pass_break (fw fl : ℚ → ℚ) (p : AxisPolicy) (it : item)
    (d : disposition_e) (rest : List (item × disposition_e)) (st : solver_state)
    (h : uses_leftover (it, d) = true) (hf : rounded_share_fits fl p it st = false)
    (h0 : (rounded_resolve_item fw fl p it st).itemsUsingLeftover = 0) :
    rounded_resolve_pass fw fl p ((it, d) :: rest) st
      = ((it, rounded_resolved_disposition fl p it st) :: rest,
          rounded_resolve_item fw fl p it st) := by
  obtain ⟨hv, hd⟩ := (uses_leftover_iff it d).mp h
  rw [rounded_resolve_pass]
  have h1 : ¬ it.visible = false := by simp [hv]
  have h2 : ¬ (d ≠ disposition_e.Unknown ∧ d ≠ disposition_e.Weighted) := by
    rintro ⟨a, b⟩; rcases hd with hd | hd <;> contradiction
  have h3 : ¬ rounded_share_fits fl p it st = true := by simp [hf]
  rw [if_neg h1, if_neg h2, if_neg h3, if_pos h0]

theorem rounded_resolve_pass_continue (fw fl : ℚ → ℚ) (p : AxisPolicy) (it : item)
    (d : disposition_e) (rest : List (item × disposition_e)) (st : solver_state)
    (h : uses_leftover (it, d) = true) (hf : rounded_share_fits fl p it st = false)
    (h0 : (rounded_resolve_item fw fl p it st).itemsUsingLeftover ≠ 0) :
    rounded_resolve_pass fw fl p ((it, d) :: rest) st
      = ((it, rounded_resolved_disposition fl p it st) ::
            (rounded_resolve_pass fw fl p rest
              { rounded_resolve_item fw fl p it st with done := false }).1,
          (rounded_resolve_pass fw fl p rest
              { rounded_resolve_item fw fl p it st with done := false }).2) := by
  obtain ⟨hv, hd⟩ := (uses_leftover_iff it d).mp h
  rw [rounded_resolve_pass]
  have h1 : ¬ it.visible = false := by simp [hv]
  have h2 : ¬ (d ≠ disposition_e.Unknown ∧ d ≠ disposition_e.Weighted) := by
    rintro ⟨a, b⟩; rcases hd with hd | hd <;> contradiction
  have h3 : ¬ rounded_share_fits fl p it st = true := by simp [hf]
  rw [if_neg h1, if_neg h2, if_neg h3, if_neg h0]

theorem uses_leftover_rounded_resolved (fl : ℚ → ℚ) (p : AxisPolicy) (it it1 : item)
    (st : solver_state) :
    uses_leftover (it1, rounded_resolved_disposition fl p it st) = false := by
  unfold uses_leftover rounded_resolved_disposition
  split_ifs <;> simp

theorem rounded_settled_cons (fl : ℚ → ℚ) (p : AxisPolicy) (x : item × disposition_e)
    (rest : List (item × disposition_e)) (st : solver_state) :
    rounded_settled fl p (x :: rest) st ↔
      (uses_leftover x = true →
        x.2 = disposition_e.Weighted ∧ rounded_share_fits fl p x.1 st = true) ∧
        rounded_settled fl p rest st := by
  unfold rounded_settled
  simp

/-- What one pass of the `for` loop does to the solver variables in rounded arithmetic:
the count of items using leftover follows the entries that use leftover, and so does the
total weight when the weight operations are exact; a pass that ends with `done` still
true either met the `break` or changed nothing and found every candidate fitting; a pass
that clears `done` has lowered the count. -/
theorem rounded_resolve_pass_inv (fw fl : ℚ → ℚ) (p : AxisPolicy) :
    ∀ (ds : List (item × disposition_e)) (st : solver_state),
      leftover_users ds ≤ st.itemsUsingLeftover →
      (rounded_resolve_pass fw fl p ds st).2.itemsUsingLeftover + leftover_users ds
          = st.itemsUsingLeftover + leftover_users (rounded_resolve_pass fw fl p ds st).1 ∧
      ((∀ q, fw q = q) →
        p.cx (rounded_resolve_pass fw fl p ds st).2.totalExpanderWeight
            + leftover_weight p ds
          = p.cx st.totalExpanderWeight
            + leftover_weight p (rounded_resolve_pass fw fl p ds st).1) ∧
      (rounded_resolve_pass fw fl p ds st).2.itemsUsingLeftover ≤ st.itemsUsingLeftover ∧
      ((rounded_resolve_pass fw fl p ds st).2.done = true → st.done = true ∧
        ((rounded_resolve_pass fw fl p ds st).2.itemsUsingLeftover = 0 ∨
          ((rounded_resolve_pass fw fl p ds st).2 = st ∧
            rounded_settled fl p (rounded_resolve_pass fw fl p ds st).1 st))) ∧
      ((rounded_resolve_pass fw fl p ds st).2.done = false → st.done = true →
        (rounded_resolve_pass fw fl p ds st).2.itemsUsingLeftover
          < st.itemsUsingLeftover) := by
  intro ds
  induction ds with
  | nil =>
    intro st _
    simp [rounded_resolve_pass, rounded_settled]
  | cons x rest ih =>
    intro st hle
    obtain ⟨it, d⟩ := x
    rw [leftover_users_cons] at hle
    by_cases hu : uses_leftover (it, d) = true
    · rw [if_pos hu] at hle
      by_cases hf : rounded_share_fits fl p it st = true
      · rw [rounded_resolve_pass_fits fw fl p it d rest st hu hf]
        obtain ⟨a, b, c, e, f⟩ := ih st (by omega)
        have hw : uses_leftover (it, disposition_e.Weighted) = true := by
          rw [uses_leftover_iff]; exact ⟨((uses_leftover_iff it d).mp hu).1, Or.inr rfl⟩
        refine ⟨?_, fun hfw => ?_, c, ?_, f⟩
        · simp only [leftover_users_cons, if_pos hu, if_pos hw]; omega
        · have b := b hfw
          simp only [leftover_weight_cons, if_pos hu, if_pos hw]; linarith
        · intro hdone
          obtain ⟨e1, e2⟩ := e hdone
          refine ⟨e1, ?_⟩
          rcases e2 with e2 | ⟨e2, e3⟩
          · exact Or.inl e2
          · refine Or.inr ⟨e2, ?_⟩
            rw [rounded_settled_cons]
            exact ⟨fun _ => ⟨rfl, hf⟩, e3⟩
      · have hf1 : rounded_share_fits fl p it st = false := by simpa using hf
        have hr : uses_leftover (it, rounded_resolved_disposition fl p it st) = false :=
          uses_leftover_rounded_resolved fl p it it st
        have hcount : (rounded_resolve_item fw fl p it st).itemsUsingLeftover
            = st.itemsUsingLeftover - 1 := rfl
        have hweight : (∀ q, fw q = q) →
            p.cx (rounded_resolve_item fw fl p it st).totalExpanderWeight
              = p.cx st.totalExpanderWeight - p.cx it.weight := by
          intro hfw
          unfold rounded_resolve_item; simp only []; rw [cx_rounded_size_sub, hfw]
        by_cases h0 : (rounded_resolve_item fw fl p it st).itemsUsingLeftover = 0
        · rw [rounded_resolve_pass_break fw fl p it d rest st hu hf1 h0]
          refine ⟨?_, fun hfw => ?_, ?_, ?_, ?_⟩
          · simp only [leftover_users_cons, if_pos hu, hr]; simp; omega
          · simp only [leftover_weight_cons, if_pos hu, hr, hweight hfw]; simp; ring
          · simp only []; omega
          · intro hdone
            exact ⟨hdone, Or.inl h0⟩
          · intro hdone hst
            simp only [] at hdone
            have : (rounded_resolve_item fw fl p it st).done = st.done := rfl
            rw [this, hst] at hdone
            exact absurd hdone (by simp)
        · rw [rounded_resolve_pass_continue fw fl p it d rest st hu hf1 h0]
          obtain ⟨a, b, c, e, f⟩ := ih { rounded_resolve_item fw fl p it st with done := false }
            (by simp only []; omega)
          simp only [] at a b c e f
          refine ⟨?_, fun hfw => ?_, ?_, ?_, ?_⟩
          · simp only [leftover_users_cons, if_pos hu, hr]; simp; omega
          · have b := b hfw
            simp only [leftover_weight_cons, if_pos hu, hr]; simp
            rw [hweight hfw] at b; linarith
          · simp only []; omega
          · intro hdone
            have := (e hdone).1
            exact absurd this (by simp)
          · intro _ _
            simp only []; omega
    · have hu1 : uses_leftover (it, d) = false := by simpa using hu
      rw [if_neg hu] at hle
      rw [rounded_resolve_pass_skip fw fl p it d rest st hu1]
      obtain ⟨a, b, c, e, f⟩ := ih st (by omega)
      refine ⟨?_, fun hfw => ?_, c, ?_, f⟩
      · simp only [leftover_users_cons, if_neg hu]; omega
      · have b := b hfw
        simp only [leftover_weight_cons, if_neg hu]; linarith
      · intro hdone
        obtain ⟨e1, e2⟩ := e hdone
        refine ⟨e1, ?_⟩
        rcases e2 with e2 | ⟨e2, e3⟩
        · exact Or.inl e2
        · refine Or.inr ⟨e2, ?_⟩
          rw [rounded_settled_cons]
          exact ⟨fun h => absurd h hu, e3⟩

/-- The `while` loop in rounded arithmetic, unrolled more often than there are items
using leftover, ends in a state in which its condition is false (it has terminated), and
keeps the invariants. -/
theorem rounded_resolve_loop_exit (fw fl : ℚ → ℚ) (p : AxisPolicy) :
    ∀ (fuel : Nat) (ds : List (item × disposition_e)) (st : solver_state),
      leftover_users ds = st.itemsUsingLeftover →
      (st.done = true → rounded_settled fl p ds st) →
      (st.done = false → st.itemsUsingLeftover < fuel) →
      leftover_users (rounded_resolve_loop fw fl p fuel ds st).1
          = (rounded_resolve_loop fw fl p fuel ds st).2.itemsUsingLeftover ∧
      ((∀ q, fw q = q) → p.cx st.totalExpanderWeight = leftover_weight p ds →
        p.cx (rounded_resolve_loop fw fl p fuel ds st).2.totalExpanderWeight
          = leftover_weight p (rounded_resolve_loop fw fl p fuel ds st).1) ∧
      rounded_settled fl p (rounded_resolve_loop fw fl p fuel ds st).1
        (rounded_resolve_loop fw fl p fuel ds st).2 ∧
      ¬ ((rounded_resolve_loop fw fl p fuel ds st).2.done = false ∧
          0 < (rounded_resolve_loop fw fl p fuel ds st).2.itemsUsingLeftover) := by
  intro fuel
  induction fuel with
  | zero =>
    intro ds st hu hs hfuel
    have hd : st.done = true := by
      cases h : st.done
      · exact absurd (hfuel h) (by omega)
      · rfl
    simp only [rounded_resolve_loop]
    exact ⟨hu, fun _ hw => hw, hs hd, by simp [hd]⟩
  | succ n ih =>
    intro ds st hu hs hfuel
    rw [rounded_resolve_loop]
    by_cases hg : st.done = false ∧ 0 < st.itemsUsingLeftover
    · rw [if_pos hg]
      obtain ⟨a, b, c, e, f⟩ := rounded_resolve_pass_inv fw fl p ds { st with done := true }
        (by simp only []; omega)
      simp only [] at a b c e f
      obtain ⟨r1, r2, r3, r4⟩ := ih (rounded_resolve_pass fw fl p ds { st with done := true }).1
        (rounded_resolve_pass fw fl p ds { st with done := true }).2
        (by omega)
        (by
          intro hdone
          rcases (e hdone).2 with e2 | ⟨e2, e3⟩
          · intro x hx hux
            have h0 : leftover_users
                (rounded_resolve_pass fw fl p ds { st with done := true }).1 = 0 := by
              omega
            unfold leftover_users at h0
            rw [List.countP_eq_zero] at h0
            exact absurd hux (h0 x hx)
          · rw [e2]; exact e3)
        (by
          intro hdone
          have := f hdone trivial
          have := hfuel hg.1
          omega)
      refine ⟨r1, fun hfw hw => r2 hfw ?_, r3, r4⟩
      have b := b hfw
      linarith
    · rw [if_neg hg]
      refine ⟨hu, fun _ hw => hw, ?_, hg⟩
      by_cases hd : st.done = true
      · exact hs hd
      · have h0 : st.itemsUsingLeftover = 0 := by
          have hd1 : st.done = false := by simpa using hd
          by_contra hne
          exact hg ⟨hd1, Nat.pos_of_ne_zero hne⟩
        intro x hx hux
        rw [← hu] at h0
        unfold leftover_users at h0
        rw [List.countP_eq_zero] at h0
        exact absurd hux (h0 x hx)

/-- When the `while` loop has ended in rounded arithmetic, the count of items using
leftover is the number of entries that use leftover and every one of them is `Weighted`
with a rounded share that fits against the final variables; the total expander weight is
the sum of their weights when the weight operations are exact. -/
theorem rounded_classification_settled (fw fl : ℚ → ℚ) (p : AxisPolicy) (l : layout)
    (aSize : size) :
    leftover_users (rounded_classification fw fl p l aSize).1
        = (rounded_classification fw fl p l aSize).2.itemsUsingLeftover ∧
    ((∀ q, fw q = q) →
      p.cx (rounded_classification fw fl p l aSize).2.totalExpanderWeight
        = leftover_weight p (rounded_classification fw fl p l aSize).1) ∧
    rounded_settled fl p (rounded_classification fw fl p l aSize).1
      (rounded_classification fw fl p l aSize).2 ∧
    ¬ ((rounded_classification fw fl p l aSize).2.done = false ∧
        0 < (rounded_classification fw fl p l aSize).2.itemsUsingLeftover) := by
  obtain ⟨a, b, c⟩ := rounded_classify_by_policy_state fw fl p l.items
    { leftover := p.cx (rounded_availableSize fl p l aSize), itemsUsingLeftover := 0,
      totalExpanderWeight := ⟨0, 0⟩, done := false }
  have hW0 : p.cx (⟨0, 0⟩ : size) = 0 := by cases p <;> rfl
  simp only [hW0, zero_add] at a b c
  obtain ⟨r1, r2, r3, r4⟩ := rounded_resolve_loop_exit fw fl p
    ((rounded_initial_classification fw fl p l aSize).2.itemsUsingLeftover + 1)
    (rounded_initial_classification fw fl p l aSize).1
    (rounded_initial_classification fw fl p l aSize).2
    a.symm
    (by intro h; rw [rounded_initial_classification, c] at h; exact absurd h (by simp))
    (by intro _; omega)
  exact ⟨r1, fun hfw => r2 hfw (b hfw), r3, r4⟩

theorem rounded_share_fits_iff (fl : ℚ → ℚ) (p : AxisPolicy) (it : item) (st : solver_state) :
    rounded_share_fits fl p it st = true ↔
      p.cx st.totalExpanderWeight ≠ 0 ∧
      p.cx it.minimum_size
        < fl (fl (p.cx it.weight / p.cx st.totalExpanderWeight) * st.leftover) ∧
      fl (fl (p.cx it.weight / p.cx st.totalExpanderWeight) * st.leftover)
        < p.cx it.maximum_size := by
  unfold rounded_share_fits rounded_weightedSize rounded_fdiv
  by_cases hW : p.cx st.totalExpanderWeight = 0
  · rw [if_pos hW]
    simp only [hW, ne_eq, not_true_eq_false, false_and, iff_false]
    split_ifs <;> simp [rounded_fmul, flt, fgt] <;> split_ifs <;> simp [flt, fgt]
  · rw [if_neg hW]
    simp [rounded_fmul, flt, fgt, hW]

/-! ### The rounded classification without rounding is the exact one -/

theorem rounded_weightedSize_exact (p : AxisPolicy) (it : item) (st : solver_state) :
    rounded_weightedSize (fun q => q) p it st = weightedSize p it st := by
  unfold rounded_weightedSize weightedSize rounded_fdiv fdiv
  split_ifs <;> rfl

theorem rounded_share_fits_exact (p : AxisPolicy) (it : item) (st : solver_state) :
    rounded_share_fits (fun q => q) p it st = share_fits p it st := by
  unfold rounded_share_fits share_fits
  rw [rounded_weightedSize_exact]

theorem rounded_resolved_disposition_exact (p : AxisPolicy) (it : item) (st : solver_state) :
    rounded_resolved_disposition (fun q => q) p it st = resolved_disposition p it st := by
  unfold rounded_resolved_disposition resolved_disposition
  rw [rounded_weightedSize_exact]

theorem rounded_resolve_item_exact (p : AxisPolicy) (it : item) (st : solver_state) :
    rounded_resolve_item (fun q => q) (fun q => q) p it st = resolve_item p it st := by
  unfold rounded_resolve_item resolve_item
  rw [rounded_resolved_disposition_exact]
  rfl

theorem rounded_classify_by_policy_exact (p : AxisPolicy) :
    ∀ (items : List item) (st : solver_state),
      rounded_classify_by_policy (fun q => q) (fun q => q) p items st
        = classify_by_policy p items st := by
  intro items
  induction items with
  | nil => intro st; rfl
  | cons it rest ih =>
    intro st
    unfold rounded_classify_by_policy classify_by_policy
    simp only [ih]
    rfl

theorem rounded_resolve_pass_exact (p : AxisPolicy) :
    ∀ (ds : List (item × disposition_e)) (st : solver_state),
      rounded_resolve_pass (fun q => q) (fun q => q) p ds st = resolve_pass p ds st := by
  intro ds
  induction ds with
  | nil => intro st; rfl
  | cons x rest ih =>
    intro st
    obtain ⟨it, d⟩ := x
    unfold rounded_resolve_pass resolve_pass
    simp only [ih, rounded_share_fits_exact, rounded_resolve_item_exact,
      rounded_resolved_disposition_exact]

theorem rounded_resolve_loop_exact (p : AxisPolicy) :
    ∀ (fuel : Nat) (ds : List (item × disposition_e)) (st : solver_state),
      rounded_resolve_loop (fun q => q) (fun q => q) p fuel ds st
        = resolve_loop p fuel ds st := by
  intro fuel
  induction fuel with
  | zero => intro ds st; rfl
  | succ n ih =>
    intro ds st
    unfold rounded_resolve_loop resolve_loop
    simp only [ih, rounded_resolve_pass_exact]

theorem rounded_availableSize_exact (p : AxisPolicy) (l : layout) (aSize : size) :
    rounded_availableSize (fun q => q) p l aSize = availableSize p l aSize := rfl

/-- With both roundings the identity, the rounded classification is the exact one. -/
theorem rounded_classification_exact (p : AxisPolicy) (l : layout) (aSize : size) :
    rounded_classification (fun q => q) (fun q => q) p l aSize = classification p l aSize := by
  unfold rounded_classification classification rounded_initial_classification
    initial_classification
  rw [rounded_resolve_loop_exact, rounded_classify_by_policy_exact,
    rounded_availableSize_exact]

/-! ### What is left unresolved, in rounded arithmetic -/

theorem rounded_settled_weighted (fl : ℚ → ℚ) (p : AxisPolicy)
    (ds : List (item × disposition_e)) (st : solver_state)
    (hs : rounded_settled fl p ds st) :
    ∀ x ∈ ds, uses_leftover x = true → is_weighted x = true := by
  intro x hx hu
  have h1 := (hs x hx hu).1
  have hv : x.1.visible = true := ((uses_leftover_iff x.1 x.2).mp hu).1
  simp [is_weighted, hv, h1]

/-- C28, counterexample: three Expanding widgets whose weights are the `double` values of
0.1, 0.2 and 0.3 and whose maxima are 1, 1 and 1000, classified in 100 units with every
operation rounded to `double`.  The weights add up to 0.6000000000000001 at line 126;
the first two widgets are resolved at their maxima and line 151 subtracts their weights;
the third widget is left unresolved and ends up `Weighted`.  The final total weight is
5404319552844597 / 2 ^ 54 (0.3000000000000001), the weight of the only `Weighted` item
is 5404319552844595 / 2 ^ 54 (0.3). -/
theorem rounded_total_weight_misses_weighted_sum :
    double (double (1 / 10)) = double (1 / 10) ∧
    double (double (2 / 10)) = double (2 / 10) ∧
    double (double (3 / 10)) = double (3 / 10) ∧
    (rounded_initial_classification double double AxisPolicy.column_major tenths_layout
      ⟨100, 20⟩).2.totalExpanderWeight.cx = 5404319552844596 / 9007199254740992 ∧
    (rounded_classification double double AxisPolicy.column_major tenths_layout
      ⟨100, 20⟩).1.map Prod.snd
      = [disposition_e.TooSmall, disposition_e.TooSmall, disposition_e.Weighted] ∧
    (rounded_classification double double AxisPolicy.column_major tenths_layout
      ⟨100, 20⟩).2.itemsUsingLeftover = 1 ∧
    (rounded_classification double double AxisPolicy.column_major tenths_layout
      ⟨100, 20⟩).2.leftover = 98 ∧
    AxisPolicy.column_major.cx (rounded_classification double double AxisPolicy.column_major
      tenths_layout ⟨100, 20⟩).2.totalExpanderWeight
      = 5404319552844597 / 18014398509481984 ∧
    weighted_weight AxisPolicy.column_major
      (rounded_classification double double AxisPolicy.column_major tenths_layout
        ⟨100, 20⟩).1 = 5404319552844595 / 18014398509481984 ∧
    AxisPolicy.column_major.cx (rounded_classification double double AxisPolicy.column_major
      tenths_layout ⟨100, 20⟩).2.totalExpanderWeight
      ≠ weighted_weight AxisPolicy.column_major
          (rounded_classification double double AxisPolicy.column_major tenths_layout
            ⟨100, 20⟩).1 := by
  decide!

/-- C28, amended.  Box layout solver in rounded arithmetic, whatever the roundings `fw`
(of the weight additions of line 126 and subtractions of line 151) and `fl` (of every
other operation) are: when the `while` loop has ended, every expanding candidate that is
still unresolved (its entry passes the tests of lines 135-139) is `Weighted`, the final
total weight is not zero for it, and its share as line 142 computes it, the rounded
product of the rounded quotient `weight / total weight` and the leftover, taken with the
final variables, lies strictly between its primary minimum and its primary maximum; the
`Weighted` entries are exactly the unresolved ones and the final count of items using
leftover is their number; and when the weight additions and subtractions are exact, the
final total weight is the sum of the weights of the `Weighted` entries. -/
theorem unresolved_candidates_fit_under_rounding (fw fl : ℚ → ℚ) (p : AxisPolicy)
    (l : layout) (aSize : size) :
    (∀ x ∈ (rounded_classification fw fl p l aSize).1, uses_leftover x = true →
      x.2 = disposition_e.Weighted ∧
      p.cx (rounded_classification fw fl p l aSize).2.totalExpanderWeight ≠ 0 ∧
      p.cx x.1.minimum_size
        < fl (fl (p.cx x.1.weight
                / p.cx (rounded_classification fw fl p l aSize).2.totalExpanderWeight)
              * (rounded_classification fw fl p l aSize).2.leftover) ∧
      fl (fl (p.cx x.1.weight
                / p.cx (rounded_classification fw fl p l aSize).2.totalExpanderWeight)
              * (rounded_classification fw fl p l aSize).2.leftover)
        < p.cx x.1.maximum_size) ∧
    (∀ x ∈ (rounded_classification fw fl p l aSize).1,
      is_weighted x = true ↔ uses_leftover x = true) ∧
    (rounded_classification fw fl p l aSize).2.itemsUsingLeftover
      = (rounded_classification fw fl p l aSize).1.countP is_weighted ∧
    ((∀ q, fw q = q) →
      p.cx (rounded_classification fw fl p l aSize).2.totalExpanderWeight
        = weighted_weight p (rounded_classification fw fl p l aSize).1) := by
  obtain ⟨hcount, hweight, hs, _⟩ := rounded_classification_settled fw fl p l aSize
  have hw := rounded_settled_weighted fl p _ _ hs
  refine ⟨?_, ?_, ?_, ?_⟩
  · intro x hx hu
    exact ⟨(hs x hx hu).1, (rounded_share_fits_iff fl p x.1 _).mp (hs x hx hu).2⟩
  · intro x hx
    exact ⟨uses_leftover_of_weighted x, hw x hx⟩
  · rw [countP_weighted_eq_users _ hw, hcount]
  · intro hfw
    rw [weighted_weight_eq_leftover_weight p _ hw, hweight hfw]

/-- Witness of the amended C28.  In `double` arithmetic the third widget of
`tenths_layout` is left unresolved in 100 units and its rounded share lies above its
minimum 0; with exact arithmetic the third widget of `staggered_maxima_layout` is left
unresolved in 90 units and the final total weight is the sum of the weights of the
`Weighted` entries. -/
theorem unresolved_candidates_fit_under_rounding_witness :
    (square_widget size_policy_e.Expanding (double (3 / 10)) 0 1000, disposition_e.Weighted)
      ∈ (rounded_classification double double AxisPolicy.column_major tenths_layout
          ⟨100, 20⟩).1 ∧
    AxisPolicy.column_major.cx
        (square_widget size_policy_e.Expanding (double (3 / 10)) 0 1000).minimum_size
      < double (double (AxisPolicy.column_major.cx
            (square_widget size_policy_e.Expanding (double (3 / 10)) 0 1000).weight
          / AxisPolicy.column_major.cx (rounded_classification double double
              AxisPolicy.column_major tenths_layout ⟨100, 20⟩).2.totalExpanderWeight)
        * (rounded_classification double double AxisPolicy.column_major tenths_layout
            ⟨100, 20⟩).2.leftover) ∧
    AxisPolicy.column_major.cx (rounded_classification (fun q => q) (fun q => q)
        AxisPolicy.column_major staggered_maxima_layout ⟨90, 20⟩).2.totalExpanderWeight
      = weighted_weight AxisPolicy.column_major
          (rounded_classification (fun q => q) (fun q => q) AxisPolicy.column_major
            staggered_maxima_layout ⟨90, 20⟩).1 :=
  ⟨by decide!,
   ((unresolved_candidates_fit_under_rounding double double AxisPolicy.column_major
      tenths_layout ⟨100, 20⟩).1
      (square_widget size_policy_e.Expanding (double (3 / 10)) 0 1000, disposition_e.Weighted)
      (by decide!) (by decide!)).2.2.1,
   (unresolved_candidates_fit_under_rounding (fun q => q) (fun q => q)
      AxisPolicy.column_major staggered_maxima_layout ⟨90, 20⟩).2.2.2 (fun _ => rfl)⟩

/-! ## The row that the solver lays out: extents, inserted spacing, margins -/

theorem spacing_after_bounds (p : AxisPolicy) (l : layout) (it : item) (s : size)
    (hs : 0 ≤ p.cx l.spacing) :
    spacing_after p l it s ≤ p.cx l.spacing := by
  unfold spacing_after
  split_ifs <;> linarith

/-- The spacing inserted between the items is at most one spacing for every laid-out item
but one. -/
theorem spacing_inserted_le (p : AxisPolicy) (l : layout) (hs : 0 ≤ p.cx l.spacing) :
    ∀ zs : List (item × Option (point × size)),
      spacing_inserted p l zs
        ≤ p.cx l.spacing * (((zs.countP (fun x => x.2.isSome) - 1 : ℕ)) : ℚ) := by
  intro zs
  induction zs with
  | nil => simp [spacing_inserted]
  | cons z rest ih =>
    obtain ⟨it, o⟩ := z
    cases o with
    | none =>
      simp only [spacing_inserted, List.countP_cons, Option.isSome_none, Bool.false_eq_true,
        if_false, Nat.add_zero]
      exact ih
    | some r =>
      simp only [spacing_inserted, List.countP_cons, Option.isSome_some, if_true]
      by_cases hany : rest.any (fun x => x.2.isSome) = true
      · rw [if_pos hany]
        have hpos : 0 < rest.countP (fun x => x.2.isSome) := by
          rw [List.countP_pos_iff]
          rw [List.any_eq_true] at hany
          exact hany
        have h1 := spacing_after_bounds p l it r.2 hs
        have hcast : (((rest.countP (fun x => x.2.isSome) + 1 - 1 : ℕ)) : ℚ)
            = (((rest.countP (fun x => x.2.isSome) - 1 : ℕ)) : ℚ) + 1 := by
          have : rest.countP (fun x => x.2.isSome) + 1 - 1
              = (rest.countP (fun x => x.2.isSome) - 1) + 1 := by omega
          rw [this]
          push_cast
          ring
        rw [hcast]
        nlinarith [ih]
      · rw [if_neg hany]
        have hzero : rest.countP (fun x => x.2.isSome) = 0 := by
          rw [List.countP_eq_zero]
          intro x hx hsome
          apply hany
          rw [List.any_eq_true]
          exact ⟨x, hx, hsome⟩
        rw [hzero] at ih ⊢
        simpa using ih

theorem place_items_laid_out (bits : Nat → Nat → Nat → Nat) (p : AxisPolicy) (l : layout)
    (av : size) (st : solver_state) (nbits : Nat) :
    ∀ (ds : List (item × disposition_e)) (ps : place_state),
      ((ds.map Prod.fst).zip (place_items bits p l av st nbits ds ps)).countP
          (fun x => x.2.isSome)
        = ds.countP (fun x => x.1.visible) := by
  intro ds
  induction ds with
  | nil => intro ps; rfl
  | cons y rest ih =>
    intro ps
    obtain ⟨it, d⟩ := y
    by_cases hv : it.visible = true
    · rw [place_items_visible bits p l av st nbits it d rest ps hv]
      simp only [List.map_cons, List.zip_cons_cons, List.countP_cons, Option.isSome_some,
        if_true, hv, ih]
    · have hv1 : it.visible = false := by simpa using hv
      rw [place_items_hidden bits p l av st nbits it d rest ps hv1]
      simp only [List.map_cons, List.zip_cons_cons, List.countP_cons, Option.isSome_none,
        Bool.false_eq_true, if_false, hv1, ih]

theorem items_visible_all (l : layout) :
    l.items_visible ItemTypeAll = l.items.countP (fun it => it.visible) := by
  unfold layout.items_visible
  apply List.countP_congr
  intro it _
  cases hk : it.kind <;> simp [item_type_e.selects, ItemTypeAll, hk]

/-- The number of items that `do_layout_items` lays out is the number of visible items. -/
theorem do_layout_items_laid_out (bits : Nat → Nat → Nat → Nat) (p : AxisPolicy)
    (l : layout) (aPosition : point) (aSize : size) :
    (l.items.zip (do_layout_items bits p l aPosition aSize).2).countP (fun x => x.2.isSome)
      = l.items_visible ItemTypeAll := by
  by_cases h0 : l.items_visible ItemTypeAll = 0
  · unfold do_layout_items
    rw [if_pos h0, h0]
    rw [List.countP_eq_zero]
    intro x hx
    have := (List.of_mem_zip hx).2
    simp only [List.mem_map] at this
    obtain ⟨_, _, h⟩ := this
    simp [← h]
  · unfold do_layout_items
    rw [if_neg h0]
    simp only []
    have hfst := classification_fst p l aSize
    rw [← hfst, place_items_laid_out, items_visible_all, ← hfst, List.countP_map]
    rfl

theorem items_visible_split (l : layout) :
    l.items_visible ItemTypeAll
      = l.items_visible ItemTypeWidgetOrLayout + l.items_visible ItemTypeSpacerOnly := by
  unfold layout.items_visible
  induction l.items with
  | nil => rfl
  | cons it rest ih =>
    simp only [List.countP_cons, ih]
    cases hk : it.kind <;> cases hv : it.visible <;>
      simp [item_type_e.selects, ItemTypeAll, ItemTypeWidgetOrLayout, ItemTypeSpacerOnly] <;>
      omega

/-- When no item counts as zero-sized and every visible item takes part in the count of
line 97, the spacing reserved at lines 98-99 is one spacing for every visible item but
one. -/
theorem reserved_spacing_of_all_counted (p : AxisPolicy) (l : layout) (aSize : size)
    (hlen : l.items.length < 4294967296)
    (hzero : items_zero_sized p l aSize = 0)
    (hspacers : l.iAlwaysUseSpacing = true ∨ l.items_visible ItemTypeSpacerOnly = 0) :
    reserved_spacing p l aSize
      = p.cx l.spacing * (((l.items_visible ItemTypeAll - 1 : ℕ)) : ℚ) := by
  have hbase : (if l.iAlwaysUseSpacing = true then l.items_visible ItemTypeAll
      else l.items_visible ItemTypeWidgetOrLayout) = l.items_visible ItemTypeAll := by
    split_ifs with ha
    · rfl
    · rcases hspacers with h | h
      · exact absurd h ha
      · rw [items_visible_split, h, Nat.add_zero]
  have hlt : l.items_visible ItemTypeAll < 4294967296 :=
    lt_of_le_of_lt (items_visible_le_length l ItemTypeAll) hlen
  have hspaces : spaces p l aSize = l.items_visible ItemTypeAll := by
    unfold spaces
    rw [hbase, hzero]
    unfold u32sub
    omega
  unfold reserved_spacing
  rw [hspaces]
  split_ifs with h1
  · rfl
  · have : l.items_visible ItemTypeAll - 1 = 0 := by omega
    rw [this]
    simp

/-- C3, counterexample: five layouts laid out in column-major order at the origin, for
each of which the extents of the items, the spacing inserted between them and the margins
add up to more than the allotted primary size.  A Fixed widget of minimum 100 in 50 units
gets 100.  Two Expanding widgets of weight -1 in 2 units get 2 each (the total weight -2
fails the guard of line 159 and both counter units go to each).  An Expanding widget of
weight 100 and maximum 90 before one of weight 1 and minimum 50, in 100 units, get 90 and
50.  A Fixed widget of minimum -50 raises the leftover to 150, and the Expanding widgets
after it get 120 and 40 in 100 units.  With a spacing of -5 the reservation adds 5 units
to the available size, the Expanding widget gets 105 in 100 units and no spacing is
inserted next to the widget of extent 0 before it.  In the last four the minimums fit. -/
theorem row_may_exceed_allotted_size :
    ¬ (total_extent AxisPolicy.column_major
          (do_layout_items bresenham_counter AxisPolicy.column_major wide_fixed_layout
            ⟨0, 0⟩ ⟨50, 20⟩).2
        + spacing_inserted AxisPolicy.column_major wide_fixed_layout
            (wide_fixed_layout.items.zip
              (do_layout_items bresenham_counter AxisPolicy.column_major wide_fixed_layout
                ⟨0, 0⟩ ⟨50, 20⟩).2)
        + primary_margins AxisPolicy.column_major wide_fixed_layout.margins
        ≤ AxisPolicy.column_major.cx ⟨50, 20⟩) ∧
    (visible_minimums AxisPolicy.column_major negative_weights_layout.items
        + reserved_spacing AxisPolicy.column_major negative_weights_layout ⟨2, 20⟩
        + primary_margins AxisPolicy.column_major negative_weights_layout.margins
        ≤ AxisPolicy.column_major.cx ⟨2, 20⟩ ∧
      ¬ (total_extent AxisPolicy.column_major
          (do_layout_items bresenham_counter AxisPolicy.column_major negative_weights_layout
            ⟨0, 0⟩ ⟨2, 20⟩).2
        + spacing_inserted AxisPolicy.column_major negative_weights_layout
            (negative_weights_layout.items.zip
              (do_layout_items bresenham_counter AxisPolicy.column_major
                negative_weights_layout ⟨0, 0⟩ ⟨2, 20⟩).2)
        + primary_margins AxisPolicy.column_major negative_weights_layout.margins
        ≤ AxisPolicy.column_major.cx ⟨2, 20⟩)) ∧
    (visible_minimums AxisPolicy.column_major greedy_maximum_layout.items
        + reserved_spacing AxisPolicy.column_major greedy_maximum_layout ⟨100, 20⟩
        + primary_margins AxisPolicy.column_major greedy_maximum_layout.margins
        ≤ AxisPolicy.column_major.cx ⟨100, 20⟩ ∧
      ¬ (total_extent AxisPolicy.column_major
          (do_layout_items bresenham_counter AxisPolicy.column_major greedy_maximum_layout
            ⟨0, 0⟩ ⟨100, 20⟩).2
        + spacing_inserted AxisPolicy.column_major greedy_maximum_layout
            (greedy_maximum_layout.items.zip
              (do_layout_items bresenham_counter AxisPolicy.column_major
                greedy_maximum_layout ⟨0, 0⟩ ⟨100, 20⟩).2)
        + primary_margins AxisPolicy.column_major greedy_maximum_layout.margins
        ≤ AxisPolicy.column_major.cx ⟨100, 20⟩)) ∧
    (visible_minimums AxisPolicy.column_major negative_fixed_layout.items
        + reserved_spacing AxisPolicy.column_major negative_fixed_layout ⟨100, 20⟩
        + primary_margins AxisPolicy.column_major negative_fixed_layout.margins
        ≤ AxisPolicy.column_major.cx ⟨100, 20⟩ ∧
      ¬ (total_extent AxisPolicy.column_major
          (do_layout_items bresenham_counter AxisPolicy.column_major negative_fixed_layout
            ⟨0, 0⟩ ⟨100, 20⟩).2
        + spacing_inserted AxisPolicy.column_major negative_fixed_layout
            (negative_fixed_layout.items.zip
              (do_layout_items bresenham_counter AxisPolicy.column_major
                negative_fixed_layout ⟨0, 0⟩ ⟨100, 20⟩).2)
        + primary_margins AxisPolicy.column_major negative_fixed_layout.margins
        ≤ AxisPolicy.column_major.cx ⟨100, 20⟩)) ∧
    (visible_minimums AxisPolicy.column_major negative_spacing_layout.items
        + reserved_spacing AxisPolicy.column_major negative_spacing_layout ⟨100, 20⟩
        + primary_margins AxisPolicy.column_major negative_spacing_layout.margins
        ≤ AxisPolicy.column_major.cx ⟨100, 20⟩ ∧
      ¬ (total_extent AxisPolicy.column_major
          (do_layout_items bresenham_counter AxisPolicy.column_major negative_spacing_layout
            ⟨0, 0⟩ ⟨100, 20⟩).2
        + spacing_inserted AxisPolicy.column_major negative_spacing_layout
            (negative_spacing_layout.items.zip
              (do_layout_items bresenham_counter AxisPolicy.column_major
                negative_spacing_layout ⟨0, 0⟩ ⟨100, 20⟩).2)
        + primary_margins AxisPolicy.column_major negative_spacing_layout.margins
        ≤ AxisPolicy.column_major.cx ⟨100, 20⟩)) := by
  refine ⟨by decide!, ⟨by decide!, by decide!⟩, ⟨by decide!, by decide!⟩,
    ⟨by decide!, by decide!⟩, ⟨by decide!, by decide!⟩⟩

/-- C3, amended: for a counter that keeps its contract and a list of fewer than `2 ^ 32`
items, if the primary spacing is not negative, no visible item has a negative primary
minimum, every visible Expanding item has a non-negative primary weight and a primary
maximum above the available primary size (allotted size minus primary margins minus
reserved spacing), the primary minimums of the visible items plus the reserved spacing
plus the primary margins fit in the allotted primary size, and the reservation of lines
96-99 counts every visible item (no item counts as zero-sized, and there is no visible
spacer unless always-use-spacing is set), then the primary extents handed to the items,
plus the spacing inserted between them, plus the primary margins do not exceed the
allotted primary size. -/
theorem row_fits_when_minimums_fit (bits : Nat → Nat → Nat → Nat)
    (hc : counter_contract bits) (p : AxisPolicy) (l : layout) (aPosition : point)
    (aSize : size) (hlen : l.items.length < 4294967296)
    (hspacing : 0 ≤ p.cx l.spacing)
    (hmin : ∀ it ∈ l.items, it.visible = true → 0 ≤ p.cx it.minimum_size)
    (hexp : ∀ it ∈ l.items, it.visible = true →
      p.size_policy_x it.size_policy = size_policy_e.Expanding →
      0 ≤ p.cx it.weight ∧
      p.cx aSize - primary_margins p l.margins - reserved_spacing p l aSize
        < p.cx it.maximum_size)
    (hfit : visible_minimums p l.items + reserved_spacing p l aSize
      + primary_margins p l.margins ≤ p.cx aSize)
    (hzero : items_zero_sized p l aSize = 0)
    (hspacers : l.iAlwaysUseSpacing = true ∨ l.items_visible ItemTypeSpacerOnly = 0) :
    total_extent p (do_layout_items bits p l aPosition aSize).2
      + spacing_inserted p l (l.items.zip (do_layout_items bits p l aPosition aSize).2)
      + primary_margins p l.margins ≤ p.cx aSize := by
  have h1 := extents_fit_when_minimums_fit bits hc p l aPosition aSize hlen hmin hexp hfit
  have h2 := spacing_inserted_le p l hspacing
    (l.items.zip (do_layout_items bits p l aPosition aSize).2)
  rw [do_layout_items_laid_out,
    ← reserved_spacing_of_all_counted p l aSize hlen hzero hspacers] at h2
  linarith

/-- Witness of the amended C3: a Fixed widget of minimum 10 and an Expanding widget, with
a spacing of 5 and margins 1 and 2, in 100 units.  The extents 10 and 82, the spacing 5
between the two widgets and the margins 3 fill the allotted size exactly. -/
theorem row_fits_when_minimums_fit_witness :
    total_extent AxisPolicy.column_major
      (do_layout_items bresenham_counter AxisPolicy.column_major spaced_pair_layout
        ⟨0, 0⟩ ⟨100, 20⟩).2 = 92 ∧
    spacing_inserted AxisPolicy.column_major spaced_pair_layout
      (spaced_pair_layout.items.zip
        (do_layout_items bresenham_counter AxisPolicy.column_major spaced_pair_layout
          ⟨0, 0⟩ ⟨100, 20⟩).2) = 5 ∧
    total_extent AxisPolicy.column_major
        (do_layout_items bresenham_counter AxisPolicy.column_major spaced_pair_layout
          ⟨0, 0⟩ ⟨100, 20⟩).2
      + spacing_inserted AxisPolicy.column_major spaced_pair_layout
          (spaced_pair_layout.items.zip
            (do_layout_items bresenham_counter AxisPolicy.column_major spaced_pair_layout
              ⟨0, 0⟩ ⟨100, 20⟩).2)
      + primary_margins AxisPolicy.column_major spaced_pair_layout.margins
      ≤ AxisPolicy.column_major.cx ⟨100, 20⟩ :=
  ⟨by decide!, by decide!,
   row_fits_when_minimums_fit bresenham_counter bresenham_counter_contract
     AxisPolicy.column_major spaced_pair_layout ⟨0, 0⟩ ⟨100, 20⟩ (by decide) (by decide!)
     (by decide!) (by decide!) (by decide!) (by decide!) (by decide)⟩

end neogfx
